import Mathlib

/-!
# Minimemory: a size-class slab allocator

A shallow embedding of `src/mem_page.c`, `src/link.c` and `src/mem.c`.

Conventions of the embedding

* Pointers are natural numbers, `0` is `NULL`.
* Every C structure is stored field-wise in maps indexed by address: `node` holds the
  `prev`/`next` fields of the pages (the `LINK_NODE` view), `page` the other fields of the
  `MEM_PAGE` headers, `block` the `MEM_BLOCK` headers and `byte` the bytes of the data areas.
  A pointer cast is the identity on addresses.
* `size_t` and `unsigned long long` are naturals reduced modulo `2 ^ 64`, `unsigned char` is a
  natural reduced modulo `256`, `int` is an integer wrapped into the 32 bit two's complement
  range where the code can leave it.
* Structure sizes are the LP64 ones: `sizeof(MEM_PAGE) = 48`, `sizeof(MEM_BLOCK) = 16`,
  `sizeof(MEM_BLOCK_DBG) = 184`.
* The provenance fields of `MEM_BLOCK_DBG` (line, thread, date, file, func) are not part of
  the model. The mutex is not part of the memory: the order in which an entry point takes and
  releases it around its calls into `mem_page.c` is modelled separately (`Step`).
* The C library is modelled where C defines it. `malloc` succeeds and hands out a region that
  overlaps no region handed out before; what the region holds is arbitrary (`Heap.dirty`).
  `memset` and `memcpy` have a result in C only while they stay inside the buffers they are
  given; the model computes a memory in every case, and that memory describes the program only
  in the defined case. The two places where the allocator can leave it are the size
  `block_head + len` of `alloc_block`, which wraps for `len ≥ 2 ^ 64 - block_head`, and the
  `int` capacity of `get_addr_block_len`, which is the requested length only up to `INT_MAX`.
  Theorems about what the entry points return stay below these bounds; above them the
  theorems only evaluate what the code computes before the library call.
-/

namespace Minimemory

/-! ## Constants of `mem_page.h` and `mem_page.c` -/

def MEM_SUCCESS : Int := 0
def MEM_FAILED : Int := -1

def MEM_PAGE_TYPE_ZERO : Nat := 0
def MEM_PAGE_TYPE_1K : Nat := 1
def MEM_PAGE_TYPE_2K : Nat := 2
def MEM_PAGE_TYPE_4K : Nat := 3
def MEM_PAGE_TYPE_LARGE : Nat := 4

def MEM_PAGE_STATUS_IDLE : Nat := 0
def MEM_PAGE_STATUS_USING : Nat := 1
def MEM_PAGE_STATUS_FULL : Nat := 2

def MEM_BLOCK_STATUS_IDLE : Int := 0
def MEM_BLOCK_STATUS_USING : Int := 1

def INIT_BLOCK_PADDING : Nat := 0
def BYTE_ALIGN_COUNT : Nat := 8

def MEM_PAGE_BLOCK_INFO_COUNT : Nat := 15
def MEM_PAGE_MAP_INDEX_COUNT : Nat := 65
def MEM_PAGE_MAX_BLOCK : Nat := 512
def MEM_PAGE_MAX_IDLE : Int := 2

/-- Size of `struct mem_page_st` on LP64. -/
def sizeof_MEM_PAGE : Nat := 48
/-- Size of `struct mem_block_st` on LP64. -/
def sizeof_MEM_BLOCK : Nat := 16
/-- Size of `struct mem_block_dbg_st` on LP64. -/
def sizeof_MEM_BLOCK_DBG : Nat := 184

/-- The number of values of `size_t`. -/
def SIZE_MOD : Nat := 2 ^ 64

/-- Conversion of an integer to `int` (two's complement wrap to 32 bits). -/
def toInt32 (x : Int) : Int := (x + 2 ^ 31) % 2 ^ 32 - 2 ^ 31

/-- Conversion of an `int` to `size_t`. -/
def toSizeT (x : Int) : Nat := (x % 2 ^ 64).toNat

/-- Macro `DATA_ALIGN(size, align)` on `size_t`: `((size) + (align) - 1) & (~((align) - 1))`. -/
def DATA_ALIGN (size align : Nat) : Nat :=
  Nat.land ((size + align - 1) % SIZE_MOD) (SIZE_MOD - 1 - (align - 1))

/-- Macro `INT_ALIGN(size)`. -/
def INT_ALIGN (size : Nat) : Nat := DATA_ALIGN size BYTE_ALIGN_COUNT

/-- Row of `mem_page_info_list` (`MEM_PAGE_INFO`). -/
structure MEM_PAGE_INFO where
  page_type : Nat
  block_size : Nat
  total_size : Nat
  block_num : Nat
  deriving DecidableEq, Repr

/-- Table `mem_page_info_index`: aligned length divided by 8 to class index. -/
def mem_page_info_index : List Nat :=
  [ 0,
    1, 2, 3, 3, 4, 4, 4, 4,
    5, 5, 5, 5, 6, 6, 6, 6,
    7, 7, 7, 7, 8, 8, 8, 8,
    9, 9, 9, 9, 9, 9, 9, 9,
    10, 10, 10, 10, 10, 10, 10, 10,
    11, 11, 11, 11, 11, 11, 11, 11,
    12, 12, 12, 12, 12, 12, 12, 12,
    13, 13, 13, 13, 13, 13, 13, 13 ]

/-- Table `mem_page_info_list`: the fifteen size classes. -/
def mem_page_info_list : List MEM_PAGE_INFO :=
  [ ⟨MEM_PAGE_TYPE_ZERO, 8, 8, 1⟩,
    ⟨MEM_PAGE_TYPE_1K, 8, 1024, 128⟩,
    ⟨MEM_PAGE_TYPE_1K, 16, 1024, 64⟩,
    ⟨MEM_PAGE_TYPE_1K, 32, 1024, 32⟩,
    ⟨MEM_PAGE_TYPE_1K, 64, 1024, 16⟩,
    ⟨MEM_PAGE_TYPE_1K, 96, 1024, 10⟩,
    ⟨MEM_PAGE_TYPE_1K, 128, 1024, 8⟩,
    ⟨MEM_PAGE_TYPE_2K, 160, 2048, 12⟩,
    ⟨MEM_PAGE_TYPE_2K, 192, 2048, 10⟩,
    ⟨MEM_PAGE_TYPE_2K, 256, 2048, 8⟩,
    ⟨MEM_PAGE_TYPE_4K, 320, 4096, 12⟩,
    ⟨MEM_PAGE_TYPE_4K, 384, 4096, 10⟩,
    ⟨MEM_PAGE_TYPE_4K, 448, 4096, 9⟩,
    ⟨MEM_PAGE_TYPE_4K, 512, 4096, 8⟩,
    ⟨MEM_PAGE_TYPE_LARGE, 8, 8, 1⟩ ]

/-- Entry `mem_page_info_list[index]`; an index outside the table reads a zero row. -/
def page_info (index : Nat) : MEM_PAGE_INFO :=
  mem_page_info_list.getD index ⟨0, 0, 0, 0⟩

/-- The subscript `((int)INT_ALIGN(len) >> 3)` that `get_page_index` applies to
`mem_page_info_index`. -/
def page_index_subscript (len : Nat) : Nat := INT_ALIGN len / 8

/-- Function `get_page_index` of `mem_page.c`. -/
def get_page_index (len : Nat) : Nat :=
  if len > MEM_PAGE_MAX_BLOCK then MEM_PAGE_BLOCK_INFO_COUNT - 1
  else mem_page_info_index.getD (page_index_subscript len) 0

/-! ## `link.h`: the intrusive doubly linked list -/

/-- Structure `struct link_node_st`. -/
structure LINK_NODE where
  prev : Nat
  next : Nat
  deriving DecidableEq, Repr

/-- Structure `struct link_st`. -/
structure LINK where
  head : Nat
  tail : Nat
  count : Int
  deriving DecidableEq, Repr

def LINK_SUCCESS : Int := 0
def LINK_FAILED : Int := -1

/-- The nodes of all lists, by address. -/
abbrev Nodes := Nat → LINK_NODE

/-- Assignment `a->next = v`. -/
def setNext (m : Nodes) (a v : Nat) : Nodes :=
  fun x => if x = a then { m x with next := v } else m x

/-- Assignment `a->prev = v`. -/
def setPrev (m : Nodes) (a v : Nat) : Nodes :=
  fun x => if x = a then { m x with prev := v } else m x

/-- Macro `INSERT_BEFORE(target, node)`. -/
def INSERT_BEFORE (m : Nodes) (target node : Nat) : Nodes :=
  let m1 := setNext m (m target).prev node
  let m2 := setPrev m1 node (m1 target).prev
  let m3 := setNext m2 node target
  setPrev m3 target node

/-- Macro `INSERT_AFTER(target, node)`. -/
def INSERT_AFTER (m : Nodes) (target node : Nat) : Nodes :=
  let m1 := setPrev m (m target).next node
  let m2 := setPrev m1 node target
  let m3 := setNext m2 node (m2 target).next
  setNext m3 target node

/-- Macro `REMOVE(target)`. -/
def REMOVE (m : Nodes) (target : Nat) : Nodes :=
  let m1 := setNext m (m target).prev (m target).next
  setPrev m1 (m1 target).next (m1 target).prev

/-- The loop `for (i = 0; i < n; i++) a = a->next`. -/
def nth_next (m : Nodes) (a : Nat) : Nat → Nat
  | 0 => a
  | n + 1 => nth_next m (m a).next n

/-- Function `link_reset`. -/
def link_reset (l : LINK) : LINK :=
  { l with head := 0, tail := 0, count := 0 }

/-- Function `link_push`. -/
def link_push (m : Nodes) (l : LINK) (node : Nat) : Int × Nodes × LINK :=
  if node = 0 then (LINK_FAILED, m, l)
  else if l.head ≠ 0 then
    let m1 := INSERT_AFTER m l.tail node
    (LINK_SUCCESS, m1, { l with tail := node, count := l.count + 1 })
  else
    let m1 := setPrev (setNext m node node) node node
    (LINK_SUCCESS, m1, { l with head := node, tail := node, count := l.count + 1 })

/-- Function `link_insert`. -/
def link_insert (m : Nodes) (l : LINK) (index : Int) (node : Nat) : Int × Nodes × LINK :=
  if node = 0 then (LINK_FAILED, m, l)
  else if index > l.count then (LINK_FAILED, m, l)
  else if l.count = 0 then
    let m1 := setPrev (setNext m node node) node node
    (LINK_SUCCESS, m1, { l with head := node, tail := node, count := l.count + 1 })
  else if index = 0 then
    let m1 := INSERT_BEFORE m l.head node
    (LINK_SUCCESS, m1, { l with head := node, count := l.count + 1 })
  else if index = l.count then
    let m1 := INSERT_AFTER m l.tail node
    (LINK_SUCCESS, m1, { l with tail := node, count := l.count + 1 })
  else
    let add_node := nth_next m l.head index.toNat
    let m1 := INSERT_BEFORE m add_node node
    (LINK_SUCCESS, m1, { l with count := l.count + 1 })

/-- Function `link_insert_before`. -/
def link_insert_before (m : Nodes) (l : LINK) (target node : Nat) : Int × Nodes × LINK :=
  if target = 0 ∨ node = 0 then (LINK_FAILED, m, l)
  else
    let m1 := INSERT_BEFORE m target node
    (LINK_SUCCESS, m1, if target = l.head then { l with head := node } else l)

/-- Function `link_insert_after`. -/
def link_insert_after (m : Nodes) (l : LINK) (target node : Nat) : Int × Nodes × LINK :=
  if target = 0 ∨ node = 0 then (LINK_FAILED, m, l)
  else
    let m1 := INSERT_AFTER m target node
    (LINK_SUCCESS, m1, if target = l.tail then { l with tail := node } else l)

/-- Function `link_pop`. -/
def link_pop (m : Nodes) (l : LINK) : Nat × Nodes × LINK :=
  let ret := l.tail
  if ret ≠ 0 then
    if l.head ≠ ret then
      let m1 := REMOVE m ret
      (ret, m1, { l with tail := (m1 ret).prev, count := l.count - 1 })
    else
      (ret, m, { l with head := 0, tail := 0, count := l.count - 1 })
  else (ret, m, l)

/-- Function `link_remove`. -/
def link_remove (m : Nodes) (l : LINK) (index : Int) : Nat × Nodes × LINK :=
  if index ≥ l.count ∨ l.count = 0 then (0, m, l)
  else if l.count = 1 then
    (l.head, m, { l with head := 0, tail := 0, count := l.count - 1 })
  else if index = 0 then
    let ret := l.head
    let m1 := REMOVE m l.head
    (ret, m1, { l with head := (m1 ret).next, count := l.count - 1 })
  else if index = l.count - 1 then
    let ret := l.tail
    let m1 := REMOVE m l.tail
    (ret, m1, { l with tail := (m1 ret).prev, count := l.count - 1 })
  else
    let ret := nth_next m l.head index.toNat
    let m1 := REMOVE m ret
    (ret, m1, { l with count := l.count - 1 })

/-- The search loop of `link_remove_node`: starting at `ret`, at most `n` steps along `next`;
the result is the node `target` when one of the visited nodes is `target`. -/
def find_node (m : Nodes) (target : Nat) (ret : Nat) : Nat → Option Nat
  | 0 => none
  | n + 1 => if ret = target then some ret else find_node m target (m ret).next n

/-- Function `link_remove_node`. -/
def link_remove_node (m : Nodes) (l : LINK) (target : Nat) : Nat × Nodes × LINK :=
  if target = 0 then (0, m, l)
  else if l.count = 0 then (0, m, l)
  else if l.count = 1 then
    (target, REMOVE m target, { l with head := 0, tail := 0, count := l.count - 1 })
  else if l.head = target then
    let m1 := REMOVE m target
    (target, m1, { l with head := (m1 target).next, count := l.count - 1 })
  else if l.tail = target then
    let m1 := REMOVE m target
    (target, m1, { l with tail := (m1 target).prev, count := l.count - 1 })
  else
    match find_node m target l.head l.count.toNat with
    | some ret => (ret, REMOVE m ret, { l with count := l.count - 1 })
    | none => (0, m, l)

/-- Function `link_remove_force`. -/
def link_remove_force (m : Nodes) (l : LINK) (target : Nat) : Nat × Nodes × LINK :=
  if target = 0 then (0, m, l)
  else if l.count = 0 then (0, m, l)
  else
    let m1 := REMOVE m target
    if l.count = 1 then
      (target, m1, { l with head := 0, tail := 0, count := l.count - 1 })
    else if l.head = target then
      (target, m1, { l with head := (m1 target).next, count := l.count - 1 })
    else if l.tail = target then
      (target, m1, { l with tail := (m1 target).prev, count := l.count - 1 })
    else
      (target, m1, { l with count := l.count - 1 })

/-! ## `mem_page.c`: the memory -/

/-- Structure `struct mem_page_st` without its first two fields `prev` and `next`: these are
the `LINK_NODE` that `link.c` sees through the cast `(LINK_NODE *)page`, and the memory keeps
them in its `node` view. The two size fields are `int` in the source and only ever hold a
structure size or a table entry. -/
structure MEM_PAGE where
  type : Nat
  status : Nat
  using_count : Nat
  block_num : Nat
  block_head : Nat
  block_data : Nat
  alloc_size : Int
  idle : Nat
  head_addr : Nat
  deriving DecidableEq, Repr

/-- Structure `struct mem_block_st`, which is also the start of `struct mem_block_dbg_st`. -/
structure MEM_BLOCK where
  page : Nat
  status : Int
  deriving DecidableEq, Repr

/-- Structure `struct mem_page_link_st`; it starts with the three fields of `LINK`. -/
structure MEM_PAGE_LINK extends LINK where
  idle_num : Int
  deriving DecidableEq, Repr

/-- A page header of zero bytes. -/
def MEM_PAGE.zero : MEM_PAGE := ⟨0, 0, 0, 0, 0, 0, 0, 0, 0⟩

/-- A block header of zero bytes. -/
def MEM_BLOCK.zero : MEM_BLOCK := ⟨0, 0⟩

/-- The memory of the process: the four typed views of the address space (list nodes, page
headers, block headers, bytes of data areas), the static array `mem_page_map`, and the backing
allocator (`malloc`/`free` of the C library), which hands out fresh addresses upwards from
`brk` and remembers in `live` what it has handed out. -/
structure Heap where
  node : Nodes
  page : Nat → MEM_PAGE
  block : Nat → MEM_BLOCK
  byte : Nat → Nat
  mem_page_map : Nat → MEM_PAGE_LINK
  brk : Nat
  live : List (Nat × Nat)

/-- The state after `create_res`: `mem_page_map` is zero-initialised and nothing is allocated.
The rest of the memory is written as zero here; `Heap.dirty` replaces it by arbitrary
contents. -/
def Heap.start : Heap :=
  { node := fun _ => ⟨0, 0⟩
    page := fun _ => MEM_PAGE.zero
    block := fun _ => MEM_BLOCK.zero
    byte := fun _ => 0
    mem_page_map := fun _ => ⟨⟨0, 0, 0⟩, 0⟩
    brk := 4096
    live := [] }

/-- Assignment to the page header at `a`. -/
def Heap.setPage (s : Heap) (a : Nat) (p : MEM_PAGE) : Heap :=
  { s with page := fun x => if x = a then p else s.page x }

/-- Assignment to the block header at `a`. -/
def Heap.setBlock (s : Heap) (a : Nat) (b : MEM_BLOCK) : Heap :=
  { s with block := fun x => if x = a then b else s.block x }

/-- Assignment to `mem_page_map[i]`. -/
def Heap.setLink (s : Heap) (i : Nat) (l : MEM_PAGE_LINK) : Heap :=
  { s with mem_page_map := fun x => if x = i then l else s.mem_page_map x }

/-- Library `malloc(size)` when it succeeds: a region of `size` bytes at `brk`, which overlaps
no region handed out before (a released address is not handed out again). The contents of the
region are whatever the memory holds there (see `Heap.dirty`). -/
def Heap.malloc (s : Heap) (size : Nat) : Nat × Heap :=
  (s.brk, { s with brk := s.brk + (size + 15) / 16 * 16 + 16, live := (s.brk, size) :: s.live })

/-- Library `free(p)`. -/
def Heap.free (s : Heap) (p : Nat) : Heap :=
  { s with live := s.live.filter (fun r => r.1 ≠ p) }

/-- Library `memset(p, 0, n)` over a region that holds structures: every header and every byte
stored at an address of the region becomes zero. -/
def Heap.memset_zero (s : Heap) (p n : Nat) : Heap :=
  { s with
    node := fun x => if p ≤ x ∧ x < p + n then ⟨0, 0⟩ else s.node x
    page := fun x => if p ≤ x ∧ x < p + n then MEM_PAGE.zero else s.page x
    block := fun x => if p ≤ x ∧ x < p + n then MEM_BLOCK.zero else s.block x
    byte := fun x => if p ≤ x ∧ x < p + n then 0 else s.byte x }

/-- Library `memset(p, v, n)` over a data area; defined in C when the `n` bytes lie inside one
buffer. -/
def Heap.memset (s : Heap) (p v n : Nat) : Heap :=
  { s with byte := fun x => if p ≤ x ∧ x < p + n then v else s.byte x }

/-- Library `memcpy(dst, src, n)` between data areas; defined in C when the `n` bytes lie inside
the source buffer and inside the destination buffer. -/
def Heap.memcpy (s : Heap) (dst src n : Nat) : Heap :=
  { s with byte := fun x => if dst ≤ x ∧ x < dst + n then s.byte (src + (x - dst)) else s.byte x }

/-- Macro `MEM_TO_ADDR(ptr)`: the little-endian 64 bit word stored at `ptr`. -/
def MEM_TO_ADDR (s : Heap) (ptr : Nat) : Nat :=
  s.byte ptr + s.byte (ptr + 1) * 2 ^ 8 + s.byte (ptr + 2) * 2 ^ 16 + s.byte (ptr + 3) * 2 ^ 24
    + s.byte (ptr + 4) * 2 ^ 32 + s.byte (ptr + 5) * 2 ^ 40 + s.byte (ptr + 6) * 2 ^ 48
    + s.byte (ptr + 7) * 2 ^ 56

/-- Macro `ADDR_TO_MEM(ptr, addr)`: store `addr` as a little-endian 64 bit word at `ptr`. -/
def ADDR_TO_MEM (s : Heap) (ptr addr : Nat) : Heap :=
  { s with byte := fun x =>
      if ptr ≤ x ∧ x < ptr + 8 then addr / 2 ^ (8 * (x - ptr)) % 256 else s.byte x }

/-- Apply a function of `link.c` to `mem_page_map[i]` through the casts `(LINK *)link` and
`(LINK_NODE *)page`: the list nodes and the three list fields of the entry are replaced. -/
def Heap.withLink {α : Type} (s : Heap) (i : Nat) (f : Nodes → LINK → α × Nodes × LINK) :
    α × Heap :=
  let r := f s.node (s.mem_page_map i).toLINK
  (r.1,
   { s with
     node := r.2.1
     mem_page_map := fun x =>
       if x = i then { s.mem_page_map i with toLINK := r.2.2 } else s.mem_page_map x })

/-! ## `mem_page.c`: pages and blocks -/

/-- The block header size chosen by `dbg ? sizeof(MEM_BLOCK_DBG) : sizeof(MEM_BLOCK)`. -/
def block_head_size (dbg : Bool) : Nat :=
  if dbg then sizeof_MEM_BLOCK_DBG else sizeof_MEM_BLOCK

/-- Function `get_page_index_ex`. -/
def get_page_index_ex (s : Heap) (page : Nat) : Nat :=
  if page = 0 ∨ (s.page page).type = MEM_PAGE_TYPE_ZERO then 0
  else if (s.page page).type = MEM_PAGE_TYPE_LARGE then MEM_PAGE_BLOCK_INFO_COUNT - 1
  else get_page_index (s.page page).block_data

/-- Function `usable_page_exist`. -/
def usable_page_exist (s : Heap) (index : Nat) : Bool :=
  if index > MEM_PAGE_BLOCK_INFO_COUNT - 1 then false
  else if (s.mem_page_map index).count = 0 ∨ (s.mem_page_map index).head = 0 then false
  else if (s.page (s.mem_page_map index).head).status = MEM_PAGE_STATUS_FULL then false
  else true

/-- The loop of `mem_page_initialize` over the first `block_num - 1` blocks: each gets its
header and, in its data area, the address of the next block. The result is the memory and the
final `cursor`. -/
def init_blocks (page block_size block_offset : Nat) : Nat → Heap → Nat → Heap × Nat
  | 0, s, cursor => (s, cursor)
  | n + 1, s, cursor =>
    let s1 := s.setBlock cursor ⟨page, MEM_BLOCK_STATUS_IDLE⟩
    let s2 := ADDR_TO_MEM s1 (cursor + block_size) (cursor + block_offset)
    init_blocks page block_size block_offset n s2 (cursor + block_offset)

/-- Function `mem_page_initialize`. -/
def mem_page_initialize (s : Heap) (index : Nat) (page : Nat) (dbg : Bool) : Heap :=
  let block_size := block_head_size dbg
  let page_size := sizeof_MEM_PAGE
  if index > MEM_PAGE_BLOCK_INFO_COUNT - 1 ∨ page = 0 then s
  else
    let head : MEM_PAGE :=
      { type := (page_info index).page_type
        status := MEM_PAGE_STATUS_IDLE
        using_count := 0
        block_num := (page_info index).block_num
        block_head := block_size
        block_data := (page_info index).block_size
        alloc_size := 0
        idle := page + page_size
        head_addr := page }
    let s1 := { s with node := setNext (setPrev s.node page 0) page 0 }.setPage page head
    let cursor := page + page_size
    let block_offset := head.block_head + head.block_data
    let r := init_blocks page block_size block_offset (head.block_num - 1) s1 cursor
    r.1.setBlock r.2 ⟨page, MEM_BLOCK_STATUS_IDLE⟩

/-- Function `mem_page_terminate`. -/
def mem_page_terminate (s : Heap) (page : Nat) : Heap :=
  let size := (s.page page).block_num * ((s.page page).block_data + (s.page page).block_head)
  let pt := page + sizeof_MEM_PAGE
  (s.memset_zero pt size).memset_zero page sizeof_MEM_PAGE

/-- Function `get_block`. -/
def get_block (address : Nat) (dbg : Bool) : Nat :=
  if address = 0 then 0 else address - block_head_size dbg

/-- Function `mem_page_malloc`; the backing `malloc` succeeds. -/
def mem_page_malloc (s : Heap) (index : Nat) (dbg : Bool) : Int × Heap :=
  if index > MEM_PAGE_BLOCK_INFO_COUNT - 1 then (MEM_FAILED, s)
  else
    let block_size := block_head_size dbg
    let page_size :=
      (page_info index).total_size + block_size * (page_info index).block_num + sizeof_MEM_PAGE
    let a := s.malloc page_size
    let idle_page := a.1
    let s1 := a.2.memset_zero idle_page page_size
    let s2 := mem_page_initialize s1 index idle_page dbg
    let link := s2.mem_page_map index
    let r :=
      if link.head = 0 ∨ (s2.page link.head).status = MEM_PAGE_STATUS_FULL then
        s2.withLink index (fun m l => link_insert m l 0 idle_page)
      else
        s2.withLink index (fun m l => link_insert_after m l link.head idle_page)
    if r.1 = MEM_SUCCESS then
      let l := r.2.mem_page_map index
      (r.1, r.2.setLink index { l with idle_num := l.idle_num + 1 })
    else (r.1, r.2)

/-- Function `mem_page_free`. -/
def mem_page_free (s : Heap) (page : Nat) : Int × Heap :=
  if page = 0 then (MEM_FAILED, s)
  else
    let index := get_page_index_ex s page
    if index > MEM_PAGE_BLOCK_INFO_COUNT - 1 then (MEM_FAILED, s)
    else
      let s1 := (s.withLink index (fun m l => link_remove_force m l page)).2
      let s2 :=
        if (s1.page page).status = MEM_PAGE_STATUS_IDLE then
          let l := s1.mem_page_map index
          s1.setLink index { l with idle_num := l.idle_num - 1 }
        else s1
      let s3 := mem_page_terminate s2 page
      (MEM_SUCCESS, s3.free page)

/-- Lines 485-492 of `alloc_block`: a page about to hand out its last block is moved to the tail
of its list and marked FULL. -/
def alloc_block_full (s : Heap) (index page : Nat) : Heap :=
  let link := s.mem_page_map index
  if ((s.page page).using_count : Int) = ((s.page page).block_num : Int) - 1 then
    let t :=
      if link.count > 1 ∧ link.tail ≠ page then
        let t1 := (s.withLink index (fun m l => link_remove_force m l page)).2
        (t1.withLink index (fun m l => link_push m l page)).2
      else s
    t.setPage page { t.page page with status := MEM_PAGE_STATUS_FULL }
  else s

/-- Lines 494-499 of `alloc_block`: a page without a block in use stops being idle. -/
def alloc_block_using (s : Heap) (index page : Nat) : Heap :=
  if (s.page page).using_count = 0 then
    let l := s.mem_page_map index
    let t := s.setLink index { l with idle_num := l.idle_num - 1 }
    if (t.page page).block_num > 1 then
      t.setPage page { t.page page with status := MEM_PAGE_STATUS_USING }
    else t
  else s

/-- Lines 501-502 of `alloc_block`: `using_count++` and `alloc_size += block_data + block_head`. -/
def alloc_block_count (s : Heap) (page : Nat) : Heap :=
  let p := s.page page
  s.setPage page
    { p with
      using_count := (p.using_count + 1) % 256
      alloc_size := toInt32 (p.alloc_size + ((p.block_data : Int) + (p.block_head : Int))) }

/-- Lines 510-565 of `alloc_block`: the block `ret` at the head of the freelist of `page` is
marked, the freelist advances, and the data area (for ZERO/LARGE a fresh external buffer) is
filled with `INIT_BLOCK_PADDING`. The call of `pad_dbg_block` only writes provenance fields,
which are not modelled. The external buffer has `size = block_head + len` bytes in `size_t`:
when the sum wraps (`len ≥ 2 ^ 64 - block_head`) the `memset` of `len` bytes runs past the
buffer and the C code has no defined result. -/
def alloc_block_take (s : Heap) (page len ret : Nat) : Nat × Heap :=
  let s4 := s.setBlock ret { s.block ret with status := MEM_BLOCK_STATUS_USING }
  let ret1 := ret + (s4.page page).block_head
  let s5 :=
    if (s4.page page).status ≠ MEM_PAGE_STATUS_FULL then
      s4.setPage page { s4.page page with idle := MEM_TO_ADDR s4 ret1 }
    else
      s4.setPage page { s4.page page with idle := 0 }
  if (s5.page page).type = MEM_PAGE_TYPE_ZERO ∨ (s5.page page).type = MEM_PAGE_TYPE_LARGE then
    let size := ((s5.page page).block_head + len) % SIZE_MOD
    let a := s5.malloc size
    let block := a.1
    let s6 := a.2.setBlock block ⟨page, MEM_BLOCK_STATUS_USING⟩
    let s7 := ADDR_TO_MEM s6 ret1 block
    let p7 := s7.page page
    let s8 := s7.setPage page
      { p7 with alloc_size := toInt32 (p7.alloc_size + toInt32 (size : Int)) }
    let ret2 := block + (s8.page page).block_head
    (ret2, s8.memset ret2 INIT_BLOCK_PADDING len)
  else
    (ret1, s5.memset ret1 INIT_BLOCK_PADDING (s5.page page).block_data)

/-- Function `alloc_block`; the backing `malloc` of the ZERO/LARGE path succeeds. -/
def alloc_block (s : Heap) (len : Nat) : Nat × Heap :=
  let index := get_page_index len
  if index > MEM_PAGE_BLOCK_INFO_COUNT - 1 then (0, s)
  else
    let link := s.mem_page_map index
    if link.count = 0 ∨ link.head = 0 then (0, s)
    else
      let page := link.head
      if (s.page page).status = MEM_PAGE_STATUS_FULL then (0, s)
      else
        let s1 := alloc_block_full s index page
        let s2 := alloc_block_using s1 index page
        let s3 := alloc_block_count s2 page
        let ret := (s3.page page).idle
        if ret = 0 then (0, s3)
        else alloc_block_take s3 page len ret

/-- The two assertions of `free_block`: the block header address is not null and the page it
names has a valid self-pointer. -/
def free_block_asserts (s : Heap) (address : Nat) (dbg : Bool) : Prop :=
  get_block address dbg ≠ 0 ∧
    (s.page (s.block (get_block address dbg)).page).head_addr
      = (s.block (get_block address dbg)).page

/-- Lines 627-661 of `free_block`: the data area is cleared; a ZERO/LARGE page gives its
external buffer back and continues with its own block, a slab block receives the freelist
link. The result is the block that becomes free and the memory. -/
def free_block_release (s : Heap) (page block : Nat) : Nat × Heap :=
  let cursor := block
  if (s.page page).type = MEM_PAGE_TYPE_ZERO ∨ (s.page page).type = MEM_PAGE_TYPE_LARGE then
    let t1 := s.free cursor
    let block1 := page + sizeof_MEM_PAGE
    let t2 := t1.setPage page { t1.page page with alloc_size := 0 }
    let cursor1 := block1 + (t2.page page).block_head
    (block1, t2.memset cursor1 INIT_BLOCK_PADDING (t2.page page).block_data)
  else
    let cursor1 := cursor + (s.page page).block_head
    let t1 := s.memset cursor1 INIT_BLOCK_PADDING (s.page page).block_data
    let t2 :=
      if (t1.page page).status ≠ MEM_PAGE_STATUS_FULL then
        ADDR_TO_MEM t1 cursor1 (t1.page page).idle
      else t1
    let p2 := t2.page page
    (block, t2.setPage page
      { p2 with
        alloc_size :=
          toInt32 (p2.alloc_size - ((p2.block_data : Int) + (p2.block_head : Int))) })

/-- Lines 663-674 of `free_block`: the block is marked idle and becomes the freelist head,
`using_count--`. The call of `pad_dbg_block` only clears provenance fields, which are not
modelled. -/
def free_block_idle (s : Heap) (page block : Nat) : Heap :=
  let s1 := s.setBlock block { s.block block with status := MEM_BLOCK_STATUS_IDLE }
  let p1 := s1.page page
  s1.setPage page { p1 with idle := block, using_count := (p1.using_count + 255) % 256 }

/-- Lines 680-683 of `free_block`: the page is moved to the head of its list. -/
def free_block_front (s : Heap) (index page : Nat) : Heap :=
  let link := s.mem_page_map index
  if link.count > 1 ∧ link.head ≠ page then
    let t1 := (s.withLink index (fun m l => link_remove_force m l page)).2
    (t1.withLink index (fun m l => link_insert m l 0 page)).2
  else s

/-- Lines 685-698 of `free_block`: the page status follows `using_count`; an idle page beyond
`MEM_PAGE_MAX_IDLE` is destroyed. -/
def free_block_status (s : Heap) (index page : Nat) : Heap :=
  let s4 :=
    if ((s.page page).using_count : Int) = ((s.page page).block_num : Int) - 1 then
      s.setPage page { s.page page with status := MEM_PAGE_STATUS_USING }
    else s
  if (s4.page page).using_count = 0 then
    let l := s4.mem_page_map index
    let t1 := s4.setLink index { l with idle_num := l.idle_num + 1 }
    let t2 := t1.setPage page { t1.page page with status := MEM_PAGE_STATUS_IDLE }
    if (t2.mem_page_map index).idle_num > MEM_PAGE_MAX_IDLE then
      (mem_page_free t2 page).2
    else t2
  else s4

/-- Function `free_block`. Its assertions are `free_block_asserts`. -/
def free_block (s : Heap) (address : Nat) (dbg : Bool) : Heap :=
  if address = 0 then s
  else
    let block := get_block address dbg
    let page := (s.block block).page
    if (s.page page).using_count = 0 ∨ (s.page page).alloc_size = 0 then s
    else
      let index := get_page_index_ex s page
      if index > MEM_PAGE_BLOCK_INFO_COUNT - 1 then s
      else
        let r := free_block_release s page block
        let s2 := free_block_idle r.2 page r.1
        let s3 := free_block_front s2 index page
        free_block_status s3 index page

/-- Function `get_addr_block_len`; its assertion is that the page named by the block header has
a valid self-pointer. -/
def get_addr_block_len (s : Heap) (ptr : Nat) (dbg : Bool) : Int :=
  if ptr = 0 then 0
  else
    let block := get_block ptr dbg
    if block = 0 then 0
    else
      let page := (s.block block).page
      if (s.page page).type = MEM_PAGE_TYPE_ZERO ∨
          (s.page page).type = MEM_PAGE_TYPE_LARGE then
        toInt32 ((s.page page).alloc_size - (s.page page).block_head - (s.page page).block_head
          - (s.page page).block_data)
      else (s.page page).block_data

/-! ## `mem.c`: the entry points (for their use of the mutex see `Step`) -/

/-- Function `mem_malloc`. -/
def mem_malloc (s : Heap) (len : Nat) : Nat × Heap :=
  let index := get_page_index len
  let s1 := if ¬ usable_page_exist s index then (mem_page_malloc s index false).2 else s
  alloc_block s1 len

/-- Function `mem_realloc`. -/
def mem_realloc (s : Heap) (ptr : Nat) (len : Nat) : Nat × Heap :=
  if ptr = 0 then (0, s)
  else
    let size := get_addr_block_len s ptr false
    let index := get_page_index (toSizeT size)
    let index_new := get_page_index len
    if size < toInt32 (len : Int) ∨ index > index_new then
      let s1 :=
        if ¬ usable_page_exist s index_new then (mem_page_malloc s index_new false).2 else s
      let r := alloc_block s1 len
      let ret := r.1
      let dst_size : Int :=
        toInt32 (if size < toInt32 (len : Int) then (toSizeT size : Int) else (len : Int))
      if ret ≠ 0 then
        let s2 := r.2.memcpy ret ptr (toSizeT dst_size)
        (ret, free_block s2 ptr false)
      else (ret, r.2)
    else if index = index_new then (ptr, s)
    else (0, s)

/-- Function `mem_free`. -/
def mem_free (s : Heap) (ptr : Nat) : Heap :=
  if ptr = 0 then s else free_block s ptr false

/-! ## Proof bookkeeping: list shapes, ghost state, invariant, reachability -/

/-- First element of a list, or the default. -/
def firstD : List Nat → Nat → Nat
  | [], d => d
  | x :: _, _ => x

/-- Last element of a list, or the default. -/
def lastD : List Nat → Nat → Nat
  | [], d => d
  | x :: r, _ => lastD r x

/-- Doubly linked segment. -/
def dlseg (m : Nodes) : List Nat → Nat → Nat → Prop
  | [], _, _ => True
  | x :: rest, p, n => (m x).prev = p ∧ (m x).next = firstD rest n ∧ dlseg m rest x n

/-- Ring well-formedness. -/
def RingOK (m : Nodes) (l : LINK) (xs : List Nat) : Prop :=
  l.count = xs.length ∧ l.head = firstD xs 0 ∧ l.tail = lastD xs 0 ∧ xs.Nodup ∧ 0 ∉ xs ∧
    dlseg m xs l.tail l.head

/-- Largest value of `int`. -/
def INT_MAX : Nat := 2 ^ 31 - 1

/-- A write of the caller into memory it owns: one byte at address `a`. -/
def Heap.write (s : Heap) (a v : Nat) : Heap :=
  { s with byte := fun x => if x = a then v else s.byte x }

/-- The list of pages met by `n` steps along `next` from `a`. -/
def walk (m : Nodes) : Nat → Nat → List Nat
  | 0, _ => []
  | n + 1, a => a :: walk m n (m a).next

/-- The pages of class list `i`, read from memory: `count` steps along `next` from `head`. -/
def Heap.class_pages (s : Heap) (i : Nat) : List Nat :=
  walk s.node (s.mem_page_map i).count.toNat (s.mem_page_map i).head

/-- The number of blocks in use over all pages of all class lists. -/
def Heap.total_using (s : Heap) : Nat :=
  ((List.range MEM_PAGE_BLOCK_INFO_COUNT).map
    (fun i => ((s.class_pages i).map (fun a => (s.page a).using_count)).sum)).sum

/-- Class indices of the ZERO and the LARGE class, whose pages hold one external buffer. -/
def is_ext (i : Nat) : Prop := i = 0 ∨ i = MEM_PAGE_BLOCK_INFO_COUNT - 1

instance (i : Nat) : Decidable (is_ext i) := by unfold is_ext; infer_instance

/-- Address of block `k` of the page at `a` of class `i` (normal block headers). -/
def block_addr (a i k : Nat) : Nat :=
  a + sizeof_MEM_PAGE + k * (sizeof_MEM_BLOCK + (page_info i).block_size)

/-- The size `mem_page_malloc` requests for a page of class `i` (normal block headers). -/
def page_size (i : Nat) : Nat :=
  (page_info i).total_size + sizeof_MEM_BLOCK * (page_info i).block_num + sizeof_MEM_PAGE

/-- The page status that belongs to a number of blocks in use. -/
def status_of (using_count block_num : Nat) : Nat :=
  if using_count = 0 then MEM_PAGE_STATUS_IDLE
  else if using_count = block_num then MEM_PAGE_STATUS_FULL
  else MEM_PAGE_STATUS_USING

/-- The freelist links: the data area of every free block holds the address of the next free
block, the last one holds null. -/
def free_chain (s : Heap) : List Nat → Prop
  | [] => True
  | b :: rest => MEM_TO_ADDR s (b + sizeof_MEM_BLOCK) = firstD rest 0 ∧ free_chain s rest

/-- Bookkeeping that accompanies a memory state in the proofs: the pages of every class list in
list order, the free blocks of every page in freelist order, and the length requested for the
buffer of a ZERO/LARGE page. -/
structure Ghost where
  lists : Nat → List Nat
  fl : Nat → List Nat
  len : Nat → Nat

/-- The state of the external buffer of a ZERO/LARGE page in use. -/
structure ExtOK (s : Heap) (g : Ghost) (L : List Nat) (i a : Nat) : Prop where
  hdr : s.block (MEM_TO_ADDR s (a + sizeof_MEM_PAGE + sizeof_MEM_BLOCK)) = ⟨a, MEM_BLOCK_STATUS_USING⟩
  live : (MEM_TO_ADDR s (a + sizeof_MEM_PAGE + sizeof_MEM_BLOCK), sizeof_MEM_BLOCK + g.len a) ∈ s.live
  out : MEM_TO_ADDR s (a + sizeof_MEM_PAGE + sizeof_MEM_BLOCK) + sizeof_MEM_BLOCK ∈ L
  alloc : (s.page a).alloc_size = toInt32 ((g.len a : Int) + 40)
  len_le : g.len a ≤ INT_MAX
  cls : get_page_index (g.len a) = i
  fresh : ∀ j < MEM_PAGE_BLOCK_INFO_COUNT,
    MEM_TO_ADDR s (a + sizeof_MEM_PAGE + sizeof_MEM_BLOCK) ∉ g.lists j

/-- The state of one page `a` of class list `i`. -/
structure PageOK (s : Heap) (g : Ghost) (L : List Nat) (i a : Nat) : Prop where
  head_addr : (s.page a).head_addr = a
  type : (s.page a).type = (page_info i).page_type
  block_num : (s.page a).block_num = (page_info i).block_num
  block_head : (s.page a).block_head = sizeof_MEM_BLOCK
  block_data : (s.page a).block_data = (page_info i).block_size
  status : (s.page a).status = status_of (s.page a).using_count (page_info i).block_num
  fl_len : (s.page a).using_count + (g.fl a).length = (page_info i).block_num
  fl_nodup : (g.fl a).Nodup
  fl_blocks : ∀ b ∈ g.fl a, ∃ k < (page_info i).block_num, b = block_addr a i k
  idle : (s.page a).idle = firstD (g.fl a) 0
  chain : free_chain s (g.fl a)
  hdr : ∀ k < (page_info i).block_num,
    s.block (block_addr a i k) =
      ⟨a, if block_addr a i k ∈ g.fl a then MEM_BLOCK_STATUS_IDLE else MEM_BLOCK_STATUS_USING⟩
  live : (a, page_size i) ∈ s.live
  alloc_slab : ¬ is_ext i →
    (s.page a).alloc_size =
      ((s.page a).using_count : Int) * (((page_info i).block_size : Int) + sizeof_MEM_BLOCK)
  ext_idle : is_ext i → (s.page a).using_count = 0 → (s.page a).alloc_size = 0
  ext_used : is_ext i → (s.page a).using_count ≠ 0 → ExtOK s g L i a

/-- What the list of outstanding pointers says about one pointer `p`: it is the data area of a
block of a slab page that is not on the freelist, or of the external buffer of a ZERO/LARGE
page. -/
def OutOK (s : Heap) (g : Ghost) (p : Nat) : Prop :=
  sizeof_MEM_BLOCK ≤ p ∧
  ∃ i < MEM_PAGE_BLOCK_INFO_COUNT, ∃ a ∈ g.lists i,
    (s.block (p - sizeof_MEM_BLOCK)).page = a ∧
    ((¬ is_ext i ∧ ∃ k < (page_info i).block_num,
        p = block_addr a i k + sizeof_MEM_BLOCK ∧ block_addr a i k ∉ g.fl a) ∨
     (is_ext i ∧ (s.page a).using_count ≠ 0 ∧
        p = MEM_TO_ADDR s (a + sizeof_MEM_PAGE + sizeof_MEM_BLOCK) + sizeof_MEM_BLOCK))

/-- The invariant of the allocator between the steps of the entry points. -/
structure Inv (s : Heap) (g : Ghost) (L : List Nat) : Prop where
  ring : ∀ i < MEM_PAGE_BLOCK_INFO_COUNT,
    RingOK s.node (s.mem_page_map i).toLINK (g.lists i)
  pages : ∀ i < MEM_PAGE_BLOCK_INFO_COUNT, ∀ a ∈ g.lists i, PageOK s g L i a
  idle_num : ∀ i < MEM_PAGE_BLOCK_INFO_COUNT,
    (s.mem_page_map i).idle_num =
      ((g.lists i).countP (fun a => (s.page a).status = MEM_PAGE_STATUS_IDLE) : Nat)
  idle_le : ∀ i < MEM_PAGE_BLOCK_INFO_COUNT,
    (g.lists i).countP (fun a => (s.page a).status = MEM_PAGE_STATUS_IDLE) ≤ 2
  full_suffix : ∀ i < MEM_PAGE_BLOCK_INFO_COUNT,
    (g.lists i).Pairwise (fun a b =>
      (s.page a).status = MEM_PAGE_STATUS_FULL → (s.page b).status = MEM_PAGE_STATUS_FULL)
  using_sum :
    ((List.range MEM_PAGE_BLOCK_INFO_COUNT).map
      (fun i => ((g.lists i).map (fun a => (s.page a).using_count)).sum)).sum = L.length
  live_sorted : s.live.Pairwise (fun x y => y.1 + y.2 < x.1)
  live_brk : ∀ r ∈ s.live, 4096 ≤ r.1 ∧ r.1 + r.2 < s.brk
  brk : 4096 ≤ s.brk ∧ s.brk ≤ 2 ^ 64
  out_nodup : L.Nodup
  out : ∀ p ∈ L, OutOK s g p

/-- The outstanding pointers after `mem_realloc(p, len)` returned `q`. -/
def realloc_out (L : List Nat) (p q : Nat) : List Nat :=
  if q = p ∨ q = 0 then L else q :: L.erase p

/-- Memory the backing allocator has not handed out holds whatever an earlier use left there:
from `brk` upwards the four views of `s` are replaced by those of `d`. -/
def Heap.dirty (s d : Heap) : Heap :=
  { s with
    node := fun x => if s.brk ≤ x then d.node x else s.node x
    page := fun x => if s.brk ≤ x then d.page x else s.page x
    block := fun x => if s.brk ≤ x then d.block x else s.block x
    byte := fun x => if s.brk ≤ x then d.byte x else s.byte x }

/-- The states reachable from `create_res` through `mem_malloc`, `mem_free` and `mem_realloc`
on outstanding pointers and through writes of the caller into outstanding blocks, together with
the list of outstanding pointers. Requests are at most `INT_MAX` bytes (the range in which the
`int` size fields of the allocator are exact) and the backing allocator succeeds inside the
64 bit address space. At any time the memory the backing allocator has not handed out yet may
hold arbitrary contents (`dirty`), so that what `malloc` returns is not known to be zero. -/
inductive Reach : Heap → List Nat → Prop
  | start : Reach Heap.start []
  | malloc (s : Heap) (L : List Nat) (len : Nat) :
      Reach s L → len ≤ INT_MAX → (mem_malloc s len).2.brk ≤ 2 ^ 64 →
      Reach (mem_malloc s len).2 ((mem_malloc s len).1 :: L)
  | free (s : Heap) (L : List Nat) (p : Nat) :
      Reach s L → p ∈ L → Reach (mem_free s p) (L.erase p)
  | realloc (s : Heap) (L : List Nat) (p len : Nat) :
      Reach s L → p ∈ L → len ≤ INT_MAX → (mem_realloc s p len).2.brk ≤ 2 ^ 64 →
      Reach (mem_realloc s p len).2 (realloc_out L p (mem_realloc s p len).1)
  | write (s : Heap) (L : List Nat) (p off v : Nat) :
      Reach s L → p ∈ L → (off : Int) < get_addr_block_len s p false → v < 256 →
      Reach (s.write (p + off) v) L
  | dirty (s : Heap) (L : List Nat) (d : Heap) :
      Reach s L → (∀ x, d.byte x < 256) → Reach (s.dirty d) L

/-- The addresses that belong to page `pg` of class `i`: its own region, the region of its
external buffer when it is a ZERO/LARGE page in use, and the memory the backing allocator has
not handed out yet. -/
def owned (s : Heap) (g : Ghost) (i pg x : Nat) : Prop :=
  (pg ≤ x ∧ x < pg + page_size i) ∨
  (is_ext i ∧ (s.page pg).using_count ≠ 0 ∧
    MEM_TO_ADDR s (pg + sizeof_MEM_PAGE + sizeof_MEM_BLOCK) ≤ x ∧
    x < MEM_TO_ADDR s (pg + sizeof_MEM_PAGE + sizeof_MEM_BLOCK) + sizeof_MEM_BLOCK + g.len pg) ∨
  s.brk ≤ x

/-- The set `W` of addresses stays clear of every page other than `pg` and of the external
buffers of those pages. -/
def PagesSep (s : Heap) (g : Ghost) (pg : Nat) (W : Nat → Prop) : Prop :=
  ∀ j < 15, ∀ a ∈ g.lists j, a ≠ pg → ∀ x, W x →
    ¬ (a ≤ x ∧ x < a + page_size j) ∧
    (is_ext j → (s.page a).using_count ≠ 0 →
      ¬ (MEM_TO_ADDR s (a + sizeof_MEM_PAGE + sizeof_MEM_BLOCK) ≤ x ∧
        x < MEM_TO_ADDR s (a + sizeof_MEM_PAGE + sizeof_MEM_BLOCK) + sizeof_MEM_BLOCK
          + g.len a))

/-- The bookkeeping after `alloc_block s len` served the request from the head page of its
class: a page that became full has moved to the tail, the head of its freelist is gone, and a
ZERO/LARGE page remembers the requested length. -/
def alloc_ghost (s : Heap) (g : Ghost) (len : Nat) : Ghost :=
  let i := get_page_index len
  let pg := (s.mem_page_map i).head
  { lists := fun j =>
      if j = i then
        (if ((s.page pg).using_count : Int) = ((s.page pg).block_num : Int) - 1 ∧
            (g.lists i).tail ≠ [] then (g.lists i).tail ++ [pg] else g.lists i)
      else g.lists j
    fl := fun a => if a = pg then (g.fl pg).tail else g.fl a
    len := fun a => if a = pg then len else g.len a }

/-- The addresses of `n` consecutive blocks of stride `bo`, the first at `c`. -/
def blocks_from (c bo : Nat) : Nat → List Nat
  | 0 => []
  | n + 1 => c :: blocks_from (c + bo) bo n

/-- The bookkeeping after `mem_page_malloc s i false` put a new page at the head of class list
`i`: the page is the fresh address `s.brk` and all its blocks are free, in address order. -/
def page_ghost (s : Heap) (g : Ghost) (i : Nat) : Ghost :=
  { lists := fun j => if j = i then s.brk :: g.lists i else g.lists j
    fl := fun a =>
      if a = s.brk then
        blocks_from (s.brk + sizeof_MEM_PAGE) (sizeof_MEM_BLOCK + (page_info i).block_size)
          (page_info i).block_num
      else g.fl a
    len := g.len }

/-- The bookkeeping after `mem_malloc s len`. -/
def malloc_ghost (s : Heap) (g : Ghost) (len : Nat) : Ghost :=
  if usable_page_exist s (get_page_index len) = true then alloc_ghost s g len
  else
    alloc_ghost (mem_page_malloc s (get_page_index len) false).2
      (page_ghost s g (get_page_index len)) len

/-- The bookkeeping after `free_block(p)`: the freed block heads the freelist of its page, and
the page heads its class list unless it was destroyed as a surplus idle page. -/
def free_ghost (s : Heap) (g : Ghost) (p : Nat) : Ghost :=
  let pg := (s.block (p - sizeof_MEM_BLOCK)).page
  let i := get_page_index_ex s pg
  { lists := fun j =>
      if j = i then
        (if (s.page pg).using_count = 1 ∧ (s.mem_page_map i).idle_num + 1 > MEM_PAGE_MAX_IDLE
          then (g.lists i).erase pg else pg :: (g.lists i).erase pg)
      else g.lists j
    fl := fun a =>
      if a = pg then (free_block_release s pg (p - sizeof_MEM_BLOCK)).1 :: g.fl pg else g.fl a
    len := g.len }

/-- The state `s3` that `free_block(p)` reaches before its last step (the status update), seen
from the state `s` at entry: the block `p` of page `pg` of class `i` has been released and the
page moved to the front of its list. -/
structure FreeStep (s s3 : Heap) (g g' : Ghost) (L : List Nat) (p i pg : Nat)
    (l1 l2 : List Nat) : Prop where
  glj : ∀ j, j ≠ i → g'.lists j = g.lists j
  gli : g'.lists i =
    if (s3.page pg).using_count = 0 ∧ (s3.mem_page_map i).idle_num + 1 > MEM_PAGE_MAX_IDLE
    then l1 ++ l2 else pg :: (l1 ++ l2)
  gfl : ∀ a, a ≠ pg → g'.fl a = g.fl a
  glen : ∀ a, a ≠ pg → g'.len a = g.len a
  ring : RingOK s3.node (s3.mem_page_map i).toLINK (pg :: (l1 ++ l2))
  node : ∀ x, x ∉ l1 ++ pg :: l2 → s3.node x = s.node x
  idle_num : (s3.mem_page_map i).idle_num = (s.mem_page_map i).idle_num
  map : ∀ j, j ≠ i → s3.mem_page_map j = s.mem_page_map j
  page : ∀ x, x ≠ pg → s3.page x = s.page x
  type : (s3.page pg).type = (s.page pg).type
  status : (s3.page pg).status = (s.page pg).status
  using_count : (s3.page pg).using_count + 1 = (s.page pg).using_count
  block_num : (s3.page pg).block_num = (s.page pg).block_num
  block_head : (s3.page pg).block_head = (s.page pg).block_head
  block_data : (s3.page pg).block_data = (s.page pg).block_data
  block : ∀ x, ¬ owned s g i pg x → s3.block x = s.block x
  byte : ∀ x, ¬ owned s g i pg x → s3.byte x = s.byte x
  live : ∀ r ∈ s.live, ¬ owned s g i pg r.1 → r ∈ s3.live
  live_sub : s3.live.Sublist s.live
  brk : s3.brk = s.brk
  pok : PageOK
    (s3.setPage pg { s3.page pg with
      status := status_of (s3.page pg).using_count (page_info i).block_num })
    g' (L.erase p) i pg
  other : ∀ q ∈ L, q ≠ p → (s.block (q - sizeof_MEM_BLOCK)).page = pg →
    (s3.page pg).using_count ≠ 0 ∧ ¬ is_ext i ∧
    ∃ k < (page_info i).block_num, q = block_addr pg i k + sizeof_MEM_BLOCK ∧
      block_addr pg i k ∉ g'.fl pg ∧ (s3.block (block_addr pg i k)).page = pg

/-- The number of bytes the caller may use behind an outstanding pointer `p`: the block size of
its slab page, or the length requested for the buffer of its ZERO/LARGE page. -/
def user_size (s : Heap) (g : Ghost) (p : Nat) : Nat :=
  let pg := (s.block (p - sizeof_MEM_BLOCK)).page
  if (s.page pg).type = MEM_PAGE_TYPE_ZERO ∨ (s.page pg).type = MEM_PAGE_TYPE_LARGE then g.len pg
  else (s.page pg).block_data

/-- The bookkeeping of the state after `create_res`: no pages. -/
def Ghost.start : Ghost := ⟨fun _ => [], fun _ => [], fun _ => 0⟩

/-- Scenario state: a 16 byte block was allocated on a fresh allocator, the caller wrote `0xFF`
into its first byte, and the block was freed (so it holds user data and a freelist link). -/
def reused_block_state : Heap :=
  mem_free ((mem_malloc Heap.start 16).2.write ((mem_malloc Heap.start 16).1 + 0) 255)
    (mem_malloc Heap.start 16).1

/-- Scenario S4: on a fresh allocator `p = mem_malloc 10000; mem_free p`. -/
def large_freed_state : Heap :=
  mem_free (mem_malloc Heap.start 10000).2 (mem_malloc Heap.start 10000).1

/-- The list `[1]`: node `1` pushed onto the empty list. -/
def list_one : Nodes × LINK := (link_push (fun _ => ⟨0, 0⟩) ⟨0, 0, 0⟩ 1).2

/-- The list `[1, 2]`: node `2` pushed onto `list_one`. -/
def list_two : Nodes × LINK := (link_push list_one.1 list_one.2 2).2

/-- The state after the requests `lens`, in order, each through `mem_malloc`. -/
def malloc_seq : List Nat → Heap → Heap
  | [], s => s
  | len :: rest, s => malloc_seq rest (mem_malloc s len).2

/-- The pointers the requests `lens` return, the latest first. -/
def malloc_ptrs : List Nat → Heap → List Nat
  | [], _ => []
  | len :: rest, s => malloc_ptrs rest (mem_malloc s len).2 ++ [(mem_malloc s len).1]

/-- The state after `mem_free` of the pointers `ps`, in order. -/
def free_seq : List Nat → Heap → Heap
  | [], s => s
  | p :: rest, s => free_seq rest (mem_free s p)

/-- Scenario S3 in class 13 (512 byte blocks, 8 per page): 17 requests fill two pages and start
a third one. -/
def three_pages_state : Heap := malloc_seq (List.replicate 17 512) Heap.start

/-- The pointers of `three_pages_state`, the latest first. -/
def three_pages_ptrs : List Nat := malloc_ptrs (List.replicate 17 512) Heap.start

/-- Scenario S3 continued: every block of the first two pages is freed; the third page keeps its
one block. -/
def two_idle_state : Heap := free_seq (three_pages_ptrs.drop 1) three_pages_state

/-- The outstanding pointers of `two_idle_state`: the one block of the third page. -/
def two_idle_ptrs : List Nat :=
  (three_pages_ptrs.drop 1).foldl List.erase (three_pages_ptrs ++ [])

/-- The arguments of the calls of the library `free` that `mem_page_free(page)` makes. -/
def mem_page_free_frees (s : Heap) (page : Nat) : List Nat :=
  if page = 0 then []
  else if get_page_index_ex s page > MEM_PAGE_BLOCK_INFO_COUNT - 1 then []
  else [page]

/-- The arguments of the calls of the library `free` made in lines 685-698 of `free_block`
(the destruction of an idle page beyond `MEM_PAGE_MAX_IDLE`). -/
def free_block_status_frees (s : Heap) (index page : Nat) : List Nat :=
  let s4 :=
    if ((s.page page).using_count : Int) = ((s.page page).block_num : Int) - 1 then
      s.setPage page { s.page page with status := MEM_PAGE_STATUS_USING }
    else s
  if (s4.page page).using_count = 0 then
    let l := s4.mem_page_map index
    let t1 := s4.setLink index { l with idle_num := l.idle_num + 1 }
    let t2 := t1.setPage page { t1.page page with status := MEM_PAGE_STATUS_IDLE }
    if (t2.mem_page_map index).idle_num > MEM_PAGE_MAX_IDLE then
      mem_page_free_frees t2 page
    else []
  else []

/-- The arguments of the calls of the library `free` that `free_block(address, dbg)` makes, in
order: the external buffer of a ZERO/LARGE page, then what the destruction of the page
releases. -/
def free_block_frees (s : Heap) (address : Nat) (dbg : Bool) : List Nat :=
  if address = 0 then []
  else
    let block := get_block address dbg
    let page := (s.block block).page
    if (s.page page).using_count = 0 ∨ (s.page page).alloc_size = 0 then []
    else
      let index := get_page_index_ex s page
      if index > MEM_PAGE_BLOCK_INFO_COUNT - 1 then []
      else
        let r := free_block_release s page block
        let s2 := free_block_idle r.2 page r.1
        let s3 := free_block_front s2 index page
        (if (s.page page).type = MEM_PAGE_TYPE_ZERO ∨ (s.page page).type = MEM_PAGE_TYPE_LARGE
          then [block] else []) ++ free_block_status_frees s3 index page

/-- Lines 432-443 of `clear_mem_pages`: the external buffer of a ZERO/LARGE page at the head of
class list `i` is given back through `free_block`. -/
def clear_ext (s : Heap) (i : Nat) : Heap :=
  let head := (s.mem_page_map i).head
  if (s.page head).type = MEM_PAGE_TYPE_ZERO ∨ (s.page head).type = MEM_PAGE_TYPE_LARGE then
    let tmp := MEM_TO_ADDR s (head + sizeof_MEM_PAGE + (s.page head).block_head)
    if tmp ≠ 0 then
      free_block s (tmp + (s.page head).block_head)
        (decide ((s.page head).block_head ≠ sizeof_MEM_BLOCK))
    else s
  else s

/-- The arguments of the calls of the library `free` made by lines 432-443. -/
def clear_ext_frees (s : Heap) (i : Nat) : List Nat :=
  let head := (s.mem_page_map i).head
  if (s.page head).type = MEM_PAGE_TYPE_ZERO ∨ (s.page head).type = MEM_PAGE_TYPE_LARGE then
    let tmp := MEM_TO_ADDR s (head + sizeof_MEM_PAGE + (s.page head).block_head)
    if tmp ≠ 0 then
      free_block_frees s (tmp + (s.page head).block_head)
        (decide ((s.page head).block_head ≠ sizeof_MEM_BLOCK))
    else []
  else []

/-- One pass of the `while` loop of `clear_mem_pages` for class list `i` (lines 432-445). -/
def clear_step (s : Heap) (i : Nat) : Heap :=
  (mem_page_free (clear_ext s i) ((clear_ext s i).mem_page_map i).head).2

/-- The arguments of the calls of the library `free` made by one pass of the loop. -/
def clear_step_frees (s : Heap) (i : Nat) : List Nat :=
  clear_ext_frees s i ++ mem_page_free_frees (clear_ext s i) ((clear_ext s i).mem_page_map i).head

/-- The loop `while (link->count > 0)` of `clear_mem_pages` for class list `i`, run for at most
`fuel` passes; `none` when the loop has not ended by then. -/
def clear_class : Nat → Heap → Nat → Option Heap
  | 0, s, i => if (s.mem_page_map i).count > 0 then none else some s
  | fuel + 1, s, i =>
    if (s.mem_page_map i).count > 0 then clear_class fuel (clear_step s i) i else some s

/-- The arguments of the calls of the library `free` made by the loop for class list `i`. -/
def clear_class_frees : Nat → Heap → Nat → List Nat
  | 0, _, _ => []
  | fuel + 1, s, i =>
    if (s.mem_page_map i).count > 0 then
      clear_step_frees s i ++ clear_class_frees fuel (clear_step s i) i
    else []

/-- Lines 448-449 of `clear_mem_pages`: `link->idle_num = 0; link_reset((LINK *)link);`. -/
def clear_reset (s : Heap) (i : Nat) : Heap :=
  s.setLink i { toLINK := link_reset (s.mem_page_map i).toLINK, idle_num := 0 }

/-- The `for` loop of `clear_mem_pages` over the class indices `is`. -/
def clear_list (fuel : Nat) : List Nat → Heap → Option Heap
  | [], s => some s
  | i :: is, s =>
    match clear_class fuel s i with
    | none => none
    | some s1 => clear_list fuel is (clear_reset s1 i)

/-- The arguments of the calls of the library `free` made by the `for` loop, in order. -/
def clear_list_frees (fuel : Nat) : List Nat → Heap → List Nat
  | [], _ => []
  | i :: is, s =>
    clear_class_frees fuel s i ++
      match clear_class fuel s i with
      | none => []
      | some s1 => clear_list_frees fuel is (clear_reset s1 i)

/-- Function `clear_mem_pages`; every `while` loop runs for at most `fuel` passes. -/
def clear_mem_pages (fuel : Nat) (s : Heap) : Option Heap :=
  clear_list fuel (List.range MEM_PAGE_BLOCK_INFO_COUNT) s

/-- The arguments of the calls of the library `free` made by `clear_mem_pages`, in order. -/
def clear_mem_pages_frees (fuel : Nat) (s : Heap) : List Nat :=
  clear_list_frees fuel (List.range MEM_PAGE_BLOCK_INFO_COUNT) s

/-- Every region the backing allocator has handed out is a page of a class list or the buffer
whose data area is an outstanding pointer (the external buffer of a ZERO/LARGE page). -/
def LiveOnly (s : Heap) (g : Ghost) (L : List Nat) : Prop :=
  ∀ r ∈ s.live, (∃ i < 15, r.1 ∈ g.lists i) ∨ r.1 + sizeof_MEM_BLOCK ∈ L

/-- The bookkeeping after the page at the head of class list `i` has been destroyed. -/
def drop_ghost (g : Ghost) (i : Nat) : Ghost :=
  { g with lists := fun j => if j = i then (g.lists i).tail else g.lists j }

/-- The list `[1, 2, 3]`: node `3` pushed onto `list_two`. -/
def list_three : Nodes × LINK := (link_push list_two.1 list_two.2 3).2

/-- Function `alloc_block_dbg`: `alloc_block`, followed by `pad_dbg_block` on the debug header
of the block handed out. `pad_dbg_block` writes the provenance fields only, which are not
modelled, so the pointer returned and the modelled memory are those of `alloc_block`. -/
def alloc_block_dbg (s : Heap) (len : Nat) : Nat × Heap := alloc_block s len

/-- What an entry point of `mem.c` does with the shared state, in program order: the macros
`MEM_LOCK` and `MEM_UNLOCK` on the one mutex `mem_lock`, and every call into `mem_page.c`. -/
inductive Step
  | lock
  | unlock
  | get_page_index
  | get_addr_block_len
  | usable_page_exist
  | mem_page_malloc
  | alloc_block
  | alloc_block_dbg
  | free_block
  | clear_mem_pages
  | page_print_basic_info
  | page_print_block_list
  | page_print_allocated_info
  deriving DecidableEq, Repr

/-- The calls that read or write `mem_page_map` or page state: every call into `mem_page.c`
except `get_page_index`, which looks at its argument and at the constant table
`mem_page_info_index` only. -/
def Step.shared : Step → Bool
  | .lock => false
  | .unlock => false
  | .get_page_index => false
  | _ => true

/-- The calls that write `mem_page_map` or page state. -/
def Step.writes : Step → Bool
  | .mem_page_malloc => true
  | .alloc_block => true
  | .alloc_block_dbg => true
  | .free_block => true
  | .clear_mem_pages => true
  | _ => false

/-- Steps of `mem_malloc(len)`: the class index is computed before the mutex is taken. -/
def mem_malloc_steps (s : Heap) (len : Nat) : List Step :=
  let index := get_page_index len
  [Step.get_page_index, Step.lock, Step.usable_page_exist] ++
    (if ¬ usable_page_exist s index then [Step.mem_page_malloc] else []) ++
    [Step.alloc_block, Step.unlock]

/-- Steps of `mem_realloc(ptr, len)`: the capacity and the two class indices are read before
the mutex is taken, and the branches that return `ptr` or null never take it. -/
def mem_realloc_steps (s : Heap) (ptr : Nat) (len : Nat) : List Step :=
  if ptr = 0 then []
  else
    let size := get_addr_block_len s ptr false
    let index := get_page_index (toSizeT size)
    let index_new := get_page_index len
    [Step.get_addr_block_len, Step.get_page_index, Step.get_page_index] ++
      (if size < toInt32 (len : Int) ∨ index > index_new then
        let s1 :=
          if ¬ usable_page_exist s index_new then (mem_page_malloc s index_new false).2 else s
        [Step.lock, Step.usable_page_exist] ++
          (if ¬ usable_page_exist s index_new then [Step.mem_page_malloc] else []) ++
          [Step.alloc_block] ++
          (if (alloc_block s1 len).1 ≠ 0 then [Step.free_block] else []) ++
          [Step.unlock]
      else [])

/-- Steps of `mem_free(ptr)`. -/
def mem_free_steps (ptr : Nat) : List Step :=
  if ptr = 0 then [] else [Step.lock, Step.free_block, Step.unlock]

/-- Steps of `mem_dbg_malloc(len, func, file, line)`. -/
def mem_dbg_malloc_steps (s : Heap) (len : Nat) : List Step :=
  let index := get_page_index len
  [Step.get_page_index, Step.lock, Step.usable_page_exist] ++
    (if ¬ usable_page_exist s index then [Step.mem_page_malloc] else []) ++
    [Step.alloc_block_dbg, Step.unlock]

/-- Steps of `mem_dbg_calloc(num, size, func, file, line)`, whose length is the `size_t`
product `num * size`. -/
def mem_dbg_calloc_steps (s : Heap) (num size : Nat) : List Step :=
  let len := (num * size) % SIZE_MOD
  let index := get_page_index len
  [Step.get_page_index, Step.lock, Step.usable_page_exist] ++
    (if ¬ usable_page_exist s index then [Step.mem_page_malloc] else []) ++
    [Step.alloc_block_dbg, Step.unlock]

/-- Steps of `mem_dbg_realloc(ptr, len, func, file, line)`. -/
def mem_dbg_realloc_steps (s : Heap) (ptr : Nat) (len : Nat) : List Step :=
  if ptr = 0 then []
  else
    let size := get_addr_block_len s ptr true
    let index := get_page_index (toSizeT size)
    let index_new := get_page_index len
    [Step.get_addr_block_len, Step.get_page_index, Step.get_page_index] ++
      (if size < toInt32 (len : Int) ∨ index > index_new then
        let s1 :=
          if ¬ usable_page_exist s index_new then (mem_page_malloc s index_new true).2 else s
        [Step.lock, Step.usable_page_exist] ++
          (if ¬ usable_page_exist s index_new then [Step.mem_page_malloc] else []) ++
          [Step.alloc_block_dbg] ++
          (if (alloc_block_dbg s1 len).1 ≠ 0 then [Step.free_block] else []) ++
          [Step.unlock]
      else [])

/-- Steps of `mem_dbg_free(ptr)`. -/
def mem_dbg_free_steps (ptr : Nat) : List Step :=
  if ptr = 0 then [] else [Step.lock, Step.free_block, Step.unlock]

/-- Steps of `clear_res()` up to the destruction of the mutex. -/
def clear_res_steps : List Step := [Step.lock, Step.clear_mem_pages, Step.unlock]

/-- Steps of `mem_clear(ptr, len)`: it makes no call into `mem_page.c`. -/
def mem_clear_steps : List Step := []

/-- Steps of `mem_print_info()`. -/
def mem_print_info_steps : List Step := [Step.page_print_basic_info]

/-- Steps of `mem_dbg_print_info()`. -/
def mem_dbg_print_info_steps : List Step := [Step.page_print_basic_info]

/-- Steps of `mem_print_block_list(len)`. -/
def mem_print_block_list_steps : List Step := [Step.get_page_index, Step.page_print_block_list]

/-- Steps of `mem_dbg_print_block_list(len)`. -/
def mem_dbg_print_block_list_steps : List Step :=
  [Step.get_page_index, Step.page_print_block_list]

/-- Steps of `mem_print_leak_info()`. -/
def mem_print_leak_info_steps : List Step := [Step.page_print_allocated_info]

/-- Steps of `mem_dbg_print_leak_info()`. -/
def mem_dbg_print_leak_info_steps : List Step := [Step.page_print_allocated_info]

/-- Run the steps from a state of the mutex (`true`: held by the caller): the result is the
state of the mutex at the end, and `none` when a call that reads or writes `mem_page_map` or
page state is made without the mutex, the mutex is taken while held, or released while not
held. -/
def locked_run : Bool → List Step → Option Bool
  | h, [] => some h
  | h, Step.lock :: r => if h then none else locked_run true r
  | h, Step.unlock :: r => if h then locked_run false r else none
  | h, x :: r => if x.shared ∧ ¬ h then none else locked_run h r

/-- The same run when only the writing calls need the mutex. -/
def writes_locked : Bool → List Step → Option Bool
  | h, [] => some h
  | h, Step.lock :: r => if h then none else writes_locked true r
  | h, Step.unlock :: r => if h then writes_locked false r else none
  | h, x :: r => if x.writes ∧ ¬ h then none else writes_locked h r

/-- The blocks met from block `b` along the freelist links, at most `n` of them: the link of a
free block is the word `MEM_TO_ADDR` reads at its data area (`alloc_block` continues with
`page->idle = MEM_TO_ADDR(ret)`), and null ends the freelist. -/
def freelist_walk (s : Heap) (block_head : Nat) : Nat → Nat → List Nat
  | 0, _ => []
  | n + 1, b =>
    if b = 0 then [] else b :: freelist_walk s block_head n (MEM_TO_ADDR s (b + block_head))

/-- The number of blocks of the page at `a` whose header has status USING; the blocks are
visited by address as in `page_print_block_list`. -/
def using_blocks (s : Heap) (a : Nat) : Nat :=
  ((List.range (s.page a).block_num).filter (fun k =>
    (s.block (a + sizeof_MEM_PAGE + k * ((s.page a).block_head + (s.page a).block_data))).status
      = MEM_BLOCK_STATUS_USING)).length

/-- The byte count that the moving branch of `mem_realloc` passes to `memcpy`: the `int`
`dst_size = (int)((size < (int)len) ? size : len)`, converted to `size_t`. -/
def mem_realloc_copy_len (s : Heap) (ptr len : Nat) : Nat :=
  let size := get_addr_block_len s ptr false
  toSizeT (toInt32 (if size < toInt32 (len : Int) then (toSizeT size : Int) else (len : Int)))

/-- Contents left behind by an earlier use of the memory: every byte is `0xFF` and every header
is non-zero. -/
def junk : Heap :=
  { node := fun _ => ⟨255, 255⟩
    page := fun _ => ⟨255, 255, 255, 255, 255, 255, 255, 255, 255⟩
    block := fun _ => ⟨255, 255⟩
    byte := fun _ => 255
    mem_page_map := fun _ => ⟨⟨0, 0, 0⟩, 0⟩
    brk := 0
    live := [] }

/-- Scenario state: the fresh allocator when the memory not handed out holds `junk`. -/
def dirty_start : Heap := Heap.start.dirty junk

/-- Scenario state: on a fresh allocator one request of `2^32 - 40` bytes, the length for which
the sum `alloc_size` of the LARGE page, kept in an `int`, wraps to 0. -/
def wrapped_state : Heap := (mem_malloc Heap.start (2 ^ 32 - 40)).2

/-- The pointer the request of `wrapped_state` returned. -/
def wrapped_ptr : Nat := (mem_malloc Heap.start (2 ^ 32 - 40)).1

/-- The state `mem_page_malloc` builds before it links the new page. -/
def page_malloc_pre (s : Heap) (i : Nat) : Heap :=
  mem_page_initialize (((s.malloc (page_size i)).2).memset_zero s.brk (page_size i)) i s.brk false

/-! ## `mem_page.c`: the leak report -/

/-- One call of `output_mem_info_std`, up to the formatting of numbers and pointers: the banner
of `page_print_allocated_info`, the eight lines of `print_page_info` (field number and printed
value), the lines of `print_leak_info`, and the line `No leak!`. -/
inductive Line where
  | alloc_check : Line
  | page_field (page field : Nat) (value : Int) : Line
  | leak_page (page : Nat) : Line
  | leak_block (i : Nat) (size : Int) : Line
  | leak_dbg (i field : Nat) : Line
  | leak_size (size : Int) : Line
  | no_leak : Line
  deriving DecidableEq, Repr

/-- Function `print_page_info`. -/
def print_page_info (s : Heap) (page : Nat) : List Line :=
  if page = 0 then []
  else
    [ Line.page_field page 0 (s.page page).status,
      Line.page_field page 1 (s.page page).using_count,
      Line.page_field page 2 (s.page page).block_num,
      Line.page_field page 3 (s.page page).block_head,
      Line.page_field page 4 (s.page page).block_data,
      Line.page_field page 5 (s.page page).alloc_size,
      Line.page_field page 6 (s.page page).idle,
      Line.page_field page 7 (s.node page).next ]

/-- The block loop of `print_leak_info`: `count` blocks from `cursor`, numbered from `i`; the
debug layout adds five provenance lines per block, whose contents are not modelled. -/
def print_leak_blocks (s : Heap) (dbg : Bool) (offset : Nat) : Nat → Nat → Nat → List Line
  | 0, _, _ => []
  | n + 1, cursor, i =>
    (if (s.block cursor).status = MEM_BLOCK_STATUS_USING then
      Line.leak_block i offset ::
        (if dbg then
          [Line.leak_dbg i 0, Line.leak_dbg i 1, Line.leak_dbg i 2, Line.leak_dbg i 3,
            Line.leak_dbg i 4]
        else [])
    else []) ++ print_leak_blocks s dbg offset n (cursor + offset) (i + 1)

/-- Function `print_leak_info`: the lines and the returned `alloc_size`. -/
def print_leak_info (s : Heap) (page : Nat) (dbg : Bool) : Int × List Line :=
  if page = 0 then (0, [])
  else
    let offset := (s.page page).block_head + (s.page page).block_data
    ((s.page page).alloc_size,
      Line.leak_page page ::
        (print_leak_blocks s dbg offset (s.page page).block_num (page + sizeof_MEM_PAGE) 0
          ++ [Line.leak_size (s.page page).alloc_size]))

/-- The page loop of `page_print_allocated_info` over one class list: `n` steps from `page`,
accumulating `size` (an `int`) and the lines. -/
def leak_loop (s : Heap) (dbg : Bool) : Nat → Nat → Int × List Line → Int × List Line
  | 0, _, acc => acc
  | n + 1, page, acc =>
    if page = 0 then acc
    else
      let acc1 :=
        if (s.page page).using_count > 0 then
          let r := print_leak_info s page dbg
          (toInt32 (acc.1 + r.1), acc.2 ++ print_page_info s page ++ r.2)
        else acc
      leak_loop s dbg n (s.node page).next acc1

/-- Function `page_print_allocated_info`: the lines it prints. -/
def page_print_allocated_info (s : Heap) (dbg : Bool) : List Line :=
  let r := (List.range MEM_PAGE_BLOCK_INFO_COUNT).foldl
    (fun acc i =>
      if (s.mem_page_map i).count > 0 then
        leak_loop s dbg (s.mem_page_map i).count.toNat (s.mem_page_map i).head acc
      else acc)
    (0, [Line.alloc_check])
  r.2 ++ (if r.1 = 0 then [Line.no_leak] else []) ++ [Line.alloc_check]

/-- Two outstanding LARGE allocations on a fresh allocator whose `alloc_size` fields, as `int`,
add up to zero: `2^31 - 16` bytes and `2^31 - 64` bytes. -/
def two_large_state : Heap := malloc_seq [2 ^ 31 - 16, 2 ^ 31 - 64] Heap.start

/-! # Theorems -/

/-! ## The size-class table -/

set_option maxRecDepth 1000000 in
theorem get_page_index_small : ∀ L < 513, 1 ≤ L →
    (1 ≤ get_page_index L ∧ get_page_index L ≤ 13 ∧ L ≤ (page_info (get_page_index L)).block_size ∧
      ∀ j < 14, 1 ≤ j → L ≤ (page_info j).block_size →
        (page_info (get_page_index L)).block_size ≤ (page_info j).block_size) := by
  decide

set_option maxRecDepth 1000000 in
theorem get_page_index_subscript_small : ∀ L < 513,
    page_index_subscript L ≤ 64 ∧ get_page_index L ≤ 13 ∧ (get_page_index L = 0 ↔ L = 0) := by
  decide

theorem get_page_index_large (L : Nat) (h : 512 < L) : get_page_index L = 14 := by
  simp [get_page_index, MEM_PAGE_MAX_BLOCK, MEM_PAGE_BLOCK_INFO_COUNT, h]

/-- C1: for every request length `1 ≤ L ≤ 512`, `get_page_index L` is a slab class (index 1..13)
whose block size is at least `L` and is the smallest such among the slab classes; every boundary
length maps to the class of exactly that block size and one more byte maps to the next class
index (513 to LARGE, index 14). -/
theorem get_page_index_smallest_class (L : Nat) (h1 : 1 ≤ L) (h2 : L ≤ 512) :
    (1 ≤ get_page_index L ∧ get_page_index L ≤ 13) ∧
    L ≤ (page_info (get_page_index L)).block_size ∧
    (∀ j, 1 ≤ j → j ≤ 13 → L ≤ (page_info j).block_size →
        (page_info (get_page_index L)).block_size ≤ (page_info j).block_size) ∧
    (∀ b ∈ [8, 16, 32, 64, 96, 128, 160, 192, 256, 320, 384, 448, 512],
        (page_info (get_page_index b)).block_size = b ∧
        get_page_index (b + 1) = get_page_index b + 1) ∧
    get_page_index 513 = 14 := by
  obtain ⟨a, b, c, d⟩ := get_page_index_small L (by omega) h1
  refine ⟨⟨a, b⟩, c, fun j hj1 hj2 hj => d j (by omega) hj1 hj, by decide, by decide⟩

theorem get_page_index_smallest_class_witness :
    (1 ≤ get_page_index 9 ∧ get_page_index 9 ≤ 13) ∧
    9 ≤ (page_info (get_page_index 9)).block_size ∧
    (∀ j, 1 ≤ j → j ≤ 13 → 9 ≤ (page_info j).block_size →
        (page_info (get_page_index 9)).block_size ≤ (page_info j).block_size) ∧
    (∀ b ∈ [8, 16, 32, 64, 96, 128, 160, 192, 256, 320, 384, 448, 512],
        (page_info (get_page_index b)).block_size = b ∧
        get_page_index (b + 1) = get_page_index b + 1) ∧
    get_page_index 513 = 14 :=
  get_page_index_smallest_class 9 (by decide) (by decide)

/-- C2: `get_page_index` never fails: for every length the subscript applied to
`mem_page_info_index` stays inside the 65-entry table when `L ≤ 512`, the result is at most 14,
it is 14 exactly when `L > 512` and 0 exactly when `L = 0`. -/
theorem get_page_index_total (L : Nat) :
    (L ≤ 512 → page_index_subscript L < mem_page_info_index.length) ∧
    (L ≤ 512 → page_index_subscript L ≤ 64) ∧
    get_page_index L ≤ 14 ∧
    (get_page_index L = 14 ↔ 512 < L) ∧
    (get_page_index L = 0 ↔ L = 0) := by
  by_cases h : 512 < L
  · have := get_page_index_large L h
    refine ⟨by omega, by omega, by omega, by simp [this, h], ?_⟩
    constructor <;> intro h' <;> omega
  · obtain ⟨a, b, c⟩ := get_page_index_subscript_small L (by omega)
    have hl : mem_page_info_index.length = 65 := by decide
    refine ⟨fun _ => by omega, fun _ => a, by omega, ?_, c⟩
    constructor <;> intro h' <;> omega

/-- C7: for every slab class `1 ≤ i ≤ 13`, every block index `k` below the number of blocks of
the class and both header sizes (16 and 184, page header 48), the offset of the data area of
block `k` from the page base is a multiple of 8. -/
theorem data_area_aligned (i k : Nat) (dbg : Bool) (h1 : 1 ≤ i) (h2 : i ≤ 13)
    (_hk : k < (page_info i).block_num) :
    sizeof_MEM_BLOCK = 16 ∧ sizeof_MEM_BLOCK_DBG = 184 ∧ sizeof_MEM_PAGE = 48 ∧
    (sizeof_MEM_PAGE + k * (block_head_size dbg + (page_info i).block_size)
      + block_head_size dbg) % 8 = 0 := by
  refine ⟨rfl, rfl, rfl, ?_⟩
  cases dbg <;> interval_cases i <;>
    simp [page_info, mem_page_info_list, block_head_size, sizeof_MEM_BLOCK,
      sizeof_MEM_BLOCK_DBG, sizeof_MEM_PAGE] <;> omega

theorem data_area_aligned_witness :
    sizeof_MEM_BLOCK = 16 ∧ sizeof_MEM_BLOCK_DBG = 184 ∧ sizeof_MEM_PAGE = 48 ∧
    (sizeof_MEM_PAGE + 127 * (block_head_size true + (page_info 1).block_size)
      + block_head_size true) % 8 = 0 :=
  data_area_aligned 1 127 true (by decide) (by decide) (by decide)

theorem init_blocks_page (page bs bo : Nat) (n : Nat) (s : Heap) (c : Nat) :
    (init_blocks page bs bo n s c).1.page = s.page := by
  induction n generalizing s c with
  | zero => rfl
  | succ n ih => simp [init_blocks, ih, ADDR_TO_MEM, Heap.setBlock]

theorem mem_page_initialize_page (s : Heap) (i page : Nat) (dbg : Bool)
    (hi : i ≤ 14) (hp : page ≠ 0) :
    ( mem_page_initialize s i page dbg).page page =
      { type := (page_info i).page_type, status := MEM_PAGE_STATUS_IDLE,
        using_count := 0, block_num := (page_info i).block_num,
        block_head := block_head_size dbg, block_data := (page_info i).block_size,
        alloc_size := 0, idle := page + sizeof_MEM_PAGE, head_addr := page } := by
  have h : ¬ (i > MEM_PAGE_BLOCK_INFO_COUNT - 1 ∨ page = 0) := by
    simp [MEM_PAGE_BLOCK_INFO_COUNT]; omega
  simp only [ mem_page_initialize, h, if_false, Heap.setBlock, init_blocks_page, Heap.setPage,
    if_true]

/-- C3: for every class index `i ≤ 14` and either header layout, a page initialised by
`mem_page_initialize` recovers its own class: `get_page_index_ex` returns `i`. -/
theorem get_page_index_ex_initialize (s : Heap) (i page : Nat) (dbg : Bool)
    (hi : i ≤ 14) (hp : page ≠ 0) :
    get_page_index_ex ( mem_page_initialize s i page dbg) page = i := by
  unfold get_page_index_ex
  rw [mem_page_initialize_page s i page dbg hi hp]
  simp only [hp, false_or]
  interval_cases i <;> decide

theorem get_page_index_ex_initialize_witness :
    get_page_index_ex ( mem_page_initialize Heap.start 5 4096 true) 4096 = 5 :=
  get_page_index_ex_initialize Heap.start 5 4096 true (by decide) (by decide)

/-! ## The allocator invariant -/

theorem MEM_TO_ADDR_congr (s t : Heap) (p : Nat)
    (h : ∀ x, p ≤ x → x < p + 8 → t.byte x = s.byte x) : MEM_TO_ADDR t p = MEM_TO_ADDR s p := by
  unfold MEM_TO_ADDR
  rw [h p (by omega) (by omega), h (p + 1) (by omega) (by omega), h (p + 2) (by omega) (by omega),
    h (p + 3) (by omega) (by omega), h (p + 4) (by omega) (by omega),
    h (p + 5) (by omega) (by omega), h (p + 6) (by omega) (by omega),
    h (p + 7) (by omega) (by omega)]

theorem MEM_TO_ADDR_zero (s : Heap) (p : Nat)
    (h : ∀ x, p ≤ x → x < p + 8 → s.byte x = 0) : MEM_TO_ADDR s p = 0 := by
  unfold MEM_TO_ADDR
  rw [h p (by omega) (by omega), h (p + 1) (by omega) (by omega), h (p + 2) (by omega) (by omega),
    h (p + 3) (by omega) (by omega), h (p + 4) (by omega) (by omega),
    h (p + 5) (by omega) (by omega), h (p + 6) (by omega) (by omega),
    h (p + 7) (by omega) (by omega)]
  simp

theorem ADDR_TO_MEM_byte (s : Heap) (p addr x : Nat) :
    (ADDR_TO_MEM s p addr).byte x =
      if p ≤ x ∧ x < p + 8 then addr / 2 ^ (8 * (x - p)) % 256 else s.byte x := rfl

theorem MEM_TO_ADDR_ADDR_TO_MEM (s : Heap) (p addr : Nat) (h : addr < 2 ^ 64) :
    MEM_TO_ADDR (ADDR_TO_MEM s p addr) p = addr := by
  unfold MEM_TO_ADDR
  simp only [ADDR_TO_MEM_byte]
  have e0 : p - p = 0 := by omega
  have e1 : p + 1 - p = 1 := by omega
  have e2 : p + 2 - p = 2 := by omega
  have e3 : p + 3 - p = 3 := by omega
  have e4 : p + 4 - p = 4 := by omega
  have e5 : p + 5 - p = 5 := by omega
  have e6 : p + 6 - p = 6 := by omega
  have e7 : p + 7 - p = 7 := by omega
  rw [if_pos (by omega), if_pos (by omega), if_pos (by omega), if_pos (by omega),
    if_pos (by omega), if_pos (by omega), if_pos (by omega), if_pos (by omega),
    e0, e1, e2, e3, e4, e5, e6, e7]
  norm_num
  omega

theorem lastD_mem_cons (xs : List Nat) (d : Nat) : lastD xs d ∈ d :: xs := by
  induction xs generalizing d with
  | nil => simp [lastD]
  | cons x r ih =>
    simp only [lastD]
    exact List.mem_cons_of_mem _ (ih x)

theorem lastD_mem (xs : List Nat) (d : Nat) (h : xs ≠ []) : lastD xs d ∈ xs := by
  cases xs with
  | nil => exact absurd rfl h
  | cons x r => exact lastD_mem_cons r x

theorem firstD_mem (xs : List Nat) (d : Nat) (h : xs ≠ []) : firstD xs d ∈ xs := by
  cases xs with
  | nil => exact absurd rfl h
  | cons x r => simp [firstD]

theorem lastD_append (l1 l2 : List Nat) (d : Nat) :
    lastD (l1 ++ l2) d = lastD l2 (lastD l1 d) := by
  induction l1 generalizing d with
  | nil => rfl
  | cons x r ih =>
    show lastD (r ++ l2) x = lastD l2 (lastD r x)
    exact ih x

theorem firstD_append (l1 l2 : List Nat) (d : Nat) :
    firstD (l1 ++ l2) d = firstD l1 (firstD l2 d) := by
  cases l1 <;> rfl

theorem lastD_irrel (xs : List Nat) (d e : Nat) (h : xs ≠ []) : lastD xs d = lastD xs e := by
  cases xs with
  | nil => exact absurd rfl h
  | cons x r => rfl

theorem firstD_irrel (xs : List Nat) (d e : Nat) (h : xs ≠ []) : firstD xs d = firstD xs e := by
  cases xs with
  | nil => exact absurd rfl h
  | cons x r => rfl

theorem dlseg_congr (m m' : Nodes) (xs : List Nat) (p n : Nat)
    (h : ∀ x ∈ xs, m' x = m x) : dlseg m' xs p n ↔ dlseg m xs p n := by
  induction xs generalizing p with
  | nil => simp [dlseg]
  | cons x rest ih =>
    simp only [dlseg, h x (List.mem_cons_self _ _)]
    rw [ih x (fun y hy => h y (List.mem_cons_of_mem _ hy))]

theorem dlseg_append (m : Nodes) (l1 l2 : List Nat) (p n : Nat) :
    dlseg m (l1 ++ l2) p n ↔ dlseg m l1 p (firstD l2 n) ∧ dlseg m l2 (lastD l1 p) n := by
  induction l1 generalizing p with
  | nil => simp [dlseg, lastD]
  | cons x rest ih =>
    show (m x).prev = p ∧ (m x).next = firstD (rest ++ l2) n ∧ dlseg m (rest ++ l2) x n ↔ _
    simp only [dlseg, ih x, lastD, firstD_append, and_assoc]

theorem dlseg_setNext_last (m : Nodes) (xs : List Nat) (p n v d : Nat) (hne : xs ≠ [])
    (hnd : xs.Nodup) (h : dlseg m xs p n) :
    dlseg (setNext m (lastD xs d) v) xs p v := by
  induction xs generalizing p d with
  | nil => exact absurd rfl hne
  | cons x rest ih =>
    cases rest with
    | nil =>
      simp only [dlseg, firstD, lastD, setNext, if_true, and_true] at h ⊢
      exact h.1
    | cons y r =>
      have hx : x ≠ lastD (y :: r) x := by
        intro e
        have := lastD_mem (y :: r) x (by simp)
        rw [← e] at this
        exact (List.nodup_cons.1 hnd).1 this
      obtain ⟨h1, h2, h3⟩ := h
      have := ih x x (by simp) (List.nodup_cons.1 hnd).2 h3
      refine ⟨?_, ?_, this⟩
      · simp only [lastD, setNext] at hx ⊢
        simp [hx, h1]
      · simp only [lastD, setNext] at hx ⊢
        simp only [hx, if_false]; exact h2

theorem dlseg_setPrev_head (m : Nodes) (xs : List Nat) (p n v d : Nat)
    (hnd : xs.Nodup) (h : dlseg m xs p n) :
    dlseg (setPrev m (firstD xs d) v) xs v n := by
  cases xs with
  | nil => trivial
  | cons x rest =>
    obtain ⟨h1, h2, h3⟩ := h
    refine ⟨by simp [setPrev, firstD], by simp [setPrev, firstD, h2], ?_⟩
    rw [dlseg_congr m]
    · exact h3
    · intro y hy
      have : y ≠ x := fun e => (List.nodup_cons.1 hnd).1 (e ▸ hy)
      simp [setPrev, firstD, this]

theorem dlseg_setNext_frame (m : Nodes) (xs : List Nat) (p n a v : Nat) (ha : a ∉ xs) :
    dlseg (setNext m a v) xs p n ↔ dlseg m xs p n :=
  dlseg_congr _ _ _ _ _ (fun x hx => by
    have : x ≠ a := fun e => ha (e ▸ hx)
    simp [setNext, this])

theorem dlseg_setPrev_frame (m : Nodes) (xs : List Nat) (p n a v : Nat) (ha : a ∉ xs) :
    dlseg (setPrev m a v) xs p n ↔ dlseg m xs p n :=
  dlseg_congr _ _ _ _ _ (fun x hx => by
    have : x ≠ a := fun e => ha (e ▸ hx)
    simp [setPrev, this])

@[simp] theorem setNext_prev (m : Nodes) (a v x : Nat) : (setNext m a v x).prev = (m x).prev := by
  unfold setNext; split <;> simp_all

@[simp] theorem setPrev_next (m : Nodes) (a v x : Nat) : (setPrev m a v x).next = (m x).next := by
  unfold setPrev; split <;> simp_all

theorem setNext_next (m : Nodes) (a v x : Nat) :
    (setNext m a v x).next = if x = a then v else (m x).next := by
  unfold setNext; split <;> simp_all

theorem setPrev_prev (m : Nodes) (a v x : Nat) :
    (setPrev m a v x).prev = if x = a then v else (m x).prev := by
  unfold setPrev; split <;> simp_all

theorem setNext_other (m : Nodes) (a v x : Nat) (h : x ≠ a) : setNext m a v x = m x := by
  simp [setNext, h]

theorem setPrev_other (m : Nodes) (a v x : Nat) (h : x ≠ a) : setPrev m a v x = m x := by
  simp [setPrev, h]

theorem dlseg_first_prev (m : Nodes) (xs : List Nat) (p n d : Nat) (hne : xs ≠ [])
    (h : dlseg m xs p n) : (m (firstD xs d)).prev = p := by
  cases xs with
  | nil => exact absurd rfl hne
  | cons x r => exact h.1

theorem dlseg_last_next (m : Nodes) (xs : List Nat) (p n d : Nat) (hne : xs ≠ [])
    (h : dlseg m xs p n) : (m (lastD xs d)).next = n := by
  induction xs generalizing p d with
  | nil => exact absurd rfl hne
  | cons x r ih =>
    cases r with
    | nil => exact h.2.1
    | cons y r' => exact ih x x (by simp) h.2.2

theorem INSERT_BEFORE_eq (m : Nodes) (t node : Nat) :
    INSERT_BEFORE m t node =
      setPrev (setNext (setPrev (setNext m (m t).prev node) node (m t).prev) node t) t node := by
  simp [INSERT_BEFORE]

theorem INSERT_AFTER_eq (m : Nodes) (t node : Nat) :
    INSERT_AFTER m t node =
      setNext (setNext (setPrev (setPrev m (m t).next node) node t) node (m t).next) t node := by
  simp [INSERT_AFTER]

theorem REMOVE_eq (m : Nodes) (t : Nat) :
    REMOVE m t = setPrev (setNext m (m t).prev (m t).next) (m t).next (m t).prev := by
  simp only [REMOVE, setNext_prev, setNext_next]
  split <;> rfl

theorem RingOK_empty_insert (m : Nodes) (node : Nat) (hn : node ≠ 0) :
    RingOK (setPrev (setNext m node node) node node) ⟨node, node, 1⟩ [node] := by
  refine ⟨rfl, rfl, rfl, by simp, by simpa using hn.symm, ?_⟩
  simp [dlseg, firstD, setPrev_prev, setNext_next]

theorem link_insert_front (m : Nodes) (l : LINK) (xs : List Nat) (node : Nat)
    (h : RingOK m l xs) (hn : node ≠ 0) (hx : node ∉ xs) :
    (link_insert m l 0 node).1 = LINK_SUCCESS ∧
    RingOK (link_insert m l 0 node).2.1 (link_insert m l 0 node).2.2 (node :: xs) ∧
    (∀ x, x ∉ node :: xs → (link_insert m l 0 node).2.1 x = m x) := by
  obtain ⟨hc, hh, ht, hnd, h0, hs⟩ := h
  have hc0 : ¬ (0 : Int) > l.count := by rw [hc]; omega
  cases xs with
  | nil =>
    have hcz : l.count = 0 := by simpa using hc
    simp only [link_insert, hn, hc0, hcz, if_false, if_true]
    refine ⟨rfl, ?_, ?_⟩
    · have := RingOK_empty_insert m node hn
      simpa [RingOK] using this
    · intro x hx'
      have : x ≠ node := by simpa using hx'
      simp [setPrev, setNext, this]
  | cons a r =>
    have hcz : l.count ≠ 0 := by rw [hc]; simp; omega
    simp only [link_insert, hn, hc0, hcz, if_false, if_true]
    refine ⟨by first | rfl | trivial, ?_, ?_⟩
    · have hp : (m l.head).prev = l.tail := by
        rw [hh]; exact dlseg_first_prev m _ _ _ 0 (by simp) hs
      rw [INSERT_BEFORE_eq, hp]
      refine ⟨by simp [hc], rfl, by simpa [lastD] using ht, ?_, ?_, ?_⟩
      · exact List.nodup_cons.2 ⟨hx, hnd⟩
      · simp only [List.mem_cons, not_or]; exact ⟨hn.symm, by simpa using h0⟩
      · have hnh : node ≠ l.head := by
          rw [hh]; intro e; exact hx (e ▸ firstD_mem _ _ (by simp))
        refine ⟨?_, ?_, ?_⟩
        · simp [setPrev_prev, hnh]
        · simp [setNext_next, firstD]; simpa [firstD] using hh
        · have h1 := dlseg_setNext_last m (a :: r) l.tail l.head node 0 (by simp) hnd hs
          rw [← ht] at h1
          have h2 := (dlseg_setPrev_frame _ _ l.tail node node l.tail hx).2 h1
          have h3 := (dlseg_setNext_frame _ _ l.tail node node l.head hx).2 h2
          have h4 := dlseg_setPrev_head _ _ l.tail node node 0 hnd h3
          rw [← hh] at h4
          exact h4
    · intro x hx'
      have hp : (m l.head).prev = l.tail := by
        rw [hh]; exact dlseg_first_prev m _ _ _ 0 (by simp) hs
      have hxn : x ≠ node := fun e => hx' (e ▸ List.mem_cons_self _ _)
      have hxa : x ∉ a :: r := fun e => hx' (List.mem_cons_of_mem _ e)
      have e1 : x ≠ l.head := by
        rw [hh]; intro e; exact hxa (e ▸ firstD_mem _ _ (by simp))
      have e2 : x ≠ l.tail := by
        rw [ht]; intro e; exact hxa (e ▸ lastD_mem _ _ (by simp))
      rw [INSERT_BEFORE_eq, hp, setPrev_other _ _ _ _ e1, setNext_other _ _ _ _ hxn,
        setPrev_other _ _ _ _ hxn, setNext_other _ _ _ _ e2]

theorem link_push_back (m : Nodes) (l : LINK) (xs : List Nat) (node : Nat)
    (h : RingOK m l xs) (hn : node ≠ 0) (hx : node ∉ xs) :
    (link_push m l node).1 = LINK_SUCCESS ∧
    RingOK (link_push m l node).2.1 (link_push m l node).2.2 (xs ++ [node]) ∧
    (∀ x, x ∉ node :: xs → (link_push m l node).2.1 x = m x) := by
  obtain ⟨hc, hh, ht, hnd, h0, hs⟩ := h
  cases xs with
  | nil =>
    have hhz : l.head = 0 := hh
    have hcz : l.count = 0 := by simpa using hc
    simp only [link_push, hn, hhz, if_false, ne_eq, not_true_eq_false]
    refine ⟨by first | rfl | trivial, ?_, ?_⟩
    · have := RingOK_empty_insert m node hn
      simpa [RingOK, hcz] using this
    · intro x hx'
      have : x ≠ node := by simpa using hx'
      simp [setPrev, setNext, this]
  | cons a r =>
    have hhz : l.head ≠ 0 := by
      rw [hh]; intro e; exact h0 (e ▸ firstD_mem _ _ (by simp))
    have hp : (m l.tail).next = l.head := by
      rw [ht]; exact dlseg_last_next m _ _ _ 0 (by simp) hs
    have hnt : node ≠ l.tail := by
      rw [ht]; intro e; exact hx (e ▸ lastD_mem _ _ (by simp))
    simp only [link_push, hn, hhz, if_false, ne_eq, not_false_eq_true, if_true]
    rw [INSERT_AFTER_eq, hp]
    refine ⟨by first | rfl | trivial, ⟨?_, ?_, ?_, ?_, ?_, ?_⟩, ?_⟩
    · simp [hc]
    · simpa [firstD] using hh
    · simp [lastD_append, lastD]
    · exact List.nodup_append.2 ⟨hnd, by simp, by
        intro x hx1 hx2
        have : x = node := by simpa using hx2
        exact hx (this ▸ hx1)⟩
    · simp only [List.mem_append, List.mem_singleton, not_or]; exact ⟨h0, hn.symm⟩
    · rw [dlseg_append]
      constructor
      · have h1 := dlseg_setPrev_head m (a :: r) l.tail l.head node 0 hnd hs
        rw [← hh] at h1
        have h2 := (dlseg_setPrev_frame _ _ node l.head node l.tail hx).2 h1
        have h3 := (dlseg_setNext_frame _ _ node l.head node l.head hx).2 h2
        have h4 := dlseg_setNext_last _ _ node l.head node 0 (by simp) hnd h3
        rw [← ht] at h4
        exact h4
      · refine ⟨?_, ?_, trivial⟩
        · have : lastD (a :: r) node = l.tail := by rw [ht]; rfl
          rw [this]
          simp [setPrev_prev]
        · simp [setNext_next, hnt, firstD]
    · intro x hx'
      have hxn : x ≠ node := fun e => hx' (e ▸ List.mem_cons_self _ _)
      have hxa : x ∉ a :: r := fun e => hx' (List.mem_cons_of_mem _ e)
      have e1 : x ≠ l.head := by
        rw [hh]; intro e; exact hxa (e ▸ firstD_mem _ _ (by simp))
      have e2 : x ≠ l.tail := by
        rw [ht]; intro e; exact hxa (e ▸ lastD_mem _ _ (by simp))
      rw [setNext_other _ _ _ _ e2, setNext_other _ _ _ _ hxn,
        setPrev_other _ _ _ _ hxn, setPrev_other _ _ _ _ e1]

theorem dlseg_self_prev (m : Nodes) (l1 l2 : List Nat) (t p n : Nat)
    (h : dlseg m (l1 ++ t :: l2) p n) :
    (m t).prev = lastD l1 p ∧ (m t).next = firstD l2 n := by
  rw [dlseg_append] at h
  exact ⟨h.2.1, h.2.2.1⟩

theorem link_remove_force_mem (m : Nodes) (l : LINK) (l1 l2 : List Nat) (t : Nat)
    (h : RingOK m l (l1 ++ t :: l2)) :
    (link_remove_force m l t).1 = t ∧
    RingOK (link_remove_force m l t).2.1 (link_remove_force m l t).2.2 (l1 ++ l2) ∧
    (∀ x, x ∉ l1 ++ l2 → (link_remove_force m l t).2.1 x = m x) := by
  obtain ⟨hc, hh, ht, hnd, h0, hs⟩ := h
  have ht0 : t ≠ 0 := fun e => h0 (by simp [e])
  have hcz : l.count ≠ 0 := by rw [hc]; simp; omega
  have htl1 : t ∉ l1 := fun e => by
    have := (List.nodup_append.1 hnd).2.2 e (List.mem_cons_self _ _)
    exact this
  have htl2 : t ∉ l2 := (List.nodup_cons.1 (List.nodup_append.1 hnd).2.1).1
  have hnd1 : l1.Nodup := (List.nodup_append.1 hnd).1
  have hnd2 : l2.Nodup := (List.nodup_cons.1 (List.nodup_append.1 hnd).2.1).2
  have hdis : ∀ x, x ∈ l1 → x ∉ l2 := fun x h1 h2 =>
    (List.nodup_append.1 hnd).2.2 h1 (List.mem_cons_of_mem _ h2)
  have hnd12 : (l1 ++ l2).Nodup := List.nodup_append.2 ⟨hnd1, hnd2, fun x h1 h2 => hdis x h1 h2⟩
  have h012 : 0 ∉ l1 ++ l2 := fun e => h0 (by
    rcases List.mem_append.1 e with e | e
    · exact List.mem_append_left _ e
    · exact List.mem_append_right _ (List.mem_cons_of_mem _ e))
  obtain ⟨hP, hN⟩ := dlseg_self_prev m l1 l2 t l.tail l.head hs
  rw [dlseg_append] at hs
  obtain ⟨hs1, -, -, hs2⟩ := hs
  have hnext : (setPrev (setNext m (lastD l1 l.tail) (firstD l2 l.head)) (firstD l2 l.head)
      (lastD l1 l.tail) t).next = firstD l2 l.head := by
    rw [setPrev_next, setNext_next]; split
    · rfl
    · exact hN
  have hprev : (setPrev (setNext m (lastD l1 l.tail) (firstD l2 l.head)) (firstD l2 l.head)
      (lastD l1 l.tail) t).prev = lastD l1 l.tail := by
    rw [setPrev_prev]; split
    · rfl
    · rw [setNext_prev]; exact hP
  simp only [link_remove_force, ht0, hcz, if_false]
  rw [REMOVE_eq, hP, hN]
  simp only [hnext, hprev]
  cases l1 with
  | nil =>
    have hht : l.head = t := hh
    cases l2 with
    | nil =>
      have hc1 : l.count = 1 := by simpa using hc
      have htt : l.tail = t := ht
      simp only [hc1, if_true]
      refine ⟨trivial, ⟨rfl, rfl, rfl, by simp, by simp, trivial⟩, ?_⟩
      intro x _
      simp only [lastD, firstD, htt, hht] at hP hN ⊢
      by_cases e1 : x = t
      · subst e1
        simp only [setPrev, setNext, if_true]
        cases hm : m x with
        | mk p n => rw [hm] at hP hN; simp only at hP hN; rw [hP, hN]
      · rw [setPrev_other _ _ _ _ e1, setNext_other _ _ _ _ e1]
    | cons b r =>
      have hc1 : l.count ≠ 1 := by
        rw [hc]; simp only [List.length_append, List.length_cons, List.length_nil]; omega
      have htb : l.tail = lastD (b :: r) 0 := by rw [ht]; rfl
      simp only [hc1, hht, if_false, if_true, lastD, firstD, List.nil_append]
      refine ⟨trivial, ⟨?_, rfl, htb, hnd2, by simpa using h012, ?_⟩, ?_⟩
      · rw [hc]; simp only [List.length_append, List.length_cons, List.length_nil]
        push_cast; omega
      · have h1 := dlseg_setNext_last m (b :: r) t l.head b 0 (by simp) hnd2 hs2
        rw [← htb] at h1
        exact dlseg_setPrev_head _ (b :: r) t b l.tail 0 hnd2 h1
      · intro x hx
        have hx' : x ∉ b :: r := by simpa using hx
        have e1 : x ≠ b := fun e => hx' (e ▸ List.mem_cons_self _ _)
        have e2 : x ≠ l.tail := by
          rw [htb]; intro e; exact hx' (e ▸ lastD_mem _ _ (by simp))
        rw [setPrev_other _ _ _ _ e1, setNext_other _ _ _ _ e2]
  | cons a r1 =>
    have hha : l.head = a := hh
    have hat : a ≠ t := fun e => htl1 (e ▸ List.mem_cons_self _ _)
    have hc1 : l.count ≠ 1 := by
      rw [hc]; simp only [List.length_append, List.length_cons, List.length_nil]; omega
    have hht : l.head ≠ t := by rw [hha]; exact hat
    cases l2 with
    | nil =>
      have htt : l.tail = t := by rw [ht]; simp [lastD_append, lastD]
      simp only [hc1, hht, htt, if_false, if_true, firstD, List.append_nil]
      refine ⟨trivial, ⟨?_, hh.trans rfl, rfl, hnd1, by simpa using h012, ?_⟩, ?_⟩
      · rw [hc]; simp only [List.length_append, List.length_cons, List.length_nil]
        push_cast; omega
      · have h1 := dlseg_setNext_last m (a :: r1) l.tail t l.head t (by simp) hnd1 hs1
        have h2 := dlseg_setPrev_head _ (a :: r1) l.tail l.head (lastD (a :: r1) t) 0 hnd1 h1
        have e : firstD (a :: r1) 0 = l.head := hha.symm
        rw [e] at h2
        exact h2
      · intro x hx
        have hx' : x ∉ a :: r1 := by simpa using hx
        have e1 : x ≠ l.head := by rw [hha]; exact fun e => hx' (e ▸ List.mem_cons_self _ _)
        have e2 : x ≠ lastD (a :: r1) t := by
          intro e; exact hx' (e ▸ lastD_mem _ _ (by simp))
        rw [setPrev_other _ _ _ _ e1, setNext_other _ _ _ _ e2]
    | cons b r2 =>
      have htb : l.tail = lastD (b :: r2) 0 := by
        rw [ht, lastD_append]; rfl
      have htt : l.tail ≠ t := by
        rw [htb]; intro e; exact htl2 (e ▸ lastD_mem _ _ (by simp))
      simp only [hc1, hht, htt, if_false, firstD]
      refine ⟨trivial, ⟨?_, ?_, ?_, hnd12, h012, ?_⟩, ?_⟩
      · rw [hc]; simp only [List.length_append, List.length_cons, List.length_nil]
        push_cast; omega
      · exact hh.trans rfl
      · rw [htb]; simp [lastD_append, lastD]
      · rw [dlseg_append]
        have hb1 : b ∉ a :: r1 := fun e => hdis b e (List.mem_cons_self _ _)
        have hl2 : lastD (a :: r1) l.tail ∉ b :: r2 := hdis _ (lastD_mem _ _ (by simp))
        constructor
        · have h1 := dlseg_setNext_last m (a :: r1) l.tail t b l.tail (by simp) hnd1 hs1
          exact (dlseg_setPrev_frame _ _ _ _ b _ hb1).2 h1
        · have h1 := (dlseg_setNext_frame m _ t l.head (lastD (a :: r1) l.tail) b hl2).2 hs2
          exact dlseg_setPrev_head _ (b :: r2) t l.head (lastD (a :: r1) l.tail) 0 hnd2 h1
      · intro x hx
        have e1 : x ≠ b := fun e => hx (e ▸ List.mem_append_right _ (List.mem_cons_self _ _))
        have e2 : x ≠ lastD (a :: r1) l.tail := by
          intro e; exact hx (e ▸ List.mem_append_left _ (lastD_mem _ _ (by simp)))
        rw [setPrev_other _ _ _ _ e1, setNext_other _ _ _ _ e2]

@[simp] theorem sel_setPage_node (s : Heap) (a : Nat) (p : MEM_PAGE) :
    (s.setPage a p).node = s.node := rfl

@[simp] theorem sel_setPage_page (s : Heap) (a : Nat) (p : MEM_PAGE) :
    (s.setPage a p).page = fun x => if x = a then p else s.page x := rfl

@[simp] theorem sel_setPage_block (s : Heap) (a : Nat) (p : MEM_PAGE) :
    (s.setPage a p).block = s.block := rfl

@[simp] theorem sel_setPage_byte (s : Heap) (a : Nat) (p : MEM_PAGE) :
    (s.setPage a p).byte = s.byte := rfl

@[simp] theorem sel_setPage_mem_page_map (s : Heap) (a : Nat) (p : MEM_PAGE) :
    (s.setPage a p).mem_page_map = s.mem_page_map := rfl

@[simp] theorem sel_setPage_brk (s : Heap) (a : Nat) (p : MEM_PAGE) :
    (s.setPage a p).brk = s.brk := rfl

@[simp] theorem sel_setPage_live (s : Heap) (a : Nat) (p : MEM_PAGE) :
    (s.setPage a p).live = s.live := rfl

@[simp] theorem sel_setBlock_node (s : Heap) (a : Nat) (b : MEM_BLOCK) :
    (s.setBlock a b).node = s.node := rfl

@[simp] theorem sel_setBlock_page (s : Heap) (a : Nat) (b : MEM_BLOCK) :
    (s.setBlock a b).page = s.page := rfl

@[simp] theorem sel_setBlock_block (s : Heap) (a : Nat) (b : MEM_BLOCK) :
    (s.setBlock a b).block = fun x => if x = a then b else s.block x := rfl

@[simp] theorem sel_setBlock_byte (s : Heap) (a : Nat) (b : MEM_BLOCK) :
    (s.setBlock a b).byte = s.byte := rfl

@[simp] theorem sel_setBlock_mem_page_map (s : Heap) (a : Nat) (b : MEM_BLOCK) :
    (s.setBlock a b).mem_page_map = s.mem_page_map := rfl

@[simp] theorem sel_setBlock_brk (s : Heap) (a : Nat) (b : MEM_BLOCK) :
    (s.setBlock a b).brk = s.brk := rfl

@[simp] theorem sel_setBlock_live (s : Heap) (a : Nat) (b : MEM_BLOCK) :
    (s.setBlock a b).live = s.live := rfl

@[simp] theorem sel_setLink_node (s : Heap) (i : Nat) (l : MEM_PAGE_LINK) :
    (s.setLink i l).node = s.node := rfl

@[simp] theorem sel_setLink_page (s : Heap) (i : Nat) (l : MEM_PAGE_LINK) :
    (s.setLink i l).page = s.page := rfl

@[simp] theorem sel_setLink_block (s : Heap) (i : Nat) (l : MEM_PAGE_LINK) :
    (s.setLink i l).block = s.block := rfl

@[simp] theorem sel_setLink_byte (s : Heap) (i : Nat) (l : MEM_PAGE_LINK) :
    (s.setLink i l).byte = s.byte := rfl

@[simp] theorem sel_setLink_mem_page_map (s : Heap) (i : Nat) (l : MEM_PAGE_LINK) :
    (s.setLink i l).mem_page_map = fun x => if x = i then l else s.mem_page_map x := rfl

@[simp] theorem sel_setLink_brk (s : Heap) (i : Nat) (l : MEM_PAGE_LINK) :
    (s.setLink i l).brk = s.brk := rfl

@[simp] theorem sel_setLink_live (s : Heap) (i : Nat) (l : MEM_PAGE_LINK) :
    (s.setLink i l).live = s.live := rfl

@[simp] theorem sel_memset_node (s : Heap) (p v n : Nat) :
    (s.memset p v n).node = s.node := rfl

@[simp] theorem sel_memset_page (s : Heap) (p v n : Nat) :
    (s.memset p v n).page = s.page := rfl

@[simp] theorem sel_memset_block (s : Heap) (p v n : Nat) :
    (s.memset p v n).block = s.block := rfl

@[simp] theorem sel_memset_byte (s : Heap) (p v n : Nat) :
    (s.memset p v n).byte = fun x => if p ≤ x ∧ x < p + n then v else s.byte x := rfl

@[simp] theorem sel_memset_mem_page_map (s : Heap) (p v n : Nat) :
    (s.memset p v n).mem_page_map = s.mem_page_map := rfl

@[simp] theorem sel_memset_brk (s : Heap) (p v n : Nat) :
    (s.memset p v n).brk = s.brk := rfl

@[simp] theorem sel_memset_live (s : Heap) (p v n : Nat) :
    (s.memset p v n).live = s.live := rfl

@[simp] theorem sel_memcpy_node (s : Heap) (d r n : Nat) :
    (s.memcpy d r n).node = s.node := rfl

@[simp] theorem sel_memcpy_page (s : Heap) (d r n : Nat) :
    (s.memcpy d r n).page = s.page := rfl

@[simp] theorem sel_memcpy_block (s : Heap) (d r n : Nat) :
    (s.memcpy d r n).block = s.block := rfl

@[simp] theorem sel_memcpy_byte (s : Heap) (d r n : Nat) :
    (s.memcpy d r n).byte = fun x => if d ≤ x ∧ x < d + n then s.byte (r + (x - d)) else s.byte x := rfl

@[simp] theorem sel_memcpy_mem_page_map (s : Heap) (d r n : Nat) :
    (s.memcpy d r n).mem_page_map = s.mem_page_map := rfl

@[simp] theorem sel_memcpy_brk (s : Heap) (d r n : Nat) :
    (s.memcpy d r n).brk = s.brk := rfl

@[simp] theorem sel_memcpy_live (s : Heap) (d r n : Nat) :
    (s.memcpy d r n).live = s.live := rfl

@[simp] theorem sel_write_node (s : Heap) (a v : Nat) :
    (s.write a v).node = s.node := rfl

@[simp] theorem sel_write_page (s : Heap) (a v : Nat) :
    (s.write a v).page = s.page := rfl

@[simp] theorem sel_write_block (s : Heap) (a v : Nat) :
    (s.write a v).block = s.block := rfl

@[simp] theorem sel_write_byte (s : Heap) (a v : Nat) :
    (s.write a v).byte = fun x => if x = a then v else s.byte x := rfl

@[simp] theorem sel_write_mem_page_map (s : Heap) (a v : Nat) :
    (s.write a v).mem_page_map = s.mem_page_map := rfl

@[simp] theorem sel_write_brk (s : Heap) (a v : Nat) :
    (s.write a v).brk = s.brk := rfl

@[simp] theorem sel_write_live (s : Heap) (a v : Nat) :
    (s.write a v).live = s.live := rfl

@[simp] theorem sel_free_node (s : Heap) (p : Nat) :
    (s.free p).node = s.node := rfl

@[simp] theorem sel_free_page (s : Heap) (p : Nat) :
    (s.free p).page = s.page := rfl

@[simp] theorem sel_free_block (s : Heap) (p : Nat) :
    (s.free p).block = s.block := rfl

@[simp] theorem sel_free_byte (s : Heap) (p : Nat) :
    (s.free p).byte = s.byte := rfl

@[simp] theorem sel_free_mem_page_map (s : Heap) (p : Nat) :
    (s.free p).mem_page_map = s.mem_page_map := rfl

@[simp] theorem sel_free_brk (s : Heap) (p : Nat) :
    (s.free p).brk = s.brk := rfl

@[simp] theorem sel_free_live (s : Heap) (p : Nat) :
    (s.free p).live = s.live.filter (fun r => r.1 ≠ p) := rfl

@[simp] theorem sel_ADDR_TO_MEM_node (s : Heap) (p v : Nat) :
    (ADDR_TO_MEM s p v).node = s.node := rfl

@[simp] theorem sel_ADDR_TO_MEM_page (s : Heap) (p v : Nat) :
    (ADDR_TO_MEM s p v).page = s.page := rfl

@[simp] theorem sel_ADDR_TO_MEM_block (s : Heap) (p v : Nat) :
    (ADDR_TO_MEM s p v).block = s.block := rfl

@[simp] theorem sel_ADDR_TO_MEM_byte (s : Heap) (p v : Nat) :
    (ADDR_TO_MEM s p v).byte = fun x => if p ≤ x ∧ x < p + 8 then v / 2 ^ (8 * (x - p)) % 256 else s.byte x := rfl

@[simp] theorem sel_ADDR_TO_MEM_mem_page_map (s : Heap) (p v : Nat) :
    (ADDR_TO_MEM s p v).mem_page_map = s.mem_page_map := rfl

@[simp] theorem sel_ADDR_TO_MEM_brk (s : Heap) (p v : Nat) :
    (ADDR_TO_MEM s p v).brk = s.brk := rfl

@[simp] theorem sel_ADDR_TO_MEM_live (s : Heap) (p v : Nat) :
    (ADDR_TO_MEM s p v).live = s.live := rfl

@[simp] theorem sel_malloc_fst (s : Heap) (n : Nat) : (s.malloc n).1 = s.brk := rfl

@[simp] theorem sel_malloc_node (s : Heap) (n : Nat) : (s.malloc n).2.node = s.node := rfl

@[simp] theorem sel_malloc_page (s : Heap) (n : Nat) : (s.malloc n).2.page = s.page := rfl

@[simp] theorem sel_malloc_block (s : Heap) (n : Nat) : (s.malloc n).2.block = s.block := rfl

@[simp] theorem sel_malloc_byte (s : Heap) (n : Nat) : (s.malloc n).2.byte = s.byte := rfl

@[simp] theorem sel_malloc_mem_page_map (s : Heap) (n : Nat) :
    (s.malloc n).2.mem_page_map = s.mem_page_map := rfl

@[simp] theorem sel_malloc_brk (s : Heap) (n : Nat) :
    (s.malloc n).2.brk = s.brk + (n + 15) / 16 * 16 + 16 := rfl

@[simp] theorem sel_malloc_live (s : Heap) (n : Nat) :
    (s.malloc n).2.live = (s.brk, n) :: s.live := rfl

@[simp] theorem sel_memset_zero_node (s : Heap) (p n : Nat) :
    (s.memset_zero p n).node = fun x => if p ≤ x ∧ x < p + n then ⟨0, 0⟩ else s.node x := rfl

@[simp] theorem sel_memset_zero_page (s : Heap) (p n : Nat) :
    (s.memset_zero p n).page = fun x => if p ≤ x ∧ x < p + n then MEM_PAGE.zero else s.page x :=
  rfl

@[simp] theorem sel_memset_zero_block (s : Heap) (p n : Nat) :
    (s.memset_zero p n).block =
      fun x => if p ≤ x ∧ x < p + n then MEM_BLOCK.zero else s.block x := rfl

@[simp] theorem sel_memset_zero_byte (s : Heap) (p n : Nat) :
    (s.memset_zero p n).byte = fun x => if p ≤ x ∧ x < p + n then 0 else s.byte x := rfl

@[simp] theorem sel_memset_zero_mem_page_map (s : Heap) (p n : Nat) :
    (s.memset_zero p n).mem_page_map = s.mem_page_map := rfl

@[simp] theorem sel_memset_zero_brk (s : Heap) (p n : Nat) : (s.memset_zero p n).brk = s.brk := rfl

@[simp] theorem sel_memset_zero_live (s : Heap) (p n : Nat) : (s.memset_zero p n).live = s.live := rfl

@[simp] theorem sel_withLink_node {α : Type} (s : Heap) (i : Nat)
    (f : Nodes → LINK → α × Nodes × LINK) :
    (s.withLink i f).2.node = (f s.node (s.mem_page_map i).toLINK).2.1 := rfl

@[simp] theorem sel_withLink_fst {α : Type} (s : Heap) (i : Nat)
    (f : Nodes → LINK → α × Nodes × LINK) :
    (s.withLink i f).1 = (f s.node (s.mem_page_map i).toLINK).1 := rfl

@[simp] theorem sel_withLink_page {α : Type} (s : Heap) (i : Nat)
    (f : Nodes → LINK → α × Nodes × LINK) : (s.withLink i f).2.page = s.page := rfl

@[simp] theorem sel_withLink_block {α : Type} (s : Heap) (i : Nat)
    (f : Nodes → LINK → α × Nodes × LINK) : (s.withLink i f).2.block = s.block := rfl

@[simp] theorem sel_withLink_byte {α : Type} (s : Heap) (i : Nat)
    (f : Nodes → LINK → α × Nodes × LINK) : (s.withLink i f).2.byte = s.byte := rfl

@[simp] theorem sel_withLink_brk {α : Type} (s : Heap) (i : Nat)
    (f : Nodes → LINK → α × Nodes × LINK) : (s.withLink i f).2.brk = s.brk := rfl

@[simp] theorem sel_withLink_live {α : Type} (s : Heap) (i : Nat)
    (f : Nodes → LINK → α × Nodes × LINK) : (s.withLink i f).2.live = s.live := rfl

@[simp] theorem sel_withLink_mem_page_map {α : Type} (s : Heap) (i : Nat)
    (f : Nodes → LINK → α × Nodes × LINK) :
    (s.withLink i f).2.mem_page_map = fun x =>
      if x = i then
        { s.mem_page_map i with toLINK := (f s.node (s.mem_page_map i).toLINK).2.2 }
      else s.mem_page_map x := rfl

@[simp] theorem sel_MEM_TO_ADDR_setBlock (s : Heap) (a : Nat) (b : MEM_BLOCK) (p : Nat) :
    MEM_TO_ADDR (s.setBlock a b) p = MEM_TO_ADDR s p := rfl

@[simp] theorem sel_MEM_TO_ADDR_setPage (s : Heap) (a : Nat) (b : MEM_PAGE) (p : Nat) :
    MEM_TO_ADDR (s.setPage a b) p = MEM_TO_ADDR s p := rfl

@[simp] theorem sel_MEM_TO_ADDR_setLink (s : Heap) (a : Nat) (b : MEM_PAGE_LINK) (p : Nat) :
    MEM_TO_ADDR (s.setLink a b) p = MEM_TO_ADDR s p := rfl

theorem page_info_facts (i : Nat) (hi : i < 15) :
    8 ≤ (page_info i).block_size ∧ (page_info i).block_size ≤ 512 ∧
    1 ≤ (page_info i).block_num ∧ (page_info i).block_num ≤ 128 ∧
    (page_info i).block_num * (page_info i).block_size ≤ (page_info i).total_size ∧
    (page_info i).total_size ≤ 4096 ∧
    (is_ext i → (page_info i).block_num = 1 ∧ (page_info i).block_size = 8) ∧
    (¬ is_ext i → 8 ≤ (page_info i).block_num) := by
  interval_cases i <;> simp [page_info, mem_page_info_list, is_ext, MEM_PAGE_BLOCK_INFO_COUNT]

theorem page_info_type (i : Nat) (hi : i < 15) :
    ((page_info i).page_type = MEM_PAGE_TYPE_ZERO ↔ i = 0) ∧
    ((page_info i).page_type = MEM_PAGE_TYPE_LARGE ↔ i = 14) ∧
    (¬ is_ext i → get_page_index (page_info i).block_size = i) := by
  interval_cases i <;> decide

theorem block_addr_bound (a i k : Nat) (hi : i < 15) (hk : k < (page_info i).block_num) :
    a + 48 ≤ block_addr a i k ∧
    block_addr a i k + 16 + (page_info i).block_size ≤ a + page_size i := by
  unfold block_addr page_size
  interval_cases i <;>
    simp [page_info, mem_page_info_list, sizeof_MEM_PAGE, sizeof_MEM_BLOCK] at hk ⊢ <;> omega

theorem block_addr_disjoint (a i k k' : Nat) (hi : i < 15) (h : k ≠ k') :
    block_addr a i k + 16 + (page_info i).block_size ≤ block_addr a i k' ∨
    block_addr a i k' + 16 + (page_info i).block_size ≤ block_addr a i k := by
  unfold block_addr
  interval_cases i <;>
    simp [page_info, mem_page_info_list, sizeof_MEM_PAGE, sizeof_MEM_BLOCK] <;> omega

theorem block_addr_inj (a i k k' : Nat) (hi : i < 15)
    (h : block_addr a i k = block_addr a i k') : k = k' := by
  by_contra hne
  have := block_addr_disjoint a i k k' hi hne
  omega

theorem live_disjoint (l : List (Nat × Nat)) (h : l.Pairwise (fun x y => y.1 + y.2 < x.1))
    (r r' : Nat × Nat) (hr : r ∈ l) (hr' : r' ∈ l) (hne : r.1 ≠ r'.1) :
    r.1 + r.2 < r'.1 ∨ r'.1 + r'.2 < r.1 := by
  induction l with
  | nil => cases hr
  | cons x xs ih =>
    rw [List.pairwise_cons] at h
    rcases List.mem_cons.1 hr with e | e <;> rcases List.mem_cons.1 hr' with e' | e'
    · subst e; subst e'; exact absurd rfl hne
    · subst e; exact Or.inr (h.1 _ e')
    · subst e'; exact Or.inl (h.1 _ e)
    · exact ih h.2 e e'

theorem live_same (l : List (Nat × Nat)) (h : l.Pairwise (fun x y => y.1 + y.2 < x.1))
    (r r' : Nat × Nat) (hr : r ∈ l) (hr' : r' ∈ l) (he : r.1 = r'.1) : r = r' := by
  induction l with
  | nil => cases hr
  | cons x xs ih =>
    rw [List.pairwise_cons] at h
    rcases List.mem_cons.1 hr with e | e <;> rcases List.mem_cons.1 hr' with e' | e'
    · rw [e, e']
    · subst e; have := h.1 _ e'; omega
    · subst e'; have := h.1 _ e; omega
    · exact ih h.2 e e'

theorem free_chain_congr (s t : Heap) (fl : List Nat)
    (h : ∀ b ∈ fl, ∀ x, b + 16 ≤ x → x < b + 24 → t.byte x = s.byte x) :
    free_chain t fl ↔ free_chain s fl := by
  induction fl with
  | nil => simp [free_chain]
  | cons b r ih =>
    simp only [free_chain]
    rw [ih (fun c hc => h c (List.mem_cons_of_mem _ hc)),
      MEM_TO_ADDR_congr s t (b + sizeof_MEM_BLOCK) (fun x h1 h2 =>
        h b (List.mem_cons_self _ _) x (by simpa [sizeof_MEM_BLOCK] using h1)
          (by simp only [sizeof_MEM_BLOCK] at h2; omega))]

theorem ext_word_congr (s t : Heap) (i a : Nat) (hi : i < 15)
    (hbyte : ∀ x, a + 48 ≤ x → x < a + page_size i → t.byte x = s.byte x) :
    MEM_TO_ADDR t (a + sizeof_MEM_PAGE + sizeof_MEM_BLOCK)
      = MEM_TO_ADDR s (a + sizeof_MEM_PAGE + sizeof_MEM_BLOCK) := by
  apply MEM_TO_ADDR_congr
  intro x h1 h2
  have := block_addr_bound a i 0 hi (page_info_facts i hi).2.2.1
  have hb := (page_info_facts i hi).1
  simp only [block_addr, sizeof_MEM_PAGE, sizeof_MEM_BLOCK] at this h1 h2
  exact hbyte x (by omega) (by omega)

theorem PageOK_frame (s t : Heap) (g g' : Ghost) (L L' : List Nat) (i a : Nat) (hi : i < 15)
    (h : PageOK s g L i a)
    (hp : t.page a = s.page a)
    (hfl : g'.fl a = g.fl a) (hlen : g'.len a = g.len a)
    (hblk : ∀ k < (page_info i).block_num,
      t.block (block_addr a i k) = s.block (block_addr a i k))
    (hbyte : ∀ b ∈ g.fl a, ∀ x, b + 16 ≤ x → x < b + 24 → t.byte x = s.byte x)
    (hw : is_ext i → (s.page a).using_count ≠ 0 →
      MEM_TO_ADDR t (a + sizeof_MEM_PAGE + sizeof_MEM_BLOCK)
        = MEM_TO_ADDR s (a + sizeof_MEM_PAGE + sizeof_MEM_BLOCK))
    (hlive : (a, page_size i) ∈ t.live)
    (hext : is_ext i → (s.page a).using_count ≠ 0 →
      t.block (MEM_TO_ADDR s (a + sizeof_MEM_PAGE + sizeof_MEM_BLOCK))
        = s.block (MEM_TO_ADDR s (a + sizeof_MEM_PAGE + sizeof_MEM_BLOCK)) ∧
      (MEM_TO_ADDR s (a + sizeof_MEM_PAGE + sizeof_MEM_BLOCK), sizeof_MEM_BLOCK + g.len a)
        ∈ t.live ∧
      MEM_TO_ADDR s (a + sizeof_MEM_PAGE + sizeof_MEM_BLOCK) + sizeof_MEM_BLOCK ∈ L' ∧
      ∀ j < MEM_PAGE_BLOCK_INFO_COUNT,
        MEM_TO_ADDR s (a + sizeof_MEM_PAGE + sizeof_MEM_BLOCK) ∉ g'.lists j) :
    PageOK t g' L' i a := by
  refine
    { head_addr := by rw [hp]; exact h.head_addr
      type := by rw [hp]; exact h.type
      block_num := by rw [hp]; exact h.block_num
      block_head := by rw [hp]; exact h.block_head
      block_data := by rw [hp]; exact h.block_data
      status := by rw [hp]; exact h.status
      fl_len := by rw [hp, hfl]; exact h.fl_len
      fl_nodup := by rw [hfl]; exact h.fl_nodup
      fl_blocks := by rw [hfl]; exact h.fl_blocks
      idle := by rw [hp, hfl]; exact h.idle
      chain := ?_
      hdr := by
        intro k hk
        rw [hblk k hk, hfl]; exact h.hdr k hk
      live := hlive
      alloc_slab := by rw [hp]; exact h.alloc_slab
      ext_idle := by rw [hp]; exact h.ext_idle
      ext_used := ?_ }
  · rw [hfl, free_chain_congr s t]
    · exact h.chain
    · exact hbyte
  · intro he hu
    rw [hp] at hu
    obtain ⟨h1, h2, h3, h4⟩ := hext he hu
    have hw := hw he hu
    have o := h.ext_used he hu
    exact
      { hdr := by rw [hw, h1]; exact o.hdr
        live := by rw [hw, hlen]; exact h2
        out := by rw [hw]; exact h3
        alloc := by rw [hp, hlen]; exact o.alloc
        len_le := by rw [hlen]; exact o.len_le
        cls := by rw [hlen]; exact o.cls
        fresh := by rw [hw]; exact h4 }

theorem class_unique (s : Heap) (g : Ghost) (L : List Nat) (hI : Inv s g L) (i j a : Nat)
    (hi : i < 15) (hj : j < 15) (ha : a ∈ g.lists i) (ha' : a ∈ g.lists j) : i = j := by
  have p := hI.pages i hi a ha
  have q := hI.pages j hj a ha'
  have t := p.type.symm.trans q.type
  have d := p.block_data.symm.trans q.block_data
  clear p q ha ha' hI
  interval_cases i <;> interval_cases j <;> first | rfl | (revert t d; decide)

theorem not_owned_other (s : Heap) (g : Ghost) (L : List Nat) (hI : Inv s g L) (i j pg a : Nat)
    (hi : i < 15) (hj : j < 15) (hpg : pg ∈ g.lists i) (ha : a ∈ g.lists j) (hne : a ≠ pg)
    (x : Nat) (hx : owned s g i pg x) :
    ¬ (a ≤ x ∧ x < a + page_size j) ∧
    (is_ext j → (s.page a).using_count ≠ 0 →
      ¬ (MEM_TO_ADDR s (a + sizeof_MEM_PAGE + sizeof_MEM_BLOCK) ≤ x ∧
        x < MEM_TO_ADDR s (a + sizeof_MEM_PAGE + sizeof_MEM_BLOCK) + sizeof_MEM_BLOCK
          + g.len a)) := by
  have pa := hI.pages j hj a ha
  have pp := hI.pages i hi pg hpg
  have la := hI.live_brk _ pa.live
  have lp := hI.live_brk _ pp.live
  have dap := live_disjoint _ hI.live_sorted _ _ pa.live pp.live hne
  simp only at la lp dap
  constructor
  · rintro ⟨h1, h2⟩
    rcases hx with hx | ⟨he, hu, h3, h4⟩ | hx
    · omega
    · have o := pp.ext_used he hu
      have ne : a ≠ MEM_TO_ADDR s (pg + sizeof_MEM_PAGE + sizeof_MEM_BLOCK) :=
        fun e => o.fresh j hj (e ▸ ha)
      have d := live_disjoint _ hI.live_sorted _ _ pa.live o.live ne
      simp only at d
      omega
    · omega
  · intro he hu ⟨h1, h2⟩
    have o := pa.ext_used he hu
    have lo := hI.live_brk _ o.live
    simp only at lo
    rcases hx with hx | ⟨he', hu', h3, h4⟩ | hx
    · have ne : pg ≠ MEM_TO_ADDR s (a + sizeof_MEM_PAGE + sizeof_MEM_BLOCK) :=
        fun e => o.fresh i hi (e ▸ hpg)
      have d := live_disjoint _ hI.live_sorted _ _ pp.live o.live ne
      simp only at d
      omega
    · have o' := pp.ext_used he' hu'
      have ne : MEM_TO_ADDR s (a + sizeof_MEM_PAGE + sizeof_MEM_BLOCK) ≠
          MEM_TO_ADDR s (pg + sizeof_MEM_PAGE + sizeof_MEM_BLOCK) := by
        intro e
        have h5 := o.hdr
        rw [e, o'.hdr] at h5
        exact hne (congrArg MEM_BLOCK.page h5).symm
      have d := live_disjoint _ hI.live_sorted _ _ o.live o'.live ne
      simp only at d
      omega
    · omega

theorem sep_owned (s : Heap) (g : Ghost) (L : List Nat) (hI : Inv s g L) (i pg : Nat)
    (hi : i < 15) (hpg : pg ∈ g.lists i) : PagesSep s g pg (owned s g i pg) :=
  fun j hj a ha hne x hx => not_owned_other s g L hI i j pg a hi hj hpg ha hne x hx

theorem sep_fresh (s : Heap) (g : Ghost) (L : List Nat) (hI : Inv s g L) (pg : Nat) :
    PagesSep s g pg (fun x => s.brk ≤ x) := by
  intro j hj a ha _ x hx
  have pa := hI.pages j hj a ha
  have la := hI.live_brk _ pa.live
  simp only at la
  refine ⟨by omega, ?_⟩
  intro he hu
  have lo := hI.live_brk _ (pa.ext_used he hu).live
  simp only at lo
  omega

theorem pages_frame (s t : Heap) (g g' : Ghost) (L L' : List Nat) (pg : Nat) (W : Nat → Prop)
    (hI : Inv s g L) (hsep : PagesSep s g pg W)
    (hpage : ∀ j < 15, ∀ a ∈ g.lists j, a ≠ pg → t.page a = s.page a)
    (hfl : ∀ a, a ≠ pg → g'.fl a = g.fl a)
    (hlen : ∀ a, a ≠ pg → g'.len a = g.len a)
    (hblock : ∀ x, ¬ W x → t.block x = s.block x)
    (hbyte : ∀ x, ¬ W x → t.byte x = s.byte x)
    (hlive : ∀ r ∈ s.live, ¬ W r.1 → r ∈ t.live)
    (hlists : ∀ j < 15, ∀ x ∈ g'.lists j, x ∈ g.lists j ∨ s.brk ≤ x)
    (hL : ∀ p ∈ L, (s.block (p - sizeof_MEM_BLOCK)).page ≠ pg → p ∈ L') :
    ∀ j < 15, ∀ a ∈ g.lists j, a ≠ pg → PageOK t g' L' j a := by
  intro j hj a ha hne
  have pa := hI.pages j hj a ha
  have no := hsep j hj a ha hne
  have fj := page_info_facts j hj
  apply PageOK_frame s t g g' L L' j a hj pa (hpage j hj a ha hne) (hfl a hne) (hlen a hne)
  · intro k hk
    apply hblock
    intro hx
    have := block_addr_bound a j k hj hk
    exact (no _ hx).1 (by omega)
  · intro b hb x h1 h2
    obtain ⟨k, hk, e⟩ := pa.fl_blocks b hb
    have := block_addr_bound a j k hj hk
    apply hbyte
    intro hx
    exact (no _ hx).1 (by omega)
  · intro _ _
    apply ext_word_congr s t j a hj
    intro x h1 h2
    apply hbyte
    intro hx
    exact (no _ hx).1 (by omega)
  · apply hlive _ pa.live
    intro hx
    have : 0 < page_size j := by unfold page_size sizeof_MEM_PAGE; omega
    exact (no _ hx).1 (by simp only; omega)
  · intro he hu
    have o := pa.ext_used he hu
    have lo := hI.live_brk _ o.live
    have e16 : sizeof_MEM_BLOCK = 16 := rfl
    simp only at lo
    have hno : ¬ W (MEM_TO_ADDR s (a + sizeof_MEM_PAGE + sizeof_MEM_BLOCK)) := by
      intro hx
      exact (no _ hx).2 he hu (by omega)
    refine ⟨hblock _ hno, hlive _ o.live hno, ?_, ?_⟩
    · apply hL _ o.out
      rw [Nat.add_sub_cancel, o.hdr]
      exact hne
    · intro j' hj' hx
      rcases hlists j' hj' _ hx with h | h
      · exact o.fresh j' hj' h
      · omega

theorem out_frame (s t : Heap) (g g' : Ghost) (L : List Nat) (pg : Nat) (W : Nat → Prop)
    (hI : Inv s g L) (hsep : PagesSep s g pg W)
    (hpage : ∀ j < 15, ∀ a ∈ g.lists j, a ≠ pg → t.page a = s.page a)
    (hfl : ∀ a, a ≠ pg → g'.fl a = g.fl a)
    (hblock : ∀ x, ¬ W x → t.block x = s.block x)
    (hbyte : ∀ x, ¬ W x → t.byte x = s.byte x)
    (hlists : ∀ j < 15, ∀ a ∈ g.lists j, a ≠ pg → a ∈ g'.lists j) :
    ∀ p ∈ L, (s.block (p - sizeof_MEM_BLOCK)).page ≠ pg → OutOK t g' p := by
  intro p hp hne
  obtain ⟨h16, j, hj, a, ha, hb, hc⟩ := hI.out p hp
  have hap : a ≠ pg := by rw [← hb]; exact hne
  have pa := hI.pages j hj a ha
  have no := hsep j hj a ha hap
  have hbytes : ∀ x, a + 48 ≤ x → x < a + page_size j → t.byte x = s.byte x := by
    intro x h1 h2
    apply hbyte
    intro hx
    exact (no _ hx).1 (by omega)
  refine ⟨h16, j, hj, a, hlists j hj a ha hap, ?_, ?_⟩
  · rcases hc with ⟨_, k, hk, e, _⟩ | ⟨he, hu, e⟩
    · rw [hblock, hb]
      intro hx
      have := block_addr_bound a j k hj hk
      rw [e, Nat.add_sub_cancel] at hx
      exact (no _ hx).1 (by omega)
    · rw [hblock, hb]
      intro hx
      rw [e, Nat.add_sub_cancel] at hx
      have e16 : sizeof_MEM_BLOCK = 16 := rfl
      exact (no _ hx).2 he hu (by omega)
  · rcases hc with ⟨hs, k, hk, e, hf⟩ | ⟨he, hu, e⟩
    · exact Or.inl ⟨hs, k, hk, e, by rw [hfl a hap]; exact hf⟩
    · refine Or.inr ⟨he, by rw [hpage j hj a ha hap]; exact hu, ?_⟩
      rw [ext_word_congr s t j a hj hbytes]
      exact e

theorem sum_range_update (f f' : Nat → Nat) (n i d1 d2 : Nat) (hi : i < n)
    (h : ∀ j < n, j ≠ i → f' j = f j) (hi' : f' i + d1 = f i + d2) :
    ((List.range n).map f').sum + d1 = ((List.range n).map f).sum + d2 := by
  induction n with
  | zero => omega
  | succ n ih =>
    simp only [List.range_succ, List.map_append, List.sum_append, List.map_cons, List.map_nil,
      List.sum_cons, List.sum_nil, Nat.add_zero]
    by_cases hin : i < n
    · have := ih hin (fun j hj hne => h j (by omega) hne)
      have := h n (by omega) (by omega)
      omega
    · have hn : i = n := by omega
      subst hn
      have e : (List.range i).map f' = (List.range i).map f :=
        List.map_congr_left (fun j hj => h j (by have := List.mem_range.1 hj; omega)
          (by have := List.mem_range.1 hj; omega))
      rw [e]
      omega

theorem RingOK_congr (m m' : Nodes) (l : LINK) (xs : List Nat) (h : RingOK m l xs)
    (hm : ∀ x ∈ xs, m' x = m x) : RingOK m' l xs := by
  obtain ⟨a, b, c, d, e, f⟩ := h
  exact ⟨a, b, c, d, e, (dlseg_congr m m' xs _ _ hm).2 f⟩

theorem Inv_local (s t : Heap) (g g' : Ghost) (L L' : List Nat) (i pg : Nat) (W : Nat → Prop)
    (d1 d2 : Nat)
    (hI : Inv s g L) (hi : i < 15)
    (hsep : PagesSep s g pg W)
    (hpgnot : ∀ j < 15, j ≠ i → pg ∉ g.lists j)
    (hnode : ∀ j < 15, j ≠ i → ∀ x ∈ g.lists j, t.node x = s.node x)
    (hmap : ∀ j < 15, j ≠ i → t.mem_page_map j = s.mem_page_map j)
    (hlj : ∀ j < 15, j ≠ i → g'.lists j = g.lists j)
    (hpage : ∀ j < 15, ∀ a ∈ g.lists j, a ≠ pg → t.page a = s.page a)
    (hfl : ∀ a, a ≠ pg → g'.fl a = g.fl a)
    (hlen : ∀ a, a ≠ pg → g'.len a = g.len a)
    (hblock : ∀ x, ¬ W x → t.block x = s.block x)
    (hbyte : ∀ x, ¬ W x → t.byte x = s.byte x)
    (hlive : ∀ r ∈ s.live, ¬ W r.1 → r ∈ t.live)
    (hsub : ∀ x ∈ g'.lists i, x ∈ g.lists i ∨ x = pg)
    (hpgf : pg ∈ g.lists i ∨ s.brk ≤ pg)
    (hsup : ∀ a ∈ g.lists i, a ≠ pg → a ∈ g'.lists i)
    (hring : RingOK t.node (t.mem_page_map i).toLINK (g'.lists i))
    (hpgok : pg ∈ g'.lists i → PageOK t g' L' i pg)
    (hidle : (t.mem_page_map i).idle_num =
      ((g'.lists i).countP (fun a => (t.page a).status = MEM_PAGE_STATUS_IDLE) : Nat))
    (hidle_le : (g'.lists i).countP (fun a => (t.page a).status = MEM_PAGE_STATUS_IDLE) ≤ 2)
    (hfull : (g'.lists i).Pairwise (fun a b =>
      (t.page a).status = MEM_PAGE_STATUS_FULL → (t.page b).status = MEM_PAGE_STATUS_FULL))
    (hsum : ((g'.lists i).map (fun a => (t.page a).using_count)).sum + d1
      = ((g.lists i).map (fun a => (s.page a).using_count)).sum + d2)
    (hLlen : L'.length + d1 = L.length + d2)
    (hls : t.live.Pairwise (fun x y => y.1 + y.2 < x.1))
    (hlb : ∀ r ∈ t.live, 4096 ≤ r.1 ∧ r.1 + r.2 < t.brk)
    (hbrk : 4096 ≤ t.brk ∧ t.brk ≤ 2 ^ 64)
    (hnd : L'.Nodup)
    (hL : ∀ p ∈ L, (s.block (p - sizeof_MEM_BLOCK)).page ≠ pg → p ∈ L')
    (hout : ∀ p ∈ L', (p ∈ L ∧ (s.block (p - sizeof_MEM_BLOCK)).page ≠ pg) ∨ OutOK t g' p) :
    Inv t g' L' := by
  have hlists : ∀ j < 15, ∀ x ∈ g'.lists j, x ∈ g.lists j ∨ s.brk ≤ x := by
    intro j hj x hx
    by_cases e : j = i
    · subst e
      rcases hsub x hx with h | h
      · exact Or.inl h
      · subst h; exact hpgf
    · rw [hlj j hj e] at hx; exact Or.inl hx
  have hlists' : ∀ j < 15, ∀ a ∈ g.lists j, a ≠ pg → a ∈ g'.lists j := by
    intro j hj a ha hne
    by_cases e : j = i
    · subst e; exact hsup a ha hne
    · rw [hlj j hj e]; exact ha
  have hpf := pages_frame s t g g' L L' pg W hI hsep hpage hfl hlen hblock hbyte hlive hlists hL
  have hpj : ∀ j < 15, j ≠ i → ∀ a ∈ g.lists j, t.page a = s.page a :=
    fun j hj e a ha => hpage j hj a ha (fun e' => hpgnot j hj e (e' ▸ ha))
  refine
    { ring := ?_, pages := ?_, idle_num := ?_, idle_le := ?_, full_suffix := ?_, using_sum := ?_
      live_sorted := hls, live_brk := hlb, brk := hbrk, out_nodup := hnd, out := ?_ }
  · intro j hj
    by_cases e : j = i
    · subst e; exact hring
    · rw [hlj j hj e, hmap j hj e]
      exact RingOK_congr _ _ _ _ (hI.ring j hj) (hnode j hj e)
  · intro j hj a ha
    by_cases e : j = i
    · subst e
      by_cases e' : a = pg
      · subst e'; exact hpgok ha
      · rcases hsub a ha with h | h
        · exact hpf j hj a h e'
        · exact absurd h e'
    · rw [hlj j hj e] at ha
      exact hpf j hj a ha (fun e' => hpgnot j hj e (e' ▸ ha))
  · intro j hj
    by_cases e : j = i
    · subst e; exact hidle
    · rw [hlj j hj e, hmap j hj e, hI.idle_num j hj]
      congr 1
      exact List.countP_congr (fun a ha => by simp [hpj j hj e a ha])
  · intro j hj
    by_cases e : j = i
    · subst e; exact hidle_le
    · rw [hlj j hj e]
      have e2 : (g.lists j).countP (fun a => (t.page a).status = MEM_PAGE_STATUS_IDLE)
          = (g.lists j).countP (fun a => (s.page a).status = MEM_PAGE_STATUS_IDLE) :=
        List.countP_congr (fun a ha => by simp [hpj j hj e a ha])
      rw [e2]
      exact hI.idle_le j hj
  · intro j hj
    by_cases e : j = i
    · subst e; exact hfull
    · rw [hlj j hj e]
      exact (hI.full_suffix j hj).imp_of_mem (fun {a b} ha hb h => by
        rw [hpj j hj e a ha, hpj j hj e b hb]; exact h)
  · have := sum_range_update
      (fun j => ((g.lists j).map (fun a => (s.page a).using_count)).sum)
      (fun j => ((g'.lists j).map (fun a => (t.page a).using_count)).sum)
      15 i d1 d2 hi (fun j hj e => by
        simp only
        rw [hlj j hj e]
        congr 1
        exact List.map_congr_left (fun a ha => by rw [hpj j hj e a ha])) hsum
    have h0 := hI.using_sum
    simp only [MEM_PAGE_BLOCK_INFO_COUNT] at h0 ⊢
    omega
  · intro p hp
    rcases hout p hp with ⟨h1, h2⟩ | h
    · exact out_frame s t g g' L pg W hI hsep hpage hfl hblock hbyte hlists' p h1 h2
    · exact h

/-- A page of a class list lies below `brk`. -/
theorem page_lt_brk (s : Heap) (g : Ghost) (L : List Nat) (hI : Inv s g L) (j a : Nat)
    (hj : j < 15) (ha : a ∈ g.lists j) : a < s.brk := by
  have h := hI.live_brk _ (hI.pages j hj a ha).live
  simp only at h
  omega

/-- Arbitrary contents in the memory the backing allocator has not handed out keep the
invariant. -/
theorem dirty_inv (s d : Heap) (g : Ghost) (L : List Nat) (hI : Inv s g L) :
    Inv (s.dirty d) g L := by
  have hlt := page_lt_brk s g L hI
  have h0 : (0 : Nat) < 15 := by decide
  have hpage : ∀ j < 15, ∀ a ∈ g.lists j, (s.dirty d).page a = s.page a := by
    intro j hj a ha
    have := hlt j a hj ha
    simp only [Heap.dirty]
    rw [if_neg (by omega)]
  have hnode : ∀ j < 15, ∀ a ∈ g.lists j, (s.dirty d).node a = s.node a := by
    intro j hj a ha
    have := hlt j a hj ha
    simp only [Heap.dirty]
    rw [if_neg (by omega)]
  have hnb : ∀ j < 15, s.brk ∉ g.lists j := by
    intro j hj h
    have := hlt j _ hj h
    omega
  apply Inv_local s (s.dirty d) g g L L 0 s.brk (fun x => s.brk ≤ x) 0 0 hI h0
    (sep_fresh s g L hI s.brk)
  · intro j hj _; exact hnb j hj
  · intro j hj _ x hx; exact hnode j hj x hx
  · intro j _ _; rfl
  · intro j _ _; rfl
  · intro j hj a ha _; exact hpage j hj a ha
  · intro a _; rfl
  · intro a _; rfl
  · intro x hx
    simp only [Heap.dirty]
    rw [if_neg hx]
  · intro x hx
    simp only [Heap.dirty]
    rw [if_neg hx]
  · intro r hr _; exact hr
  · intro x hx; exact Or.inl hx
  · exact Or.inr (le_refl _)
  · intro a ha _; exact ha
  · exact RingOK_congr s.node _ _ _ (hI.ring 0 h0) (fun x hx => hnode 0 h0 x hx)
  · intro h; exact absurd h (hnb 0 h0)
  · have e : (g.lists 0).countP (fun a => ((s.dirty d).page a).status = MEM_PAGE_STATUS_IDLE)
        = (g.lists 0).countP (fun a => (s.page a).status = MEM_PAGE_STATUS_IDLE) := by
      apply List.countP_congr
      intro a ha
      rw [hpage 0 h0 a ha]
    rw [e]
    exact hI.idle_num 0 h0
  · have e : (g.lists 0).countP (fun a => ((s.dirty d).page a).status = MEM_PAGE_STATUS_IDLE)
        = (g.lists 0).countP (fun a => (s.page a).status = MEM_PAGE_STATUS_IDLE) := by
      apply List.countP_congr
      intro a ha
      rw [hpage 0 h0 a ha]
    rw [e]
    exact hI.idle_le 0 h0
  · apply (hI.full_suffix 0 h0).imp_of_mem
    intro a b ha hb h
    rw [hpage 0 h0 a ha, hpage 0 h0 b hb]
    exact h
  · have e : (g.lists 0).map (fun a => ((s.dirty d).page a).using_count)
        = (g.lists 0).map (fun a => (s.page a).using_count) := by
      apply List.map_congr_left
      intro a ha
      rw [hpage 0 h0 a ha]
    rw [e]
  · rfl
  · exact hI.live_sorted
  · exact hI.live_brk
  · exact hI.brk
  · exact hI.out_nodup
  · intro p hp _; exact hp
  · intro p hp
    left
    refine ⟨hp, ?_⟩
    obtain ⟨-, j, hj, a, ha, hpa, -⟩ := hI.out p hp
    rw [hpa]
    intro e
    exact hnb j hj (e ▸ ha)

theorem alloc_block_full_page (s : Heap) (i pg : Nat) :
    (alloc_block_full s i pg).page = fun x =>
      if x = pg then
        (if ((s.page pg).using_count : Int) = ((s.page pg).block_num : Int) - 1
          then { s.page pg with status := MEM_PAGE_STATUS_FULL } else s.page pg)
      else s.page x := by
  unfold alloc_block_full
  funext x
  simp only [Heap.withLink, Heap.setPage]
  split_ifs <;> simp_all

theorem alloc_block_full_rest (s : Heap) (i pg : Nat) :
    (alloc_block_full s i pg).block = s.block ∧ (alloc_block_full s i pg).byte = s.byte ∧
    (alloc_block_full s i pg).brk = s.brk ∧ (alloc_block_full s i pg).live = s.live ∧
    ∀ j, j ≠ i → (alloc_block_full s i pg).mem_page_map j = s.mem_page_map j := by
  unfold alloc_block_full
  simp only [Heap.withLink, Heap.setPage]
  split_ifs <;> simp_all

theorem alloc_block_full_idle_num (s : Heap) (i pg : Nat) :
    ((alloc_block_full s i pg).mem_page_map i).idle_num = (s.mem_page_map i).idle_num := by
  unfold alloc_block_full
  simp only [Heap.withLink, Heap.setPage]
  split_ifs <;> simp_all

theorem alloc_block_using_page (s : Heap) (i pg : Nat) :
    (alloc_block_using s i pg).page = fun x =>
      if x = pg then
        (if (s.page pg).using_count = 0 ∧ (s.page pg).block_num > 1
          then { s.page pg with status := MEM_PAGE_STATUS_USING } else s.page pg)
      else s.page x := by
  unfold alloc_block_using
  funext x
  simp only [Heap.setLink, Heap.setPage]
  split_ifs <;> simp_all

theorem alloc_block_using_rest (s : Heap) (i pg : Nat) :
    (alloc_block_using s i pg).block = s.block ∧ (alloc_block_using s i pg).byte = s.byte ∧
    (alloc_block_using s i pg).brk = s.brk ∧ (alloc_block_using s i pg).live = s.live ∧
    (alloc_block_using s i pg).node = s.node ∧
    (∀ j, j ≠ i → (alloc_block_using s i pg).mem_page_map j = s.mem_page_map j) ∧
    ((alloc_block_using s i pg).mem_page_map i).toLINK = (s.mem_page_map i).toLINK ∧
    ((alloc_block_using s i pg).mem_page_map i).idle_num =
      if (s.page pg).using_count = 0 then (s.mem_page_map i).idle_num - 1
      else (s.mem_page_map i).idle_num := by
  unfold alloc_block_using
  simp only [Heap.setLink, Heap.setPage]
  split_ifs <;> simp_all

theorem alloc_block_count_rest (s : Heap) (pg : Nat) :
    (alloc_block_count s pg).block = s.block ∧ (alloc_block_count s pg).byte = s.byte ∧
    (alloc_block_count s pg).brk = s.brk ∧ (alloc_block_count s pg).live = s.live ∧
    (alloc_block_count s pg).node = s.node ∧
    (alloc_block_count s pg).mem_page_map = s.mem_page_map := by
  simp [alloc_block_count, Heap.setPage]

theorem alloc_block_count_page (s : Heap) (pg : Nat) :
    (alloc_block_count s pg).page = fun x =>
      if x = pg then
        { s.page pg with
          using_count := ((s.page pg).using_count + 1) % 256
          alloc_size := toInt32 ((s.page pg).alloc_size +
            (((s.page pg).block_data : Int) + ((s.page pg).block_head : Int))) }
      else s.page x := by
  simp [alloc_block_count, Heap.setPage]

theorem alloc_block_take_slab (s : Heap) (pg len ret : Nat)
    (h : ¬ ((s.page pg).type = MEM_PAGE_TYPE_ZERO ∨ (s.page pg).type = MEM_PAGE_TYPE_LARGE)) :
    (alloc_block_take s pg len ret).1 = ret + (s.page pg).block_head ∧
    (alloc_block_take s pg len ret).2.page = (fun x =>
      if x = pg then
        { s.page pg with
          idle := if (s.page pg).status ≠ MEM_PAGE_STATUS_FULL
            then MEM_TO_ADDR s (ret + (s.page pg).block_head) else 0 }
      else s.page x) ∧
    (alloc_block_take s pg len ret).2.block = (fun x =>
      if x = ret then { s.block ret with status := MEM_BLOCK_STATUS_USING } else s.block x) ∧
    (alloc_block_take s pg len ret).2.byte = (fun x =>
      if ret + (s.page pg).block_head ≤ x ∧
          x < ret + (s.page pg).block_head + (s.page pg).block_data
        then 0 else s.byte x) ∧
    (alloc_block_take s pg len ret).2.node = s.node ∧
    (alloc_block_take s pg len ret).2.mem_page_map = s.mem_page_map ∧
    (alloc_block_take s pg len ret).2.brk = s.brk ∧
    (alloc_block_take s pg len ret).2.live = s.live := by
  unfold alloc_block_take
  by_cases hf : (s.page pg).status = MEM_PAGE_STATUS_FULL
  · simp [hf, h, INIT_BLOCK_PADDING]
  · simp [hf, h, INIT_BLOCK_PADDING]

theorem alloc_block_take_ext (s : Heap) (pg len ret : Nat)
    (h : (s.page pg).type = MEM_PAGE_TYPE_ZERO ∨ (s.page pg).type = MEM_PAGE_TYPE_LARGE) :
    (alloc_block_take s pg len ret).1 = s.brk + (s.page pg).block_head ∧
    (alloc_block_take s pg len ret).2.page = (fun x =>
      if x = pg then
        { s.page pg with
          idle := if (s.page pg).status ≠ MEM_PAGE_STATUS_FULL
            then MEM_TO_ADDR s (ret + (s.page pg).block_head) else 0
          alloc_size := toInt32 ((s.page pg).alloc_size +
            toInt32 ((((s.page pg).block_head + len) % SIZE_MOD : Nat) : Int)) }
      else s.page x) ∧
    (alloc_block_take s pg len ret).2.block = (fun x =>
      if x = s.brk then ⟨pg, MEM_BLOCK_STATUS_USING⟩
      else if x = ret then { s.block ret with status := MEM_BLOCK_STATUS_USING }
      else s.block x) ∧
    (alloc_block_take s pg len ret).2.byte = (fun x =>
      if s.brk + (s.page pg).block_head ≤ x ∧ x < s.brk + (s.page pg).block_head + len then 0
      else if ret + (s.page pg).block_head ≤ x ∧ x < ret + (s.page pg).block_head + 8
        then s.brk / 2 ^ (8 * (x - (ret + (s.page pg).block_head))) % 256
      else s.byte x) ∧
    (alloc_block_take s pg len ret).2.node = s.node ∧
    (alloc_block_take s pg len ret).2.mem_page_map = s.mem_page_map ∧
    (alloc_block_take s pg len ret).2.brk =
      s.brk + (((s.page pg).block_head + len) % SIZE_MOD + 15) / 16 * 16 + 16 ∧
    (alloc_block_take s pg len ret).2.live =
      (s.brk, ((s.page pg).block_head + len) % SIZE_MOD) :: s.live := by
  unfold alloc_block_take
  by_cases hf : (s.page pg).status = MEM_PAGE_STATUS_FULL
  · simp [hf, h, INIT_BLOCK_PADDING]
    funext x; split_ifs <;> simp_all
  · simp [hf, h, INIT_BLOCK_PADDING]
    funext x; split_ifs <;> simp_all

theorem RingOK_cons_facts (m : Nodes) (l : LINK) (pg : Nat) (rest : List Nat)
    (h : RingOK m l (pg :: rest)) :
    l.head = pg ∧ pg ≠ 0 ∧ pg ∉ rest ∧ l.count ≠ 0 ∧
    ((l.count > 1 ∧ l.tail ≠ pg) ↔ rest ≠ []) := by
  obtain ⟨hc, hh, ht, hnd, h0, _⟩ := h
  refine ⟨hh, fun e => h0 (e ▸ List.mem_cons_self _ _), (List.nodup_cons.1 hnd).1, ?_, ?_⟩
  · rw [hc]; simp only [List.length_cons]; omega
  · cases rest with
    | nil =>
      have : l.tail = pg := ht
      simp [this]
    | cons b r =>
      have : l.tail ≠ pg := by
        rw [ht]; intro e
        exact (List.nodup_cons.1 hnd).1 (e ▸ lastD_mem (b :: r) pg (by simp))
      have hc1 : l.count > 1 := by
        rw [hc]; simp only [List.length_cons]; push_cast; omega
      simp [hc1, this]

theorem alloc_block_full_ring (s : Heap) (i pg : Nat) (rest : List Nat)
    (h : RingOK s.node (s.mem_page_map i).toLINK (pg :: rest)) :
    RingOK (alloc_block_full s i pg).node ((alloc_block_full s i pg).mem_page_map i).toLINK
      (if ((s.page pg).using_count : Int) = ((s.page pg).block_num : Int) - 1 ∧ rest ≠ []
        then rest ++ [pg] else pg :: rest) ∧
    (∀ x, x ∉ pg :: rest → (alloc_block_full s i pg).node x = s.node x) := by
  obtain ⟨hh, hp0, hpr, hc0, hcond⟩ := RingOK_cons_facts _ _ _ _ h
  unfold alloc_block_full
  by_cases hu : ((s.page pg).using_count : Int) = ((s.page pg).block_num : Int) - 1
  · by_cases hr : rest = []
    · have : ¬ ((s.mem_page_map i).count > 1 ∧ (s.mem_page_map i).tail ≠ pg) := by
        rw [hcond]; simpa using hr
      simp only [hu, this, if_true, if_false, sel_setPage_node, sel_setPage_mem_page_map, hr,
        ne_eq, not_true_eq_false, and_false]
      subst hr
      exact ⟨h, by intros; first | rfl | trivial⟩
    · have hc : (s.mem_page_map i).count > 1 ∧ (s.mem_page_map i).tail ≠ pg := hcond.2 hr
      simp only [hu, hc, and_self, if_true, sel_setPage_node, sel_setPage_mem_page_map, ne_eq, hr,
        not_false_eq_true, sel_withLink_node, sel_withLink_mem_page_map]
      obtain ⟨-, h1, f1⟩ := link_remove_force_mem s.node (s.mem_page_map i).toLINK [] rest pg h
      simp only [List.nil_append] at h1 f1
      obtain ⟨-, h2, f2⟩ := link_push_back _ _ rest pg h1 hp0 hpr
      refine ⟨h2, ?_⟩
      intro x hx
      rw [f2 x hx, f1 x (fun e => hx (List.mem_cons_of_mem _ e))]
  · simp only [hu, if_false, false_and]
    exact ⟨h, by intros; first | rfl | trivial⟩

theorem free_block_front_ring (s : Heap) (i pg : Nat) (l1 l2 : List Nat)
    (h : RingOK s.node (s.mem_page_map i).toLINK (l1 ++ pg :: l2)) :
    RingOK (free_block_front s i pg).node ((free_block_front s i pg).mem_page_map i).toLINK
      (pg :: (l1 ++ l2)) ∧
    (∀ x, x ∉ l1 ++ pg :: l2 → (free_block_front s i pg).node x = s.node x) ∧
    (free_block_front s i pg).page = s.page ∧ (free_block_front s i pg).block = s.block ∧
    (free_block_front s i pg).byte = s.byte ∧ (free_block_front s i pg).brk = s.brk ∧
    (free_block_front s i pg).live = s.live ∧
    ((free_block_front s i pg).mem_page_map i).idle_num = (s.mem_page_map i).idle_num ∧
    (∀ j, j ≠ i → (free_block_front s i pg).mem_page_map j = s.mem_page_map j) := by
  have hnd := h.2.2.2.1
  have h0 := h.2.2.2.2.1
  have hp0 : pg ≠ 0 := fun e => h0 (by simp [e])
  have hp1 : pg ∉ l1 := fun e => (List.nodup_append.1 hnd).2.2 e (List.mem_cons_self _ _)
  have hp2 : pg ∉ l2 := (List.nodup_cons.1 (List.nodup_append.1 hnd).2.1).1
  unfold free_block_front
  cases l1 with
  | nil =>
    obtain ⟨hh, -, -, -, -⟩ := RingOK_cons_facts _ _ _ _ h
    have : ¬ ((s.mem_page_map i).count > 1 ∧ (s.mem_page_map i).head ≠ pg) := by
      simp [hh]
    simp only [this, if_false]
    refine ⟨h, ?_, ?_, ?_, ?_, ?_, ?_, ?_, ?_⟩ <;> intros <;> first | rfl | trivial
  | cons a r =>
    have hc : (s.mem_page_map i).count > 1 ∧ (s.mem_page_map i).head ≠ pg := by
      obtain ⟨hc, hh, -⟩ := h
      constructor
      · rw [hc]; simp only [List.length_append, List.length_cons]; push_cast; omega
      · rw [hh]; intro e; exact hp1 (e ▸ List.mem_cons_self _ _)
    rw [if_pos hc]
    simp only [sel_withLink_node, sel_withLink_mem_page_map,
      sel_withLink_page, sel_withLink_block, sel_withLink_byte, sel_withLink_brk,
      sel_withLink_live, if_true]
    obtain ⟨-, h1, f1⟩ := link_remove_force_mem s.node (s.mem_page_map i).toLINK (a :: r) l2 pg h
    have hpn : pg ∉ a :: r ++ l2 := fun e => by
      rcases List.mem_append.1 e with e | e
      · exact hp1 e
      · exact hp2 e
    obtain ⟨-, h2, f2⟩ := link_insert_front _ _ (a :: r ++ l2) pg h1 hp0 hpn
    refine ⟨h2, ?_, by first | rfl | trivial, by first | rfl | trivial, by first | rfl | trivial, by first | rfl | trivial, by first | rfl | trivial, by first | rfl | trivial, ?_⟩
    · intro x hx
      have hx1 : x ∉ pg :: (a :: r ++ l2) := by
        intro e
        apply hx
        rcases List.mem_cons.1 e with e | e
        · subst e; simp
        · rcases List.mem_append.1 e with e | e
          · exact List.mem_append_left _ e
          · exact List.mem_append_right _ (List.mem_cons_of_mem _ e)
      rw [f2 x hx1, f1 x (fun e => hx1 (List.mem_cons_of_mem _ e))]
    · intro j hj
      simp [hj]

theorem status_of_full (uc bn : Nat) (hbn : 1 ≤ bn) :
    status_of uc bn = MEM_PAGE_STATUS_FULL ↔ uc = bn := by
  unfold status_of MEM_PAGE_STATUS_FULL MEM_PAGE_STATUS_IDLE MEM_PAGE_STATUS_USING
  split_ifs <;> first | omega | (simp; omega) | simp

theorem status_of_idle (uc bn : Nat) :
    status_of uc bn = MEM_PAGE_STATUS_IDLE ↔ uc = 0 := by
  unfold status_of MEM_PAGE_STATUS_FULL MEM_PAGE_STATUS_IDLE MEM_PAGE_STATUS_USING
  split_ifs <;> first | omega | (simp; omega) | simp

theorem RingOK_nonempty (m : Nodes) (l : LINK) (xs : List Nat) (h : RingOK m l xs)
    (hc : l.count ≠ 0) : ∃ rest, xs = l.head :: rest := by
  obtain ⟨h1, h2, -⟩ := h
  cases xs with
  | nil => simp at h1; exact absurd h1 hc
  | cons a r => exact ⟨r, by rw [h2]; rfl⟩

theorem get_page_index_lt (len : Nat) : get_page_index len < 15 := by
  by_cases h : 512 < len
  · rw [get_page_index_large len h]; omega
  · have := (get_page_index_subscript_small len (by omega)).2.1
    omega

/-- The structured facts available when `alloc_block` finds a usable head page. -/
theorem alloc_pre (s : Heap) (g : Ghost) (L : List Nat) (i : Nat) (hI : Inv s g L)
    (hi : i < 15) (hu : usable_page_exist s i = true) :
    ∃ rest b fr, g.lists i = (s.mem_page_map i).head :: rest ∧
      g.fl (s.mem_page_map i).head = b :: fr ∧
      (s.mem_page_map i).count ≠ 0 ∧ (s.mem_page_map i).head ≠ 0 ∧
      (s.page (s.mem_page_map i).head).status ≠ MEM_PAGE_STATUS_FULL ∧
      (s.page (s.mem_page_map i).head).using_count < (page_info i).block_num ∧
      b ≠ 0 := by
  unfold usable_page_exist at hu
  have hi' : ¬ i > MEM_PAGE_BLOCK_INFO_COUNT - 1 := by
    simp only [MEM_PAGE_BLOCK_INFO_COUNT]; omega
  rw [if_neg hi'] at hu
  by_cases h1 : (s.mem_page_map i).count = 0 ∨ (s.mem_page_map i).head = 0
  · rw [if_pos h1] at hu; cases hu
  rw [if_neg h1] at hu
  by_cases h2 : (s.page (s.mem_page_map i).head).status = MEM_PAGE_STATUS_FULL
  · rw [if_pos h2] at hu; cases hu
  push_neg at h1
  obtain ⟨rest, hx⟩ := RingOK_nonempty _ _ _ (hI.ring i hi) h1.1
  have pp := hI.pages i hi (s.mem_page_map i).head (by rw [hx]; exact List.mem_cons_self _ _)
  have fi := page_info_facts i hi
  have hlt : (s.page (s.mem_page_map i).head).using_count < (page_info i).block_num := by
    have h3 := pp.fl_len
    rcases Nat.lt_or_ge (s.page (s.mem_page_map i).head).using_count (page_info i).block_num
      with h | h
    · exact h
    · exfalso
      apply h2
      rw [pp.status, status_of_full _ _ fi.2.2.1]
      omega
  have hl := pp.fl_len
  cases hf : g.fl (s.mem_page_map i).head with
  | nil => rw [hf] at hl; simp at hl; omega
  | cons b fr =>
    refine ⟨rest, b, fr, hx, rfl, h1.1, h1.2, h2, hlt, ?_⟩
    obtain ⟨k, hk, e⟩ := pp.fl_blocks b (by rw [hf]; exact List.mem_cons_self _ _)
    have := block_addr_bound (s.mem_page_map i).head i k hi hk
    omega

theorem toInt32_small (x : Int) (h1 : -(2 ^ 31) ≤ x) (h2 : x < 2 ^ 31) : toInt32 x = x := by
  unfold toInt32; omega

theorem toInt32_add (x y : Int) : toInt32 (x + toInt32 y) = toInt32 (x + y) := by
  unfold toInt32; omega

/-- The page header of the head page after the first three steps of `alloc_block`. -/
theorem alloc_steps_page (s : Heap) (i pg : Nat) (hi : i < 15)
    (hbn : (s.page pg).block_num = (page_info i).block_num)
    (hst : (s.page pg).status = status_of (s.page pg).using_count (page_info i).block_num)
    (hlt : (s.page pg).using_count < (page_info i).block_num) :
    let t := alloc_block_count (alloc_block_using (alloc_block_full s i pg) i pg) pg
    (∀ x, x ≠ pg → t.page x = s.page x) ∧
    (t.page pg).type = (s.page pg).type ∧
    (t.page pg).status = status_of ((s.page pg).using_count + 1) (page_info i).block_num ∧
    (t.page pg).using_count = (s.page pg).using_count + 1 ∧
    (t.page pg).block_num = (s.page pg).block_num ∧
    (t.page pg).block_head = (s.page pg).block_head ∧
    (t.page pg).block_data = (s.page pg).block_data ∧
    (t.page pg).alloc_size = toInt32 ((s.page pg).alloc_size +
            (((s.page pg).block_data : Int) + ((s.page pg).block_head : Int))) ∧
    (t.page pg).idle = (s.page pg).idle ∧
    (t.page pg).head_addr = (s.page pg).head_addr := by
  have fi := page_info_facts i hi
  intro t
  have ht := alloc_block_count_page (alloc_block_using (alloc_block_full s i pg) i pg) pg
  rw [alloc_block_using_page, alloc_block_full_page] at ht
  change t.page = _ at ht
  have hm : ((s.page pg).using_count + 1) % 256 = (s.page pg).using_count + 1 := by omega
  rw [ht]
  refine ⟨fun x hx => by simp [hx], ?_, ?_, ?_, ?_, ?_, ?_, ?_, ?_, ?_⟩
  · simp only [if_true]; split_ifs <;> rfl
  · simp only [if_true, hbn]
    by_cases h1 : ((s.page pg).using_count : Int) = ((page_info i).block_num : Int) - 1
    · have h2 : (s.page pg).using_count + 1 = (page_info i).block_num := by omega
      rw [(status_of_full _ _ fi.2.2.1).2 h2]
      simp only [h1, if_true]
      split_ifs with h4
      · exfalso; omega
      · rfl
    · have h2 : (s.page pg).using_count + 1 ≠ (page_info i).block_num := by omega
      have h3 : status_of ((s.page pg).using_count + 1) (page_info i).block_num
          = MEM_PAGE_STATUS_USING := by
        unfold status_of; simp [h2]
      rw [h3]
      simp only [h1, if_false]
      split_ifs with h4
      · rfl
      · rw [hst]; unfold status_of
        have : (s.page pg).using_count ≠ 0 := by
          intro e; apply h4; constructor
          · exact e
          · have := fi.2.2.1; omega
        have h6 : (s.page pg).using_count ≠ (page_info i).block_num := by omega
        simp [this, h6]
  · simp only [if_true]; split_ifs <;> exact hm
  · simp only [if_true]; split_ifs <;> rfl
  · simp only [if_true]; split_ifs <;> rfl
  · simp only [if_true]; split_ifs <;> rfl
  · simp only [if_true]; split_ifs <;> rfl
  · simp only [if_true]; split_ifs <;> rfl
  · simp only [if_true]; split_ifs <;> rfl

theorem alloc_steps_rest (s : Heap) (i pg : Nat) (rest : List Nat)
    (h : RingOK s.node (s.mem_page_map i).toLINK (pg :: rest)) :
    let t := alloc_block_count (alloc_block_using (alloc_block_full s i pg) i pg) pg
    t.block = s.block ∧ t.byte = s.byte ∧ t.brk = s.brk ∧ t.live = s.live ∧
    (∀ j, j ≠ i → t.mem_page_map j = s.mem_page_map j) ∧
    (t.mem_page_map i).idle_num =
      (if (s.page pg).using_count = 0 then (s.mem_page_map i).idle_num - 1
        else (s.mem_page_map i).idle_num) ∧
    RingOK t.node (t.mem_page_map i).toLINK
      (if ((s.page pg).using_count : Int) = ((s.page pg).block_num : Int) - 1 ∧ rest ≠ []
        then rest ++ [pg] else pg :: rest) ∧
    (∀ x, x ∉ pg :: rest → t.node x = s.node x) := by
  intro t
  obtain ⟨c1, c2, c3, c4, c5, c6⟩ :=
    alloc_block_count_rest (alloc_block_using (alloc_block_full s i pg) i pg) pg
  obtain ⟨u1, u2, u3, u4, u5, u6, u7, u8⟩ := alloc_block_using_rest (alloc_block_full s i pg) i pg
  obtain ⟨f1, f2, f3, f4, f5⟩ := alloc_block_full_rest s i pg
  obtain ⟨r1, r2⟩ := alloc_block_full_ring s i pg rest h
  have hp : ((alloc_block_full s i pg).page pg).using_count = (s.page pg).using_count := by
    rw [alloc_block_full_page]; simp only [if_true]; split_ifs <;> rfl
  refine ⟨?_, ?_, ?_, ?_, ?_, ?_, ?_, ?_⟩
  · show (alloc_block_count _ pg).block = _
    rw [c1, u1, f1]
  · show (alloc_block_count _ pg).byte = _
    rw [c2, u2, f2]
  · show (alloc_block_count _ pg).brk = _
    rw [c3, u3, f3]
  · show (alloc_block_count _ pg).live = _
    rw [c4, u4, f4]
  · intro j hj
    show (alloc_block_count _ pg).mem_page_map j = _
    rw [c6, u6 j hj, f5 j hj]
  · show ((alloc_block_count _ pg).mem_page_map i).idle_num = _
    rw [c6, u8, hp, alloc_block_full_idle_num]
  · show RingOK (alloc_block_count _ pg).node ((alloc_block_count _ pg).mem_page_map i).toLINK _
    rw [c5, c6, u5, u7]
    exact r1
  · intro x hx
    show (alloc_block_count _ pg).node x = _
    rw [c5, u5]
    exact r2 x hx

theorem free_chain_tail (s : Heap) (b : Nat) (fr : List Nat) (h : free_chain s (b :: fr)) :
    MEM_TO_ADDR s (b + sizeof_MEM_BLOCK) = firstD fr 0 ∧ free_chain s fr := h

theorem countP_cons_other (p q : Nat → Bool) (a : Nat) (l : List Nat) (ha : a ∉ l)
    (h : ∀ x, x ≠ a → q x = p x) : l.countP q = l.countP p :=
  List.countP_congr (fun x hx => by rw [h x (fun e => ha (e ▸ hx))])

theorem sum_map_other (f f' : Nat → Nat) (a : Nat) (l : List Nat) (ha : a ∉ l)
    (h : ∀ x, x ≠ a → f' x = f x) : (l.map f').sum = (l.map f).sum := by
  congr 1
  exact List.map_congr_left (fun x hx => h x (fun e => ha (e ▸ hx)))

/-- Slab case: the ghost lists after the allocation, written out. -/
theorem alloc_ghost_lists (s : Heap) (g : Ghost) (len : Nat) (rest : List Nat)
    (hx : g.lists (get_page_index len)
      = (s.mem_page_map (get_page_index len)).head :: rest) :
    (alloc_ghost s g len).lists (get_page_index len) =
      (if ((s.page (s.mem_page_map (get_page_index len)).head).using_count : Int)
          = ((s.page (s.mem_page_map (get_page_index len)).head).block_num : Int) - 1 ∧
          rest ≠ []
        then rest ++ [(s.mem_page_map (get_page_index len)).head]
        else (s.mem_page_map (get_page_index len)).head :: rest) := by
  simp only [alloc_ghost, if_true, hx, List.tail_cons]

theorem alloc_block_eq (s : Heap) (g : Ghost) (L : List Nat) (len : Nat) (hI : Inv s g L)
    (hu : usable_page_exist s (get_page_index len) = true) :
    alloc_block s len =
      alloc_block_take
        (alloc_block_count (alloc_block_using (alloc_block_full s (get_page_index len)
          (s.mem_page_map (get_page_index len)).head) (get_page_index len)
          (s.mem_page_map (get_page_index len)).head)
          (s.mem_page_map (get_page_index len)).head)
        (s.mem_page_map (get_page_index len)).head len
        (firstD (g.fl (s.mem_page_map (get_page_index len)).head) 0) := by
  have hi := get_page_index_lt len
  obtain ⟨rest, b, fr, hx, hf, hc, hh, hs, hlt, hb⟩ := alloc_pre s g L _ hI hi hu
  have pp := hI.pages _ hi _ (by rw [hx]; exact List.mem_cons_self _ _)
  obtain ⟨-, -, -, -, -, -, -, -, hidle, -⟩ :=
    alloc_steps_page s _ _ hi pp.block_num pp.status hlt
  unfold alloc_block
  have hi' : ¬ get_page_index len > MEM_PAGE_BLOCK_INFO_COUNT - 1 := by
    simp only [MEM_PAGE_BLOCK_INFO_COUNT]; omega
  have h1 : ¬ ((s.mem_page_map (get_page_index len)).count = 0 ∨
      (s.mem_page_map (get_page_index len)).head = 0) := by
    push_neg; exact ⟨hc, hh⟩
  simp only [hi', if_false, h1, hs, hidle, pp.idle, hf, firstD, hb]

theorem alloc_size_slab_bound (uc bn bs : Nat) (h1 : uc < bn) (h2 : bn ≤ 128) (h3 : bs ≤ 512) :
    toInt32 ((uc : Int) * ((bs : Int) + sizeof_MEM_BLOCK) + ((bs : Int) + sizeof_MEM_BLOCK))
      = ((uc + 1 : Nat) : Int) * ((bs : Int) + sizeof_MEM_BLOCK) := by
  simp only [sizeof_MEM_BLOCK]
  have e : ((uc + 1 : Nat) : Int) * ((bs : Int) + (16 : Nat))
      = (uc : Int) * ((bs : Int) + (16 : Nat)) + ((bs : Int) + (16 : Nat)) := by
    push_cast; ring
  rw [e]
  have hb : (uc : Int) * ((bs : Int) + (16 : Nat)) ≤ 128 * 528 := by
    apply mul_le_mul <;> push_cast <;> omega
  have hn : 0 ≤ (uc : Int) * ((bs : Int) + (16 : Nat)) := by
    apply mul_nonneg <;> push_cast <;> omega
  apply toInt32_small <;> push_cast at * <;> omega

theorem alloc_page_ok_slab (s t : Heap) (g g' : Ghost) (L L' : List Nat) (i pg b : Nat)
    (fr : List Nat) (hi : i < 15) (hne : ¬ is_ext i)
    (pp : PageOK s g L i pg) (hf : g.fl pg = b :: fr)
    (hlt : (s.page pg).using_count < (page_info i).block_num)
    (tp_type : (t.page pg).type = (s.page pg).type)
    (tp_status : (t.page pg).status
      = status_of ((s.page pg).using_count + 1) (page_info i).block_num)
    (tp_uc : (t.page pg).using_count = (s.page pg).using_count + 1)
    (tp_bn : (t.page pg).block_num = (s.page pg).block_num)
    (tp_bh : (t.page pg).block_head = (s.page pg).block_head)
    (tp_bd : (t.page pg).block_data = (s.page pg).block_data)
    (tp_alloc : (t.page pg).alloc_size = toInt32 ((s.page pg).alloc_size +
            (((s.page pg).block_data : Int) + ((s.page pg).block_head : Int))))
    (tp_idle : (t.page pg).idle = if (t.page pg).status ≠ MEM_PAGE_STATUS_FULL
      then MEM_TO_ADDR s (b + sizeof_MEM_BLOCK) else 0)
    (tp_head : (t.page pg).head_addr = (s.page pg).head_addr)
    (tb : t.block = fun x =>
      if x = b then { s.block b with status := MEM_BLOCK_STATUS_USING } else s.block x)
    (ty : ∀ x, ¬ (b + 16 ≤ x ∧ x < b + 16 + (page_info i).block_size) → t.byte x = s.byte x)
    (tl : (pg, page_size i) ∈ t.live)
    (gf : g'.fl pg = fr) :
    PageOK t g' L' i pg := by
  have fi := page_info_facts i hi
  have hnd : (b :: fr).Nodup := hf ▸ pp.fl_nodup
  have hbfr : b ∉ fr := (List.nodup_cons.1 hnd).1
  have hlen := pp.fl_len
  rw [hf] at hlen
  simp only [List.length_cons] at hlen
  refine
    { head_addr := by rw [tp_head]; exact pp.head_addr
      type := by rw [tp_type]; exact pp.type
      block_num := by rw [tp_bn]; exact pp.block_num
      block_head := by rw [tp_bh]; exact pp.block_head
      block_data := by rw [tp_bd]; exact pp.block_data
      status := by rw [tp_status, tp_uc]
      fl_len := by rw [tp_uc, gf]; omega
      fl_nodup := by rw [gf]; exact (List.nodup_cons.1 hnd).2
      fl_blocks := by
        rw [gf]; intro c hc
        exact pp.fl_blocks c (by rw [hf]; exact List.mem_cons_of_mem _ hc)
      idle := ?_
      chain := ?_
      hdr := ?_
      live := tl
      alloc_slab := ?_
      ext_idle := fun h => absurd h hne
      ext_used := fun h => absurd h hne }
  · rw [tp_idle, gf, tp_status]
    have hc := pp.chain
    rw [hf] at hc
    by_cases hfull : (s.page pg).using_count + 1 = (page_info i).block_num
    · rw [(status_of_full _ _ fi.2.2.1).2 hfull]
      simp only [ne_eq, not_true_eq_false, if_false]
      have : fr = [] := List.eq_nil_of_length_eq_zero (by omega)
      rw [this]; rfl
    · have : status_of ((s.page pg).using_count + 1) (page_info i).block_num
          ≠ MEM_PAGE_STATUS_FULL := fun e => hfull ((status_of_full _ _ fi.2.2.1).1 e)
      rw [if_pos this]
      exact hc.1
  · rw [gf, free_chain_congr s t]
    · have hc := pp.chain
      rw [hf] at hc
      exact hc.2
    · intro c hc x h1 h2
      apply ty
      obtain ⟨k, hk, e⟩ := pp.fl_blocks c (by rw [hf]; exact List.mem_cons_of_mem _ hc)
      obtain ⟨k', hk', e'⟩ := pp.fl_blocks b (by rw [hf]; exact List.mem_cons_self _ _)
      have hkk : k ≠ k' := by
        intro e2; subst e2; exact hbfr (e' ▸ e ▸ hc)
      have := block_addr_disjoint pg i k k' hi hkk
      omega
  · intro k hk
    rw [tb, gf]
    have old := pp.hdr k hk
    rw [hf] at old
    by_cases e : block_addr pg i k = b
    · simp only [e, if_true]
      rw [e] at old
      rw [old]
      simp [hbfr]
    · simp only [e, if_false]
      rw [old]
      simp [e]
  · intro _
    rw [tp_alloc, tp_uc, pp.alloc_slab hne, pp.block_data, pp.block_head]
    exact alloc_size_slab_bound _ _ _ hlt fi.2.2.2.1 fi.2.1

theorem alloc_class_facts (s t : Heap) (i pg : Nat) (rest lists' : List Nat) (idle : Int)
    (tidle : Int) (hi : i < 15)
    (hnd : (pg :: rest).Nodup)
    (hl : lists' = if ((s.page pg).using_count : Int) = ((s.page pg).block_num : Int) - 1 ∧
        rest ≠ [] then rest ++ [pg] else pg :: rest)
    (hbn : (s.page pg).block_num = (page_info i).block_num)
    (hst : (s.page pg).status = status_of (s.page pg).using_count (page_info i).block_num)
    (hlt : (s.page pg).using_count < (page_info i).block_num)
    (tp_other : ∀ x, x ≠ pg → t.page x = s.page x)
    (tp_status : (t.page pg).status
      = status_of ((s.page pg).using_count + 1) (page_info i).block_num)
    (tp_uc : (t.page pg).using_count = (s.page pg).using_count + 1)
    (hidle : idle = ((pg :: rest).countP (fun a => (s.page a).status = MEM_PAGE_STATUS_IDLE) : Nat))
    (hle : (pg :: rest).countP (fun a => (s.page a).status = MEM_PAGE_STATUS_IDLE) ≤ 2)
    (hfull : (pg :: rest).Pairwise (fun a b =>
      (s.page a).status = MEM_PAGE_STATUS_FULL → (s.page b).status = MEM_PAGE_STATUS_FULL))
    (ht : tidle = if (s.page pg).using_count = 0 then idle - 1 else idle) :
    tidle = (lists'.countP (fun a => (t.page a).status = MEM_PAGE_STATUS_IDLE) : Nat) ∧
    lists'.countP (fun a => (t.page a).status = MEM_PAGE_STATUS_IDLE)
      + (if (s.page pg).using_count = 0 then 1 else 0) ≤ 2 ∧
    lists'.Pairwise (fun a b =>
      (t.page a).status = MEM_PAGE_STATUS_FULL → (t.page b).status = MEM_PAGE_STATUS_FULL) ∧
    (lists'.map (fun a => (t.page a).using_count)).sum
      = ((pg :: rest).map (fun a => (s.page a).using_count)).sum + 1 ∧
    (∀ x, x ∈ lists' ↔ x ∈ pg :: rest) := by
  have fi := page_info_facts i hi
  have hpr : pg ∉ rest := (List.nodup_cons.1 hnd).1
  have hc : rest.countP (fun a => (t.page a).status = MEM_PAGE_STATUS_IDLE)
      = rest.countP (fun a => (s.page a).status = MEM_PAGE_STATUS_IDLE) :=
    countP_cons_other _ _ pg rest hpr (fun x hx => by simp only [tp_other x hx])
  have hs : (rest.map (fun a => (t.page a).using_count)).sum
      = (rest.map (fun a => (s.page a).using_count)).sum :=
    sum_map_other _ _ pg rest hpr (fun x hx => by simp only [tp_other x hx])
  have hni : (t.page pg).status ≠ MEM_PAGE_STATUS_IDLE := by
    rw [tp_status]; intro e
    have := (status_of_idle _ _).1 e
    omega
  have hoi : (s.page pg).status = MEM_PAGE_STATUS_IDLE ↔ (s.page pg).using_count = 0 := by
    rw [hst]; exact status_of_idle _ _
  have hfr : rest.Pairwise (fun a b =>
      (t.page a).status = MEM_PAGE_STATUS_FULL → (t.page b).status = MEM_PAGE_STATUS_FULL) :=
    (List.pairwise_cons.1 hfull).2.imp_of_mem (fun {a b} ha hb h => by
      rw [tp_other a (fun e => hpr (e ▸ ha)), tp_other b (fun e => hpr (e ▸ hb))]; exact h)
  have hcount_old : (pg :: rest).countP (fun a => (s.page a).status = MEM_PAGE_STATUS_IDLE)
      = rest.countP (fun a => (s.page a).status = MEM_PAGE_STATUS_IDLE)
        + (if (s.page pg).using_count = 0 then 1 else 0) := by
    rw [List.countP_cons]
    by_cases h0 : (s.page pg).using_count = 0
    · simp [h0, hoi.2 h0]
    · have : ¬ (s.page pg).status = MEM_PAGE_STATUS_IDLE := fun e => h0 (hoi.1 e)
      simp [h0, this]
  rw [hcount_old] at hle hidle
  by_cases hm : ((s.page pg).using_count : Int) = ((s.page pg).block_num : Int) - 1 ∧ rest ≠ []
  · rw [if_pos hm] at hl
    subst hl
    have hfullp : (t.page pg).status = MEM_PAGE_STATUS_FULL := by
      rw [tp_status, status_of_full _ _ fi.2.2.1]; omega
    refine ⟨?_, ?_, ?_, ?_, ?_⟩
    · rw [List.countP_append, hc, ht, hidle]
      simp only [List.countP_cons, List.countP_nil, hni, decide_False, Bool.false_eq_true,
        if_false]
      split_ifs <;> push_cast <;> omega
    · rw [List.countP_append, hc]
      simp only [List.countP_cons, List.countP_nil, hni, decide_False, Bool.false_eq_true,
        if_false]
      omega
    · rw [List.pairwise_append]
      refine ⟨hfr, List.pairwise_singleton _ _, ?_⟩
      intro a _ b hb _
      rw [List.mem_singleton.1 hb]; exact hfullp
    · simp only [List.map_append, List.sum_append, List.map_cons, List.map_nil, List.sum_cons,
        List.sum_nil, hs, tp_uc]
      omega
    · intro x
      simp only [List.mem_append, List.mem_singleton, List.mem_cons]
      tauto
  · rw [if_neg hm] at hl
    subst hl
    refine ⟨?_, ?_, ?_, ?_, fun _ => Iff.rfl⟩
    · rw [List.countP_cons, hc, ht, hidle]
      simp only [hni, decide_False, Bool.false_eq_true, if_false]
      split_ifs <;> push_cast <;> omega
    · rw [List.countP_cons, hc]
      simp only [hni, decide_False, Bool.false_eq_true, if_false]
      omega
    · rw [List.pairwise_cons]
      refine ⟨?_, hfr⟩
      intro b hb hfullp
      exfalso
      have h1 := (status_of_full _ _ fi.2.2.1).1 (tp_status ▸ hfullp)
      apply hm
      refine ⟨by omega, ?_⟩
      intro e; rw [e] at hb; cases hb
    · simp only [List.map_cons, List.sum_cons, hs, tp_uc]
      omega

theorem not_ext_type (i : Nat) (hi : i < 15) (hne : ¬ is_ext i) :
    ¬ ((page_info i).page_type = MEM_PAGE_TYPE_ZERO ∨
      (page_info i).page_type = MEM_PAGE_TYPE_LARGE) := by
  have := page_info_type i hi
  unfold is_ext at hne
  simp only [MEM_PAGE_BLOCK_INFO_COUNT] at hne
  rw [this.1, this.2.1]
  omega

theorem ext_type (i : Nat) (hi : i < 15) (he : is_ext i) :
    (page_info i).page_type = MEM_PAGE_TYPE_ZERO ∨
      (page_info i).page_type = MEM_PAGE_TYPE_LARGE := by
  have := page_info_type i hi
  unfold is_ext at he
  simp only [MEM_PAGE_BLOCK_INFO_COUNT] at he
  rw [this.1, this.2.1]
  omega

theorem alloc_inv_slab (s : Heap) (g : Ghost) (L : List Nat) (len : Nat) (hI : Inv s g L)
    (hu : usable_page_exist s (get_page_index len) = true)
    (hne : ¬ is_ext (get_page_index len)) :
    Inv (alloc_block s len).2 (alloc_ghost s g len) ((alloc_block s len).1 :: L) ∧
    (alloc_block s len).1
      = firstD (g.fl (s.mem_page_map (get_page_index len)).head) 0 + sizeof_MEM_BLOCK ∧
    ((alloc_ghost s g len).lists (get_page_index len)).countP
        (fun a => ((alloc_block s len).2.page a).status = MEM_PAGE_STATUS_IDLE)
      + (if (s.page (s.mem_page_map (get_page_index len)).head).using_count = 0 then 1 else 0)
      ≤ 2 ∧
    ((alloc_block s len).2.page (s.mem_page_map (get_page_index len)).head).using_count
      = (s.page (s.mem_page_map (get_page_index len)).head).using_count + 1 := by
  have hi := get_page_index_lt len
  obtain ⟨rest, b, fr, hx, hf, hc, hh, hs, hlt, hb⟩ := alloc_pre s g L _ hI hi hu
  have hgl := alloc_ghost_lists s g len rest hx
  have hgf : (alloc_ghost s g len).fl (s.mem_page_map (get_page_index len)).head = fr := by
    simp [alloc_ghost, hf]
  have hgfo : ∀ a, a ≠ (s.mem_page_map (get_page_index len)).head →
      (alloc_ghost s g len).fl a = g.fl a := fun a ha => by simp [alloc_ghost, ha]
  have hgn : ∀ a, a ≠ (s.mem_page_map (get_page_index len)).head →
      (alloc_ghost s g len).len a = g.len a := fun a ha => by simp [alloc_ghost, ha]
  have hglj : ∀ j, j ≠ get_page_index len → (alloc_ghost s g len).lists j = g.lists j :=
    fun j hj => by simp [alloc_ghost, hj]
  have hb0 : firstD (g.fl (s.mem_page_map (get_page_index len)).head) 0 = b := by
    rw [hf]; rfl
  rw [alloc_block_eq s g L len hI hu, hb0]
  generalize hgd : alloc_ghost s g len = g' at *
  generalize hid : get_page_index len = i at *
  generalize hpd : (s.mem_page_map i).head = pg at *
  have hmem : pg ∈ g.lists i := by rw [hx]; exact List.mem_cons_self _ _
  have pp := hI.pages i hi pg hmem
  have hring := hI.ring i hi
  rw [hx] at hring
  have hnd : (pg :: rest).Nodup := hring.2.2.2.1
  obtain ⟨p0, p1, p2, p3, p4, p5, p6, p7, p8, p9⟩ :=
    alloc_steps_page s i pg hi pp.block_num pp.status hlt
  obtain ⟨r1, r2, r3, r4, r5, r6, r7, r8⟩ := alloc_steps_rest s i pg rest hring
  generalize alloc_block_count (alloc_block_using (alloc_block_full s i pg) i pg) pg = s3 at *
  have hty : ¬ ((s3.page pg).type = MEM_PAGE_TYPE_ZERO ∨
      (s3.page pg).type = MEM_PAGE_TYPE_LARGE) := by
    rw [p1, pp.type]; exact not_ext_type i hi hne
  obtain ⟨t1, t2, t3, t4, t5, t6, t7, t8⟩ := alloc_block_take_slab s3 pg len b hty
  rcases hr : alloc_block_take s3 pg len b with ⟨ret, t⟩
  rw [hr] at t1 t2 t3 t4 t5 t6 t7 t8
  simp only at t1 t2 t3 t4 t5 t6 t7 t8 ⊢
  have e16 : sizeof_MEM_BLOCK = 16 := rfl
  have hbh : (s3.page pg).block_head = 16 := by rw [p5, pp.block_head]; rfl
  have hbd : (s3.page pg).block_data = (page_info i).block_size := by rw [p6, pp.block_data]
  have hret : ret = b + 16 := by rw [t1, hbh]
  subst hret
  have fi := page_info_facts i hi
  obtain ⟨kb, hkb, ekb⟩ := pp.fl_blocks b (by rw [hf]; exact List.mem_cons_self _ _)
  have hbb := block_addr_bound pg i kb hi hkb
  have lp := hI.live_brk _ pp.live
  simp only at lp
  -- the per-class facts
  obtain ⟨c1, c2, c3, c4, c5⟩ := alloc_class_facts s t i pg rest (g'.lists i)
    (s.mem_page_map i).idle_num (t.mem_page_map i).idle_num hi hnd hgl pp.block_num pp.status hlt
    (fun x hx' => by rw [t2]; simp only [hx', if_false]; exact p0 x hx')
    (by rw [t2]; simp only [if_true]; exact p2)
    (by rw [t2]; simp only [if_true]; exact p3)
    (by rw [hI.idle_num i hi, hx])
    (by have := hI.idle_le i hi; rwa [hx] at this)
    (by have := hI.full_suffix i hi; rwa [hx] at this)
    (by rw [t6, r6])
  have hbpage : (s.block b).page = pg := by
    have := pp.hdr kb hkb
    rw [← ekb] at this
    rw [this]
  have hbL : b + 16 ∉ L := by
    intro hin
    obtain ⟨-, j, hj, a, ha, hpa, hcase⟩ := hI.out _ hin
    have e1 : b + 16 - sizeof_MEM_BLOCK = b := by omega
    rw [e1, hbpage] at hpa
    rw [← hpa] at ha hcase
    have hji := class_unique s g L hI j i pg hj hi ha hmem
    rw [hji] at hcase
    rcases hcase with ⟨-, k, hk, e, hnot⟩ | ⟨he, -⟩
    · have : block_addr pg i k = b := by omega
      rw [this, hf] at hnot
      exact hnot (List.mem_cons_self _ _)
    · exact hne he
  refine ⟨?_, by rw [e16], c2, by rw [t2]; simp only [if_true]; exact p3⟩
  apply Inv_local s t g g' L _ i pg (owned s g i pg) 0 1 hI hi (sep_owned s g L hI i pg hi hmem)
  · intro j hj hji h
    exact hji (class_unique s g L hI j i pg hj hi h hmem)
  · intro j hj hji x hx'
    rw [t5]
    apply r8
    intro h
    rw [← hx] at h
    exact hji (class_unique s g L hI j i x hj hi hx' h)
  · intro j _ hji
    rw [t6]; exact r5 j hji
  · intro j _ hji
    exact hglj j hji
  · intro _ _ a _ ha
    rw [t2]; simp only [ha, if_false]; exact p0 a ha
  · exact hgfo
  · exact hgn
  · intro x hx'
    rw [t3, r1]
    have : x ≠ b := by
      intro e; apply hx'; left
      have := fi.1
      omega
    simp only [this, if_false]
  · intro x hx'
    rw [t4, r2, hbh, hbd]
    have : ¬ (b + 16 ≤ x ∧ x < b + 16 + (page_info i).block_size) := by
      intro e; apply hx'; left
      omega
    simp only [this, if_false]
  · intro r hr _
    rw [t8, r4]; exact hr
  · intro x hx'
    exact Or.inl ((c5 x).1 hx' |> fun h => hx ▸ h)
  · exact Or.inl hmem
  · intro a ha _
    rw [hx] at ha
    exact (c5 a).2 ha
  · rw [t5, t6]; exact hgl ▸ r7
  · intro _
    apply alloc_page_ok_slab s t g g' L _ i pg b fr hi hne pp hf hlt
    · rw [t2]; simp only [if_true]; exact p1
    · rw [t2]; simp only [if_true]; exact p2
    · rw [t2]; simp only [if_true]; exact p3
    · rw [t2]; simp only [if_true]; exact p4
    · rw [t2]; simp only [if_true]; exact p5
    · rw [t2]; simp only [if_true]; exact p6
    · rw [t2]; simp only [if_true]; exact p7
    · rw [t2]; simp only [if_true, hbh, e16]
      have : MEM_TO_ADDR s3 (b + 16) = MEM_TO_ADDR s (b + 16) :=
        MEM_TO_ADDR_congr s s3 _ (fun x _ _ => by rw [r2])
      rw [this]
    · rw [t2]; simp only [if_true]; exact p9
    · rw [t3, r1]
    · intro x hx'
      rw [t4, r2, hbh, hbd]
      simp only [hx', if_false]
    · rw [t8, r4]; exact pp.live
    · exact hgf
  · exact c1
  · omega
  · exact c3
  · rw [c4, hx]
  · simp
  · rw [t8, r4]; exact hI.live_sorted
  · rw [t8, r4, t7, r3]; exact hI.live_brk
  · rw [t7, r3]; exact hI.brk
  · exact List.nodup_cons.2 ⟨hbL, hI.out_nodup⟩
  · intro p hp _
    exact List.mem_cons_of_mem _ hp
  · intro p hp
    have hpg' : pg ∈ g'.lists i := (c5 pg).2 (List.mem_cons_self _ _)
    have hbfr : b ∉ fr := by
      have := pp.fl_nodup
      rw [hf] at this
      exact (List.nodup_cons.1 this).1
    rcases List.mem_cons.1 hp with e | hpL
    · right
      subst e
      refine ⟨by omega, i, hi, pg, hpg', ?_, Or.inl ⟨hne, kb, hkb, by omega, ?_⟩⟩
      · have e1 : b + 16 - sizeof_MEM_BLOCK = b := by omega
        rw [e1, t3, r1]
        simp only [if_true]
        exact hbpage
      · rw [← ekb, hgf]; exact hbfr
    · by_cases hpp : (s.block (p - sizeof_MEM_BLOCK)).page = pg
      · right
        obtain ⟨h16, j, hj, a, ha, hpa, hcase⟩ := hI.out _ hpL
        rw [hpp] at hpa
        rw [← hpa] at ha hcase
        have hji := class_unique s g L hI j i pg hj hi ha hmem
        rw [hji] at hcase
        rcases hcase with ⟨-, k, hk, e, hnot⟩ | ⟨he, -⟩
        · rw [hf] at hnot
          have hkb' : block_addr pg i k ≠ b := fun e' => hnot (e' ▸ List.mem_cons_self _ _)
          refine ⟨h16, i, hi, pg, hpg', ?_, Or.inl ⟨hne, k, hk, e, ?_⟩⟩
          · have e1 : p - sizeof_MEM_BLOCK = block_addr pg i k := by omega
            rw [e1, t3, r1]
            simp only [hkb', if_false]
            rw [← e1]; exact hpp
          · rw [hgf]; exact fun h => hnot (List.mem_cons_of_mem _ h)
        · exact absurd he hne
      · exact Or.inl ⟨hpL, hpp⟩

theorem out_lt_brk (s : Heap) (g : Ghost) (L : List Nat) (hI : Inv s g L) (p : Nat)
    (hp : p ∈ L) : p < s.brk := by
  obtain ⟨-, j, hj, a, ha, -, hcase⟩ := hI.out p hp
  have pa := hI.pages j hj a ha
  have la := hI.live_brk _ pa.live
  simp only at la
  have e16 : sizeof_MEM_BLOCK = 16 := rfl
  rcases hcase with ⟨-, k, hk, e, -⟩ | ⟨he, hu, e⟩
  · have := block_addr_bound a j k hj hk
    have := (page_info_facts j hj).1
    omega
  · have lo := hI.live_brk _ (pa.ext_used he hu).live
    simp only at lo
    omega

theorem ext_alloc_size (len : Nat) (hlen : len ≤ INT_MAX) :
    toInt32 (toInt32 ((0 : Int) + (((8 : Nat) : Int) + ((16 : Nat) : Int)))
      + toInt32 ((((16 + len) % SIZE_MOD : Nat) : Int))) = toInt32 ((len : Int) + 40) := by
  unfold INT_MAX at hlen
  have : (16 + len) % SIZE_MOD = 16 + len := by
    unfold SIZE_MOD; omega
  rw [this]
  unfold toInt32
  push_cast
  omega

theorem alloc_page_ok_ext (s t : Heap) (g g' : Ghost) (L L' : List Nat) (i pg b len : Nat)
    (hi : i < 15) (he : is_ext i)
    (pp : PageOK s g L i pg) (hf : g.fl pg = [b])
    (hu0 : (s.page pg).using_count = 0)
    (hbrk : s.brk < 2 ^ 64) (hpb : pg + page_size i < s.brk)
    (hlen : len ≤ INT_MAX) (hcls : get_page_index len = i)
    (tp_type : (t.page pg).type = (s.page pg).type)
    (tp_status : (t.page pg).status = MEM_PAGE_STATUS_FULL)
    (tp_uc : (t.page pg).using_count = 1)
    (tp_bn : (t.page pg).block_num = (s.page pg).block_num)
    (tp_bh : (t.page pg).block_head = (s.page pg).block_head)
    (tp_bd : (t.page pg).block_data = (s.page pg).block_data)
    (tp_alloc : (t.page pg).alloc_size = toInt32 ((len : Int) + 40))
    (tp_idle : (t.page pg).idle = 0)
    (tp_head : (t.page pg).head_addr = (s.page pg).head_addr)
    (tb : t.block = fun x =>
      if x = s.brk then ⟨pg, MEM_BLOCK_STATUS_USING⟩
      else if x = b then { s.block b with status := MEM_BLOCK_STATUS_USING }
      else s.block x)
    (ty : ∀ x, b + 16 ≤ x → x < b + 16 + 8 → t.byte x = s.brk / 2 ^ (8 * (x - (b + 16))) % 256)
    (tl : (pg, page_size i) ∈ t.live)
    (tl2 : (s.brk, 16 + len) ∈ t.live)
    (hL : s.brk + 16 ∈ L')
    (hfresh : ∀ j < 15, s.brk ∉ g'.lists j)
    (gf : g'.fl pg = [])
    (gn : g'.len pg = len) :
    PageOK t g' L' i pg := by
  have fi := page_info_facts i hi
  obtain ⟨hbn1, hbs8⟩ := fi.2.2.2.2.2.2.1 he
  obtain ⟨k, hk, ek⟩ := pp.fl_blocks b (by rw [hf]; exact List.mem_cons_self _ _)
  have hk0 : k = 0 := by omega
  subst hk0
  have hb : b = pg + 48 := by
    rw [ek]; unfold block_addr; simp [sizeof_MEM_PAGE]
  have hw : MEM_TO_ADDR t (pg + sizeof_MEM_PAGE + sizeof_MEM_BLOCK) = s.brk := by
    have e1 : pg + sizeof_MEM_PAGE + sizeof_MEM_BLOCK = b + 16 := by
      rw [hb]; rfl
    rw [e1]
    have := MEM_TO_ADDR_ADDR_TO_MEM s (b + 16) s.brk hbrk
    rw [← this]
    apply MEM_TO_ADDR_congr
    intro x h1 h2
    rw [ty x h1 h2, ADDR_TO_MEM_byte, if_pos ⟨h1, h2⟩]
  have hps : page_size i = 72 := by
    unfold page_size; simp only [hbn1, sizeof_MEM_BLOCK, sizeof_MEM_PAGE]
    have := fi.2.2.2.2.1
    rw [hbn1, hbs8] at this
    rcases he with e | e
    · subst e; rfl
    · simp only [MEM_PAGE_BLOCK_INFO_COUNT] at e; subst e; rfl
  refine
    { head_addr := by rw [tp_head]; exact pp.head_addr
      type := by rw [tp_type]; exact pp.type
      block_num := by rw [tp_bn]; exact pp.block_num
      block_head := by rw [tp_bh]; exact pp.block_head
      block_data := by rw [tp_bd]; exact pp.block_data
      status := by
        rw [tp_status, tp_uc, hbn1]; rfl
      fl_len := by rw [tp_uc, gf, hbn1]; rfl
      fl_nodup := by rw [gf]; exact List.nodup_nil
      fl_blocks := by rw [gf]; intro c hc; cases hc
      idle := by rw [tp_idle, gf]; rfl
      chain := by rw [gf]; trivial
      hdr := ?_
      live := tl
      alloc_slab := fun h => absurd he h
      ext_idle := fun _ h => by rw [tp_uc] at h; cases h
      ext_used := ?_ }
  · intro k hk
    have hk0 : k = 0 := by omega
    subst hk0
    rw [← ek, tb, gf]
    have hne : b ≠ s.brk := by rw [hps] at hpb; omega
    simp only [hne, if_false, if_true, List.not_mem_nil]
    have old := pp.hdr 0 hk
    rw [← ek] at old
    rw [old]
  · intro _ _
    exact
      { hdr := by
          rw [hw, tb]; simp only [if_true]
        live := by rw [hw, gn]; exact tl2
        out := by rw [hw]; exact hL
        alloc := by rw [tp_alloc, gn]
        len_le := by rw [gn]; exact hlen
        cls := by rw [gn]; exact hcls
        fresh := by rw [hw]; exact hfresh }

theorem alloc_inv_ext (s : Heap) (g : Ghost) (L : List Nat) (len : Nat) (hI : Inv s g L)
    (hu : usable_page_exist s (get_page_index len) = true)
    (hne : is_ext (get_page_index len)) (hlen : len ≤ INT_MAX)
    (hbrk : (alloc_block s len).2.brk ≤ 2 ^ 64) :
    Inv (alloc_block s len).2 (alloc_ghost s g len) ((alloc_block s len).1 :: L) ∧
    (alloc_block s len).1 = s.brk + sizeof_MEM_BLOCK ∧
    ((alloc_ghost s g len).lists (get_page_index len)).countP
        (fun a => ((alloc_block s len).2.page a).status = MEM_PAGE_STATUS_IDLE)
      + (if (s.page (s.mem_page_map (get_page_index len)).head).using_count = 0 then 1 else 0)
      ≤ 2 := by
  have hi := get_page_index_lt len
  obtain ⟨rest, b, fr, hx, hf, hc, hh, hs, hlt, hb⟩ := alloc_pre s g L _ hI hi hu
  have hgl := alloc_ghost_lists s g len rest hx
  have hgf : (alloc_ghost s g len).fl (s.mem_page_map (get_page_index len)).head = fr := by
    simp [alloc_ghost, hf]
  have hgfo : ∀ a, a ≠ (s.mem_page_map (get_page_index len)).head →
      (alloc_ghost s g len).fl a = g.fl a := fun a ha => by simp [alloc_ghost, ha]
  have hgn : ∀ a, a ≠ (s.mem_page_map (get_page_index len)).head →
      (alloc_ghost s g len).len a = g.len a := fun a ha => by simp [alloc_ghost, ha]
  have hglj : ∀ j, j ≠ get_page_index len → (alloc_ghost s g len).lists j = g.lists j :=
    fun j hj => by simp [alloc_ghost, hj]
  have hb0 : firstD (g.fl (s.mem_page_map (get_page_index len)).head) 0 = b := by
    rw [hf]; rfl
  rw [alloc_block_eq s g L len hI hu, hb0] at hbrk ⊢
  generalize hgd : alloc_ghost s g len = g' at *
  generalize hid : get_page_index len = i at *
  generalize hpd : (s.mem_page_map i).head = pg at *
  have hmem : pg ∈ g.lists i := by rw [hx]; exact List.mem_cons_self _ _
  have pp := hI.pages i hi pg hmem
  have hring := hI.ring i hi
  rw [hx] at hring
  have hnd : (pg :: rest).Nodup := hring.2.2.2.1
  obtain ⟨p0, p1, p2, p3, p4, p5, p6, p7, p8, p9⟩ :=
    alloc_steps_page s i pg hi pp.block_num pp.status hlt
  obtain ⟨r1, r2, r3, r4, r5, r6, r7, r8⟩ := alloc_steps_rest s i pg rest hring
  generalize alloc_block_count (alloc_block_using (alloc_block_full s i pg) i pg) pg = s3 at *
  have hty : (s3.page pg).type = MEM_PAGE_TYPE_ZERO ∨
      (s3.page pg).type = MEM_PAGE_TYPE_LARGE := by
    rw [p1, pp.type]; exact ext_type i hi hne
  obtain ⟨t1, t2, t3, t4, t5, t6, t7, t8⟩ := alloc_block_take_ext s3 pg len b hty
  rcases hr : alloc_block_take s3 pg len b with ⟨ret, t⟩
  rw [hr] at t1 t2 t3 t4 t5 t6 t7 t8 hbrk
  simp only at t1 t2 t3 t4 t5 t6 t7 t8 hbrk ⊢
  have e16 : sizeof_MEM_BLOCK = 16 := rfl
  have hbh : (s3.page pg).block_head = 16 := by rw [p5, pp.block_head]; rfl
  have hbd : (s3.page pg).block_data = (page_info i).block_size := by rw [p6, pp.block_data]
  have hret : ret = s.brk + 16 := by rw [t1, hbh, r3]
  subst hret
  have fi := page_info_facts i hi
  obtain ⟨hbn1, hbs8⟩ := fi.2.2.2.2.2.2.1 hne
  have hu0 : (s.page pg).using_count = 0 := by omega
  have hfr : fr = [] := by
    have := pp.fl_len
    rw [hf, hu0, hbn1] at this
    simp only [List.length_cons] at this
    exact List.eq_nil_of_length_eq_zero (by omega)
  subst hfr
  have hsz : ((s3.page pg).block_head + len) % SIZE_MOD = 16 + len := by
    rw [hbh]; unfold SIZE_MOD; unfold INT_MAX at hlen; omega
  rw [hsz] at t2 t7 t8
  rw [hbh, r3] at t4
  rw [r3] at t3 t7 t8
  have hsb : s.brk < 2 ^ 64 := by rw [t7] at hbrk; omega
  obtain ⟨kb, hkb, ekb⟩ := pp.fl_blocks b (by rw [hf]; exact List.mem_cons_self _ _)
  have hbb := block_addr_bound pg i kb hi hkb
  have lp := hI.live_brk _ pp.live
  simp only at lp
  -- the per-class facts
  obtain ⟨c1, c2, c3, c4, c5⟩ := alloc_class_facts s t i pg rest (g'.lists i)
    (s.mem_page_map i).idle_num (t.mem_page_map i).idle_num hi hnd hgl pp.block_num pp.status hlt
    (fun x hx' => by rw [t2]; simp only [hx', if_false]; exact p0 x hx')
    (by rw [t2]; simp only [if_true]; exact p2)
    (by rw [t2]; simp only [if_true]; exact p3)
    (by rw [hI.idle_num i hi, hx])
    (by have := hI.idle_le i hi; rwa [hx] at this)
    (by have := hI.full_suffix i hi; rwa [hx] at this)
    (by rw [t6, r6])
  have hbpage : (s.block b).page = pg := by
    have := pp.hdr kb hkb
    rw [← ekb] at this
    rw [this]
  have hbL : s.brk + 16 ∉ L := by
    intro hin
    have := out_lt_brk s g L hI _ hin
    omega
  have hbne : b ≠ s.brk := by omega
  refine ⟨?_, by rw [e16], c2⟩
  apply Inv_local s t g g' L _ i pg (owned s g i pg) 0 1 hI hi (sep_owned s g L hI i pg hi hmem)
  · intro j hj hji h
    exact hji (class_unique s g L hI j i pg hj hi h hmem)
  · intro j hj hji x hx'
    rw [t5]
    apply r8
    intro h
    rw [← hx] at h
    exact hji (class_unique s g L hI j i x hj hi hx' h)
  · intro j _ hji
    rw [t6]; exact r5 j hji
  · intro j _ hji
    exact hglj j hji
  · intro _ _ a _ ha
    rw [t2]; simp only [ha, if_false]; exact p0 a ha
  · exact hgfo
  · exact hgn
  · intro x hx'
    rw [t3, r1]
    have h1 : x ≠ s.brk := by
      intro e; apply hx'; right; right; omega
    have h2 : x ≠ b := by
      intro e; apply hx'; left
      have := fi.1
      omega
    simp only [h1, h2, if_false]
  · intro x hx'
    rw [t4, r2]
    have h1 : ¬ (s.brk + 16 ≤ x ∧ x < s.brk + 16 + len) := by
      intro e; apply hx'; right; right; omega
    have h2 : ¬ (b + 16 ≤ x ∧ x < b + 16 + 8) := by
      intro e; apply hx'; left
      have := fi.1
      omega
    simp only [h1, h2, if_false]
  · intro r hr _
    rw [t8, r4]; exact List.mem_cons_of_mem _ hr
  · intro x hx'
    exact Or.inl ((c5 x).1 hx' |> fun h => hx ▸ h)
  · exact Or.inl hmem
  · intro a ha _
    rw [hx] at ha
    exact (c5 a).2 ha
  · rw [t5, t6]; exact hgl ▸ r7
  · intro _
    have hst : (t.page pg).status = MEM_PAGE_STATUS_FULL := by
      rw [t2]; simp only [if_true, p2, hu0, hbn1]; rfl
    apply alloc_page_ok_ext s t g g' L _ i pg b len hi hne pp hf hu0 hsb (by omega) hlen hid
    · rw [t2]; simp only [if_true]; exact p1
    · exact hst
    · rw [t2]; simp only [if_true, p3, hu0]
    · rw [t2]; simp only [if_true]; exact p4
    · rw [t2]; simp only [if_true]; exact p5
    · rw [t2]; simp only [if_true]; exact p6
    · rw [t2]; simp only [if_true, p7, pp.block_data, pp.block_head, hbs8,
        pp.ext_idle hne hu0]
      have := ext_alloc_size len hlen
      have hsz' : (16 + len) % SIZE_MOD = 16 + len := by
        unfold SIZE_MOD; unfold INT_MAX at hlen; omega
      rw [hsz'] at this
      exact this
    · rw [t2]; simp only [if_true, p2, hu0, hbn1]
      rfl
    · rw [t2]; simp only [if_true]; exact p9
    · rw [t3, r1]
    · intro x h1 h2
      rw [t4]
      have h3 : ¬ (s.brk + 16 ≤ x ∧ x < s.brk + 16 + len) := by omega
      simp only [h3, if_false, h1, h2, and_self, if_true]
    · rw [t8, r4]; exact List.mem_cons_of_mem _ pp.live
    · rw [t8]; exact List.mem_cons_self _ _
    · exact List.mem_cons_self _ _
    · intro j hj hin
      rcases (by
        by_cases e : j = i
        · subst e; exact Or.inl ((c5 _).1 hin |> fun h => hx ▸ h)
        · rw [hglj j e] at hin; exact Or.inl hin : s.brk ∈ g.lists j ∨ False) with h | h
      · have := hI.live_brk _ (hI.pages j hj _ h).live
        simp only at this
        omega
      · exact h
    · exact hgf
    · simp [← hgd, alloc_ghost, hid, hpd]
  · exact c1
  · omega
  · exact c3
  · rw [c4, hx]
  · simp
  · rw [t8, r4, List.pairwise_cons]
    refine ⟨?_, hI.live_sorted⟩
    intro y hy
    exact (hI.live_brk y hy).2
  · rw [t8, r4, t7]
    intro r hr
    rcases List.mem_cons.1 hr with e | e
    · subst e; simp only; omega
    · have := hI.live_brk r e
      omega
  · exact ⟨by rw [t7]; have := hI.brk.1; omega, hbrk⟩
  · exact List.nodup_cons.2 ⟨hbL, hI.out_nodup⟩
  · intro p hp _
    exact List.mem_cons_of_mem _ hp
  · intro p hp
    have hpg' : pg ∈ g'.lists i := (c5 pg).2 (List.mem_cons_self _ _)
    rcases List.mem_cons.1 hp with e | hpL
    · right
      subst e
      have hw : MEM_TO_ADDR t (pg + sizeof_MEM_PAGE + sizeof_MEM_BLOCK) = s.brk := by
        have e1 : pg + sizeof_MEM_PAGE + sizeof_MEM_BLOCK = b + 16 := by
          rw [ekb]; unfold block_addr
          have : kb = 0 := by omega
          subst this; simp [sizeof_MEM_BLOCK]
        rw [e1]
        have := MEM_TO_ADDR_ADDR_TO_MEM s (b + 16) s.brk hsb
        rw [← this]
        apply MEM_TO_ADDR_congr
        intro x h1 h2
        rw [t4, ADDR_TO_MEM_byte, if_pos ⟨h1, h2⟩]
        have h3 : ¬ (s.brk + 16 ≤ x ∧ x < s.brk + 16 + len) := by omega
        simp only [h3, if_false, h1, h2, and_self, if_true]
      refine ⟨by omega, i, hi, pg, hpg', ?_, Or.inr ⟨hne, ?_, ?_⟩⟩
      · have e1 : s.brk + 16 - sizeof_MEM_BLOCK = s.brk := by omega
        rw [e1, t3]
        simp only [if_true]
      · rw [t2]; simp only [if_true, p3, hu0]; omega
      · rw [hw, e16]
    · by_cases hpp : (s.block (p - sizeof_MEM_BLOCK)).page = pg
      · exfalso
        obtain ⟨h16, j, hj, a, ha, hpa, hcase⟩ := hI.out _ hpL
        rw [hpp] at hpa
        rw [← hpa] at ha hcase
        have hji := class_unique s g L hI j i pg hj hi ha hmem
        rw [hji] at hcase
        rcases hcase with ⟨hn, -⟩ | ⟨-, hu1, -⟩
        · exact hn hne
        · exact hu1 hu0
      · exact Or.inl ⟨hpL, hpp⟩

theorem blocks_from_mem (c bo n b : Nat) :
    b ∈ blocks_from c bo n ↔ ∃ k < n, b = c + k * bo := by
  induction n generalizing c with
  | zero => simp [blocks_from]
  | succ n ih =>
    simp only [blocks_from, List.mem_cons, ih]
    constructor
    · rintro (e | ⟨k, hk, e⟩)
      · exact ⟨0, by omega, by simp [e]⟩
      · exact ⟨k + 1, by omega, by rw [e, Nat.succ_mul]; omega⟩
    · rintro ⟨k, hk, e⟩
      cases k with
      | zero => left; simpa using e
      | succ k => right; exact ⟨k, by omega, by rw [e, Nat.succ_mul]; omega⟩

theorem blocks_from_length (c bo n : Nat) : (blocks_from c bo n).length = n := by
  induction n generalizing c with
  | zero => rfl
  | succ n ih => simp [blocks_from, ih]

theorem blocks_from_nodup (c bo n : Nat) (hbo : 0 < bo) : (blocks_from c bo n).Nodup := by
  induction n generalizing c with
  | zero => exact List.nodup_nil
  | succ n ih =>
    simp only [blocks_from, List.nodup_cons]
    refine ⟨?_, ih _⟩
    rw [blocks_from_mem]
    rintro ⟨k, _, e⟩
    have : 0 ≤ k * bo := Nat.zero_le _
    omega

theorem init_blocks_rest (page bs bo n : Nat) (s : Heap) (c : Nat) :
    (init_blocks page bs bo n s c).1.node = s.node ∧
    (init_blocks page bs bo n s c).1.page = s.page ∧
    (init_blocks page bs bo n s c).1.mem_page_map = s.mem_page_map ∧
    (init_blocks page bs bo n s c).1.brk = s.brk ∧
    (init_blocks page bs bo n s c).1.live = s.live ∧
    (init_blocks page bs bo n s c).2 = c + n * bo := by
  induction n generalizing s c with
  | zero => simp [init_blocks]
  | succ n ih =>
    simp only [init_blocks]
    obtain ⟨h1, h2, h3, h4, h5, h6⟩ := ih (ADDR_TO_MEM (s.setBlock c ⟨page, MEM_BLOCK_STATUS_IDLE⟩)
      (c + bs) (c + bo)) (c + bo)
    refine ⟨by rw [h1]; rfl, by rw [h2]; rfl, by rw [h3]; rfl, by rw [h4]; rfl, by rw [h5]; rfl, ?_⟩
    rw [h6, Nat.succ_mul]; omega

theorem init_blocks_block (page bs bo n : Nat) (s : Heap) (c : Nat) (hbo : 0 < bo) (x : Nat) :
    (init_blocks page bs bo n s c).1.block x =
      if x ∈ blocks_from c bo n then ⟨page, MEM_BLOCK_STATUS_IDLE⟩ else s.block x := by
  induction n generalizing s c with
  | zero => simp [init_blocks, blocks_from]
  | succ n ih =>
    simp only [init_blocks, blocks_from, List.mem_cons]
    rw [ih]
    by_cases h1 : x ∈ blocks_from (c + bo) bo n
    · simp [h1]
    · simp only [h1, if_false, or_false]
      simp only [sel_ADDR_TO_MEM_block, sel_setBlock_block]

theorem init_blocks_byte_frame (page bs bo n : Nat) (s : Heap) (c : Nat) (hbo : bs + 8 ≤ bo)
    (x : Nat) (hx : x < c + bs ∨ c + n * bo ≤ x) :
    (init_blocks page bs bo n s c).1.byte x = s.byte x := by
  induction n generalizing s c with
  | zero => simp [init_blocks]
  | succ n ih =>
    simp only [init_blocks]
    rw [ih]
    · simp only [sel_ADDR_TO_MEM_byte, sel_setBlock_byte]
      rw [if_neg]
      rw [Nat.succ_mul] at hx
      have : 0 ≤ n * bo := Nat.zero_le _
      omega
    · rw [Nat.succ_mul] at hx
      have : 0 ≤ n * bo := Nat.zero_le _
      omega

theorem init_blocks_chain (page bo n : Nat) (s : Heap) (c : Nat) (hbo : 24 ≤ bo)
    (hlt : c + (n + 1) * bo < 2 ^ 64)
    (hz : ∀ x, c + n * bo + 16 ≤ x → x < c + n * bo + 24 → s.byte x = 0) :
    free_chain (init_blocks page 16 bo n s c).1 (blocks_from c bo (n + 1)) := by
  induction n generalizing s c with
  | zero =>
    simp only [init_blocks, blocks_from, free_chain, firstD, and_true, sizeof_MEM_BLOCK]
    apply MEM_TO_ADDR_zero
    intro x h1 h2
    exact hz x (by omega) (by omega)
  | succ n ih =>
    have e1 : c + (n + 1) * bo = c + bo + n * bo := by rw [Nat.succ_mul]; omega
    have e2 : c + (n + 1 + 1) * bo = c + bo + (n + 1) * bo := by
      rw [Nat.succ_mul (n + 1)]; omega
    simp only [init_blocks]
    show free_chain _ (c :: blocks_from (c + bo) bo (n + 1))
    refine ⟨?_, ?_⟩
    · have hf : firstD (blocks_from (c + bo) bo (n + 1)) 0 = c + bo := rfl
      rw [hf]
      have h1 := MEM_TO_ADDR_ADDR_TO_MEM (s.setBlock c ⟨page, MEM_BLOCK_STATUS_IDLE⟩)
        (c + 16) (c + bo) (by
          rw [e2] at hlt
          have : 0 ≤ (n + 1) * bo := Nat.zero_le _
          omega)
      refine Eq.trans ?_ h1
      apply MEM_TO_ADDR_congr
      intro x h2 h3
      apply init_blocks_byte_frame _ _ _ _ _ _ (by omega)
      simp only [sizeof_MEM_BLOCK] at h2 h3
      left; omega
    · apply ih
      · rw [← e2]; exact hlt
      · intro x h1 h2
        simp only [sel_ADDR_TO_MEM_byte, sel_setBlock_byte]
        rw [if_neg]
        · exact hz x (by rw [e1]; omega) (by rw [e1]; omega)
        · have : 0 ≤ n * bo := Nat.zero_le _
          omega

theorem blocks_from_block_addr (a i b : Nat) :
    b ∈ blocks_from (a + sizeof_MEM_PAGE) (sizeof_MEM_BLOCK + (page_info i).block_size)
        (page_info i).block_num ↔
      ∃ k < (page_info i).block_num, b = block_addr a i k := by
  rw [blocks_from_mem]; rfl

theorem blocks_from_last (c bo n : Nat) :
    blocks_from c bo (n + 1) = blocks_from c bo n ++ [c + n * bo] := by
  induction n generalizing c with
  | zero => simp [blocks_from]
  | succ n ih =>
    show c :: blocks_from (c + bo) bo (n + 1) = c :: blocks_from (c + bo) bo n ++ [_]
    rw [ih, Nat.succ_mul]
    simp only [List.cons_append, List.cons.injEq, true_and]
    congr 2
    omega

/-- The memory after `mem_page_initialize` on a zeroed region. -/
theorem mem_page_initialize_mem (s : Heap) (i a : Nat) (hi : i < 15) (ha : a ≠ 0)
    (hlt : a + page_size i < 2 ^ 64)
    (hz : ∀ x, a ≤ x → x < a + page_size i → s.byte x = 0) :
    let t := mem_page_initialize s i a false
    (∀ x, t.block x =
      if x ∈ blocks_from (a + sizeof_MEM_PAGE) (sizeof_MEM_BLOCK + (page_info i).block_size)
          (page_info i).block_num
        then ⟨a, MEM_BLOCK_STATUS_IDLE⟩ else s.block x) ∧
    (∀ x, x < a ∨ a + page_size i ≤ x → t.byte x = s.byte x) ∧
    free_chain t (blocks_from (a + sizeof_MEM_PAGE)
      (sizeof_MEM_BLOCK + (page_info i).block_size) (page_info i).block_num) ∧
    t.node = setNext (setPrev s.node a 0) a 0 ∧
    (∀ x, x ≠ a → t.page x = s.page x) ∧
    t.mem_page_map = s.mem_page_map ∧ t.brk = s.brk ∧ t.live = s.live := by
  have fi := page_info_facts i hi
  have hc : ¬ (i > MEM_PAGE_BLOCK_INFO_COUNT - 1 ∨ a = 0) := by
    simp only [MEM_PAGE_BLOCK_INFO_COUNT]; omega
  obtain ⟨n, hn⟩ : ∃ n, (page_info i).block_num = n + 1 := ⟨(page_info i).block_num - 1, by omega⟩
  have hb := block_addr_bound a i n hi (by omega)
  have e48 : sizeof_MEM_PAGE = 48 := rfl
  have e16 : sizeof_MEM_BLOCK = 16 := rfl
  have hbo : 24 ≤ 16 + (page_info i).block_size := by omega
  simp only [block_addr, e48, e16] at hb
  intro t
  have ht : t = ((init_blocks a 16 (16 + (page_info i).block_size) n
      ({ s with node := setNext (setPrev s.node a 0) a 0 }.setPage a
        { type := (page_info i).page_type, status := MEM_PAGE_STATUS_IDLE, using_count := 0,
          block_num := (page_info i).block_num, block_head := 16,
          block_data := (page_info i).block_size, alloc_size := 0, idle := a + 48,
          head_addr := a }) (a + 48)).1.setBlock
      (init_blocks a 16 (16 + (page_info i).block_size) n
      ({ s with node := setNext (setPrev s.node a 0) a 0 }.setPage a
        { type := (page_info i).page_type, status := MEM_PAGE_STATUS_IDLE, using_count := 0,
          block_num := (page_info i).block_num, block_head := 16,
          block_data := (page_info i).block_size, alloc_size := 0, idle := a + 48,
          head_addr := a }) (a + 48)).2 ⟨a, MEM_BLOCK_STATUS_IDLE⟩) := by
    show mem_page_initialize s i a false = _
    unfold mem_page_initialize
    simp only [hc, if_false, block_head_size, sizeof_MEM_BLOCK, sizeof_MEM_PAGE, hn,
      Nat.add_sub_cancel, Bool.false_eq_true]
  generalize hs0 : ({ s with node := setNext (setPrev s.node a 0) a 0 }.setPage a
        { type := (page_info i).page_type, status := MEM_PAGE_STATUS_IDLE, using_count := 0,
          block_num := (page_info i).block_num, block_head := 16,
          block_data := (page_info i).block_size, alloc_size := 0, idle := a + 48,
          head_addr := a }) = s0 at ht
  have hs0b : s0.block = s.block := by rw [← hs0]; rfl
  have hs0y : s0.byte = s.byte := by rw [← hs0]; rfl
  obtain ⟨r1, r2, r3, r4, r5, r6⟩ :=
    init_blocks_rest a 16 (16 + (page_info i).block_size) n s0 (a + 48)
  rw [r6] at ht
  rw [ht, e48, e16, hn]
  refine ⟨?_, ?_, ?_, ?_, ?_, ?_, ?_, ?_⟩
  · intro x
    rw [blocks_from_last]
    simp only [sel_setBlock_block, List.mem_append, List.mem_singleton]
    rw [init_blocks_block _ _ _ _ _ _ (by omega), hs0b]
    by_cases h1 : x = a + 48 + n * (16 + (page_info i).block_size)
    · simp [h1]
    · simp [h1]
  · intro x hx
    simp only [sel_setBlock_byte]
    rw [init_blocks_byte_frame _ _ _ _ _ _ (by omega), hs0y]
    rcases hx with hx | hx
    · left; omega
    · right; omega
  · apply (free_chain_congr _ _ _ _).2
    · apply init_blocks_chain a (16 + (page_info i).block_size) n s0 (a + 48) hbo
      · rw [Nat.succ_mul]; omega
      · intro x h1 h2
        rw [hs0y]
        exact hz x (by omega) (by omega)
    · intro _ _ x _ _
      rfl
  · simp only [sel_setBlock_node]
    rw [r1, ← hs0]; rfl
  · intro x hx
    simp only [sel_setBlock_page]
    rw [r2, ← hs0]
    simp [hx]
  · simp only [sel_setBlock_mem_page_map]; rw [r3, ← hs0]; rfl
  · simp only [sel_setBlock_brk]; rw [r4, ← hs0]; rfl
  · simp only [sel_setBlock_live]; rw [r5, ← hs0]; rfl

theorem pages_lt_brk (s : Heap) (g : Ghost) (L : List Nat) (hI : Inv s g L) (j a : Nat)
    (hj : j < 15) (ha : a ∈ g.lists j) : 4096 ≤ a ∧ a + page_size j < s.brk := by
  have := hI.live_brk _ (hI.pages j hj a ha).live
  simpa using this

/-- When no page of the class is usable, no page of the class is idle. -/
theorem unusable_no_idle (s : Heap) (g : Ghost) (L : List Nat) (i : Nat) (hI : Inv s g L)
    (hi : i < 15) (hu : usable_page_exist s i = false) :
    ((s.mem_page_map i).head = 0 ∨
      (s.page (s.mem_page_map i).head).status = MEM_PAGE_STATUS_FULL) ∧
    ∀ a ∈ g.lists i, (s.page a).status = MEM_PAGE_STATUS_FULL := by
  have hr := hI.ring i hi
  obtain ⟨hc, hh, -, -, -, -⟩ := hr
  cases hx : g.lists i with
  | nil =>
    rw [hx] at hh
    exact ⟨Or.inl hh, fun a ha => by cases ha⟩
  | cons p rest =>
    rw [hx] at hh hc
    have hp : (s.page p).status = MEM_PAGE_STATUS_FULL := by
      unfold usable_page_exist at hu
      have hi' : ¬ i > MEM_PAGE_BLOCK_INFO_COUNT - 1 := by
        simp only [MEM_PAGE_BLOCK_INFO_COUNT]; omega
      have h0 := hI.ring i hi
      rw [hx] at h0
      have hp0 : p ≠ 0 := fun e => h0.2.2.2.2.1 (e ▸ List.mem_cons_self _ _)
      have h1 : ¬ ((s.mem_page_map i).count = 0 ∨ (s.mem_page_map i).head = 0) := by
        rw [hc, hh]
        simp only [List.length_cons, firstD]
        push_neg
        exact ⟨by push_cast; omega, hp0⟩
      rw [if_neg hi', if_neg h1] at hu
      by_contra hne
      have : (s.page (s.mem_page_map i).head).status ≠ MEM_PAGE_STATUS_FULL := by
        rw [hh]; exact hne
      rw [if_neg this] at hu
      cases hu
    refine ⟨Or.inr (by rw [hh]; exact hp), ?_⟩
    intro a ha
    rcases List.mem_cons.1 ha with e | e
    · rw [e]; exact hp
    · have := hI.full_suffix i hi
      rw [hx, List.pairwise_cons] at this
      exact this.1 a e hp

theorem page_malloc_pre_facts (s : Heap) (g : Ghost) (L : List Nat) (i : Nat) (hI : Inv s g L)
    (hi : i < 15) (hlt : s.brk + page_size i < 2 ^ 64) :
    let t := page_malloc_pre s i
    (∀ x, t.block x =
      if x ∈ blocks_from (s.brk + sizeof_MEM_PAGE)
          (sizeof_MEM_BLOCK + (page_info i).block_size) (page_info i).block_num
        then ⟨s.brk, MEM_BLOCK_STATUS_IDLE⟩
        else if s.brk ≤ x ∧ x < s.brk + page_size i then MEM_BLOCK.zero else s.block x) ∧
    (∀ x, x < s.brk → t.byte x = s.byte x) ∧
    free_chain t (blocks_from (s.brk + sizeof_MEM_PAGE)
      (sizeof_MEM_BLOCK + (page_info i).block_size) (page_info i).block_num) ∧
    (∀ x, x < s.brk → t.node x = s.node x) ∧
    (∀ x, x < s.brk → t.page x = s.page x) ∧
    t.page s.brk =
      { type := (page_info i).page_type, status := MEM_PAGE_STATUS_IDLE,
        using_count := 0, block_num := (page_info i).block_num,
        block_head := block_head_size false, block_data := (page_info i).block_size,
        alloc_size := 0, idle := s.brk + sizeof_MEM_PAGE, head_addr := s.brk } ∧
    t.mem_page_map = s.mem_page_map ∧
    t.brk = s.brk + (page_size i + 15) / 16 * 16 + 16 ∧
    t.live = (s.brk, page_size i) :: s.live := by
  have hb := hI.brk.1
  have ha : s.brk ≠ 0 := by omega
  intro t
  obtain ⟨m1, m2, m3, m4, m5, m6, m7, m8⟩ :=
    mem_page_initialize_mem (((s.malloc (page_size i)).2).memset_zero s.brk (page_size i))
      i s.brk hi ha hlt (by
        intro x h1 h2
        simp only [sel_memset_zero_byte, h1, h2, and_self, if_true])
  have hp := mem_page_initialize_page
    (((s.malloc (page_size i)).2).memset_zero s.brk (page_size i)) i s.brk false
    (by omega) ha
  refine ⟨?_, ?_, ?_, ?_, ?_, hp, ?_, ?_, ?_⟩
  · intro x
    show ( mem_page_initialize _ i s.brk false).block x = _
    rw [m1 x]
    simp only [sel_memset_zero_block, sel_malloc_block]
  · intro x hx
    show ( mem_page_initialize _ i s.brk false).byte x = _
    rw [m2 x (Or.inl hx)]
    simp only [sel_memset_zero_byte, sel_malloc_byte]
    rw [if_neg (by omega)]
  · exact m3
  · intro x hx
    show ( mem_page_initialize _ i s.brk false).node x = _
    rw [m4]
    have : x ≠ s.brk := by omega
    rw [setNext_other _ _ _ _ this, setPrev_other _ _ _ _ this]
    simp only [sel_memset_zero_node, sel_malloc_node]
    rw [if_neg (by omega)]
  · intro x hx
    show ( mem_page_initialize _ i s.brk false).page x = _
    rw [m5 x (by omega)]
    simp only [sel_memset_zero_page, sel_malloc_page]
    rw [if_neg (by omega)]
  · show ( mem_page_initialize _ i s.brk false).mem_page_map = _
    rw [m6]; rfl
  · show ( mem_page_initialize _ i s.brk false).brk = _
    rw [m7]; rfl
  · show ( mem_page_initialize _ i s.brk false).live = _
    rw [m8]; rfl

theorem mem_page_malloc_eq (s : Heap) (g : Ghost) (L : List Nat) (i : Nat) (hI : Inv s g L)
    (hi : i < 15) (hu : usable_page_exist s i = false)
    (hlt : s.brk + page_size i < 2 ^ 64) :
    mem_page_malloc s i false =
      (MEM_SUCCESS,
        ((page_malloc_pre s i).withLink i (fun m l => link_insert m l 0 s.brk)).2.setLink i
          { (((page_malloc_pre s i).withLink i
                (fun m l => link_insert m l 0 s.brk)).2.mem_page_map i) with
            idle_num := (((page_malloc_pre s i).withLink i
                (fun m l => link_insert m l 0 s.brk)).2.mem_page_map i).idle_num + 1 }) := by
  obtain ⟨f1, f2, f3, f4, f5, f6, f7, f8, f9⟩ := page_malloc_pre_facts s g L i hI hi hlt
  obtain ⟨hc, hall⟩ := unusable_no_idle s g L i hI hi hu
  have hi' : ¬ i > MEM_PAGE_BLOCK_INFO_COUNT - 1 := by
    simp only [MEM_PAGE_BLOCK_INFO_COUNT]; omega
  have hring := hI.ring i hi
  have hcond : ((page_malloc_pre s i).mem_page_map i).head = 0 ∨
      ((page_malloc_pre s i).page ((page_malloc_pre s i).mem_page_map i).head).status
        = MEM_PAGE_STATUS_FULL := by
    rw [f7]
    obtain ⟨-, c2, -⟩ := hring
    cases hx : g.lists i with
    | nil => rw [hx] at c2; exact Or.inl c2
    | cons p r =>
      right
      rw [hx] at c2
      have hm : p ∈ g.lists i := by rw [hx]; exact List.mem_cons_self _ _
      have c3 : (s.mem_page_map i).head = p := c2
      rw [c3, f5 _ (by have := pages_lt_brk s g L hI i _ hi hm; omega)]
      exact hall p hm
  have hsucc : (link_insert (page_malloc_pre s i).node
      ((page_malloc_pre s i).mem_page_map i).toLINK 0 s.brk).1 = MEM_SUCCESS := by
    unfold link_insert
    have h0 : s.brk ≠ 0 := by have := hI.brk.1; omega
    have hcnt : ¬ (0 : Int) > ((page_malloc_pre s i).mem_page_map i).toLINK.count := by
      rw [f7, hring.1]; omega
    simp only [h0, if_false, hcnt]
    split_ifs <;> rfl
  unfold mem_page_malloc
  simp only [hi', if_false]
  split_ifs with h1 h2 h2
  · exact Prod.ext h2 rfl
  · exact absurd hsucc h2
  · exact absurd hcond h1
  · exact absurd hcond h1

theorem mem_page_initialize_brk (s : Heap) (i a : Nat) (dbg : Bool) :
    ( mem_page_initialize s i a dbg).brk = s.brk := by
  unfold mem_page_initialize
  simp only
  split_ifs
  · rfl
  · simp only [sel_setBlock_brk]
    rw [(init_blocks_rest _ _ _ _ _ _).2.2.2.1]
    rfl

theorem mem_page_malloc_brk (s : Heap) (i : Nat) (hi : i < 15) :
    (mem_page_malloc s i false).2.brk = s.brk + (page_size i + 15) / 16 * 16 + 16 := by
  have hi' : ¬ i > MEM_PAGE_BLOCK_INFO_COUNT - 1 := by
    simp only [MEM_PAGE_BLOCK_INFO_COUNT]; omega
  have key : (page_malloc_pre s i).brk = s.brk + (page_size i + 15) / 16 * 16 + 16 := by
    unfold page_malloc_pre
    rw [mem_page_initialize_brk]
    rfl
  unfold mem_page_malloc
  simp only [hi', if_false]
  split_ifs <;> exact key

theorem page_malloc_inv (s : Heap) (g : Ghost) (L : List Nat) (i : Nat) (hI : Inv s g L)
    (hi : i < 15) (hu : usable_page_exist s i = false)
    (hbrk : (mem_page_malloc s i false).2.brk ≤ 2 ^ 64) :
    Inv (mem_page_malloc s i false).2 (page_ghost s g i) L ∧
    usable_page_exist (mem_page_malloc s i false).2 i = true ∧
    ((mem_page_malloc s i false).2.mem_page_map i).head = s.brk ∧
    (page_ghost s g i).lists i = s.brk :: g.lists i ∧
    ((mem_page_malloc s i false).2.page s.brk).using_count = 0 := by
  have fi := page_info_facts i hi
  have hb0 := hI.brk.1
  have hlt : s.brk + page_size i < 2 ^ 64 := by
    rw [mem_page_malloc_brk s i hi] at hbrk
    omega
  obtain ⟨f1, f2, f3, f4, f5, f6, f7, f8, f9⟩ := page_malloc_pre_facts s g L i hI hi hlt
  obtain ⟨hc, hall⟩ := unusable_no_idle s g L i hI hi hu
  rw [mem_page_malloc_eq s g L i hI hi hu hlt] at hbrk ⊢
  simp only at hbrk ⊢
  have e16 : sizeof_MEM_BLOCK = 16 := rfl
  have e48 : sizeof_MEM_PAGE = 48 := rfl
  have hxs : ∀ x ∈ g.lists i, x < s.brk := fun x hx => by
    have := pages_lt_brk s g L hI i x hi hx; omega
  have hring0 : RingOK (page_malloc_pre s i).node ((page_malloc_pre s i).mem_page_map i).toLINK
      (g.lists i) := by
    rw [f7]
    exact RingOK_congr _ _ _ _ (hI.ring i hi) (fun x hx => f4 x (hxs x hx))
  have ha0 : s.brk ≠ 0 := by omega
  have hax : s.brk ∉ g.lists i := fun h => by have := hxs _ h; omega
  obtain ⟨-, k2, k3⟩ := link_insert_front _ _ _ s.brk hring0 ha0 hax
  generalize hpre : page_malloc_pre s i = pre at *
  have hgl : (page_ghost s g i).lists i = s.brk :: g.lists i := by simp [page_ghost]
  have hglj : ∀ j, j ≠ i → (page_ghost s g i).lists j = g.lists j :=
    fun j hj => by simp [page_ghost, hj]
  have hgf : (page_ghost s g i).fl s.brk =
      blocks_from (s.brk + sizeof_MEM_PAGE) (sizeof_MEM_BLOCK + (page_info i).block_size)
        (page_info i).block_num := by simp [page_ghost]
  have hgfo : ∀ a, a ≠ s.brk → (page_ghost s g i).fl a = g.fl a :=
    fun a ha => by simp [page_ghost, ha]
  have hst : ∀ x ∈ g.lists i, (pre.page x).status = MEM_PAGE_STATUS_FULL := fun x hx => by
    rw [f5 x (hxs x hx)]; exact hall x hx
  have hc0 : (g.lists i).countP (fun a => (pre.page a).status = MEM_PAGE_STATUS_IDLE) = 0 := by
    rw [List.countP_eq_zero]
    intro x hx
    simp only [decide_eq_true_eq]
    rw [hst x hx]
    decide
  have hidle0 : (s.mem_page_map i).idle_num = 0 := by
    rw [hI.idle_num i hi]
    have : (g.lists i).countP (fun a => (s.page a).status = MEM_PAGE_STATUS_IDLE) = 0 := by
      rw [List.countP_eq_zero]
      intro x hx
      simp only [decide_eq_true_eq]
      rw [hall x hx]
      decide
    rw [this]; rfl
  have hpa : (pre.page s.brk).status = MEM_PAGE_STATUS_IDLE := by rw [f6]
  have hbm : ∀ x, x ∈ blocks_from (s.brk + sizeof_MEM_PAGE)
      (sizeof_MEM_BLOCK + (page_info i).block_size) (page_info i).block_num → s.brk ≤ x := by
    intro x hx
    rw [blocks_from_mem] at hx
    obtain ⟨k, -, e⟩ := hx
    omega
  refine ⟨?_, ?_, ?_, hgl, ?_⟩
  · apply Inv_local s _ g (page_ghost s g i) L L i s.brk (fun x => s.brk ≤ x) 0 0 hI hi
      (sep_fresh s g L hI s.brk)
    · intro j hj _ h
      have := pages_lt_brk s g L hI j _ hj h; omega
    · intro j hj hji x hx
      simp only [sel_setLink_node, sel_withLink_node]
      rw [k3 x, f4 x]
      · have := pages_lt_brk s g L hI j _ hj hx; omega
      · intro h
        rcases List.mem_cons.1 h with e | e
        · have := pages_lt_brk s g L hI j _ hj hx; omega
        · exact hji (class_unique s g L hI j i x hj hi hx e)
    · intro j _ hji
      simp only [sel_setLink_mem_page_map, sel_withLink_mem_page_map, hji, if_false]
      rw [f7]
    · intro j _ hji; exact hglj j hji
    · intro j hj a ha _
      simp only [sel_setLink_page, sel_withLink_page]
      exact f5 a (by have := pages_lt_brk s g L hI j _ hj ha; omega)
    · exact hgfo
    · intro _ _; rfl
    · intro x hx
      simp only [sel_setLink_block, sel_withLink_block]
      rw [f1 x, if_neg (fun h => hx (hbm x h)), if_neg (fun h => hx h.1)]
    · intro x hx
      simp only [sel_setLink_byte, sel_withLink_byte]
      exact f2 x (by omega)
    · intro r hr _
      simp only [sel_setLink_live, sel_withLink_live]
      rw [f9]; exact List.mem_cons_of_mem _ hr
    · intro x hx
      rw [hgl] at hx
      rcases List.mem_cons.1 hx with e | e
      · exact Or.inr e
      · exact Or.inl e
    · exact Or.inr (Nat.le_refl _)
    · intro a ha _
      rw [hgl]; exact List.mem_cons_of_mem _ ha
    · simp only [sel_setLink_node, sel_withLink_node, sel_setLink_mem_page_map,
        sel_withLink_mem_page_map, if_true]
      rw [hgl]; exact k2
    · intro _
      obtain ⟨n, hn⟩ : ∃ n, (page_info i).block_num = n + 1 :=
        ⟨(page_info i).block_num - 1, by omega⟩
      refine
        { head_addr := by simp only [sel_setLink_page, sel_withLink_page]; rw [f6]
          type := by simp only [sel_setLink_page, sel_withLink_page]; rw [f6]
          block_num := by simp only [sel_setLink_page, sel_withLink_page]; rw [f6]
          block_head := by simp only [sel_setLink_page, sel_withLink_page]; rw [f6]; rfl
          block_data := by simp only [sel_setLink_page, sel_withLink_page]; rw [f6]
          status := by
            simp only [sel_setLink_page, sel_withLink_page]; rw [f6]
            simp [status_of]
          fl_len := by
            simp only [sel_setLink_page, sel_withLink_page]; rw [f6, hgf, blocks_from_length]
            simp
          fl_nodup := by rw [hgf]; exact blocks_from_nodup _ _ _ (by omega)
          fl_blocks := by
            rw [hgf]; intro b hb; exact (blocks_from_block_addr _ _ _).1 hb
          idle := by
            simp only [sel_setLink_page, sel_withLink_page]; rw [f6, hgf, hn]; rfl
          chain := by
            rw [hgf]
            exact (free_chain_congr pre _ _ (fun _ _ _ _ _ => by
              simp only [sel_setLink_byte, sel_withLink_byte])).2 f3
          hdr := by
            intro k hk
            simp only [sel_setLink_block, sel_withLink_block]
            have hm := (blocks_from_block_addr s.brk i (block_addr s.brk i k)).2 ⟨k, hk, rfl⟩
            rw [f1, if_pos hm, hgf, if_pos hm]
          live := by
            simp only [sel_setLink_live, sel_withLink_live]; rw [f9]
            exact List.mem_cons_self _ _
          alloc_slab := by
            intro _
            simp only [sel_setLink_page, sel_withLink_page]; rw [f6]
            simp
          ext_idle := by
            intro _ _
            simp only [sel_setLink_page, sel_withLink_page]; rw [f6]
          ext_used := by
            intro _ h
            simp only [sel_setLink_page, sel_withLink_page] at h
            rw [f6] at h
            exact absurd rfl h }
    · simp only [sel_setLink_mem_page_map, sel_withLink_mem_page_map, if_true,
        sel_setLink_page, sel_withLink_page]
      rw [hgl, List.countP_cons, hc0, f7, hidle0]
      simp [hpa]
    · simp only [sel_setLink_page, sel_withLink_page]
      rw [hgl, List.countP_cons, hc0]
      simp [hpa]
    · simp only [sel_setLink_page, sel_withLink_page]
      rw [hgl, List.pairwise_cons]
      constructor
      · intro b _ h
        rw [hpa] at h
        exact absurd h (by decide)
      · exact (hI.full_suffix i hi).imp_of_mem (fun {a b} _ hb _ _ => hst b hb)
    · simp only [sel_setLink_page, sel_withLink_page]
      rw [hgl, List.map_cons, List.sum_cons, f6]
      simp only [Nat.zero_add, Nat.add_zero]
      congr 1
      exact List.map_congr_left (fun a ha => by rw [f5 a (hxs a ha)])
    · rfl
    · simp only [sel_setLink_live, sel_withLink_live]
      rw [f9, List.pairwise_cons]
      exact ⟨fun y hy => (hI.live_brk y hy).2, hI.live_sorted⟩
    · simp only [sel_setLink_live, sel_withLink_live, sel_setLink_brk, sel_withLink_brk]
      rw [f9, f8]
      intro r hr
      rcases List.mem_cons.1 hr with e | e
      · subst e; simp only; omega
      · have := hI.live_brk r e
        omega
    · simp only [sel_setLink_brk, sel_withLink_brk] at hbrk ⊢
      rw [f8] at hbrk ⊢
      exact ⟨by omega, hbrk⟩
    · exact hI.out_nodup
    · intro p hp _; exact hp
    · intro p hp
      left
      refine ⟨hp, ?_⟩
      obtain ⟨-, j, hj, a, ha, hpa', -⟩ := hI.out p hp
      rw [hpa']
      have := pages_lt_brk s g L hI j _ hj ha; omega
  · unfold usable_page_exist
    have hi' : ¬ i > MEM_PAGE_BLOCK_INFO_COUNT - 1 := by
      simp only [MEM_PAGE_BLOCK_INFO_COUNT]; omega
    simp only [sel_setLink_mem_page_map, sel_withLink_mem_page_map, if_true,
      sel_setLink_page, sel_withLink_page, hi', if_false]
    obtain ⟨q1, q2, -⟩ := k2
    have q2' : (link_insert pre.node (pre.mem_page_map i).toLINK 0 s.brk).2.2.head = s.brk := q2
    have q1' : (link_insert pre.node (pre.mem_page_map i).toLINK 0 s.brk).2.2.count ≠ 0 := by
      rw [q1]; simp only [List.length_cons]; push_cast; omega
    simp only [q2', q1', ha0, or_self, if_false, hpa]
    decide
  · simp only [sel_setLink_mem_page_map, sel_withLink_mem_page_map, if_true]
    exact k2.2.1
  · simp only [sel_setLink_page, sel_withLink_page]
    rw [f6]

theorem walk_dlseg (m : Nodes) (xs : List Nat) (p n d : Nat) (h : dlseg m xs p n) :
    walk m xs.length (firstD xs d) = xs := by
  induction xs generalizing p d with
  | nil => rfl
  | cons x rest ih =>
    obtain ⟨-, h2, h3⟩ := h
    show x :: walk m rest.length (m x).next = x :: rest
    rw [h2]
    have := ih x n h3
    rw [this]

/-- The pages read from memory along `next` are the pages of the bookkeeping list. -/
theorem class_pages_eq (s : Heap) (g : Ghost) (L : List Nat) (hI : Inv s g L) (i : Nat)
    (hi : i < 15) : s.class_pages i = g.lists i := by
  obtain ⟨hc, hh, -, -, -, hs⟩ := hI.ring i hi
  unfold Heap.class_pages
  have e1 : (s.mem_page_map i).count = (s.mem_page_map i).toLINK.count := rfl
  have e2 : (s.mem_page_map i).head = (s.mem_page_map i).toLINK.head := rfl
  rw [e1, e2, hc, hh]
  simp only [Int.toNat_ofNat]
  exact walk_dlseg _ _ _ _ 0 hs

theorem alloc_block_brk_le (s : Heap) (len : Nat) : s.brk ≤ (alloc_block s len).2.brk := by
  unfold alloc_block
  simp only
  split_ifs with h1 h2 h3 h4
  · exact Nat.le_refl _
  · exact Nat.le_refl _
  · exact Nat.le_refl _
  · rw [(alloc_block_count_rest _ _).2.2.1, (alloc_block_using_rest _ _ _).2.2.1,
      (alloc_block_full_rest _ _ _).2.2.1]
  · by_cases ht : ((alloc_block_count (alloc_block_using (alloc_block_full s (get_page_index len)
        (s.mem_page_map (get_page_index len)).head) (get_page_index len)
        (s.mem_page_map (get_page_index len)).head)
        (s.mem_page_map (get_page_index len)).head).page
        (s.mem_page_map (get_page_index len)).head).type = MEM_PAGE_TYPE_ZERO ∨
        ((alloc_block_count (alloc_block_using (alloc_block_full s (get_page_index len)
        (s.mem_page_map (get_page_index len)).head) (get_page_index len)
        (s.mem_page_map (get_page_index len)).head)
        (s.mem_page_map (get_page_index len)).head).page
        (s.mem_page_map (get_page_index len)).head).type = MEM_PAGE_TYPE_LARGE
    · rw [(alloc_block_take_ext _ _ _ _ ht).2.2.2.2.2.2.1, (alloc_block_count_rest _ _).2.2.1,
        (alloc_block_using_rest _ _ _).2.2.1, (alloc_block_full_rest _ _ _).2.2.1]
      omega
    · rw [(alloc_block_take_slab _ _ _ _ ht).2.2.2.2.2.2.1, (alloc_block_count_rest _ _).2.2.1,
        (alloc_block_using_rest _ _ _).2.2.1, (alloc_block_full_rest _ _ _).2.2.1]

theorem class_pages_of_ring (s : Heap) (i : Nat) (xs : List Nat)
    (h : RingOK s.node (s.mem_page_map i).toLINK xs) : s.class_pages i = xs := by
  obtain ⟨hc, hh, -, -, -, hs⟩ := h
  unfold Heap.class_pages
  have e1 : (s.mem_page_map i).count = (s.mem_page_map i).toLINK.count := rfl
  have e2 : (s.mem_page_map i).head = (s.mem_page_map i).toLINK.head := rfl
  rw [e1, e2, hc, hh]
  simp only [Int.toNat_ofNat]
  exact walk_dlseg _ _ _ _ 0 hs

/-- What `alloc_block` returns from a usable head page, for every requested length. -/
theorem alloc_block_post (s : Heap) (g : Ghost) (L : List Nat) (len : Nat) (hI : Inv s g L)
    (hu : usable_page_exist s (get_page_index len) = true) :
    (alloc_block s len).1 ≠ 0 ∧
    sizeof_MEM_BLOCK ≤ (alloc_block s len).1 ∧
    ((alloc_block s len).2.block ((alloc_block s len).1 - sizeof_MEM_BLOCK)).page
      = (s.mem_page_map (get_page_index len)).head ∧
    ((alloc_block s len).2.page (s.mem_page_map (get_page_index len)).head).head_addr
      = (s.mem_page_map (get_page_index len)).head ∧
    (s.mem_page_map (get_page_index len)).head
      ∈ (alloc_block s len).2.class_pages (get_page_index len) ∧
    ((s.mem_page_map (get_page_index len)).head, page_size (get_page_index len))
      ∈ (alloc_block s len).2.live := by
  have hi := get_page_index_lt len
  obtain ⟨rest, b, fr, hx, hf, hc, hh, hs, hlt, hb⟩ := alloc_pre s g L _ hI hi hu
  have hb0 : firstD (g.fl (s.mem_page_map (get_page_index len)).head) 0 = b := by
    rw [hf]; rfl
  rw [alloc_block_eq s g L len hI hu, hb0]
  generalize hid : get_page_index len = i at *
  generalize hpd : (s.mem_page_map i).head = pg at *
  have hmem : pg ∈ g.lists i := by rw [hx]; exact List.mem_cons_self _ _
  have pp := hI.pages i hi pg hmem
  have hring := hI.ring i hi
  rw [hx] at hring
  obtain ⟨p0, p1, p2, p3, p4, p5, p6, p7, p8, p9⟩ :=
    alloc_steps_page s i pg hi pp.block_num pp.status hlt
  obtain ⟨r1, r2, r3, r4, r5, r6, r7, r8⟩ := alloc_steps_rest s i pg rest hring
  generalize alloc_block_count (alloc_block_using (alloc_block_full s i pg) i pg) pg = s3 at *
  have e16 : sizeof_MEM_BLOCK = 16 := rfl
  have hbh : (s3.page pg).block_head = 16 := by rw [p5, pp.block_head]; rfl
  obtain ⟨kb, hkb, ekb⟩ := pp.fl_blocks b (by rw [hf]; exact List.mem_cons_self _ _)
  have hbpage : (s.block b).page = pg := by
    have := pp.hdr kb hkb
    rw [← ekb] at this
    rw [this]
  have hb0' := hI.brk.1
  have hmemf : pg ∈ (if ((s.page pg).using_count : Int) = ((s.page pg).block_num : Int) - 1 ∧
      rest ≠ [] then rest ++ [pg] else pg :: rest) := by
    split_ifs <;> simp
  by_cases hty : (s3.page pg).type = MEM_PAGE_TYPE_ZERO ∨ (s3.page pg).type = MEM_PAGE_TYPE_LARGE
  · obtain ⟨t1, t2, t3, t4, t5, t6, t7, t8⟩ := alloc_block_take_ext s3 pg len b hty
    rw [t1, hbh, r3]
    refine ⟨by omega, by omega, ?_, ?_, ?_, ?_⟩
    · have e1 : s.brk + 16 - sizeof_MEM_BLOCK = s.brk := by omega
      rw [e1, t3, r3]
      simp only [if_true]
    · rw [t2]; simp only [if_true]; rw [p9]; exact pp.head_addr
    · rw [class_pages_of_ring _ i _ (by rw [t5, t6]; exact r7)]
      exact hmemf
    · rw [t8, r4]; exact List.mem_cons_of_mem _ pp.live
  · obtain ⟨t1, t2, t3, t4, t5, t6, t7, t8⟩ := alloc_block_take_slab s3 pg len b hty
    rw [t1, hbh]
    refine ⟨by omega, by omega, ?_, ?_, ?_, ?_⟩
    · have e1 : b + 16 - sizeof_MEM_BLOCK = b := by omega
      rw [e1, t3, r1]
      simp only [if_true]
      exact hbpage
    · rw [t2]; simp only [if_true]; rw [p9]; exact pp.head_addr
    · rw [class_pages_of_ring _ i _ (by rw [t5, t6]; exact r7)]
      exact hmemf
    · rw [t8, r4]; exact pp.live

theorem alloc_inv (s : Heap) (g : Ghost) (L : List Nat) (len : Nat) (hI : Inv s g L)
    (hu : usable_page_exist s (get_page_index len) = true) (hlen : len ≤ INT_MAX)
    (hbrk : (alloc_block s len).2.brk ≤ 2 ^ 64) :
    Inv (alloc_block s len).2 (alloc_ghost s g len) ((alloc_block s len).1 :: L) := by
  by_cases he : is_ext (get_page_index len)
  · exact (alloc_inv_ext s g L len hI hu he hlen hbrk).1
  · exact (alloc_inv_slab s g L len hI hu he).1

theorem mem_malloc_eq_usable (s : Heap) (len : Nat)
    (hu : usable_page_exist s (get_page_index len) = true) :
    mem_malloc s len = alloc_block s len := by
  unfold mem_malloc
  simp only [hu, not_true_eq_false, if_false]

theorem mem_malloc_eq_unusable (s : Heap) (len : Nat)
    (hu : usable_page_exist s (get_page_index len) = false) :
    mem_malloc s len = alloc_block (mem_page_malloc s (get_page_index len) false).2 len := by
  unfold mem_malloc
  simp only [hu, Bool.false_eq_true, not_false_eq_true, if_true]

theorem mem_malloc_inv (s : Heap) (g : Ghost) (L : List Nat) (len : Nat) (hI : Inv s g L)
    (hlen : len ≤ INT_MAX) (hbrk : (mem_malloc s len).2.brk ≤ 2 ^ 64) :
    Inv (mem_malloc s len).2 (malloc_ghost s g len) ((mem_malloc s len).1 :: L) := by
  unfold malloc_ghost
  cases hu : usable_page_exist s (get_page_index len) with
  | true =>
    rw [mem_malloc_eq_usable s len hu] at hbrk ⊢
    simp only [if_true]
    exact alloc_inv s g L len hI hu hlen hbrk
  | false =>
    rw [mem_malloc_eq_unusable s len hu] at hbrk ⊢
    simp only [Bool.false_eq_true, if_false]
    have hb1 : (mem_page_malloc s (get_page_index len) false).2.brk ≤ 2 ^ 64 :=
      Nat.le_trans (alloc_block_brk_le _ _) hbrk
    obtain ⟨h1, h2, -⟩ := page_malloc_inv s g L _ hI (get_page_index_lt len) hu hb1
    exact alloc_inv _ _ L len h1 h2 hlen hbrk

/-- What `mem_malloc` returns in a state that satisfies the invariant, for every length. -/
theorem mem_malloc_post (s : Heap) (g : Ghost) (L : List Nat) (len : Nat) (hI : Inv s g L)
    (hbrk : (mem_malloc s len).2.brk ≤ 2 ^ 64) :
    (mem_malloc s len).1 ≠ 0 ∧
    (((mem_malloc s len).2.block (get_block (mem_malloc s len).1 false)).page,
        page_size (get_page_index len)) ∈ (mem_malloc s len).2.live ∧
    ((mem_malloc s len).2.page
        ((mem_malloc s len).2.block (get_block (mem_malloc s len).1 false)).page).head_addr
      = ((mem_malloc s len).2.block (get_block (mem_malloc s len).1 false)).page ∧
    ((mem_malloc s len).2.block (get_block (mem_malloc s len).1 false)).page
      ∈ (mem_malloc s len).2.class_pages (get_page_index len) := by
  have key : ∀ (t : Heap) (g' : Ghost), Inv t g' L →
      usable_page_exist t (get_page_index len) = true →
      (alloc_block t len).1 ≠ 0 ∧
      (((alloc_block t len).2.block (get_block (alloc_block t len).1 false)).page,
          page_size (get_page_index len)) ∈ (alloc_block t len).2.live ∧
      ((alloc_block t len).2.page
          ((alloc_block t len).2.block (get_block (alloc_block t len).1 false)).page).head_addr
        = ((alloc_block t len).2.block (get_block (alloc_block t len).1 false)).page ∧
      ((alloc_block t len).2.block (get_block (alloc_block t len).1 false)).page
        ∈ (alloc_block t len).2.class_pages (get_page_index len) := by
    intro t g' hI' hu'
    obtain ⟨q1, q2, q3, q4, q5, q6⟩ := alloc_block_post t g' L len hI' hu'
    have e : get_block (alloc_block t len).1 false = (alloc_block t len).1 - sizeof_MEM_BLOCK := by
      unfold get_block
      rw [if_neg q1]; rfl
    rw [e, q3]
    exact ⟨q1, q6, q4, q5⟩
  cases hu : usable_page_exist s (get_page_index len) with
  | true =>
    rw [mem_malloc_eq_usable s len hu]
    exact key s g hI hu
  | false =>
    rw [mem_malloc_eq_unusable s len hu] at hbrk ⊢
    have hb1 : (mem_page_malloc s (get_page_index len) false).2.brk ≤ 2 ^ 64 :=
      Nat.le_trans (alloc_block_brk_le _ _) hbrk
    obtain ⟨h1, h2, -⟩ := page_malloc_inv s g L _ hI (get_page_index_lt len) hu hb1
    exact key _ _ h1 h2

theorem free_block_release_slab (s : Heap) (pg block : Nat)
    (h : ¬ ((s.page pg).type = MEM_PAGE_TYPE_ZERO ∨ (s.page pg).type = MEM_PAGE_TYPE_LARGE)) :
    (free_block_release s pg block).1 = block ∧
    (free_block_release s pg block).2.page = (fun x =>
      if x = pg then
        { s.page pg with
          alloc_size := toInt32 ((s.page pg).alloc_size -
            (((s.page pg).block_data : Int) + ((s.page pg).block_head : Int))) }
      else s.page x) ∧
    (free_block_release s pg block).2.block = s.block ∧
    (free_block_release s pg block).2.byte = (fun x =>
      if (s.page pg).status ≠ MEM_PAGE_STATUS_FULL ∧
          block + (s.page pg).block_head ≤ x ∧ x < block + (s.page pg).block_head + 8
        then (s.page pg).idle / 2 ^ (8 * (x - (block + (s.page pg).block_head))) % 256
      else if block + (s.page pg).block_head ≤ x ∧
          x < block + (s.page pg).block_head + (s.page pg).block_data then 0
      else s.byte x) ∧
    (free_block_release s pg block).2.node = s.node ∧
    (free_block_release s pg block).2.mem_page_map = s.mem_page_map ∧
    (free_block_release s pg block).2.brk = s.brk ∧
    (free_block_release s pg block).2.live = s.live := by
  unfold free_block_release
  by_cases hf : (s.page pg).status = MEM_PAGE_STATUS_FULL
  · simp [hf, h, INIT_BLOCK_PADDING]
  · simp [hf, h, INIT_BLOCK_PADDING]

theorem free_block_release_ext (s : Heap) (pg block : Nat)
    (h : (s.page pg).type = MEM_PAGE_TYPE_ZERO ∨ (s.page pg).type = MEM_PAGE_TYPE_LARGE) :
    (free_block_release s pg block).1 = pg + sizeof_MEM_PAGE ∧
    (free_block_release s pg block).2.page = (fun x =>
      if x = pg then { s.page pg with alloc_size := 0 } else s.page x) ∧
    (free_block_release s pg block).2.block = s.block ∧
    (free_block_release s pg block).2.byte = (fun x =>
      if pg + sizeof_MEM_PAGE + (s.page pg).block_head ≤ x ∧
          x < pg + sizeof_MEM_PAGE + (s.page pg).block_head + (s.page pg).block_data then 0
      else s.byte x) ∧
    (free_block_release s pg block).2.node = s.node ∧
    (free_block_release s pg block).2.mem_page_map = s.mem_page_map ∧
    (free_block_release s pg block).2.brk = s.brk ∧
    (free_block_release s pg block).2.live = s.live.filter (fun r => r.1 ≠ block) := by
  unfold free_block_release
  simp [h, INIT_BLOCK_PADDING]

theorem free_block_idle_facts (s : Heap) (pg block : Nat) :
    (free_block_idle s pg block).page = (fun x =>
      if x = pg then
        { s.page pg with idle := block, using_count := ((s.page pg).using_count + 255) % 256 }
      else s.page x) ∧
    (free_block_idle s pg block).block = (fun x =>
      if x = block then { s.block block with status := MEM_BLOCK_STATUS_IDLE } else s.block x) ∧
    (free_block_idle s pg block).byte = s.byte ∧
    (free_block_idle s pg block).node = s.node ∧
    (free_block_idle s pg block).mem_page_map = s.mem_page_map ∧
    (free_block_idle s pg block).brk = s.brk ∧
    (free_block_idle s pg block).live = s.live := by
  simp [free_block_idle]

theorem fl_length_lt (i pg k : Nat) (fl : List Nat) (hi : i < 15) (hnd : fl.Nodup)
    (hb : ∀ b ∈ fl, ∃ k' < (page_info i).block_num, b = block_addr pg i k')
    (hk : k < (page_info i).block_num) (hnot : block_addr pg i k ∉ fl) :
    fl.length < (page_info i).block_num := by
  have hsub : fl.toFinset ⊆
      ((Finset.range (page_info i).block_num).erase k).image (block_addr pg i) := by
    intro b hbm
    rw [List.mem_toFinset] at hbm
    obtain ⟨k', hk', e⟩ := hb b hbm
    rw [Finset.mem_image]
    refine ⟨k', ?_, e.symm⟩
    rw [Finset.mem_erase, Finset.mem_range]
    refine ⟨?_, hk'⟩
    intro e'
    subst e'
    exact hnot (e ▸ hbm)
  have h1 := Finset.card_le_card hsub
  rw [List.toFinset_card_of_nodup hnd] at h1
  have h2 := Finset.card_image_le (s := (Finset.range (page_info i).block_num).erase k)
    (f := block_addr pg i)
  rw [Finset.card_erase_of_mem (Finset.mem_range.2 hk), Finset.card_range] at h2
  omega

theorem page_index_ex_of_ok (s : Heap) (g : Ghost) (L : List Nat) (i pg : Nat) (hi : i < 15)
    (pp : PageOK s g L i pg) (h0 : pg ≠ 0) : get_page_index_ex s pg = i := by
  unfold get_page_index_ex
  rw [pp.type, pp.block_data]
  obtain ⟨h1, h2, h3⟩ := page_info_type i hi
  by_cases e0 : i = 0
  · rw [if_pos (Or.inr (h1.2 e0))]; exact e0.symm
  · have hz : ¬ (page_info i).page_type = MEM_PAGE_TYPE_ZERO := fun h => e0 (h1.1 h)
    have hc : ¬ (pg = 0 ∨ (page_info i).page_type = MEM_PAGE_TYPE_ZERO) := by
      rintro (h | h)
      · exact h0 h
      · exact hz h
    rw [if_neg hc]
    by_cases e14 : i = 14
    · rw [if_pos (h2.2 e14)]; exact e14.symm
    · have hl : ¬ (page_info i).page_type = MEM_PAGE_TYPE_LARGE := fun h => e14 (h2.1 h)
      have hne : ¬ is_ext i := by
        unfold is_ext; simp only [MEM_PAGE_BLOCK_INFO_COUNT]; omega
      rw [if_neg hl]; exact h3 hne

theorem ext_alloc_ne_zero (len : Nat) (h : len ≤ INT_MAX) : toInt32 ((len : Int) + 40) ≠ 0 := by
  unfold toInt32
  unfold INT_MAX at h
  omega

theorem ext_one_block (s : Heap) (g : Ghost) (L : List Nat) (i pg : Nat) (hi : i < 15)
    (he : is_ext i) (pp : PageOK s g L i pg) (hu : (s.page pg).using_count ≠ 0) :
    (s.page pg).using_count = 1 ∧ g.fl pg = [] := by
  have fi := page_info_facts i hi
  have h1 := (fi.2.2.2.2.2.2.1 he).1
  have h2 := pp.fl_len
  rw [h1] at h2
  refine ⟨by omega, List.eq_nil_of_length_eq_zero (by omega)⟩

/-- What the invariant says about an outstanding pointer `p` at the entry of `free_block`. -/
theorem free_pre (s : Heap) (g : Ghost) (L : List Nat) (p : Nat) (hI : Inv s g L)
    (hp : p ∈ L) :
    ∃ i pg l1 l2, i < 15 ∧ g.lists i = l1 ++ pg :: l2 ∧
      (s.block (p - sizeof_MEM_BLOCK)).page = pg ∧ 16 ≤ p ∧ pg ≠ 0 ∧
      (s.page pg).using_count ≠ 0 ∧ (s.page pg).alloc_size ≠ 0 ∧
      get_page_index_ex s pg = i ∧
      ((¬ is_ext i ∧ ∃ k < (page_info i).block_num,
          p = block_addr pg i k + sizeof_MEM_BLOCK ∧ block_addr pg i k ∉ g.fl pg) ∨
       (is_ext i ∧
          p = MEM_TO_ADDR s (pg + sizeof_MEM_PAGE + sizeof_MEM_BLOCK) + sizeof_MEM_BLOCK)) := by
  obtain ⟨h16, i, hi, pg, hpg, hpage, hcase⟩ := hI.out p hp
  obtain ⟨l1, l2, hl⟩ := List.append_of_mem hpg
  have pp := hI.pages i hi pg hpg
  have h0 : pg ≠ 0 := fun e => (hI.ring i hi).2.2.2.2.1 (e ▸ hpg)
  have fi := page_info_facts i hi
  refine ⟨i, pg, l1, l2, hi, hl, hpage, h16, h0, ?_, ?_, page_index_ex_of_ok s g L i pg hi pp h0,
    ?_⟩
  · rcases hcase with ⟨hne, k, hk, e, hnot⟩ | ⟨he, hu, e⟩
    · have := fl_length_lt i pg k (g.fl pg) hi pp.fl_nodup pp.fl_blocks hk hnot
      have := pp.fl_len
      omega
    · exact hu
  · rcases hcase with ⟨hne, k, hk, e, hnot⟩ | ⟨he, hu, e⟩
    · have h1 := fl_length_lt i pg k (g.fl pg) hi pp.fl_nodup pp.fl_blocks hk hnot
      have h2 := pp.fl_len
      rw [pp.alloc_slab hne]
      have hu : 0 < (s.page pg).using_count := by omega
      have : (0 : Int) < ((s.page pg).using_count : Int) *
          (((page_info i).block_size : Int) + sizeof_MEM_BLOCK) := by
        apply mul_pos
        · exact_mod_cast hu
        · simp only [sizeof_MEM_BLOCK]; push_cast; omega
      omega
    · have hx := pp.ext_used he hu
      rw [hx.alloc]
      exact ext_alloc_ne_zero _ hx.len_le
  · rcases hcase with ⟨hne, k, hk, e, hnot⟩ | ⟨he, hu, e⟩
    · exact Or.inl ⟨hne, k, hk, e, hnot⟩
    · exact Or.inr ⟨he, e⟩

theorem free_block_eq (s : Heap) (p pg i : Nat) (h16 : 16 ≤ p)
    (hpage : (s.block (p - sizeof_MEM_BLOCK)).page = pg)
    (hu : (s.page pg).using_count ≠ 0) (ha : (s.page pg).alloc_size ≠ 0)
    (hidx : get_page_index_ex s pg = i) (hi : i < 15) :
    free_block s p false =
      free_block_status
        (free_block_front
          (free_block_idle (free_block_release s pg (p - sizeof_MEM_BLOCK)).2 pg
            (free_block_release s pg (p - sizeof_MEM_BLOCK)).1) i pg) i pg := by
  have hp0 : p ≠ 0 := by omega
  have hgb : get_block p false = p - sizeof_MEM_BLOCK := by
    simp [get_block, hp0, block_head_size]
  unfold free_block
  simp only [hp0, if_false, hgb, hpage, hu, ha, hidx, false_or]
  have : ¬ i > MEM_PAGE_BLOCK_INFO_COUNT - 1 := by
    simp only [MEM_PAGE_BLOCK_INFO_COUNT]; omega
  simp only [this, if_false]

theorem free_block_status_keep (s : Heap) (i pg bn : Nat)
    (hbn : (s.page pg).block_num = bn) (h1 : 1 ≤ bn)
    (hst : (s.page pg).status = status_of ((s.page pg).using_count + 1) bn)
    (hlt : (s.page pg).using_count < bn)
    (hk : ¬ ((s.page pg).using_count = 0 ∧
      (s.mem_page_map i).idle_num + 1 > MEM_PAGE_MAX_IDLE)) :
    ((free_block_status s i pg).page pg).status = status_of (s.page pg).using_count bn ∧
    ((free_block_status s i pg).page pg).type = (s.page pg).type ∧
    ((free_block_status s i pg).page pg).using_count = (s.page pg).using_count ∧
    ((free_block_status s i pg).page pg).block_num = (s.page pg).block_num ∧
    ((free_block_status s i pg).page pg).block_head = (s.page pg).block_head ∧
    ((free_block_status s i pg).page pg).block_data = (s.page pg).block_data ∧
    ((free_block_status s i pg).page pg).alloc_size = (s.page pg).alloc_size ∧
    ((free_block_status s i pg).page pg).idle = (s.page pg).idle ∧
    ((free_block_status s i pg).page pg).head_addr = (s.page pg).head_addr ∧
    (∀ x, x ≠ pg → (free_block_status s i pg).page x = s.page x) ∧
    ((free_block_status s i pg).mem_page_map i).toLINK = (s.mem_page_map i).toLINK ∧
    ((free_block_status s i pg).mem_page_map i).idle_num =
      (s.mem_page_map i).idle_num + (if (s.page pg).using_count = 0 then 1 else 0) ∧
    (∀ j, j ≠ i → (free_block_status s i pg).mem_page_map j = s.mem_page_map j) ∧
    (free_block_status s i pg).node = s.node ∧
    (free_block_status s i pg).block = s.block ∧
    (free_block_status s i pg).byte = s.byte ∧
    (free_block_status s i pg).brk = s.brk ∧
    (free_block_status s i pg).live = s.live := by
  have hfull := status_of_full ((s.page pg).using_count + 1) bn h1
  have hidle := status_of_idle ((s.page pg).using_count + 1) bn
  have hst' : status_of (s.page pg).using_count bn =
      if (s.page pg).using_count = 0 then MEM_PAGE_STATUS_IDLE else MEM_PAGE_STATUS_USING := by
    unfold status_of
    have : (s.page pg).using_count ≠ bn := by omega
    simp only [this, if_false]
  have hold : (s.page pg).using_count + 1 ≠ bn → (s.page pg).status = MEM_PAGE_STATUS_USING := by
    intro h
    rw [hst]; unfold status_of
    simp [h]
  rw [hst']
  unfold free_block_status
  by_cases hc : ((s.page pg).using_count : Int) = ((s.page pg).block_num : Int) - 1
  · simp only [hc, if_true]
    by_cases h0 : (s.page pg).using_count = 0
    · have hk' : ¬ (s.mem_page_map i).idle_num + 1 > MEM_PAGE_MAX_IDLE := fun h => hk ⟨h0, h⟩
      simp +contextual [h0, hk']
    · simp +contextual [h0]
  · have hne : (s.page pg).using_count + 1 ≠ bn := by
      intro e; apply hc; rw [hbn]; omega
    simp only [hc, if_false]
    by_cases h0 : (s.page pg).using_count = 0
    · have hk' : ¬ (s.mem_page_map i).idle_num + 1 > MEM_PAGE_MAX_IDLE := fun h => hk ⟨h0, h⟩
      simp +contextual [h0, hk']
    · simp [h0, hold hne]

theorem get_page_index_ex_congr (s t : Heap) (pg : Nat)
    (h1 : (t.page pg).type = (s.page pg).type)
    (h2 : (t.page pg).block_data = (s.page pg).block_data) :
    get_page_index_ex t pg = get_page_index_ex s pg := by
  unfold get_page_index_ex
  rw [h1, h2]

theorem terminate_range (i : Nat) (hi : i < 15) (pg x : Nat)
    (h : ¬ (pg ≤ x ∧ x < pg + page_size i)) :
    ¬ (pg + sizeof_MEM_PAGE ≤ x ∧ x < pg + sizeof_MEM_PAGE +
        (page_info i).block_num * ((page_info i).block_size + sizeof_MEM_BLOCK)) ∧
    ¬ (pg ≤ x ∧ x < pg + sizeof_MEM_PAGE) := by
  have fi := page_info_facts i hi
  unfold page_size at h
  simp only [sizeof_MEM_PAGE, sizeof_MEM_BLOCK] at h ⊢
  have : (page_info i).block_num * ((page_info i).block_size + 16)
      = (page_info i).block_num * (page_info i).block_size + 16 * (page_info i).block_num := by
    ring
  rw [this]
  constructor <;> omega

theorem mem_page_free_facts (s : Heap) (i pg : Nat) (rest : List Nat) (hi : i < 15)
    (hring : RingOK s.node (s.mem_page_map i).toLINK (pg :: rest))
    (hidx : get_page_index_ex s pg = i)
    (hbn : (s.page pg).block_num = (page_info i).block_num)
    (hbd : (s.page pg).block_data = (page_info i).block_size)
    (hbh : (s.page pg).block_head = sizeof_MEM_BLOCK)
    (hst : (s.page pg).status = MEM_PAGE_STATUS_IDLE)
    (hsep : ∀ x ∈ rest, ¬ (pg ≤ x ∧ x < pg + page_size i)) :
    RingOK (mem_page_free s pg).2.node ((mem_page_free s pg).2.mem_page_map i).toLINK rest ∧
    ((mem_page_free s pg).2.mem_page_map i).idle_num = (s.mem_page_map i).idle_num - 1 ∧
    (∀ j, j ≠ i → (mem_page_free s pg).2.mem_page_map j = s.mem_page_map j) ∧
    (∀ x, ¬ (pg ≤ x ∧ x < pg + page_size i) →
      (x ∉ rest → (mem_page_free s pg).2.node x = s.node x) ∧
      (mem_page_free s pg).2.page x = s.page x ∧
      (mem_page_free s pg).2.block x = s.block x ∧
      (mem_page_free s pg).2.byte x = s.byte x) ∧
    (mem_page_free s pg).2.brk = s.brk ∧
    (mem_page_free s pg).2.live = s.live.filter (fun r => r.1 ≠ pg) := by
  obtain ⟨-, hp0, -, -, -⟩ := RingOK_cons_facts _ _ _ _ hring
  obtain ⟨-, hr, hfr⟩ := link_remove_force_mem s.node (s.mem_page_map i).toLINK [] rest pg hring
  simp only [List.nil_append] at hr hfr
  have hni : ¬ i > MEM_PAGE_BLOCK_INFO_COUNT - 1 := by
    simp only [MEM_PAGE_BLOCK_INFO_COUNT]; omega
  unfold mem_page_free
  simp only [hp0, if_false, hidx, hni, sel_withLink_page, hst, if_true]
  unfold mem_page_terminate
  simp only [sel_free_node, sel_free_page, sel_free_block, sel_free_byte,
    sel_free_mem_page_map, sel_free_brk, sel_free_live, sel_memset_zero_node,
    sel_memset_zero_page, sel_memset_zero_block, sel_memset_zero_byte,
    sel_memset_zero_mem_page_map, sel_memset_zero_brk, sel_memset_zero_live,
    sel_setLink_node, sel_setLink_page, sel_setLink_block, sel_setLink_byte,
    sel_setLink_mem_page_map, sel_setLink_brk, sel_setLink_live,
    sel_withLink_node, sel_withLink_page, sel_withLink_block, sel_withLink_byte,
    sel_withLink_mem_page_map, sel_withLink_brk, sel_withLink_live, if_true, hbn, hbd, hbh]
  refine ⟨?_, ?_, ?_, ?_, ?_, ?_⟩
  · refine RingOK_congr _ _ _ _ hr ?_
    intro x hx
    obtain ⟨h1, h2⟩ := terminate_range i hi pg x (hsep x hx)
    simp only [h1, h2, if_false]
  · first | rfl | trivial
  · intro j hj
    simp only [hj, if_false]
  · intro x hx
    obtain ⟨h1, h2⟩ := terminate_range i hi pg x hx
    simp only [h1, h2, if_false]
    first
      | exact ⟨fun h => hfr x h, trivial, trivial, trivial⟩
      | exact ⟨fun h => hfr x h, rfl, rfl, rfl⟩
      | exact fun h => hfr x h
  · first | rfl | trivial
  · first | rfl | trivial

theorem free_block_status_destroy_eq (s : Heap) (i pg : Nat)
    (hu : (s.page pg).using_count = 0)
    (hd : (s.mem_page_map i).idle_num + 1 > MEM_PAGE_MAX_IDLE) :
    ∃ u : Heap, free_block_status s i pg = (mem_page_free u pg).2 ∧
      u.node = s.node ∧ (u.mem_page_map i).toLINK = (s.mem_page_map i).toLINK ∧
      (u.mem_page_map i).idle_num = (s.mem_page_map i).idle_num + 1 ∧
      (∀ j, j ≠ i → u.mem_page_map j = s.mem_page_map j) ∧
      (∀ x, x ≠ pg → u.page x = s.page x) ∧
      (u.page pg).type = (s.page pg).type ∧
      (u.page pg).block_data = (s.page pg).block_data ∧
      (u.page pg).block_num = (s.page pg).block_num ∧
      (u.page pg).block_head = (s.page pg).block_head ∧
      (u.page pg).status = MEM_PAGE_STATUS_IDLE ∧
      u.block = s.block ∧ u.byte = s.byte ∧ u.brk = s.brk ∧ u.live = s.live := by
  unfold free_block_status
  by_cases hc : ((s.page pg).using_count : Int) = ((s.page pg).block_num : Int) - 1
  · simp only [hc, if_true]
    simp only [sel_setPage_page, sel_setPage_mem_page_map, sel_setLink_page,
      sel_setLink_mem_page_map, if_true, hu, hd]
    refine ⟨_, rfl, ?_⟩
    simp +contextual
  · simp only [hc, if_false]
    simp only [sel_setPage_page, sel_setPage_mem_page_map, sel_setLink_page,
      sel_setLink_mem_page_map, if_true, hu, hd]
    refine ⟨_, rfl, ?_⟩
    simp +contextual

theorem free_block_status_destroy (s : Heap) (i pg : Nat) (rest : List Nat) (hi : i < 15)
    (hring : RingOK s.node (s.mem_page_map i).toLINK (pg :: rest))
    (hidx : get_page_index_ex s pg = i)
    (hbn : (s.page pg).block_num = (page_info i).block_num)
    (hbd : (s.page pg).block_data = (page_info i).block_size)
    (hbh : (s.page pg).block_head = sizeof_MEM_BLOCK)
    (hsep : ∀ x ∈ rest, ¬ (pg ≤ x ∧ x < pg + page_size i))
    (hu : (s.page pg).using_count = 0)
    (hd : (s.mem_page_map i).idle_num + 1 > MEM_PAGE_MAX_IDLE) :
    RingOK (free_block_status s i pg).node ((free_block_status s i pg).mem_page_map i).toLINK
      rest ∧
    ((free_block_status s i pg).mem_page_map i).idle_num = (s.mem_page_map i).idle_num ∧
    (∀ j, j ≠ i → (free_block_status s i pg).mem_page_map j = s.mem_page_map j) ∧
    (∀ x, ¬ (pg ≤ x ∧ x < pg + page_size i) →
      (x ∉ rest → (free_block_status s i pg).node x = s.node x) ∧
      (free_block_status s i pg).page x = s.page x ∧
      (free_block_status s i pg).block x = s.block x ∧
      (free_block_status s i pg).byte x = s.byte x) ∧
    (free_block_status s i pg).brk = s.brk ∧
    (free_block_status s i pg).live = s.live.filter (fun r => r.1 ≠ pg) := by
  obtain ⟨u, e, u1, u2, u3, u4, u5, u6, u7, u8, u9, u10, u11, u12, u13, u14⟩ :=
    free_block_status_destroy_eq s i pg hu hd
  rw [e]
  have hidx' : get_page_index_ex u pg = i := by
    rw [get_page_index_ex_congr s u pg u6 u7]; exact hidx
  obtain ⟨f1, f2, f3, f4, f5, f6⟩ := mem_page_free_facts u i pg rest hi
    (by rw [u1, u2]; exact hring) hidx' (by rw [u8, hbn]) (by rw [u7, hbd]) (by rw [u9, hbh])
    u10 hsep
  refine ⟨f1, by rw [f2, u3]; omega, fun j hj => by rw [f3 j hj, u4 j hj], ?_,
    by rw [f5, u13], by rw [f6, u14]⟩
  intro x hx
  obtain ⟨g1, g2, g3, g4⟩ := f4 x hx
  have hxp : x ≠ pg := by
    intro e'
    apply hx
    have := (page_info_facts i hi)
    unfold page_size
    simp only [sizeof_MEM_PAGE]
    omega
  exact ⟨fun h => by rw [g1 h, u1], by rw [g2, u5 x hxp], by rw [g3, u11], by rw [g4, u12]⟩

theorem free_class_facts (s t : Heap) (pg : Nat) (l1 l2 : List Nat)
    (hnd : (l1 ++ pg :: l2).Nodup)
    (hrest : ∀ x ∈ l1 ++ l2, t.page x = s.page x)
    (hsi : (s.page pg).status ≠ MEM_PAGE_STATUS_IDLE)
    (hfull : (l1 ++ pg :: l2).Pairwise (fun a b =>
      (s.page a).status = MEM_PAGE_STATUS_FULL → (s.page b).status = MEM_PAGE_STATUS_FULL)) :
    (l1 ++ l2).countP (fun a => (t.page a).status = MEM_PAGE_STATUS_IDLE)
      = (l1 ++ pg :: l2).countP (fun a => (s.page a).status = MEM_PAGE_STATUS_IDLE) ∧
    (l1 ++ l2).Pairwise (fun a b =>
      (t.page a).status = MEM_PAGE_STATUS_FULL → (t.page b).status = MEM_PAGE_STATUS_FULL) ∧
    ((l1 ++ l2).map (fun a => (t.page a).using_count)).sum + (s.page pg).using_count
      = ((l1 ++ pg :: l2).map (fun a => (s.page a).using_count)).sum := by
  have hperm : (l1 ++ pg :: l2).Perm (pg :: (l1 ++ l2)) := List.perm_middle
  have hsub : (l1 ++ l2).Sublist (l1 ++ pg :: l2) :=
    List.Sublist.append (List.Sublist.refl l1) (List.sublist_cons_self pg l2)
  refine ⟨?_, ?_, ?_⟩
  · rw [hperm.countP_eq, List.countP_cons]
    simp only [hsi, decide_False, Bool.false_eq_true, if_false, add_zero]
    exact List.countP_congr (fun a ha => by simp [hrest a ha])
  · have h1 := hfull.sublist hsub
    refine h1.imp_of_mem ?_
    intro a b ha hb h
    rw [hrest a ha, hrest b hb]; exact h
  · have h1 := (hperm.map (fun a => (s.page a).using_count)).sum_eq
    rw [h1, List.map_cons, List.sum_cons, add_comm]
    congr 1
    exact congrArg List.sum (List.map_congr_left (fun a ha => by rw [hrest a ha]))

theorem MEM_PAGE_eq (a b : MEM_PAGE) (h1 : a.type = b.type) (h2 : a.status = b.status)
    (h3 : a.using_count = b.using_count) (h4 : a.block_num = b.block_num)
    (h5 : a.block_head = b.block_head) (h6 : a.block_data = b.block_data)
    (h7 : a.alloc_size = b.alloc_size) (h8 : a.idle = b.idle)
    (h9 : a.head_addr = b.head_addr) : a = b := by
  cases a; cases b; simp_all

theorem PageOK_congr (s t : Heap) (g : Ghost) (L : List Nat) (i a : Nat) (hi : i < 15)
    (h : PageOK s g L i a) (hp : t.page a = s.page a) (hb : t.block = s.block)
    (hy : t.byte = s.byte) (hl : t.live = s.live) : PageOK t g L i a := by
  have hw : ∀ x, MEM_TO_ADDR t x = MEM_TO_ADDR s x := fun x =>
    MEM_TO_ADDR_congr s t x (fun y _ _ => by rw [hy])
  apply PageOK_frame s t g g L L i a hi h hp rfl rfl
  · intro k _; rw [hb]
  · intro b _ x _ _; rw [hy]
  · intro _ _; exact hw _
  · rw [hl]; exact h.live
  · intro he hu
    have hx := h.ext_used he hu
    exact ⟨by rw [hb], by rw [hl]; exact hx.live, hx.out, hx.fresh⟩

theorem free_assemble_keep (s s3 : Heap) (g g' : Ghost) (L : List Nat) (p i pg : Nat)
    (l1 l2 : List Nat) (hI : Inv s g L) (hp : p ∈ L) (hi : i < 15)
    (hl : g.lists i = l1 ++ pg :: l2)
    (hpage : (s.block (p - sizeof_MEM_BLOCK)).page = pg)
    (hu : (s.page pg).using_count ≠ 0)
    (F : FreeStep s s3 g g' L p i pg l1 l2)
    (hk : ¬ ((s3.page pg).using_count = 0 ∧
      (s3.mem_page_map i).idle_num + 1 > MEM_PAGE_MAX_IDLE)) :
    Inv (free_block_status s3 i pg) g' (L.erase p) := by
  have hmem : pg ∈ g.lists i := by rw [hl]; simp
  have pp := hI.pages i hi pg hmem
  have fi := page_info_facts i hi
  have hring := hI.ring i hi
  rw [hl] at hring
  have hnd : (l1 ++ pg :: l2).Nodup := hring.2.2.2.1
  have hpl : pg ∉ l1 ++ l2 := by
    have h1 := (List.nodup_append.1 hnd)
    have h2 := (List.nodup_cons.1 h1.2.1).1
    intro h
    rcases List.mem_append.1 h with h | h
    · exact h1.2.2 h (List.mem_cons_self _ _)
    · exact h2 h
  have gli : g'.lists i = pg :: (l1 ++ l2) := by rw [F.gli, if_neg hk]
  have huc : (s.page pg).using_count ≤ (page_info i).block_num := by
    have := pp.fl_len; omega
  have hq3 := F.using_count
  obtain ⟨k1, k2, k3, k4, k5, k6, k7, k8, k9, k10, k11, k12, k13, k14, k15, k16, k17, k18⟩ :=
    free_block_status_keep s3 i pg (page_info i).block_num
      (by rw [F.block_num, pp.block_num]) fi.2.2.1
      (by rw [F.status, pp.status, hq3]) (by omega) hk
  generalize free_block_status s3 i pg = t at *
  have hrest : ∀ x ∈ l1 ++ l2, t.page x = s.page x := by
    intro x hx
    have : x ≠ pg := fun e => hpl (e ▸ hx)
    rw [k10 x this, F.page x this]
  have hsi : (s.page pg).status ≠ MEM_PAGE_STATUS_IDLE := by
    rw [pp.status]; intro e; exact hu ((status_of_idle _ _).1 e)
  obtain ⟨c1, c2, c3⟩ := free_class_facts s t pg l1 l2 hnd hrest hsi
    (by have := hI.full_suffix i hi; rwa [hl] at this)
  have hnf : (t.page pg).status ≠ MEM_PAGE_STATUS_FULL := by
    rw [k1]; intro e
    have := (status_of_full _ _ fi.2.2.1).1 e
    omega
  have hidl : ((t.page pg).status = MEM_PAGE_STATUS_IDLE) ↔ (s3.page pg).using_count = 0 := by
    rw [k1]; exact status_of_idle _ _
  have hcnt : (pg :: (l1 ++ l2)).countP (fun a => (t.page a).status = MEM_PAGE_STATUS_IDLE)
      = (l1 ++ pg :: l2).countP (fun a => (s.page a).status = MEM_PAGE_STATUS_IDLE)
        + (if (s3.page pg).using_count = 0 then 1 else 0) := by
    rw [List.countP_cons, c1]
    by_cases h0 : (s3.page pg).using_count = 0
    · simp [hidl.2 h0, h0]
    · have : ¬ (t.page pg).status = MEM_PAGE_STATUS_IDLE := fun e => h0 (hidl.1 e)
      simp [this, h0]
  have hidn := hI.idle_num i hi
  rw [hl] at hidn
  have hile := hI.idle_le i hi
  rw [hl] at hile
  apply Inv_local s t g g' L _ i pg (owned s g i pg) 1 0 hI hi (sep_owned s g L hI i pg hi hmem)
  · intro j hj hji h
    exact hji (class_unique s g L hI j i pg hj hi h hmem)
  · intro j hj hji x hx'
    rw [k14]
    apply F.node
    intro h
    rw [← hl] at h
    exact hji (class_unique s g L hI j i x hj hi hx' h)
  · intro j _ hji
    rw [k13 j hji, F.map j hji]
  · intro j _ hji
    exact F.glj j hji
  · intro _ _ a _ ha
    rw [k10 a ha, F.page a ha]
  · exact F.gfl
  · exact F.glen
  · intro x hx; rw [k15]; exact F.block x hx
  · intro x hx; rw [k16]; exact F.byte x hx
  · intro r hr hW; rw [k18]; exact F.live r hr hW
  · intro x hx
    rw [gli] at hx
    rw [hl]
    rcases List.mem_cons.1 hx with e | h
    · exact Or.inr e
    · left
      rcases List.mem_append.1 h with h | h
      · exact List.mem_append_left _ h
      · exact List.mem_append_right _ (List.mem_cons_of_mem _ h)
  · exact Or.inl hmem
  · intro a ha hne
    rw [gli]
    rw [hl] at ha
    apply List.mem_cons_of_mem
    rcases List.mem_append.1 ha with h | h
    · exact List.mem_append_left _ h
    · rcases List.mem_cons.1 h with e | h
      · exact absurd e hne
      · exact List.mem_append_right _ h
  · rw [k14, k11, gli]; exact F.ring
  · intro _
    refine PageOK_congr _ t g' _ i pg hi F.pok ?_ (by rw [k15]; rfl) (by rw [k16]; rfl)
      (by rw [k18]; rfl)
    simp only [sel_setPage_page, if_true]
    exact MEM_PAGE_eq _ _ k2 k1 k3 k4 k5 k6 k7 k8 k9
  · rw [k12, F.idle_num, hidn, gli, hcnt]
    push_cast
    split_ifs <;> simp
  · rw [gli, hcnt]
    by_cases h0 : (s3.page pg).using_count = 0
    · have h2 : ¬ (s3.mem_page_map i).idle_num + 1 > MEM_PAGE_MAX_IDLE := fun h => hk ⟨h0, h⟩
      rw [F.idle_num, hidn] at h2
      simp only [MEM_PAGE_MAX_IDLE] at h2
      simp only [h0, if_true]
      omega
    · simp only [h0, if_false]; omega
  · rw [gli]
    exact List.pairwise_cons.2 ⟨fun b _ hF => absurd hF hnf, c2⟩
  · rw [gli, hl, List.map_cons, List.sum_cons, k3, ← c3]
    omega
  · have := List.length_erase_of_mem hp
    have : 0 < L.length := List.length_pos_of_mem hp
    omega
  · rw [k18]; exact hI.live_sorted.sublist F.live_sub
  · intro r hr
    rw [k18] at hr
    rw [k17, F.brk]
    exact hI.live_brk r (F.live_sub.subset hr)
  · rw [k17, F.brk]; exact hI.brk
  · exact hI.out_nodup.erase p
  · intro q hq hne
    exact (List.mem_erase_of_ne (fun e => hne (by rw [e]; exact hpage))).2 hq
  · intro q hq
    have hqL : q ∈ L := List.mem_of_mem_erase hq
    have hqp : q ≠ p := fun e => by
      rw [e] at hq
      exact (List.Nodup.not_mem_erase hI.out_nodup) hq
    by_cases hqq : (s.block (q - sizeof_MEM_BLOCK)).page = pg
    · right
      obtain ⟨h16, -⟩ := hI.out q hqL
      obtain ⟨-, hne, k, hk', e, hnot, hbp⟩ := F.other q hqL hqp hqq
      refine ⟨h16, i, hi, pg, by rw [gli]; exact List.mem_cons_self _ _, ?_,
        Or.inl ⟨hne, k, hk', e, hnot⟩⟩
      have e1 : q - sizeof_MEM_BLOCK = block_addr pg i k := by
        rw [e]; simp
      rw [e1, k15]; exact hbp
    · exact Or.inl ⟨hqL, hqq⟩

theorem page_not_in_other (s : Heap) (g : Ghost) (L : List Nat) (hI : Inv s g L) (i j pg a : Nat)
    (hi : i < 15) (hj : j < 15) (hpg : pg ∈ g.lists i) (ha : a ∈ g.lists j) (hne : a ≠ pg) :
    ¬ (pg ≤ a ∧ a < pg + page_size i) := by
  intro h
  have := (sep_owned s g L hI i pg hi hpg j hj a ha hne a (Or.inl h)).1
  apply this
  have : 0 < page_size j := by unfold page_size; simp [sizeof_MEM_PAGE]
  omega

theorem free_assemble_destroy (s s3 : Heap) (g g' : Ghost) (L : List Nat) (p i pg : Nat)
    (l1 l2 : List Nat) (hI : Inv s g L) (hp : p ∈ L) (hi : i < 15)
    (hl : g.lists i = l1 ++ pg :: l2)
    (hpage : (s.block (p - sizeof_MEM_BLOCK)).page = pg)
    (hu : (s.page pg).using_count ≠ 0)
    (F : FreeStep s s3 g g' L p i pg l1 l2)
    (hd : (s3.page pg).using_count = 0 ∧
      (s3.mem_page_map i).idle_num + 1 > MEM_PAGE_MAX_IDLE) :
    Inv (free_block_status s3 i pg) g' (L.erase p) := by
  have hmem : pg ∈ g.lists i := by rw [hl]; simp
  have pp := hI.pages i hi pg hmem
  have fi := page_info_facts i hi
  have hring := hI.ring i hi
  rw [hl] at hring
  have hnd : (l1 ++ pg :: l2).Nodup := hring.2.2.2.1
  have hp0 : pg ≠ 0 := fun e => hring.2.2.2.2.1 (by simp [e])
  have hpl : pg ∉ l1 ++ l2 := by
    have h1 := (List.nodup_append.1 hnd)
    have h2 := (List.nodup_cons.1 h1.2.1).1
    intro h
    rcases List.mem_append.1 h with h | h
    · exact h1.2.2 h (List.mem_cons_self _ _)
    · exact h2 h
  have hsubl : ∀ x ∈ l1 ++ l2, x ∈ g.lists i := by
    intro x h
    rw [hl]
    rcases List.mem_append.1 h with h | h
    · exact List.mem_append_left _ h
    · exact List.mem_append_right _ (List.mem_cons_of_mem _ h)
  have gli : g'.lists i = l1 ++ l2 := by rw [F.gli, if_pos hd]
  have hq3 := F.using_count
  have hidx : get_page_index_ex s3 pg = i := by
    rw [get_page_index_ex_congr s s3 pg F.type F.block_data]
    exact page_index_ex_of_ok s g L i pg hi pp hp0
  have hself : owned s g i pg pg := by
    left
    have : 0 < page_size i := by unfold page_size; simp [sizeof_MEM_PAGE]
    omega
  have hnr : ∀ x, ¬ owned s g i pg x → ¬ (pg ≤ x ∧ x < pg + page_size i) :=
    fun x hx h => hx (Or.inl h)
  obtain ⟨d1, d2, d3, d4, d5, d6⟩ := free_block_status_destroy s3 i pg (l1 ++ l2) hi F.ring hidx
    (by rw [F.block_num, pp.block_num]) (by rw [F.block_data, pp.block_data])
    (by rw [F.block_head, pp.block_head])
    (fun x hx => page_not_in_other s g L hI i i pg x hi hi hmem (hsubl x hx)
      (fun e => hpl (e ▸ hx)))
    hd.1 hd.2
  generalize free_block_status s3 i pg = t at *
  have hrest : ∀ x ∈ l1 ++ l2, t.page x = s.page x := by
    intro x hx
    have hne : x ≠ pg := fun e => hpl (e ▸ hx)
    rw [(d4 x (page_not_in_other s g L hI i i pg x hi hi hmem (hsubl x hx) hne)).2.1,
      F.page x hne]
  have hsi : (s.page pg).status ≠ MEM_PAGE_STATUS_IDLE := by
    rw [pp.status]; intro e; exact hu ((status_of_idle _ _).1 e)
  obtain ⟨c1, c2, c3⟩ := free_class_facts s t pg l1 l2 hnd hrest hsi
    (by have := hI.full_suffix i hi; rwa [hl] at this)
  have hidn := hI.idle_num i hi
  rw [hl] at hidn
  have hile := hI.idle_le i hi
  rw [hl] at hile
  apply Inv_local s t g g' L _ i pg (owned s g i pg) 1 0 hI hi (sep_owned s g L hI i pg hi hmem)
  · intro j hj hji h
    exact hji (class_unique s g L hI j i pg hj hi h hmem)
  · intro j hj hji x hx'
    have hxi : x ∉ g.lists i := fun h => hji (class_unique s g L hI j i x hj hi hx' h)
    have hne : x ≠ pg := fun e => hxi (e ▸ hmem)
    rw [(d4 x (page_not_in_other s g L hI i j pg x hi hj hmem hx' hne)).1
      (fun h => hxi (hsubl x h))]
    apply F.node
    rw [← hl]; exact hxi
  · intro j _ hji
    rw [d3 j hji, F.map j hji]
  · intro j _ hji
    exact F.glj j hji
  · intro j hj a ha hne
    rw [(d4 a (page_not_in_other s g L hI i j pg a hi hj hmem ha hne)).2.1, F.page a hne]
  · exact F.gfl
  · exact F.glen
  · intro x hx; rw [(d4 x (hnr x hx)).2.2.1]; exact F.block x hx
  · intro x hx; rw [(d4 x (hnr x hx)).2.2.2]; exact F.byte x hx
  · intro r hr hW
    rw [d6]
    refine List.mem_filter.2 ⟨F.live r hr hW, ?_⟩
    have : r.1 ≠ pg := fun e => hW (e ▸ hself)
    simp [this]
  · intro x hx
    rw [gli] at hx
    exact Or.inl (hsubl x hx)
  · exact Or.inl hmem
  · intro a ha hne
    rw [gli]
    rw [hl] at ha
    rcases List.mem_append.1 ha with h | h
    · exact List.mem_append_left _ h
    · rcases List.mem_cons.1 h with e | h
      · exact absurd e hne
      · exact List.mem_append_right _ h
  · rw [gli]; exact d1
  · intro h
    rw [gli] at h
    exact absurd h hpl
  · rw [d2, F.idle_num, hidn, gli, c1]
  · rw [gli, c1]; exact hile
  · rw [gli]; exact c2
  · rw [gli, hl, ← c3]
    omega
  · have := List.length_erase_of_mem hp
    have : 0 < L.length := List.length_pos_of_mem hp
    omega
  · rw [d6]
    exact (hI.live_sorted.sublist F.live_sub).sublist (List.filter_sublist _)
  · intro r hr
    rw [d6] at hr
    rw [d5, F.brk]
    exact hI.live_brk r (F.live_sub.subset (List.mem_filter.1 hr).1)
  · rw [d5, F.brk]; exact hI.brk
  · exact hI.out_nodup.erase p
  · intro q hq hne
    exact (List.mem_erase_of_ne (fun e => hne (by rw [e]; exact hpage))).2 hq
  · intro q hq
    have hqL : q ∈ L := List.mem_of_mem_erase hq
    have hqp : q ≠ p := fun e => by
      rw [e] at hq
      exact (List.Nodup.not_mem_erase hI.out_nodup) hq
    by_cases hqq : (s.block (q - sizeof_MEM_BLOCK)).page = pg
    · exact absurd hd.1 (F.other q hqL hqp hqq).1
    · exact Or.inl ⟨hqL, hqq⟩

theorem free_assemble (s s3 : Heap) (g g' : Ghost) (L : List Nat) (p i pg : Nat)
    (l1 l2 : List Nat) (hI : Inv s g L) (hp : p ∈ L) (hi : i < 15)
    (hl : g.lists i = l1 ++ pg :: l2)
    (hpage : (s.block (p - sizeof_MEM_BLOCK)).page = pg)
    (hu : (s.page pg).using_count ≠ 0)
    (F : FreeStep s s3 g g' L p i pg l1 l2) :
    Inv (free_block_status s3 i pg) g' (L.erase p) := by
  by_cases hd : (s3.page pg).using_count = 0 ∧
      (s3.mem_page_map i).idle_num + 1 > MEM_PAGE_MAX_IDLE
  · exact free_assemble_destroy s s3 g g' L p i pg l1 l2 hI hp hi hl hpage hu F hd
  · exact free_assemble_keep s s3 g g' L p i pg l1 l2 hI hp hi hl hpage hu F hd

theorem free_size_slab_bound (uc bn bs : Nat) (h0 : 1 ≤ uc) (h1 : uc ≤ bn) (h2 : bn ≤ 128)
    (h3 : bs ≤ 512) :
    toInt32 ((uc : Int) * ((bs : Int) + sizeof_MEM_BLOCK) - ((bs : Int) + sizeof_MEM_BLOCK))
      = ((uc - 1 : Nat) : Int) * ((bs : Int) + sizeof_MEM_BLOCK) := by
  simp only [sizeof_MEM_BLOCK]
  obtain ⟨u, rfl⟩ : ∃ u, uc = u + 1 := ⟨uc - 1, by omega⟩
  have e : ((u + 1 : Nat) : Int) * ((bs : Int) + (16 : Nat)) - ((bs : Int) + (16 : Nat))
      = (u : Int) * ((bs : Int) + (16 : Nat)) := by
    push_cast; ring
  rw [e]
  simp only [Nat.add_sub_cancel]
  have hb : (u : Int) * ((bs : Int) + (16 : Nat)) ≤ 128 * 528 := by
    apply mul_le_mul <;> push_cast <;> omega
  have hn : 0 ≤ (u : Int) * ((bs : Int) + (16 : Nat)) := by
    apply mul_nonneg <;> push_cast <;> omega
  apply toInt32_small <;> push_cast at * <;> omega

theorem free_page_ok_slab (s t : Heap) (g g' : Ghost) (L L' : List Nat) (i pg k : Nat)
    (hi : i < 15) (hne : ¬ is_ext i) (pp : PageOK s g L i pg)
    (hk : k < (page_info i).block_num) (hnot : block_addr pg i k ∉ g.fl pg)
    (hidle_lt : (s.page pg).idle < 2 ^ 64)
    (tp_type : (t.page pg).type = (s.page pg).type)
    (tp_status : (t.page pg).status
      = status_of (t.page pg).using_count (page_info i).block_num)
    (tp_uc : (t.page pg).using_count + 1 = (s.page pg).using_count)
    (tp_bn : (t.page pg).block_num = (s.page pg).block_num)
    (tp_bh : (t.page pg).block_head = (s.page pg).block_head)
    (tp_bd : (t.page pg).block_data = (s.page pg).block_data)
    (tp_alloc : (t.page pg).alloc_size = toInt32 ((s.page pg).alloc_size -
            (((s.page pg).block_data : Int) + ((s.page pg).block_head : Int))))
    (tp_idle : (t.page pg).idle = block_addr pg i k)
    (tp_head : (t.page pg).head_addr = (s.page pg).head_addr)
    (tb : t.block = fun x =>
      if x = block_addr pg i k then
        { s.block (block_addr pg i k) with status := MEM_BLOCK_STATUS_IDLE }
      else s.block x)
    (ty : t.byte = fun x =>
      if (s.page pg).status ≠ MEM_PAGE_STATUS_FULL ∧
          block_addr pg i k + sizeof_MEM_BLOCK ≤ x ∧ x < block_addr pg i k + sizeof_MEM_BLOCK + 8
        then (s.page pg).idle / 2 ^ (8 * (x - (block_addr pg i k + sizeof_MEM_BLOCK))) % 256
      else if block_addr pg i k + sizeof_MEM_BLOCK ≤ x ∧
          x < block_addr pg i k + sizeof_MEM_BLOCK + (page_info i).block_size then 0
      else s.byte x)
    (tl : (pg, page_size i) ∈ t.live)
    (gf : g'.fl pg = block_addr pg i k :: g.fl pg) :
    PageOK t g' L' i pg := by
  have fi := page_info_facts i hi
  have hlen := pp.fl_len
  have hlt := fl_length_lt i pg k (g.fl pg) hi pp.fl_nodup pp.fl_blocks hk hnot
  have e16 : sizeof_MEM_BLOCK = 16 := rfl
  refine
    { head_addr := by rw [tp_head]; exact pp.head_addr
      type := by rw [tp_type]; exact pp.type
      block_num := by rw [tp_bn]; exact pp.block_num
      block_head := by rw [tp_bh]; exact pp.block_head
      block_data := by rw [tp_bd]; exact pp.block_data
      status := tp_status
      fl_len := by rw [gf, List.length_cons]; omega
      fl_nodup := by rw [gf]; exact List.nodup_cons.2 ⟨hnot, pp.fl_nodup⟩
      fl_blocks := by
        rw [gf]; intro c hc
        rcases List.mem_cons.1 hc with e | h
        · exact ⟨k, hk, e⟩
        · exact pp.fl_blocks c h
      idle := by rw [tp_idle, gf]; rfl
      chain := ?_
      hdr := ?_
      live := tl
      alloc_slab := ?_
      ext_idle := fun h => absurd h hne
      ext_used := fun h => absurd h hne }
  · rw [gf]
    refine ⟨?_, ?_⟩
    · by_cases hfull : (s.page pg).status = MEM_PAGE_STATUS_FULL
      · have hz : g.fl pg = [] := by
          rw [pp.status] at hfull
          have := (status_of_full _ _ fi.2.2.1).1 hfull
          exact List.eq_nil_of_length_eq_zero (by omega)
        rw [hz]
        apply MEM_TO_ADDR_zero
        intro x h1 h2
        rw [ty]
        have hc : block_addr pg i k + sizeof_MEM_BLOCK ≤ x ∧
            x < block_addr pg i k + sizeof_MEM_BLOCK + (page_info i).block_size := by
          have := fi.1; omega
        simp only [hfull, ne_eq, not_true_eq_false, false_and, if_false, hc, and_self, if_true]
      · have : MEM_TO_ADDR t (block_addr pg i k + sizeof_MEM_BLOCK)
            = MEM_TO_ADDR (ADDR_TO_MEM s (block_addr pg i k + sizeof_MEM_BLOCK) (s.page pg).idle)
                (block_addr pg i k + sizeof_MEM_BLOCK) := by
          apply MEM_TO_ADDR_congr
          intro x h1 h2
          rw [ty, ADDR_TO_MEM_byte]
          have hc : block_addr pg i k + sizeof_MEM_BLOCK ≤ x ∧
            x < block_addr pg i k + sizeof_MEM_BLOCK + 8 := ⟨h1, h2⟩
          simp only [hfull, ne_eq, not_false_eq_true, true_and, hc, and_self, if_true]
        rw [this, MEM_TO_ADDR_ADDR_TO_MEM _ _ _ hidle_lt, pp.idle]
    · rw [free_chain_congr s t]
      · exact pp.chain
      · intro c hc x h1 h2
        obtain ⟨k', hk', e⟩ := pp.fl_blocks c hc
        have hkk : k' ≠ k := by
          intro e2; subst e2; exact hnot (e ▸ hc)
        have hd := block_addr_disjoint pg i k' k hi hkk
        rw [ty]
        have c1 : ¬ (block_addr pg i k + sizeof_MEM_BLOCK ≤ x ∧
            x < block_addr pg i k + sizeof_MEM_BLOCK + 8) := by
          have := fi.1; omega
        have c2 : ¬ (block_addr pg i k + sizeof_MEM_BLOCK ≤ x ∧
            x < block_addr pg i k + sizeof_MEM_BLOCK + (page_info i).block_size) := by
          have := fi.1; omega
        simp only [c1, c2, and_false, if_false]
  · intro k' hk'
    rw [tb, gf]
    have old := pp.hdr k' hk'
    by_cases e : block_addr pg i k' = block_addr pg i k
    · simp only [e, if_true]
      have old' := pp.hdr k hk
      rw [old']
      simp
    · simp only [e, if_false]
      rw [old]
      simp [e]
  · intro _
    rw [tp_alloc, pp.alloc_slab hne, pp.block_data, pp.block_head]
    have hu : (t.page pg).using_count = (s.page pg).using_count - 1 := by omega
    rw [hu]
    exact free_size_slab_bound _ _ _ (by omega) (by omega) fi.2.2.2.1 fi.2.1

theorem erase_middle (pg : Nat) (l1 l2 : List Nat) (hnd : (l1 ++ pg :: l2).Nodup) :
    (l1 ++ pg :: l2).erase pg = l1 ++ l2 := by
  have h1 : pg ∉ l1 := fun e =>
    (List.nodup_append.1 hnd).2.2 e (List.mem_cons_self _ _)
  rw [List.erase_append_right _ h1, List.erase_cons_head]

theorem free_ghost_facts (s : Heap) (g : Ghost) (p i pg : Nat) (l1 l2 : List Nat)
    (hpage : (s.block (p - sizeof_MEM_BLOCK)).page = pg)
    (hidx : get_page_index_ex s pg = i) (hl : g.lists i = l1 ++ pg :: l2)
    (hnd : (l1 ++ pg :: l2).Nodup) :
    (∀ j, j ≠ i → (free_ghost s g p).lists j = g.lists j) ∧
    (free_ghost s g p).lists i =
      (if (s.page pg).using_count = 1 ∧ (s.mem_page_map i).idle_num + 1 > MEM_PAGE_MAX_IDLE
        then l1 ++ l2 else pg :: (l1 ++ l2)) ∧
    (∀ a, a ≠ pg → (free_ghost s g p).fl a = g.fl a) ∧
    (free_ghost s g p).fl pg = (free_block_release s pg (p - sizeof_MEM_BLOCK)).1 :: g.fl pg ∧
    (free_ghost s g p).len = g.len := by
  unfold free_ghost
  simp only [hpage, hidx, hl, erase_middle pg l1 l2 hnd, if_true]
  refine ⟨fun j hj => by simp only [hj, if_false], trivial, fun a ha => by simp only [ha, if_false],
    trivial, trivial⟩

theorem idle_lt (s : Heap) (g : Ghost) (L : List Nat) (hI : Inv s g L) (i pg : Nat)
    (hi : i < 15) (hpg : pg ∈ g.lists i) : (s.page pg).idle < 2 ^ 64 := by
  have pp := hI.pages i hi pg hpg
  rw [pp.idle]
  cases hf : g.fl pg with
  | nil => simp [firstD]
  | cons b r =>
    obtain ⟨k, hk, e⟩ := pp.fl_blocks b (by rw [hf]; exact List.mem_cons_self _ _)
    have h1 := block_addr_bound pg i k hi hk
    have h2 := pages_lt_brk s g L hI i pg hi hpg
    have h3 := hI.brk.2
    have : firstD (b :: r) 0 = b := rfl
    rw [this, e]
    omega

theorem dec_using (uc bn : Nat) (h0 : uc ≠ 0) (h1 : uc ≤ bn) (h2 : bn ≤ 128) :
    (uc + 255) % 256 + 1 = uc := by omega

theorem free_step_slab (s : Heap) (g : Ghost) (L : List Nat) (p i pg k : Nat)
    (l1 l2 : List Nat) (hI : Inv s g L) (hi : i < 15)
    (hl : g.lists i = l1 ++ pg :: l2)
    (hpage : (s.block (p - sizeof_MEM_BLOCK)).page = pg)
    (hu : (s.page pg).using_count ≠ 0)
    (hidx : get_page_index_ex s pg = i) (hne : ¬ is_ext i)
    (hk : k < (page_info i).block_num) (hpk : p = block_addr pg i k + sizeof_MEM_BLOCK)
    (hnot : block_addr pg i k ∉ g.fl pg) :
    FreeStep s
      (free_block_front
        (free_block_idle (free_block_release s pg (p - sizeof_MEM_BLOCK)).2 pg
          (free_block_release s pg (p - sizeof_MEM_BLOCK)).1) i pg)
      g (free_ghost s g p) L p i pg l1 l2 := by
  have hmem : pg ∈ g.lists i := by rw [hl]; simp
  have pp := hI.pages i hi pg hmem
  have fi := page_info_facts i hi
  have hring := hI.ring i hi
  rw [hl] at hring
  have hnd : (l1 ++ pg :: l2).Nodup := hring.2.2.2.1
  have e16 : sizeof_MEM_BLOCK = 16 := rfl
  have e1 : p - sizeof_MEM_BLOCK = block_addr pg i k := by rw [hpk]; simp
  obtain ⟨g1, g2, g3, g4, g5⟩ := free_ghost_facts s g p i pg l1 l2 hpage hidx hl hnd
  rw [e1] at g4 ⊢
  generalize free_ghost s g p = g' at *
  have hty : ¬ ((s.page pg).type = MEM_PAGE_TYPE_ZERO ∨
      (s.page pg).type = MEM_PAGE_TYPE_LARGE) := by
    rw [pp.type]; exact not_ext_type i hi hne
  obtain ⟨a1, a2, a3, a4, a5, a6, a7, a8⟩ :=
    free_block_release_slab s pg (block_addr pg i k) hty
  rcases hr : free_block_release s pg (block_addr pg i k) with ⟨rb, r⟩
  rw [hr] at a1 a2 a3 a4 a5 a6 a7 a8 g4
  simp only at a1 a2 a3 a4 a5 a6 a7 a8 g4 ⊢
  subst a1
  obtain ⟨b1, b2, b3, b4, b5, b6, b7⟩ := free_block_idle_facts r pg (block_addr pg i k)
  generalize free_block_idle r pg (block_addr pg i k) = s2 at *
  have hring2 : RingOK s2.node (s2.mem_page_map i).toLINK (l1 ++ pg :: l2) := by
    rw [b4, a5, b5, a6]; exact hring
  obtain ⟨f1, f2, f3, f4, f5, f6, f7, f8, f9⟩ := free_block_front_ring s2 i pg l1 l2 hring2
  generalize free_block_front s2 i pg = s3 at *
  have huc : (s.page pg).using_count ≤ (page_info i).block_num := by
    have := pp.fl_len; omega
  have hdec := dec_using _ _ hu huc fi.2.2.2.1
  have hp3 : s3.page pg =
      { s.page pg with
        alloc_size := toInt32 ((s.page pg).alloc_size -
          (((s.page pg).block_data : Int) + ((s.page pg).block_head : Int)))
        idle := block_addr pg i k
        using_count := ((s.page pg).using_count + 255) % 256 } := by
    rw [f3, b1, a2]; simp
  have hpo : ∀ x, x ≠ pg → s3.page x = s.page x := by
    intro x hx; rw [f3, b1, a2]; simp [hx]
  have hb3 : s3.block = fun x =>
      if x = block_addr pg i k then
        { s.block (block_addr pg i k) with status := MEM_BLOCK_STATUS_IDLE }
      else s.block x := by
    rw [f4, b2, a3]
  have hbb := block_addr_bound pg i k hi hk
  have hown : ∀ x, ¬ owned s g i pg x → ¬ (pg ≤ x ∧ x < pg + page_size i) :=
    fun x hx h => hx (Or.inl h)
  have hu3 : (s3.page pg).using_count + 1 = (s.page pg).using_count := by
    rw [hp3]; exact hdec
  refine
    { glj := g1
      gli := ?_
      gfl := g3
      glen := fun a _ => by rw [g5]
      ring := f1
      node := fun x hx => by rw [f2 x hx, b4, a5]
      idle_num := by rw [f8, b5, a6]
      map := fun j hj => by rw [f9 j hj, b5, a6]
      page := hpo
      type := by rw [hp3]
      status := by rw [hp3]
      using_count := hu3
      block_num := by rw [hp3]
      block_head := by rw [hp3]
      block_data := by rw [hp3]
      block := ?_
      byte := ?_
      live := fun r' hr' _ => by rw [f7, b7, a8]; exact hr'
      live_sub := by rw [f7, b7, a8]
      brk := by rw [f6, b6, a7]
      pok := ?_
      other := ?_ }
  · rw [g2]
    have h1 : ((s3.page pg).using_count = 0) ↔ ((s.page pg).using_count = 1) := by omega
    have h2 : (s3.mem_page_map i).idle_num = (s.mem_page_map i).idle_num := by
      rw [f8, b5, a6]
    simp only [h1, h2]
  · intro x hx
    rw [hb3]
    have : x ≠ block_addr pg i k := by
      intro e; apply hown x hx; rw [e]; omega
    simp only [this, if_false]
  · intro x hx
    rw [f5, b3, a4, pp.block_head, pp.block_data]
    have hx' := hown x hx
    have c1 : ¬ (block_addr pg i k + sizeof_MEM_BLOCK ≤ x ∧
        x < block_addr pg i k + sizeof_MEM_BLOCK + 8) := by
      have := fi.1; omega
    have c2 : ¬ (block_addr pg i k + sizeof_MEM_BLOCK ≤ x ∧
        x < block_addr pg i k + sizeof_MEM_BLOCK + (page_info i).block_size) := by
      omega
    simp only [c1, c2, and_false, if_false]
  · apply free_page_ok_slab s _ g g' L _ i pg k hi hne pp hk hnot
      (idle_lt s g L hI i pg hi hmem)
    · simp [hp3]
    · simp [hp3]
    · simp only [sel_setPage_page, if_true]; exact hu3
    · simp [hp3]
    · simp [hp3]
    · simp [hp3]
    · simp [hp3]
    · simp [hp3]
    · simp [hp3]
    · simp only [sel_setPage_block]; exact hb3
    · simp only [sel_setPage_byte]
      rw [f5, b3, a4, pp.block_head, pp.block_data]
    · simp only [sel_setPage_live]
      rw [f7, b7, a8]; exact pp.live
    · exact g4
  · intro q hq hqp hqq
    obtain ⟨-, j, hj, a, ha, hpa, hcase⟩ := hI.out q hq
    rw [hqq] at hpa
    rw [← hpa] at ha hcase
    have hji := class_unique s g L hI j i pg hj hi ha hmem
    rw [hji] at hcase
    rcases hcase with ⟨-, k', hk', e, hnot'⟩ | ⟨he, -⟩
    · have hkk : k' ≠ k := by
        intro e2; subst e2; exact hqp (by rw [e, hpk])
      have hba : block_addr pg i k' ≠ block_addr pg i k :=
        fun e2 => hkk (block_addr_inj pg i k' k hi e2)
      have hnot2 : block_addr pg i k' ∉ g'.fl pg := by
        rw [g4]
        intro h
        rcases List.mem_cons.1 h with h | h
        · exact hba h
        · exact hnot' h
      refine ⟨?_, hne, k', hk', e, hnot2, ?_⟩
      · have hlt := fl_length_lt i pg k' (g'.fl pg) hi
          (by rw [g4]; exact List.nodup_cons.2 ⟨hnot, pp.fl_nodup⟩)
          (by
            rw [g4]; intro c hc
            rcases List.mem_cons.1 hc with e | h
            · exact ⟨k, hk, e⟩
            · exact pp.fl_blocks c h)
          hk' hnot2
        rw [g4, List.length_cons] at hlt
        have := pp.fl_len
        omega
      · rw [hb3]
        simp only [hba, if_false]
        rw [pp.hdr k' hk']
    · exact absurd he hne

theorem free_step_ext (s : Heap) (g : Ghost) (L : List Nat) (p i pg : Nat)
    (l1 l2 : List Nat) (hI : Inv s g L) (hi : i < 15)
    (hl : g.lists i = l1 ++ pg :: l2)
    (hpage : (s.block (p - sizeof_MEM_BLOCK)).page = pg)
    (hu : (s.page pg).using_count ≠ 0)
    (hidx : get_page_index_ex s pg = i) (he : is_ext i)
    (hpk : p = MEM_TO_ADDR s (pg + sizeof_MEM_PAGE + sizeof_MEM_BLOCK) + sizeof_MEM_BLOCK) :
    FreeStep s
      (free_block_front
        (free_block_idle (free_block_release s pg (p - sizeof_MEM_BLOCK)).2 pg
          (free_block_release s pg (p - sizeof_MEM_BLOCK)).1) i pg)
      g (free_ghost s g p) L p i pg l1 l2 := by
  have hmem : pg ∈ g.lists i := by rw [hl]; simp
  have pp := hI.pages i hi pg hmem
  have px := pp.ext_used he hu
  have fi := page_info_facts i hi
  obtain ⟨hbn1, hbs8⟩ := fi.2.2.2.2.2.2.1 he
  obtain ⟨hu1, hfl⟩ := ext_one_block s g L i pg hi he pp hu
  have hring := hI.ring i hi
  rw [hl] at hring
  have hnd : (l1 ++ pg :: l2).Nodup := hring.2.2.2.1
  have e16 : sizeof_MEM_BLOCK = 16 := rfl
  have e48 : sizeof_MEM_PAGE = 48 := rfl
  have e1 : p - sizeof_MEM_BLOCK = MEM_TO_ADDR s (pg + sizeof_MEM_PAGE + sizeof_MEM_BLOCK) := by
    rw [hpk]; simp
  obtain ⟨g1, g2, g3, g4, g5⟩ := free_ghost_facts s g p i pg l1 l2 hpage hidx hl hnd
  rw [e1] at g4 ⊢
  generalize free_ghost s g p = g' at *
  generalize hw : MEM_TO_ADDR s (pg + sizeof_MEM_PAGE + sizeof_MEM_BLOCK) = w at *
  have hty : (s.page pg).type = MEM_PAGE_TYPE_ZERO ∨ (s.page pg).type = MEM_PAGE_TYPE_LARGE := by
    rw [pp.type]; exact ext_type i hi he
  obtain ⟨a1, a2, a3, a4, a5, a6, a7, a8⟩ := free_block_release_ext s pg w hty
  rcases hr : free_block_release s pg w with ⟨rb, r⟩
  rw [hr] at a1 a2 a3 a4 a5 a6 a7 a8 g4
  simp only at a1 a2 a3 a4 a5 a6 a7 a8 g4 ⊢
  subst a1
  obtain ⟨b1, b2, b3, b4, b5, b6, b7⟩ := free_block_idle_facts r pg (pg + sizeof_MEM_PAGE)
  generalize free_block_idle r pg (pg + sizeof_MEM_PAGE) = s2 at *
  have hring2 : RingOK s2.node (s2.mem_page_map i).toLINK (l1 ++ pg :: l2) := by
    rw [b4, a5, b5, a6]; exact hring
  obtain ⟨f1, f2, f3, f4, f5, f6, f7, f8, f9⟩ := free_block_front_ring s2 i pg l1 l2 hring2
  generalize free_block_front s2 i pg = s3 at *
  have hp3 : s3.page pg =
      { s.page pg with
        alloc_size := 0
        idle := pg + sizeof_MEM_PAGE
        using_count := 0 } := by
    rw [f3, b1, a2]; simp [hu1]
  have hpo : ∀ x, x ≠ pg → s3.page x = s.page x := by
    intro x hx; rw [f3, b1, a2]; simp [hx]
  have hb3 : s3.block = fun x =>
      if x = pg + sizeof_MEM_PAGE then
        { s.block (pg + sizeof_MEM_PAGE) with status := MEM_BLOCK_STATUS_IDLE }
      else s.block x := by
    rw [f4, b2, a3]
  have hy3 : s3.byte = fun x =>
      if pg + sizeof_MEM_PAGE + sizeof_MEM_BLOCK ≤ x ∧
          x < pg + sizeof_MEM_PAGE + sizeof_MEM_BLOCK + 8 then 0
      else s.byte x := by
    rw [f5, b3, a4, pp.block_head, pp.block_data, hbs8]
  have hl3 : s3.live = s.live.filter (fun r => r.1 ≠ w) := by rw [f7, b7, a8]
  have hba0 : block_addr pg i 0 = pg + sizeof_MEM_PAGE := by simp [block_addr]
  have hbb := block_addr_bound pg i 0 hi (by omega)
  rw [hba0] at hbb
  have hown : ∀ x, ¬ owned s g i pg x → ¬ (pg ≤ x ∧ x < pg + page_size i) :=
    fun x hx h => hx (Or.inl h)
  have hu3 : (s3.page pg).using_count + 1 = (s.page pg).using_count := by
    rw [hp3, hu1]
  have hwown : owned s g i pg w := by
    right; left
    rw [hw]
    exact ⟨he, hu, le_refl _, by omega⟩
  have hpw : pg ≠ w := by
    intro e
    have := px.fresh i hi
    rw [hw] at this
    exact this (e ▸ hmem)
  have hother : ∀ q ∈ L, q ≠ p → (s.block (q - sizeof_MEM_BLOCK)).page = pg → False := by
    intro q hq hqp hqq
    obtain ⟨-, j, hj, a, ha, hpa, hcase⟩ := hI.out q hq
    rw [hqq] at hpa
    rw [← hpa] at ha hcase
    have hji := class_unique s g L hI j i pg hj hi ha hmem
    rw [hji] at hcase
    rcases hcase with ⟨hne, -⟩ | ⟨-, -, e⟩
    · exact hne he
    · rw [hw] at e; exact hqp (by rw [e, hpk])
  refine
    { glj := g1
      gli := ?_
      gfl := g3
      glen := fun a _ => by rw [g5]
      ring := f1
      node := fun x hx => by rw [f2 x hx, b4, a5]
      idle_num := by rw [f8, b5, a6]
      map := fun j hj => by rw [f9 j hj, b5, a6]
      page := hpo
      type := by rw [hp3]
      status := by rw [hp3]
      using_count := hu3
      block_num := by rw [hp3]
      block_head := by rw [hp3]
      block_data := by rw [hp3]
      block := ?_
      byte := ?_
      live := ?_
      live_sub := by rw [hl3]; exact List.filter_sublist _
      brk := by rw [f6, b6, a7]
      pok := ?_
      other := fun q hq hqp hqq => (hother q hq hqp hqq).elim }
  · rw [g2]
    have h1 : ((s3.page pg).using_count = 0) ↔ ((s.page pg).using_count = 1) := by omega
    have h2 : (s3.mem_page_map i).idle_num = (s.mem_page_map i).idle_num := by
      rw [f8, b5, a6]
    simp only [h1, h2]
  · intro x hx
    rw [hb3]
    have : x ≠ pg + sizeof_MEM_PAGE := by
      intro e; apply hown x hx; rw [e]; omega
    simp only [this, if_false]
  · intro x hx
    rw [hy3]
    have hx' := hown x hx
    have c1 : ¬ (pg + sizeof_MEM_PAGE + sizeof_MEM_BLOCK ≤ x ∧
        x < pg + sizeof_MEM_PAGE + sizeof_MEM_BLOCK + 8) := by
      omega
    simp only [c1, if_false]
  · intro r' hr' hW
    rw [hl3]
    refine List.mem_filter.2 ⟨hr', ?_⟩
    have : r'.1 ≠ w := fun e => hW (e ▸ hwown)
    simp [this]
  · have hs0 : status_of 0 (page_info i).block_num = MEM_PAGE_STATUS_IDLE :=
      (status_of_idle _ _).2 rfl
    refine
      { head_addr := by simp [hp3, pp.head_addr]
        type := by simp [hp3, pp.type]
        block_num := by simp [hp3, pp.block_num]
        block_head := by simp [hp3, pp.block_head]
        block_data := by simp [hp3, pp.block_data]
        status := by simp [hp3]
        fl_len := by simp [hp3, g4, hfl, hbn1]
        fl_nodup := by rw [g4, hfl]; simp
        fl_blocks := by
          rw [g4, hfl]; intro c hc
          exact ⟨0, by omega, by rw [hba0]; simpa using hc⟩
        idle := by simp [hp3, g4, firstD]
        chain := ?_
        hdr := ?_
        live := ?_
        alloc_slab := fun h => absurd he h
        ext_idle := fun _ _ => by simp [hp3]
        ext_used := fun _ h => absurd (by simp [hp3]) h }
    · rw [g4, hfl]
      refine ⟨?_, trivial⟩
      apply MEM_TO_ADDR_zero
      intro x h1 h2
      simp only [sel_setPage_byte]
      rw [hy3]
      simp only [h1, h2, and_self, if_true]
    · intro k hk
      have hk0 : k = 0 := by omega
      subst hk0
      simp only [sel_setPage_block]
      rw [hb3, g4, hba0]
      have old := pp.hdr 0 (by omega)
      rw [hba0, hfl] at old
      simp only [if_true, old]
      simp
    · simp only [sel_setPage_live]
      rw [hl3]
      refine List.mem_filter.2 ⟨pp.live, ?_⟩
      simp [hpw]

theorem free_block_inv (s : Heap) (g : Ghost) (L : List Nat) (p : Nat) (hI : Inv s g L)
    (hp : p ∈ L) : Inv (free_block s p false) (free_ghost s g p) (L.erase p) := by
  obtain ⟨i, pg, l1, l2, hi, hl, hpage, h16, hp0, hu, ha, hidx, hcase⟩ := free_pre s g L p hI hp
  rw [free_block_eq s p pg i h16 hpage hu ha hidx hi]
  apply free_assemble s _ g _ L p i pg l1 l2 hI hp hi hl hpage hu
  rcases hcase with ⟨hne, k, hk, e, hnot⟩ | ⟨he, e⟩
  · exact free_step_slab s g L p i pg k l1 l2 hI hi hl hpage hu hidx hne hk e hnot
  · exact free_step_ext s g L p i pg l1 l2 hI hi hl hpage hu hidx he e

theorem mem_free_inv (s : Heap) (g : Ghost) (L : List Nat) (p : Nat) (hI : Inv s g L)
    (hp : p ∈ L) : Inv (mem_free s p) (free_ghost s g p) (L.erase p) := by
  obtain ⟨h16, -⟩ := hI.out p hp
  have hp0 : p ≠ 0 := by
    have e16 : sizeof_MEM_BLOCK = 16 := rfl
    omega
  unfold mem_free
  rw [if_neg hp0]
  exact free_block_inv s g L p hI hp

/-- What the last step of `free_block` leaves untouched, and what it does to the page of the
freed block. -/
theorem free_status_frame (s s3 : Heap) (g g' : Ghost) (L : List Nat) (p i pg : Nat)
    (l1 l2 : List Nat) (hI : Inv s g L) (hi : i < 15)
    (hl : g.lists i = l1 ++ pg :: l2)
    (F : FreeStep s s3 g g' L p i pg l1 l2) :
    (∀ j < 15, ∀ a ∈ g.lists j, a ≠ pg → (free_block_status s3 i pg).page a = s.page a) ∧
    (∀ x, ¬ owned s g i pg x → (free_block_status s3 i pg).byte x = s.byte x) ∧
    (((s3.page pg).using_count = 0 ∧ (s3.mem_page_map i).idle_num + 1 > MEM_PAGE_MAX_IDLE) →
      (∀ r ∈ (free_block_status s3 i pg).live, r.1 ≠ pg) ∧
      ((free_block_status s3 i pg).mem_page_map i).idle_num = (s.mem_page_map i).idle_num) ∧
    (¬ ((s3.page pg).using_count = 0 ∧ (s3.mem_page_map i).idle_num + 1 > MEM_PAGE_MAX_IDLE) →
      ((free_block_status s3 i pg).page pg).using_count + 1 = (s.page pg).using_count ∧
      ((free_block_status s3 i pg).mem_page_map i).idle_num =
        (s.mem_page_map i).idle_num + (if (s3.page pg).using_count = 0 then 1 else 0) ∧
      (free_block_status s3 i pg).live = s3.live) ∧
    (∀ x, ¬ owned s g i pg x → (free_block_status s3 i pg).block x = s.block x) := by
  have hmem : pg ∈ g.lists i := by rw [hl]; simp
  have pp := hI.pages i hi pg hmem
  have fi := page_info_facts i hi
  have hring := hI.ring i hi
  rw [hl] at hring
  have hnd : (l1 ++ pg :: l2).Nodup := hring.2.2.2.1
  have hp0 : pg ≠ 0 := fun e => hring.2.2.2.2.1 (by simp [e])
  have hpl : pg ∉ l1 ++ l2 := by
    have h1 := (List.nodup_append.1 hnd)
    have h2 := (List.nodup_cons.1 h1.2.1).1
    intro h
    rcases List.mem_append.1 h with h | h
    · exact h1.2.2 h (List.mem_cons_self _ _)
    · exact h2 h
  have hsubl : ∀ x ∈ l1 ++ l2, x ∈ g.lists i := by
    intro x h
    rw [hl]
    rcases List.mem_append.1 h with h | h
    · exact List.mem_append_left _ h
    · exact List.mem_append_right _ (List.mem_cons_of_mem _ h)
  have hq3 := F.using_count
  have huc : (s.page pg).using_count ≤ (page_info i).block_num := by
    have := pp.fl_len; omega
  have hnr : ∀ x, ¬ owned s g i pg x → ¬ (pg ≤ x ∧ x < pg + page_size i) :=
    fun x hx h => hx (Or.inl h)
  by_cases hd : (s3.page pg).using_count = 0 ∧
      (s3.mem_page_map i).idle_num + 1 > MEM_PAGE_MAX_IDLE
  · have hidx : get_page_index_ex s3 pg = i := by
      rw [get_page_index_ex_congr s s3 pg F.type F.block_data]
      exact page_index_ex_of_ok s g L i pg hi pp hp0
    obtain ⟨d1, d2, d3, d4, d5, d6⟩ := free_block_status_destroy s3 i pg (l1 ++ l2) hi F.ring
      hidx (by rw [F.block_num, pp.block_num]) (by rw [F.block_data, pp.block_data])
      (by rw [F.block_head, pp.block_head])
      (fun x hx => page_not_in_other s g L hI i i pg x hi hi hmem (hsubl x hx)
        (fun e => hpl (e ▸ hx)))
      hd.1 hd.2
    refine ⟨?_, ?_, fun _ => ⟨?_, ?_⟩, fun h => absurd hd h, ?_⟩
    · intro j hj a ha hne
      rw [(d4 a (page_not_in_other s g L hI i j pg a hi hj hmem ha hne)).2.1, F.page a hne]
    · intro x hx
      rw [(d4 x (hnr x hx)).2.2.2]; exact F.byte x hx
    · intro r hr
      rw [d6] at hr
      simpa using (List.mem_filter.1 hr).2
    · rw [d2, F.idle_num]
    · intro x hx
      rw [(d4 x (hnr x hx)).2.2.1]; exact F.block x hx
  · obtain ⟨k1, k2, k3, k4, k5, k6, k7, k8, k9, k10, k11, k12, k13, k14, k15, k16, k17, k18⟩ :=
      free_block_status_keep s3 i pg (page_info i).block_num
        (by rw [F.block_num, pp.block_num]) fi.2.2.1
        (by rw [F.status, pp.status, hq3]) (by omega) hd
    refine ⟨?_, ?_, fun h => absurd h hd, fun _ => ⟨?_, ?_, k18⟩, ?_⟩
    · intro j _ a _ hne
      rw [k10 a hne, F.page a hne]
    · intro x hx
      rw [k16]; exact F.byte x hx
    · rw [k3]; exact hq3
    · rw [k12, F.idle_num]
    · intro x hx
      rw [k15]; exact F.block x hx

/-- The frame of `free_block` on an outstanding pointer. -/
theorem free_block_frame (s : Heap) (g : Ghost) (L : List Nat) (p : Nat) (hI : Inv s g L)
    (hp : p ∈ L) :
    (∀ j < 15, ∀ a ∈ g.lists j, a ≠ (s.block (p - sizeof_MEM_BLOCK)).page →
      (free_block s p false).page a = s.page a) ∧
    (∀ x, ¬ owned s g (get_page_index_ex s (s.block (p - sizeof_MEM_BLOCK)).page)
        (s.block (p - sizeof_MEM_BLOCK)).page x →
      (free_block s p false).byte x = s.byte x) ∧
    (((s.page (s.block (p - sizeof_MEM_BLOCK)).page).using_count = 1 ∧
        (s.mem_page_map (get_page_index_ex s (s.block (p - sizeof_MEM_BLOCK)).page)).idle_num + 1
          > MEM_PAGE_MAX_IDLE) →
      (∀ r ∈ (free_block s p false).live, r.1 ≠ (s.block (p - sizeof_MEM_BLOCK)).page) ∧
      ((free_block s p false).mem_page_map
          (get_page_index_ex s (s.block (p - sizeof_MEM_BLOCK)).page)).idle_num
        = (s.mem_page_map (get_page_index_ex s (s.block (p - sizeof_MEM_BLOCK)).page)).idle_num) ∧
    (¬ ((s.page (s.block (p - sizeof_MEM_BLOCK)).page).using_count = 1 ∧
        (s.mem_page_map (get_page_index_ex s (s.block (p - sizeof_MEM_BLOCK)).page)).idle_num + 1
          > MEM_PAGE_MAX_IDLE) →
      ((free_block s p false).page (s.block (p - sizeof_MEM_BLOCK)).page).using_count + 1
        = (s.page (s.block (p - sizeof_MEM_BLOCK)).page).using_count) ∧
    (∀ x, ¬ owned s g (get_page_index_ex s (s.block (p - sizeof_MEM_BLOCK)).page)
        (s.block (p - sizeof_MEM_BLOCK)).page x →
      (free_block s p false).block x = s.block x) := by
  obtain ⟨i, pg, l1, l2, hi, hl, hpage, h16, hp0, hu, ha, hidx, hcase⟩ := free_pre s g L p hI hp
  rw [free_block_eq s p pg i h16 hpage hu ha hidx hi, hpage, hidx]
  have F : FreeStep s
      (free_block_front
        (free_block_idle (free_block_release s pg (p - sizeof_MEM_BLOCK)).2 pg
          (free_block_release s pg (p - sizeof_MEM_BLOCK)).1) i pg)
      g (free_ghost s g p) L p i pg l1 l2 := by
    rcases hcase with ⟨hne, k, hk, e, hnot⟩ | ⟨he, e⟩
    · exact free_step_slab s g L p i pg k l1 l2 hI hi hl hpage hu hidx hne hk e hnot
    · exact free_step_ext s g L p i pg l1 l2 hI hi hl hpage hu hidx he e
  obtain ⟨f1, f2, f3, f4, f5⟩ := free_status_frame s _ g _ L p i pg l1 l2 hI hi hl F
  have h1 := F.using_count
  have h2 := F.idle_num
  generalize free_block_front
        (free_block_idle (free_block_release s pg (p - sizeof_MEM_BLOCK)).2 pg
          (free_block_release s pg (p - sizeof_MEM_BLOCK)).1) i pg = s3 at *
  have hiff : ((s3.page pg).using_count = 0 ∧
      (s3.mem_page_map i).idle_num + 1 > MEM_PAGE_MAX_IDLE) ↔
      ((s.page pg).using_count = 1 ∧ (s.mem_page_map i).idle_num + 1 > MEM_PAGE_MAX_IDLE) := by
    rw [h2]
    constructor
    · rintro ⟨a, b⟩; exact ⟨by omega, b⟩
    · rintro ⟨a, b⟩; exact ⟨by omega, b⟩
  refine ⟨f1, f2, fun h => f3 (hiff.2 h), fun h => (f4 (fun h' => h (hiff.1 h'))).1, f5⟩

/-- What the invariant says about the user area of an outstanding pointer. -/
theorem user_area (s : Heap) (g : Ghost) (L : List Nat) (p : Nat) (hI : Inv s g L)
    (hp : p ∈ L) :
    ∃ i pg, i < 15 ∧ pg ∈ g.lists i ∧ (s.block (p - sizeof_MEM_BLOCK)).page = pg ∧
      ((¬ is_ext i ∧ user_size s g p = (page_info i).block_size ∧
        ∃ k < (page_info i).block_num,
          p = block_addr pg i k + sizeof_MEM_BLOCK ∧ block_addr pg i k ∉ g.fl pg) ∨
       (is_ext i ∧ user_size s g p = g.len pg ∧ (s.page pg).using_count ≠ 0 ∧
          p = MEM_TO_ADDR s (pg + sizeof_MEM_PAGE + sizeof_MEM_BLOCK) + sizeof_MEM_BLOCK)) := by
  obtain ⟨h16, i, hi, pg, hpg, hpage, hcase⟩ := hI.out p hp
  have pp := hI.pages i hi pg hpg
  refine ⟨i, pg, hi, hpg, hpage, ?_⟩
  unfold user_size
  simp only [hpage, pp.type, pp.block_data]
  rcases hcase with ⟨hne, k, hk, e, hnot⟩ | ⟨he, hu, e⟩
  · left
    refine ⟨hne, ?_, k, hk, e, hnot⟩
    rw [if_neg (not_ext_type i hi hne)]
  · right
    refine ⟨he, ?_, hu, e⟩
    rw [if_pos (ext_type i hi he)]

theorem user_area_owned (s : Heap) (g : Ghost) (L : List Nat) (p i pg : Nat) (hI : Inv s g L)
    (hi : i < 15) (hpg : pg ∈ g.lists i)
    (hcase : (¬ is_ext i ∧ user_size s g p = (page_info i).block_size ∧
        ∃ k < (page_info i).block_num,
          p = block_addr pg i k + sizeof_MEM_BLOCK ∧ block_addr pg i k ∉ g.fl pg) ∨
       (is_ext i ∧ user_size s g p = g.len pg ∧ (s.page pg).using_count ≠ 0 ∧
          p = MEM_TO_ADDR s (pg + sizeof_MEM_PAGE + sizeof_MEM_BLOCK) + sizeof_MEM_BLOCK))
    (x : Nat) (hx : p ≤ x ∧ x < p + user_size s g p) : owned s g i pg x := by
  have e16 : sizeof_MEM_BLOCK = 16 := rfl
  rcases hcase with ⟨hne, hc, k, hk, e, hnot⟩ | ⟨he, hc, hu, e⟩
  · left
    have := block_addr_bound pg i k hi hk
    rw [hc] at hx
    omega
  · right; left
    rw [hc] at hx
    exact ⟨he, hu, by omega, by omega⟩

/-- Writes into the user area of an outstanding pointer keep the invariant. -/
theorem Inv_bytes (s t : Heap) (g : Ghost) (L : List Nat) (p : Nat) (hI : Inv s g L)
    (hp : p ∈ L) (hnode : t.node = s.node) (hpage : t.page = s.page)
    (hblock : t.block = s.block) (hmap : t.mem_page_map = s.mem_page_map)
    (hbrk : t.brk = s.brk) (hlive : t.live = s.live)
    (hbyte : ∀ x, ¬ (p ≤ x ∧ x < p + user_size s g p) → t.byte x = s.byte x) :
    Inv t g L := by
  obtain ⟨i, pg, hi, hpg, hpp, hcase⟩ := user_area s g L p hI hp
  have pp := hI.pages i hi pg hpg
  have fi := page_info_facts i hi
  have e16 : sizeof_MEM_BLOCK = 16 := rfl
  have e48 : sizeof_MEM_PAGE = 48 := rfl
  have hW := user_area_owned s g L p i pg hI hi hpg hcase
  have hsep : PagesSep s g pg (fun x => p ≤ x ∧ x < p + user_size s g p) :=
    fun j hj a ha hne x hx => sep_owned s g L hI i pg hi hpg j hj a ha hne x (hW x hx)
  have hword : is_ext i → (s.page pg).using_count ≠ 0 →
      MEM_TO_ADDR t (pg + sizeof_MEM_PAGE + sizeof_MEM_BLOCK)
        = MEM_TO_ADDR s (pg + sizeof_MEM_PAGE + sizeof_MEM_BLOCK) := by
    intro he hu
    apply MEM_TO_ADDR_congr
    intro x h1 h2
    apply hbyte
    rcases hcase with ⟨hne, -⟩ | ⟨-, hc, -, e⟩
    · exact absurd he hne
    · have px := pp.ext_used he hu
      have hne : (pg, page_size i).1 ≠
          (MEM_TO_ADDR s (pg + sizeof_MEM_PAGE + sizeof_MEM_BLOCK),
            sizeof_MEM_BLOCK + g.len pg).1 := by
        intro e'
        exact px.fresh i hi (by simp only at e'; rw [← e']; exact hpg)
      have hd := live_disjoint s.live hI.live_sorted _ _ pp.live px.live hne
      have hb := block_addr_bound pg i 0 hi (by omega)
      simp only [block_addr] at hb
      simp only at hd
      rw [hc]
      omega
  apply Inv_local s t g g L L i pg (fun x => p ≤ x ∧ x < p + user_size s g p) 0 0 hI hi hsep
  · intro j hj hji h
    exact hji (class_unique s g L hI j i pg hj hi h hpg)
  · intro j _ _ x _; rw [hnode]
  · intro j _ _; rw [hmap]
  · intro j _ _; rfl
  · intro _ _ a _ _; rw [hpage]
  · intro a _; rfl
  · intro a _; rfl
  · intro x _; rw [hblock]
  · exact hbyte
  · intro r hr _; rw [hlive]; exact hr
  · intro x hx; exact Or.inl hx
  · exact Or.inl hpg
  · intro a ha _; exact ha
  · rw [hnode, hmap]; exact hI.ring i hi
  · intro _
    apply PageOK_frame s t g g L L i pg hi pp (by rw [hpage]) rfl rfl
    · intro k _; rw [hblock]
    · intro b hb x h1 h2
      apply hbyte
      rcases hcase with ⟨hne, hc, k, hk, e, hnot⟩ | ⟨he, hc, hu, e⟩
      · obtain ⟨k', hk', e'⟩ := pp.fl_blocks b hb
        have hkk : k' ≠ k := by
          intro e2; subst e2; exact hnot (e' ▸ hb)
        have hd := block_addr_disjoint pg i k' k hi hkk
        rw [hc]
        have := fi.1
        omega
      · have := (ext_one_block s g L i pg hi he pp hu).2
        rw [this] at hb
        cases hb
    · exact hword
    · rw [hlive]; exact pp.live
    · intro he hu
      have hx := pp.ext_used he hu
      exact ⟨by rw [hblock], by rw [hlive]; exact hx.live, hx.out, hx.fresh⟩
  · rw [hmap, hpage]; exact hI.idle_num i hi
  · rw [hpage]; exact hI.idle_le i hi
  · rw [hpage]; exact hI.full_suffix i hi
  · rw [hpage]
  · rfl
  · rw [hlive]; exact hI.live_sorted
  · rw [hlive, hbrk]; exact hI.live_brk
  · rw [hbrk]; exact hI.brk
  · exact hI.out_nodup
  · intro q hq _; exact hq
  · intro q hq
    by_cases hqq : (s.block (q - sizeof_MEM_BLOCK)).page = pg
    · right
      obtain ⟨h16, j, hj, a, ha, hpa, hc⟩ := hI.out q hq
      rw [hqq] at hpa
      rw [← hpa] at ha hc
      have hji := class_unique s g L hI j i pg hj hi ha hpg
      rw [hji] at hc
      refine ⟨h16, i, hi, pg, hpg, by rw [hblock]; exact hqq, ?_⟩
      rcases hc with h | ⟨he, hu, e⟩
      · exact Or.inl h
      · right
        refine ⟨he, by rw [hpage]; exact hu, ?_⟩
        rw [hword he hu]; exact e
    · exact Or.inl ⟨hq, hqq⟩

theorem Inv_start : Inv Heap.start Ghost.start [] := by
  refine
    { ring := ?_, pages := ?_, idle_num := ?_, idle_le := ?_, full_suffix := ?_, using_sum := ?_
      live_sorted := List.Pairwise.nil, live_brk := ?_, brk := ?_, out_nodup := List.nodup_nil
      out := ?_ }
  · intro i _
    simp [RingOK, Heap.start, Ghost.start, firstD, lastD, dlseg]
  · intro i _ a ha
    simp [Ghost.start] at ha
  · intro i _
    simp [Heap.start, Ghost.start]
  · intro i _
    simp [Ghost.start]
  · intro i _
    simp [Ghost.start]
  · simp [Ghost.start]
  · intro r hr
    simp [Heap.start] at hr
  · simp [Heap.start]
  · intro p hp
    cases hp

theorem out_gt (s : Heap) (g : Ghost) (L : List Nat) (p : Nat) (hI : Inv s g L) (hp : p ∈ L) :
    4096 ≤ p - sizeof_MEM_BLOCK := by
  obtain ⟨-, j, hj, a, ha, -, hcase⟩ := hI.out p hp
  have pa := hI.pages j hj a ha
  have la := hI.live_brk _ pa.live
  simp only at la
  have e16 : sizeof_MEM_BLOCK = 16 := rfl
  rcases hcase with ⟨-, k, hk, e, -⟩ | ⟨he, hu, e⟩
  · have := block_addr_bound a j k hj hk
    omega
  · have px := pa.ext_used he hu
    have lw := hI.live_brk _ px.live
    have hne : (a, page_size j).1 ≠
        (MEM_TO_ADDR s (a + sizeof_MEM_PAGE + sizeof_MEM_BLOCK), sizeof_MEM_BLOCK + g.len a).1 := by
      intro e'
      exact px.fresh j hj (by simp only at e'; rw [← e']; exact ha)
    have hd := live_disjoint s.live hI.live_sorted _ _ pa.live px.live hne
    simp only at lw hd
    have : 0 < page_size j := by unfold page_size; simp [sizeof_MEM_PAGE]
    omega

/-- The capacity `get_addr_block_len` reports for an outstanding pointer is the size of its
user area. -/
theorem block_len_eq (s : Heap) (g : Ghost) (L : List Nat) (p : Nat) (hI : Inv s g L)
    (hp : p ∈ L) : get_addr_block_len s p false = (user_size s g p : Int) := by
  have hgt := out_gt s g L p hI hp
  obtain ⟨i, pg, hi, hpg, hpage, hcase⟩ := user_area s g L p hI hp
  have pp := hI.pages i hi pg hpg
  have fi := page_info_facts i hi
  have hp0 : p ≠ 0 := by omega
  have hb0 : p - sizeof_MEM_BLOCK ≠ 0 := by omega
  unfold get_addr_block_len
  simp only [hp0, if_false, get_block, block_head_size, Bool.false_eq_true, hb0, hpage, pp.type,
    pp.block_head, pp.block_data]
  rcases hcase with ⟨hne, hc, -⟩ | ⟨he, hc, hu, -⟩
  · rw [if_neg (not_ext_type i hi hne), hc]
  · rw [if_pos (ext_type i hi he), hc]
    have px := pp.ext_used he hu
    rw [px.alloc, (fi.2.2.2.2.2.2.1 he).2]
    have := px.len_le
    unfold INT_MAX at this
    have key : ∀ x : Int, toInt32 (toInt32 (x + 40) - 16 - 16 - 8) = toInt32 x := by
      intro x
      have e1 : toInt32 (x + 40) - 16 - 16 - 8 = (-40) + toInt32 (x + 40) := by ring
      rw [e1, toInt32_add]
      congr 1
      ring
    simp only [sizeof_MEM_BLOCK]
    push_cast
    rw [key]
    apply toInt32_small <;> omega

theorem write_inv (s : Heap) (g : Ghost) (L : List Nat) (p off v : Nat) (hI : Inv s g L)
    (hp : p ∈ L) (hoff : (off : Int) < get_addr_block_len s p false) :
    Inv (s.write (p + off) v) g L := by
  rw [block_len_eq s g L p hI hp] at hoff
  refine Inv_bytes s (s.write (p + off) v) g L p hI hp rfl rfl rfl rfl rfl rfl ?_
  intro x hx
  have : x ≠ p + off := by
    intro e; apply hx; omega
  simp [Heap.write, this]

theorem mem_page_free_brk (s : Heap) (pg : Nat) : (mem_page_free s pg).2.brk = s.brk := by
  unfold mem_page_free
  by_cases h0 : pg = 0
  · simp [h0]
  by_cases h1 : get_page_index_ex s pg > MEM_PAGE_BLOCK_INFO_COUNT - 1
  · simp [h0, h1]
  by_cases h2 : (s.page pg).status = MEM_PAGE_STATUS_IDLE
  · simp [h0, h1, h2, mem_page_terminate]
  · simp [h0, h1, h2, mem_page_terminate]

theorem free_block_status_brk (s : Heap) (i pg : Nat) :
    (free_block_status s i pg).brk = s.brk := by
  unfold free_block_status
  simp only []
  split_ifs <;> simp [mem_page_free_brk]

theorem free_block_front_brk (s : Heap) (i pg : Nat) :
    (free_block_front s i pg).brk = s.brk := by
  unfold free_block_front
  simp only []
  split_ifs <;> simp

theorem free_block_release_brk (s : Heap) (pg b : Nat) :
    (free_block_release s pg b).2.brk = s.brk := by
  unfold free_block_release
  simp only []
  split_ifs <;> simp

theorem free_block_brk (s : Heap) (p : Nat) (dbg : Bool) : (free_block s p dbg).brk = s.brk := by
  unfold free_block
  simp only []
  split_ifs <;>
    simp [free_block_status_brk, free_block_front_brk, free_block_release_brk, free_block_idle]

/-- Every `mem_malloc` is an `alloc_block` from a state with a usable page that satisfies the
invariant. -/
theorem mem_malloc_via (s : Heap) (g : Ghost) (L : List Nat) (len : Nat) (hI : Inv s g L)
    (hbrk : (mem_malloc s len).2.brk ≤ 2 ^ 64) :
    ∃ s0 g0, Inv s0 g0 L ∧ usable_page_exist s0 (get_page_index len) = true ∧
      mem_malloc s len = alloc_block s0 len ∧ malloc_ghost s g len = alloc_ghost s0 g0 len := by
  cases hu : usable_page_exist s (get_page_index len) with
  | true =>
    refine ⟨s, g, hI, hu, mem_malloc_eq_usable s len hu, ?_⟩
    simp [malloc_ghost, hu]
  | false =>
    rw [mem_malloc_eq_unusable s len hu] at hbrk
    have hb1 : (mem_page_malloc s (get_page_index len) false).2.brk ≤ 2 ^ 64 :=
      Nat.le_trans (alloc_block_brk_le _ _) hbrk
    obtain ⟨h1, h2, -⟩ := page_malloc_inv s g L _ hI (get_page_index_lt len) hu hb1
    refine ⟨_, _, h1, h2, mem_malloc_eq_unusable s len hu, ?_⟩
    simp [malloc_ghost, hu]

theorem alloc_ghost_head_mem (s : Heap) (g : Ghost) (len : Nat) (rest : List Nat)
    (hx : g.lists (get_page_index len) = (s.mem_page_map (get_page_index len)).head :: rest) :
    (s.mem_page_map (get_page_index len)).head ∈ (alloc_ghost s g len).lists (get_page_index len) := by
  simp only [alloc_ghost, if_true, hx, List.tail_cons]
  split_ifs <;> simp

/-- The user area of the pointer `mem_malloc(len)` returns holds at least `len` bytes. -/
theorem mem_malloc_user_size (s : Heap) (g : Ghost) (L : List Nat) (len : Nat) (hI : Inv s g L)
    (hlen : len ≤ INT_MAX) (hbrk : (mem_malloc s len).2.brk ≤ 2 ^ 64) :
    len ≤ user_size (mem_malloc s len).2 (malloc_ghost s g len) (mem_malloc s len).1 ∧
    (is_ext (get_page_index len) →
      user_size (mem_malloc s len).2 (malloc_ghost s g len) (mem_malloc s len).1 = len) ∧
    (¬ is_ext (get_page_index len) →
      user_size (mem_malloc s len).2 (malloc_ghost s g len) (mem_malloc s len).1
        = (page_info (get_page_index len)).block_size) := by
  have hI1 := mem_malloc_inv s g L len hI hlen hbrk
  obtain ⟨s0, g0, hI0, hu, e, eg⟩ := mem_malloc_via s g L len hI hbrk
  rw [e, eg] at hI1 ⊢
  have hi := get_page_index_lt len
  obtain ⟨rest, b, fr, hx, -⟩ := alloc_pre s0 g0 L _ hI0 hi hu
  obtain ⟨-, -, hpg, -⟩ := alloc_block_post s0 g0 L len hI0 hu
  have hmem := alloc_ghost_head_mem s0 g0 len rest hx
  have pp := hI1.pages _ hi _ hmem
  have hlenh : (alloc_ghost s0 g0 len).len (s0.mem_page_map (get_page_index len)).head = len := by
    simp [alloc_ghost]
  have hus : user_size (alloc_block s0 len).2 (alloc_ghost s0 g0 len) (alloc_block s0 len).1 =
      if is_ext (get_page_index len) then len else (page_info (get_page_index len)).block_size := by
    unfold user_size
    simp only [hpg, pp.type, pp.block_data, hlenh]
    by_cases he : is_ext (get_page_index len)
    · rw [if_pos (ext_type _ hi he), if_pos he]
    · rw [if_neg (not_ext_type _ hi he), if_neg he]
  rw [hus]
  refine ⟨?_, fun he => by rw [if_pos he], fun he => by rw [if_neg he]⟩
  by_cases he : is_ext (get_page_index len)
  · rw [if_pos he]
  · rw [if_neg he]
    unfold is_ext at he
    simp only [MEM_PAGE_BLOCK_INFO_COUNT] at he
    by_cases h : 512 < len
    · have := get_page_index_large len h; omega
    · have h0 := (get_page_index_subscript_small len (by omega)).2.2
      have h1 : 1 ≤ len := by
        by_contra hc
        have : len = 0 := by omega
        exact he (Or.inl (h0.2 this))
      exact (get_page_index_small len (by omega) h1).2.2.1

theorem toSizeT_nat (n : Nat) (h : n < 2 ^ 64) : toSizeT (n : Int) = n := by
  unfold toSizeT
  omega

theorem copy_len_eq (S len : Nat) (hS : S ≤ INT_MAX) (hlen : len ≤ INT_MAX) :
    toSizeT (toInt32 (if (S : Int) < toInt32 (len : Int) then (toSizeT (S : Int) : Int)
      else (len : Int))) = min S len := by
  unfold INT_MAX at hS hlen
  have h1 : toInt32 (len : Int) = len := toInt32_small _ (by omega) (by omega)
  have h2 : toSizeT (S : Int) = S := toSizeT_nat S (by omega)
  have h3 : toInt32 (S : Int) = S := toInt32_small _ (by omega) (by omega)
  rw [h1, h2]
  by_cases h : (S : Int) < (len : Int)
  · rw [if_pos h, h3, h2]; omega
  · rw [if_neg h, h1, toSizeT_nat len (by omega)]; omega

theorem user_size_le (s : Heap) (g : Ghost) (L : List Nat) (p : Nat) (hI : Inv s g L)
    (hp : p ∈ L) : user_size s g p ≤ INT_MAX := by
  obtain ⟨i, pg, hi, hpg, hpage, hcase⟩ := user_area s g L p hI hp
  have pp := hI.pages i hi pg hpg
  have fi := page_info_facts i hi
  rcases hcase with ⟨hne, hc, -⟩ | ⟨he, hc, hu, -⟩
  · rw [hc]; unfold INT_MAX; omega
  · rw [hc]; exact (pp.ext_used he hu).len_le

theorem mem_realloc_move (s : Heap) (p len : Nat) (hp0 : p ≠ 0)
    (hc : get_addr_block_len s p false < toInt32 (len : Int) ∨
      get_page_index (toSizeT (get_addr_block_len s p false)) > get_page_index len)
    (hq : (mem_malloc s len).1 ≠ 0) :
    mem_realloc s p len =
      ((mem_malloc s len).1,
        free_block ((mem_malloc s len).2.memcpy (mem_malloc s len).1 p
          (toSizeT (toInt32 (if get_addr_block_len s p false < toInt32 (len : Int)
            then (toSizeT (get_addr_block_len s p false) : Int) else (len : Int))))) p false) := by
  unfold mem_realloc
  unfold mem_malloc at hq ⊢
  simp only [hp0, if_false, hc, if_true]
  simp only at hq
  rw [if_pos hq]

theorem mem_realloc_move_null (s : Heap) (p len : Nat) (hp0 : p ≠ 0)
    (hc : get_addr_block_len s p false < toInt32 (len : Int) ∨
      get_page_index (toSizeT (get_addr_block_len s p false)) > get_page_index len)
    (hq : (mem_malloc s len).1 = 0) :
    mem_realloc s p len = (0, (mem_malloc s len).2) := by
  unfold mem_realloc
  unfold mem_malloc at hq ⊢
  simp only [hp0, if_false, hc, if_true]
  simp only at hq
  rw [if_neg (by rw [hq]; simp), hq]

theorem mem_realloc_stay (s : Heap) (p len : Nat) (hp0 : p ≠ 0)
    (hc : ¬ (get_addr_block_len s p false < toInt32 (len : Int) ∨
      get_page_index (toSizeT (get_addr_block_len s p false)) > get_page_index len)) :
    mem_realloc s p len =
      (if get_page_index (toSizeT (get_addr_block_len s p false)) = get_page_index len
        then p else 0, s) := by
  unfold mem_realloc
  simp only [hp0, if_false, hc]
  split_ifs <;> rfl

/-- The steps of a moving `mem_realloc`: allocate, copy, free; each keeps the invariant. -/
theorem mem_realloc_move_inv (s : Heap) (g : Ghost) (L : List Nat) (p len : Nat)
    (hI : Inv s g L) (hp : p ∈ L) (hlen : len ≤ INT_MAX)
    (hbrk : (mem_realloc s p len).2.brk ≤ 2 ^ 64)
    (hc : get_addr_block_len s p false < toInt32 (len : Int) ∨
      get_page_index (toSizeT (get_addr_block_len s p false)) > get_page_index len) :
    (mem_malloc s len).2.brk ≤ 2 ^ 64 ∧
    (mem_malloc s len).1 ≠ 0 ∧ (mem_malloc s len).1 ≠ p ∧
    Inv (mem_malloc s len).2 (malloc_ghost s g len) ((mem_malloc s len).1 :: L) ∧
    Inv ((mem_malloc s len).2.memcpy (mem_malloc s len).1 p (min (user_size s g p) len))
      (malloc_ghost s g len) ((mem_malloc s len).1 :: L) ∧
    mem_realloc s p len =
      ((mem_malloc s len).1,
        free_block ((mem_malloc s len).2.memcpy (mem_malloc s len).1 p
          (min (user_size s g p) len)) p false) ∧
    Inv (mem_realloc s p len).2
      (free_ghost ((mem_malloc s len).2.memcpy (mem_malloc s len).1 p
          (min (user_size s g p) len)) (malloc_ghost s g len) p)
      ((mem_malloc s len).1 :: L.erase p) := by
  have hp0 : p ≠ 0 := by
    have := out_gt s g L p hI hp
    have e16 : sizeof_MEM_BLOCK = 16 := rfl
    omega
  have hb1 : (mem_malloc s len).2.brk ≤ 2 ^ 64 := by
    by_cases hq : (mem_malloc s len).1 = 0
    · rw [mem_realloc_move_null s p len hp0 hc hq] at hbrk; exact hbrk
    · rw [mem_realloc_move s p len hp0 hc hq, free_block_brk] at hbrk; exact hbrk
  have hq := (mem_malloc_post s g L len hI hb1).1
  have hI1 := mem_malloc_inv s g L len hI hlen hb1
  have hqL : (mem_malloc s len).1 ∉ L := (List.nodup_cons.1 hI1.out_nodup).1
  have hqp : (mem_malloc s len).1 ≠ p := fun e => hqL (e ▸ hp)
  have hsz := block_len_eq s g L p hI hp
  have hn := copy_len_eq (user_size s g p) len (user_size_le s g L p hI hp) hlen
  have e := mem_realloc_move s p len hp0 hc hq
  rw [hsz, hn] at e
  have hus := (mem_malloc_user_size s g L len hI hlen hb1).1
  have hI2 : Inv ((mem_malloc s len).2.memcpy (mem_malloc s len).1 p (min (user_size s g p) len))
      (malloc_ghost s g len) ((mem_malloc s len).1 :: L) := by
    refine Inv_bytes (mem_malloc s len).2 _ (malloc_ghost s g len) _ (mem_malloc s len).1 hI1
      (List.mem_cons_self _ _) rfl rfl rfl rfl rfl rfl ?_
    intro x hx
    have : ¬ ((mem_malloc s len).1 ≤ x ∧
        x < (mem_malloc s len).1 + min (user_size s g p) len) := by
      intro h; apply hx
      have := Nat.min_le_right (user_size s g p) len
      omega
    simp only [sel_memcpy_byte, this, if_false]
  have hI3 := free_block_inv _ _ _ p hI2 (List.mem_cons_of_mem _ hp)
  refine ⟨hb1, hq, hqp, hI1, hI2, e, ?_⟩
  rw [e]
  have : ((mem_malloc s len).1 :: L).erase p = (mem_malloc s len).1 :: L.erase p := by
    rw [List.erase_cons_tail]
    simpa using hqp
  rw [this] at hI3
  exact hI3

theorem mem_realloc_inv (s : Heap) (g : Ghost) (L : List Nat) (p len : Nat)
    (hI : Inv s g L) (hp : p ∈ L) (hlen : len ≤ INT_MAX)
    (hbrk : (mem_realloc s p len).2.brk ≤ 2 ^ 64) :
    ∃ g', Inv (mem_realloc s p len).2 g' (realloc_out L p (mem_realloc s p len).1) := by
  have hp0 : p ≠ 0 := by
    have := out_gt s g L p hI hp
    have e16 : sizeof_MEM_BLOCK = 16 := rfl
    omega
  by_cases hc : get_addr_block_len s p false < toInt32 (len : Int) ∨
      get_page_index (toSizeT (get_addr_block_len s p false)) > get_page_index len
  · obtain ⟨-, hq, hqp, -, -, e, h⟩ := mem_realloc_move_inv s g L p len hI hp hlen hbrk hc
    have : realloc_out L p (mem_realloc s p len).1 = (mem_malloc s len).1 :: L.erase p := by
      rw [e]
      simp only [realloc_out, hqp, hq, or_self, if_false]
    rw [this]
    exact ⟨_, h⟩
  · refine ⟨g, ?_⟩
    rw [mem_realloc_stay s p len hp0 hc]
    have : realloc_out L p
        (if get_page_index (toSizeT (get_addr_block_len s p false)) = get_page_index len
          then p else 0) = L := by
      unfold realloc_out
      split_ifs <;> simp_all
    rw [this]
    exact hI

/-- Every reachable state satisfies the invariant. -/
theorem reach_inv (s : Heap) (L : List Nat) (h : Reach s L) : ∃ g, Inv s g L := by
  induction h with
  | start => exact ⟨_, Inv_start⟩
  | malloc s L len _ hlen hbrk ih =>
    obtain ⟨g, hI⟩ := ih
    exact ⟨_, mem_malloc_inv s g L len hI hlen hbrk⟩
  | free s L p _ hp ih =>
    obtain ⟨g, hI⟩ := ih
    exact ⟨_, mem_free_inv s g L p hI hp⟩
  | realloc s L p len _ hp hlen hbrk ih =>
    obtain ⟨g, hI⟩ := ih
    exact mem_realloc_inv s g L p len hI hp hlen hbrk
  | write s L p off v _ hp hoff _ ih =>
    obtain ⟨g, hI⟩ := ih
    exact ⟨g, write_inv s g L p off v hI hp hoff⟩
  | dirty s L d _ _ ih =>
    obtain ⟨g, hI⟩ := ih
    exact ⟨g, dirty_inv s d g L hI⟩

theorem alloc_block_usable (s : Heap) (len : Nat) (h : (alloc_block s len).1 ≠ 0) :
    usable_page_exist s (get_page_index len) = true := by
  unfold alloc_block at h
  unfold usable_page_exist
  simp only [gt_iff_lt] at h ⊢
  by_cases h1 : MEM_PAGE_BLOCK_INFO_COUNT - 1 < get_page_index len
  · rw [if_pos h1] at h; exact absurd rfl h
  rw [if_neg h1] at h ⊢
  by_cases h2 : (s.mem_page_map (get_page_index len)).count = 0 ∨
      (s.mem_page_map (get_page_index len)).head = 0
  · rw [if_pos h2] at h; exact absurd rfl h
  rw [if_neg h2] at h ⊢
  by_cases h3 : (s.page (s.mem_page_map (get_page_index len)).head).status
      = MEM_PAGE_STATUS_FULL
  · rw [if_pos h3] at h; exact absurd rfl h
  rw [if_neg h3]

/-- The data area `alloc_block` hands out is filled with `INIT_BLOCK_PADDING` (zero): the whole
block of a slab page, the requested bytes of a ZERO/LARGE buffer. -/
theorem alloc_block_zero (s : Heap) (g : Ghost) (L : List Nat) (len : Nat) (hI : Inv s g L)
    (hu : usable_page_exist s (get_page_index len) = true) (x : Nat)
    (h1 : (alloc_block s len).1 ≤ x)
    (h2 : x < (alloc_block s len).1 +
      (if is_ext (get_page_index len) then len
        else (page_info (get_page_index len)).block_size)) :
    (alloc_block s len).2.byte x = 0 := by
  have hi := get_page_index_lt len
  obtain ⟨rest, b, fr, hx, hf, hc, hh, hs, hlt, hb⟩ := alloc_pre s g L _ hI hi hu
  have hb0 : firstD (g.fl (s.mem_page_map (get_page_index len)).head) 0 = b := by
    rw [hf]; rfl
  rw [alloc_block_eq s g L len hI hu, hb0] at h1 h2 ⊢
  generalize hid : get_page_index len = i at *
  generalize hpd : (s.mem_page_map i).head = pg at *
  have hmem : pg ∈ g.lists i := by rw [hx]; exact List.mem_cons_self _ _
  have pp := hI.pages i hi pg hmem
  obtain ⟨p0, p1, p2, p3, p4, p5, p6, p7, p8, p9⟩ :=
    alloc_steps_page s i pg hi pp.block_num pp.status hlt
  generalize alloc_block_count (alloc_block_using (alloc_block_full s i pg) i pg) pg = s3 at *
  have hbh : (s3.page pg).block_head = 16 := by rw [p5, pp.block_head]; rfl
  have hbd : (s3.page pg).block_data = (page_info i).block_size := by rw [p6, pp.block_data]
  by_cases he : is_ext i
  · have hty : (s3.page pg).type = MEM_PAGE_TYPE_ZERO ∨
        (s3.page pg).type = MEM_PAGE_TYPE_LARGE := by
      rw [p1, pp.type]; exact ext_type i hi he
    obtain ⟨t1, -, -, t4, -⟩ := alloc_block_take_ext s3 pg len b hty
    rw [t1, hbh] at h1 h2
    rw [if_pos he] at h2
    rw [t4, hbh]
    simp only [h1, h2, and_self, if_true]
  · have hty : ¬ ((s3.page pg).type = MEM_PAGE_TYPE_ZERO ∨
        (s3.page pg).type = MEM_PAGE_TYPE_LARGE) := by
      rw [p1, pp.type]; exact not_ext_type i hi he
    obtain ⟨t1, -, -, t4, -⟩ := alloc_block_take_slab s3 pg len b hty
    rw [t1, hbh] at h1 h2
    rw [if_neg he] at h2
    rw [t4, hbh, hbd]
    simp only [h1, h2, and_self, if_true]

theorem is_ext_iff (len : Nat) : is_ext (get_page_index len) ↔ (len = 0 ∨ 512 < len) := by
  unfold is_ext
  simp only [MEM_PAGE_BLOCK_INFO_COUNT]
  by_cases h : 512 < len
  · have := get_page_index_large len h
    simp [this, h]
  · have h0 := get_page_index_subscript_small len (by omega)
    constructor
    · rintro (e | e)
      · exact Or.inl (h0.2.2.1 e)
      · omega
    · rintro (e | e)
      · exact Or.inl (h0.2.2.2 e)
      · exact absurd e h

theorem alloc_ghost_length (s : Heap) (g : Ghost) (len j : Nat) :
    ((alloc_ghost s g len).lists j).length = (g.lists j).length := by
  simp only [alloc_ghost]
  by_cases e : j = get_page_index len
  · subst e
    simp only [if_true]
    split_ifs with h
    · cases hl : g.lists (get_page_index len) with
      | nil => rw [hl] at h; exact absurd rfl h.2
      | cons a r => simp
    · rfl
  · simp only [e, if_false]

theorem ring_count (s : Heap) (g : Ghost) (L : List Nat) (hI : Inv s g L) (i : Nat)
    (hi : i < 15) : (s.mem_page_map i).count = ((g.lists i).length : Int) :=
  (hI.ring i hi).1

/-- The number of pages of every class list after `mem_malloc`: one more in the class of the
request when it had no usable page, unchanged otherwise. -/
theorem mem_malloc_count (s : Heap) (g : Ghost) (L : List Nat) (len : Nat) (hI : Inv s g L)
    (hlen : len ≤ INT_MAX) (hbrk : (mem_malloc s len).2.brk ≤ 2 ^ 64) (j : Nat) (hj : j < 15) :
    ((mem_malloc s len).2.mem_page_map j).count =
      (s.mem_page_map j).count +
        (if j = get_page_index len ∧ usable_page_exist s (get_page_index len) = false
          then 1 else 0) := by
  have hI1 := mem_malloc_inv s g L len hI hlen hbrk
  rw [ring_count _ _ _ hI1 j hj, ring_count _ _ _ hI j hj]
  unfold malloc_ghost
  cases hu : usable_page_exist s (get_page_index len) with
  | true =>
    simp only [if_true, alloc_ghost_length]
    simp
  | false =>
    simp only [Bool.false_eq_true, if_false, alloc_ghost_length, page_ghost]
    by_cases e : j = get_page_index len
    · simp [e]
    · simp [e]

/-- A ZERO/LARGE request takes its buffer from the backing allocator: a fresh region at the
current break. -/
theorem alloc_block_ext_live (s : Heap) (g : Ghost) (L : List Nat) (len : Nat) (hI : Inv s g L)
    (hu : usable_page_exist s (get_page_index len) = true)
    (he : is_ext (get_page_index len)) :
    (alloc_block s len).1 = s.brk + sizeof_MEM_BLOCK ∧
    (alloc_block s len).2.live = (s.brk, (sizeof_MEM_BLOCK + len) % SIZE_MOD) :: s.live := by
  have hi := get_page_index_lt len
  obtain ⟨rest, b, fr, hx, hf, hc, hh, hs, hlt, hb⟩ := alloc_pre s g L _ hI hi hu
  have hb0 : firstD (g.fl (s.mem_page_map (get_page_index len)).head) 0 = b := by
    rw [hf]; rfl
  rw [alloc_block_eq s g L len hI hu, hb0]
  generalize hid : get_page_index len = i at *
  generalize hpd : (s.mem_page_map i).head = pg at *
  have hmem : pg ∈ g.lists i := by rw [hx]; exact List.mem_cons_self _ _
  have pp := hI.pages i hi pg hmem
  have hring := hI.ring i hi
  rw [hx] at hring
  obtain ⟨p0, p1, p2, p3, p4, p5, p6, p7, p8, p9⟩ :=
    alloc_steps_page s i pg hi pp.block_num pp.status hlt
  obtain ⟨r1, r2, r3, r4, r5, r6, r7, r8⟩ := alloc_steps_rest s i pg rest hring
  generalize alloc_block_count (alloc_block_using (alloc_block_full s i pg) i pg) pg = s3 at *
  have hbh : (s3.page pg).block_head = sizeof_MEM_BLOCK := by rw [p5, pp.block_head]
  have hty : (s3.page pg).type = MEM_PAGE_TYPE_ZERO ∨
      (s3.page pg).type = MEM_PAGE_TYPE_LARGE := by
    rw [p1, pp.type]; exact ext_type i hi he
  obtain ⟨t1, -, -, -, -, -, -, t8⟩ := alloc_block_take_ext s3 pg len b hty
  rw [t1, t8, hbh, r3, r4]
  exact ⟨rfl, rfl⟩

theorem mem_malloc_brk_le (s : Heap) (len : Nat) : s.brk ≤ (mem_malloc s len).2.brk := by
  cases hu : usable_page_exist s (get_page_index len) with
  | true =>
    rw [mem_malloc_eq_usable s len hu]
    exact alloc_block_brk_le s len
  | false =>
    rw [mem_malloc_eq_unusable s len hu]
    refine Nat.le_trans ?_ (alloc_block_brk_le _ _)
    rw [mem_page_malloc_brk s _ (get_page_index_lt len)]
    omega

theorem malloc_seq_brk_le (lens : List Nat) (s : Heap) : s.brk ≤ (malloc_seq lens s).brk := by
  induction lens generalizing s with
  | nil => exact Nat.le_refl _
  | cons len rest ih =>
    exact Nat.le_trans (mem_malloc_brk_le s len) (ih (mem_malloc s len).2)

/-- A sequence of requests from a reachable state reaches its end state when the backing
allocator succeeds until the end. -/
theorem malloc_seq_reach (lens : List Nat) (s : Heap) (L : List Nat) (hR : Reach s L)
    (hlen : ∀ l ∈ lens, l ≤ INT_MAX) (hbrk : (malloc_seq lens s).brk ≤ 2 ^ 64) :
    Reach (malloc_seq lens s) (malloc_ptrs lens s ++ L) := by
  induction lens generalizing s L with
  | nil => exact hR
  | cons len rest ih =>
    have h1 : (mem_malloc s len).2.brk ≤ 2 ^ 64 :=
      Nat.le_trans (malloc_seq_brk_le rest _) hbrk
    have h2 := Reach.malloc s L len hR (hlen len (List.mem_cons_self _ _)) h1
    have h3 := ih (mem_malloc s len).2 _ h2 (fun l hl => hlen l (List.mem_cons_of_mem _ hl)) hbrk
    simp only [malloc_ptrs, List.append_assoc, List.singleton_append]
    exact h3

/-- Freeing outstanding pointers, each once, reaches the end state. -/
theorem free_seq_reach (ps : List Nat) (s : Heap) (L : List Nat) (hR : Reach s L)
    (hnd : ps.Nodup) (hin : ∀ p ∈ ps, p ∈ L) :
    Reach (free_seq ps s) (ps.foldl List.erase L) := by
  induction ps generalizing s L with
  | nil => exact hR
  | cons p rest ih =>
    have hp := hin p (List.mem_cons_self _ _)
    have h2 := Reach.free s L p hR hp
    have hnd' := List.nodup_cons.1 hnd
    refine ih (mem_free s p) (L.erase p) h2 hnd'.2 ?_
    intro q hq
    have hne : q ≠ p := fun e => hnd'.1 (e ▸ hq)
    exact (List.mem_erase_of_ne hne).2 (hin q (List.mem_cons_of_mem _ hq))

theorem usable_of_inv (s : Heap) (g : Ghost) (L : List Nat) (hI : Inv s g L) (i pg : Nat)
    (rest : List Nat) (hi : i < 15) (hl : g.lists i = pg :: rest)
    (hlt : (s.page pg).using_count < (page_info i).block_num) :
    usable_page_exist s i = true ∧ (s.mem_page_map i).head = pg := by
  have hring := hI.ring i hi
  rw [hl] at hring
  obtain ⟨hh, hp0, -, hc, -⟩ := RingOK_cons_facts _ _ _ _ hring
  have hh' : (s.mem_page_map i).head = pg := hh
  have hc' : (s.mem_page_map i).count ≠ 0 := hc
  have pp := hI.pages i hi pg (by rw [hl]; exact List.mem_cons_self _ _)
  have fi := page_info_facts i hi
  have hst : (s.page pg).status ≠ MEM_PAGE_STATUS_FULL := by
    rw [pp.status]; intro e
    have := (status_of_full _ _ fi.2.2.1).1 e
    omega
  refine ⟨?_, hh'⟩
  unfold usable_page_exist
  have hi' : ¬ i > MEM_PAGE_BLOCK_INFO_COUNT - 1 := by
    simp only [MEM_PAGE_BLOCK_INFO_COUNT]; omega
  rw [if_neg hi', if_neg (by rw [hh']; tauto), hh', if_neg hst]

theorem alloc_block_slab_brk (s : Heap) (g : Ghost) (L : List Nat) (len : Nat) (hI : Inv s g L)
    (hu : usable_page_exist s (get_page_index len) = true)
    (hne : ¬ is_ext (get_page_index len)) :
    (alloc_block s len).2.brk = s.brk ∧ (alloc_block s len).2.live = s.live := by
  have hi := get_page_index_lt len
  obtain ⟨rest, b, fr, hx, hf, hc, hh, hs, hlt, hb⟩ := alloc_pre s g L _ hI hi hu
  have hb0 : firstD (g.fl (s.mem_page_map (get_page_index len)).head) 0 = b := by
    rw [hf]; rfl
  rw [alloc_block_eq s g L len hI hu, hb0]
  generalize hid : get_page_index len = i at *
  generalize hpd : (s.mem_page_map i).head = pg at *
  have hmem : pg ∈ g.lists i := by rw [hx]; exact List.mem_cons_self _ _
  have pp := hI.pages i hi pg hmem
  have hring := hI.ring i hi
  rw [hx] at hring
  obtain ⟨p0, p1, p2, p3, p4, p5, p6, p7, p8, p9⟩ :=
    alloc_steps_page s i pg hi pp.block_num pp.status hlt
  obtain ⟨r1, r2, r3, r4, r5, r6, r7, r8⟩ := alloc_steps_rest s i pg rest hring
  generalize alloc_block_count (alloc_block_using (alloc_block_full s i pg) i pg) pg = s3 at *
  have hty : ¬ ((s3.page pg).type = MEM_PAGE_TYPE_ZERO ∨
      (s3.page pg).type = MEM_PAGE_TYPE_LARGE) := by
    rw [p1, pp.type]; exact not_ext_type i hi hne
  obtain ⟨-, -, -, -, -, -, t7, t8⟩ := alloc_block_take_slab s3 pg len b hty
  rw [t7, t8, r3, r4]
  exact ⟨rfl, rfl⟩

/-- One more block from the only page of a slab class that is not full. -/
theorem fill_alloc (s : Heap) (g : Ghost) (L : List Nat) (len pg : Nat) (hI : Inv s g L)
    (hne : ¬ is_ext (get_page_index len))
    (hl : g.lists (get_page_index len) = [pg])
    (hlt : (s.page pg).using_count < (page_info (get_page_index len)).block_num) :
    usable_page_exist s (get_page_index len) = true ∧
    Inv (alloc_block s len).2 (alloc_ghost s g len) ((alloc_block s len).1 :: L) ∧
    (alloc_ghost s g len).lists (get_page_index len) = [pg] ∧
    ((alloc_block s len).2.page pg).using_count = (s.page pg).using_count + 1 ∧
    (alloc_block s len).2.brk = s.brk := by
  have hi := get_page_index_lt len
  obtain ⟨hu, hh⟩ := usable_of_inv s g L hI _ pg [] hi hl hlt
  obtain ⟨h1, -, -, h4⟩ := alloc_inv_slab s g L len hI hu hne
  rw [hh] at h4
  refine ⟨hu, h1, ?_, h4, (alloc_block_slab_brk s g L len hI hu hne).1⟩
  simp [alloc_ghost, hl]

theorem slab_not_ext (i : Nat) (h1 : 1 ≤ i) (h13 : i ≤ 13) : ¬ is_ext i := by
  unfold is_ext
  simp only [MEM_PAGE_BLOCK_INFO_COUNT]
  omega

/-- Requests of one slab class served by its only page while the page has room. -/
theorem fill_seq (i : Nat) (h1 : 1 ≤ i) (h13 : i ≤ 13) (lens : List Nat) :
    ∀ (s : Heap) (g : Ghost) (L : List Nat) (pg : Nat), Inv s g L → g.lists i = [pg] →
      (∀ l ∈ lens, get_page_index l = i) →
      (s.page pg).using_count + lens.length ≤ (page_info i).block_num →
      ∃ g' L', Inv (malloc_seq lens s) g' L' ∧ g'.lists i = [pg] ∧
        ((malloc_seq lens s).page pg).using_count = (s.page pg).using_count + lens.length ∧
        (malloc_seq lens s).brk = s.brk := by
  induction lens with
  | nil =>
    intro s g L pg hI hl _ _
    exact ⟨g, L, hI, hl, rfl, rfl⟩
  | cons len rest ih =>
    intro s g L pg hI hl hcls hle
    have hc := hcls len (List.mem_cons_self _ _)
    simp only [List.length_cons] at hle
    have hne : ¬ is_ext (get_page_index len) := by rw [hc]; exact slab_not_ext i h1 h13
    obtain ⟨hu, hI1, hl1, huc, hb⟩ := fill_alloc s g L len pg hI hne (by rw [hc]; exact hl)
      (by rw [hc]; omega)
    rw [hc] at hl1
    have e : malloc_seq (len :: rest) s = malloc_seq rest (alloc_block s len).2 := by
      simp only [malloc_seq]
      rw [mem_malloc_eq_usable s len hu]
    obtain ⟨g', L', a1, a2, a3, a4⟩ := ih (alloc_block s len).2 _ _ pg hI1 hl1
      (fun l hl' => hcls l (List.mem_cons_of_mem _ hl')) (by rw [huc]; omega)
    rw [e]
    refine ⟨g', L', a1, a2, ?_, ?_⟩
    · rw [a3, huc, List.length_cons]; omega
    · rw [a4, hb]

/-- The first request of a class on a fresh allocator creates the page the request is served
from. -/
theorem first_page (i : Nat) (hi : i < 15) :
    Inv (mem_page_malloc Heap.start i false).2 (page_ghost Heap.start Ghost.start i) [] ∧
    usable_page_exist (mem_page_malloc Heap.start i false).2 i = true ∧
    (page_ghost Heap.start Ghost.start i).lists i = [4096] ∧
    ((mem_page_malloc Heap.start i false).2.page 4096).using_count = 0 ∧
    (mem_page_malloc Heap.start i false).2.brk ≤ 4096 + 8192 ∧
    usable_page_exist Heap.start i = false := by
  have fi := page_info_facts i hi
  have hu : usable_page_exist Heap.start i = false := by
    unfold usable_page_exist
    simp [Heap.start]
  have hb : (mem_page_malloc Heap.start i false).2.brk ≤ 4096 + 8192 := by
    rw [mem_page_malloc_brk Heap.start i hi]
    have : Heap.start.brk = 4096 := rfl
    rw [this]
    unfold page_size
    simp only [sizeof_MEM_PAGE, sizeof_MEM_BLOCK]
    omega
  obtain ⟨a1, a2, a3, a4, a5⟩ := page_malloc_inv Heap.start Ghost.start [] i Inv_start hi hu
    (by omega)
  exact ⟨a1, a2, a4, a5, hb, hu⟩

/-- `mem_page_malloc` writes only into the fresh region. -/
theorem page_malloc_frame (s : Heap) (g : Ghost) (L : List Nat) (i : Nat) (hI : Inv s g L)
    (hi : i < 15) (hu : usable_page_exist s i = false)
    (hbrk : (mem_page_malloc s i false).2.brk ≤ 2 ^ 64) (x : Nat) (hx : x < s.brk) :
    (mem_page_malloc s i false).2.block x = s.block x ∧
    (mem_page_malloc s i false).2.byte x = s.byte x ∧
    (mem_page_malloc s i false).2.page x = s.page x := by
  have hlt : s.brk + page_size i < 2 ^ 64 := by
    rw [mem_page_malloc_brk s i hi] at hbrk
    omega
  obtain ⟨f1, f2, f3, f4, f5, f6, f7, f8, f9⟩ := page_malloc_pre_facts s g L i hI hi hlt
  rw [mem_page_malloc_eq s g L i hI hi hu hlt]
  simp only [sel_setLink_block, sel_setLink_byte, sel_setLink_page, sel_withLink_block,
    sel_withLink_byte, sel_withLink_page]
  refine ⟨?_, f2 x hx, f5 x hx⟩
  rw [f1 x]
  have h1 : x ∉ blocks_from (s.brk + sizeof_MEM_PAGE)
      (sizeof_MEM_BLOCK + (page_info i).block_size) (page_info i).block_num := by
    intro h
    obtain ⟨k, -, e⟩ := (blocks_from_mem _ _ _ _).1 h
    omega
  have h2 : ¬ (s.brk ≤ x ∧ x < s.brk + page_size i) := by omega
  simp only [h1, h2, if_false]

/-- What `alloc_block` leaves untouched below the break. -/
theorem alloc_block_frame (s : Heap) (g : Ghost) (L : List Nat) (len : Nat) (hI : Inv s g L)
    (hu : usable_page_exist s (get_page_index len) = true) :
    (∀ x, x < s.brk → ((alloc_block s len).2.block x).page = (s.block x).page) ∧
    (∀ a, a ≠ (s.mem_page_map (get_page_index len)).head →
      (alloc_block s len).2.page a = s.page a) ∧
    (∀ x, x < s.brk →
      ¬ (firstD (g.fl (s.mem_page_map (get_page_index len)).head) 0 + 16 ≤ x ∧
        x < firstD (g.fl (s.mem_page_map (get_page_index len)).head) 0 + 16
          + (page_info (get_page_index len)).block_size) →
      (alloc_block s len).2.byte x = s.byte x) ∧
    firstD (g.fl (s.mem_page_map (get_page_index len)).head) 0
      ∈ g.fl (s.mem_page_map (get_page_index len)).head := by
  have hi := get_page_index_lt len
  obtain ⟨rest, b, fr, hx, hf, hc, hh, hs, hlt, hb⟩ := alloc_pre s g L _ hI hi hu
  have hb0 : firstD (g.fl (s.mem_page_map (get_page_index len)).head) 0 = b := by
    rw [hf]; rfl
  rw [alloc_block_eq s g L len hI hu, hb0]
  generalize hid : get_page_index len = i at *
  generalize hpd : (s.mem_page_map i).head = pg at *
  have hmem : pg ∈ g.lists i := by rw [hx]; exact List.mem_cons_self _ _
  have pp := hI.pages i hi pg hmem
  have fi := page_info_facts i hi
  have hring := hI.ring i hi
  rw [hx] at hring
  obtain ⟨p0, p1, p2, p3, p4, p5, p6, p7, p8, p9⟩ :=
    alloc_steps_page s i pg hi pp.block_num pp.status hlt
  obtain ⟨r1, r2, r3, r4, r5, r6, r7, r8⟩ := alloc_steps_rest s i pg rest hring
  generalize alloc_block_count (alloc_block_using (alloc_block_full s i pg) i pg) pg = s3 at *
  have hbh : (s3.page pg).block_head = 16 := by rw [p5, pp.block_head]; rfl
  have hbd : (s3.page pg).block_data = (page_info i).block_size := by rw [p6, pp.block_data]
  have hbm : b ∈ g.fl pg := by rw [hf]; exact List.mem_cons_self _ _
  by_cases he : is_ext i
  · have hty : (s3.page pg).type = MEM_PAGE_TYPE_ZERO ∨
        (s3.page pg).type = MEM_PAGE_TYPE_LARGE := by
      rw [p1, pp.type]; exact ext_type i hi he
    obtain ⟨-, t2, t3, t4, -⟩ := alloc_block_take_ext s3 pg len b hty
    have hbs := (fi.2.2.2.2.2.2.1 he).2
    refine ⟨?_, ?_, ?_, hbm⟩
    · intro x hx'
      rw [t3, r3, r1]
      have : x ≠ s.brk := by omega
      simp only [this, if_false]
      split_ifs with h
      · rw [h]
      · rfl
    · intro a ha
      rw [t2]; simp only [ha, if_false]; exact p0 a ha
    · intro x hx' hnb
      rw [t4, r3, r2, hbh]
      rw [hbs] at hnb
      have h1 : ¬ (s.brk + 16 ≤ x ∧ x < s.brk + 16 + len) := by omega
      simp only [h1, hnb, if_false]
  · have hty : ¬ ((s3.page pg).type = MEM_PAGE_TYPE_ZERO ∨
        (s3.page pg).type = MEM_PAGE_TYPE_LARGE) := by
      rw [p1, pp.type]; exact not_ext_type i hi he
    obtain ⟨-, t2, t3, t4, -⟩ := alloc_block_take_slab s3 pg len b hty
    refine ⟨?_, ?_, ?_, hbm⟩
    · intro x _
      rw [t3, r1]
      by_cases h : x = b
      · simp only [h, if_true]
      · simp only [h, if_false]
    · intro a ha
      rw [t2]; simp only [ha, if_false]; exact p0 a ha
    · intro x _ hnb
      rw [t4, r2, hbh, hbd]
      simp only [hnb, if_false]

theorem user_area_lt_brk (s : Heap) (g : Ghost) (L : List Nat) (p : Nat) (hI : Inv s g L)
    (hp : p ∈ L) (x : Nat) (hx : p ≤ x ∧ x < p + user_size s g p) : x < s.brk := by
  obtain ⟨i, pg, hi, hpg, hpage, hcase⟩ := user_area s g L p hI hp
  have pp := hI.pages i hi pg hpg
  have e16 : sizeof_MEM_BLOCK = 16 := rfl
  rcases hcase with ⟨hne, hc, k, hk, e, hnot⟩ | ⟨he, hc, hu, e⟩
  · have := block_addr_bound pg i k hi hk
    have := pages_lt_brk s g L hI i pg hi hpg
    rw [hc] at hx
    omega
  · have := hI.live_brk _ (pp.ext_used he hu).live
    simp only at this
    rw [hc] at hx
    omega

/-- The user area of an outstanding pointer is clear of the data area of every free block. -/
theorem out_free_disjoint (s : Heap) (g : Ghost) (L : List Nat) (p : Nat) (hI : Inv s g L)
    (hp : p ∈ L) (j a b : Nat) (hj : j < 15) (ha : a ∈ g.lists j) (hb : b ∈ g.fl a) (x : Nat)
    (hx : p ≤ x ∧ x < p + user_size s g p) :
    ¬ (b + 16 ≤ x ∧ x < b + 16 + (page_info j).block_size) := by
  obtain ⟨i, pg, hi, hpg, hpage, hcase⟩ := user_area s g L p hI hp
  have pa := hI.pages j hj a ha
  obtain ⟨kb, hkb, eb⟩ := pa.fl_blocks b hb
  have hbb := block_addr_bound a j kb hj hkb
  have e16 : sizeof_MEM_BLOCK = 16 := rfl
  by_cases hap : a = pg
  · subst hap
    have hji := class_unique s g L hI j i a hj hi ha hpg
    subst hji
    rcases hcase with ⟨hne, hc, k, hk, e, hnot⟩ | ⟨he, hc, hu, e⟩
    · have hkk : k ≠ kb := by
        intro e2; subst e2; exact hnot (eb ▸ hb)
      have := block_addr_disjoint a j k kb hj hkk
      rw [hc] at hx
      omega
    · have := (ext_one_block s g L j a hj he pa hu).2
      rw [this] at hb
      cases hb
  · have hown := user_area_owned s g L p i pg hI hi hpg hcase x hx
    have := (not_owned_other s g L hI i j pg a hi hj hpg ha hap x hown).1
    intro h
    apply this
    omega

theorem mem_malloc_out_frame (s : Heap) (g : Ghost) (L : List Nat) (len p : Nat)
    (hI : Inv s g L) (hp : p ∈ L) (hbrk : (mem_malloc s len).2.brk ≤ 2 ^ 64) :
    ((mem_malloc s len).2.block (p - sizeof_MEM_BLOCK)).page
      = (s.block (p - sizeof_MEM_BLOCK)).page ∧
    (∀ x, p ≤ x → x < p + user_size s g p → (mem_malloc s len).2.byte x = s.byte x) ∧
    ((s.block (p - sizeof_MEM_BLOCK)).page ≠
        ((mem_malloc s len).2.block ((mem_malloc s len).1 - sizeof_MEM_BLOCK)).page →
      (mem_malloc s len).2.page (s.block (p - sizeof_MEM_BLOCK)).page
        = s.page (s.block (p - sizeof_MEM_BLOCK)).page) := by
  have hi := get_page_index_lt len
  have hpb := out_lt_brk s g L hI p hp
  have hpb' : p - sizeof_MEM_BLOCK < s.brk := by omega
  obtain ⟨i, pg, hi', hpg, hpage, -⟩ := user_area s g L p hI hp
  have hpgb := (pages_lt_brk s g L hI i pg hi' hpg).2
  have hpgb' : pg < s.brk := by omega
  rw [hpage]
  cases hu : usable_page_exist s (get_page_index len) with
  | true =>
    rw [mem_malloc_eq_usable s len hu]
    obtain ⟨a1, a2, a3, a4⟩ := alloc_block_frame s g L len hI hu
    obtain ⟨-, -, c3, -⟩ := alloc_block_post s g L len hI hu
    obtain ⟨rest, b, fr, hx, -⟩ := alloc_pre s g L _ hI hi hu
    rw [c3]
    refine ⟨by rw [a1 _ hpb', hpage], ?_, fun h => a2 pg h⟩
    intro x h1 h2
    exact a3 x (user_area_lt_brk s g L p hI hp x ⟨h1, h2⟩)
      (out_free_disjoint s g L p hI hp _ _ _ hi (by rw [hx]; exact List.mem_cons_self _ _) a4 x
        ⟨h1, h2⟩)
  | false =>
    have hbrk' := hbrk
    rw [mem_malloc_eq_unusable s len hu] at hbrk' ⊢
    have hb1 : (mem_page_malloc s (get_page_index len) false).2.brk ≤ 2 ^ 64 :=
      Nat.le_trans (alloc_block_brk_le _ _) hbrk'
    obtain ⟨hI0, hu0, -⟩ := page_malloc_inv s g L _ hI hi hu hb1
    have hle : s.brk ≤ (mem_page_malloc s (get_page_index len) false).2.brk := by
      rw [mem_page_malloc_brk s _ hi]; omega
    have fr := page_malloc_frame s g L _ hI hi hu hb1
    obtain ⟨a1, a2, a3, a4⟩ := alloc_block_frame _ _ L len hI0 hu0
    obtain ⟨-, -, c3, -⟩ := alloc_block_post _ _ L len hI0 hu0
    obtain ⟨rest, b, fr', hx, -⟩ := alloc_pre _ _ L _ hI0 hi hu0
    have hus : user_size (mem_page_malloc s (get_page_index len) false).2
        (page_ghost s g (get_page_index len)) p = user_size s g p := by
      unfold user_size
      simp only [(fr _ hpb').1, hpage, (fr pg hpgb').2.2, page_ghost]
    rw [c3]
    refine ⟨by rw [a1 _ (by omega), (fr _ hpb').1, hpage], ?_,
      fun h => by rw [a2 pg h, (fr pg hpgb').2.2]⟩
    intro x h1 h2
    have hxb := user_area_lt_brk s g L p hI hp x ⟨h1, h2⟩
    rw [a3 x (by omega)
      (out_free_disjoint _ _ L p hI0 hp _ _ _ hi (by rw [hx]; exact List.mem_cons_self _ _) a4 x
        ⟨h1, by rw [hus]; exact h2⟩), (fr x hxb).2.1]

theorem total_using_eq (s : Heap) (g : Ghost) (L : List Nat) (hI : Inv s g L) :
    s.total_using = L.length := by
  rw [← hI.using_sum]
  unfold Heap.total_using
  apply congrArg List.sum
  apply List.map_congr_left
  intro i hi
  have hi' : i < 15 := by simpa [MEM_PAGE_BLOCK_INFO_COUNT] using List.mem_range.1 hi
  rw [class_pages_of_ring s i _ (hI.ring i hi')]

theorem free_ghost_keeps (s : Heap) (g : Ghost) (p j a : Nat) (ha : a ∈ g.lists j)
    (hne : a ≠ (s.block (p - sizeof_MEM_BLOCK)).page) :
    a ∈ (free_ghost s g p).lists j := by
  unfold free_ghost
  simp only
  split_ifs with h1 h2
  · subst h1; exact (List.mem_erase_of_ne hne).2 ha
  · subst h1; exact List.mem_cons_of_mem _ ((List.mem_erase_of_ne hne).2 ha)
  · exact ha

/-- The block of an outstanding pointer, header and user area, is clear of everything that
belongs to another page. -/
theorem out_not_owned_other (s : Heap) (g : Ghost) (L : List Nat) (q : Nat) (hI : Inv s g L)
    (hq : q ∈ L) (i pg : Nat) (hi : i < 15) (hpg : pg ∈ g.lists i)
    (hne : (s.block (q - sizeof_MEM_BLOCK)).page ≠ pg) (x : Nat)
    (hx : q - sizeof_MEM_BLOCK ≤ x ∧ x < q + user_size s g q) : ¬ owned s g i pg x := by
  obtain ⟨j, a, hj, ha, hpage, hcase⟩ := user_area s g L q hI hq
  rw [hpage] at hne
  have pa := hI.pages j hj a ha
  have e16 : sizeof_MEM_BLOCK = 16 := rfl
  have h16 := (hI.out q hq).1
  have hown : owned s g j a x := by
    rcases hcase with ⟨hn, hc, k, hk, e, hnot⟩ | ⟨he, hc, hu, e⟩
    · left
      have := block_addr_bound a j k hj hk
      rw [hc] at hx
      omega
    · right; left
      rw [hc] at hx
      exact ⟨he, hu, by omega, by omega⟩
  have hlt : x < s.brk := by
    rcases hcase with ⟨hn, hc, k, hk, e, hnot⟩ | ⟨he, hc, hu, e⟩
    · have := block_addr_bound a j k hj hk
      have := pages_lt_brk s g L hI j a hj ha
      rw [hc] at hx
      omega
    · have := hI.live_brk _ (pa.ext_used he hu).live
      simp only at this
      rw [hc] at hx
      omega
  have h := not_owned_other s g L hI j i a pg hj hi ha hpg (fun e => hne e.symm) x hown
  rintro (h1 | ⟨he, hu, h2, h3⟩ | h3)
  · exact h.1 h1
  · exact h.2 he hu ⟨h2, h3⟩
  · omega

/-- The page `mem_malloc` serves a request from is a page of the class of the request or a
fresh one. -/
theorem mem_malloc_page_old (s : Heap) (g : Ghost) (L : List Nat) (len : Nat) (hI : Inv s g L)
    (hbrk : (mem_malloc s len).2.brk ≤ 2 ^ 64) :
    ((mem_malloc s len).2.block ((mem_malloc s len).1 - sizeof_MEM_BLOCK)).page
        ∈ g.lists (get_page_index len) ∨
    s.brk ≤ ((mem_malloc s len).2.block ((mem_malloc s len).1 - sizeof_MEM_BLOCK)).page := by
  have hi := get_page_index_lt len
  cases hu : usable_page_exist s (get_page_index len) with
  | true =>
    rw [mem_malloc_eq_usable s len hu]
    obtain ⟨-, -, c3, -⟩ := alloc_block_post s g L len hI hu
    obtain ⟨rest, b, fr, hx, -⟩ := alloc_pre s g L _ hI hi hu
    rw [c3, hx]
    exact Or.inl (List.mem_cons_self _ _)
  | false =>
    have hbrk' := hbrk
    rw [mem_malloc_eq_unusable s len hu] at hbrk' ⊢
    have hb1 : (mem_page_malloc s (get_page_index len) false).2.brk ≤ 2 ^ 64 :=
      Nat.le_trans (alloc_block_brk_le _ _) hbrk'
    obtain ⟨hI0, hu0, h3, -⟩ := page_malloc_inv s g L _ hI hi hu hb1
    obtain ⟨-, -, c3, -⟩ := alloc_block_post _ _ L len hI0 hu0
    rw [c3, h3]
    exact Or.inr (le_refl _)

theorem class_of_block_size : ∀ j < 14, 1 ≤ j → get_page_index (page_info j).block_size = j := by
  decide

/-- A moving `mem_realloc` never serves the new block from the page of the old one. -/
theorem realloc_pages_ne (s : Heap) (g : Ghost) (L : List Nat) (p len : Nat) (hI : Inv s g L)
    (hp : p ∈ L) (hlen : len ≤ INT_MAX) (hb1 : (mem_malloc s len).2.brk ≤ 2 ^ 64)
    (hc : user_size s g p < len ∨ get_page_index (user_size s g p) > get_page_index len) :
    (s.block (p - sizeof_MEM_BLOCK)).page ≠
      ((mem_malloc s len).2.block ((mem_malloc s len).1 - sizeof_MEM_BLOCK)).page := by
  intro heq
  obtain ⟨i0, pg, hi0, hpg, hpage, hcase⟩ := user_area s g L p hI hp
  have hj := get_page_index_lt len
  have hold := mem_malloc_page_old s g L len hI hb1
  have hlt := pages_lt_brk s g L hI i0 pg hi0 hpg
  have hI1 := mem_malloc_inv s g L len hI hlen hb1
  have hq0 := (mem_malloc_post s g L len hI hb1).1
  have hgb : get_block (mem_malloc s len).1 false = (mem_malloc s len).1 - sizeof_MEM_BLOCK := by
    simp [get_block, hq0, block_head_size]
  have hcl := (mem_malloc_post s g L len hI hb1).2.2.2
  rw [hgb, class_pages_of_ring _ _ _ (hI1.ring _ hj)] at hcl
  rw [← heq, hpage] at hold
  rcases hold with hm | hge
  swap
  · omega
  have hij : i0 = get_page_index len := class_unique s g L hI i0 _ pg hi0 hj hpg hm
  rcases hcase with ⟨hne, hus, -⟩ | ⟨he, -⟩
  · rw [hij] at hne hus
    have hl := (is_ext_iff len).not.1 hne
    have small := get_page_index_small len (by omega) (by omega)
    rw [hus] at hc
    rcases hc with h | h
    · omega
    · rw [class_of_block_size _ (by omega) small.1] at h
      omega
  · rw [hij] at he
    have hqL : (mem_malloc s len).1 ∉ L := (List.nodup_cons.1 hI1.out_nodup).1
    obtain ⟨i1, a1, hi1, ha1, hp1, hc1⟩ :=
      user_area _ _ _ p hI1 (List.mem_cons_of_mem _ hp)
    obtain ⟨i2, a2, hi2, ha2, hp2, hc2⟩ :=
      user_area _ _ _ (mem_malloc s len).1 hI1 (List.mem_cons_self _ _)
    have m1 := (mem_malloc_out_frame s g L len p hI hp hb1).1
    have e12 : a1 = a2 := by rw [← hp1, ← hp2, m1, heq]
    subst e12
    have e1 : i1 = i2 := class_unique _ _ _ hI1 i1 i2 a1 hi1 hi2 ha1 ha2
    subst e1
    rw [hp2] at hcl
    have e2 : i1 = get_page_index len := class_unique _ _ _ hI1 i1 _ a1 hi1 hj ha1 hcl
    rw [← e2] at he
    rcases hc1 with ⟨hn1, -⟩ | ⟨-, -, -, ep⟩
    · exact hn1 he
    rcases hc2 with ⟨hn2, -⟩ | ⟨-, -, -, eq⟩
    · exact hn2 he
    exact hqL (by rw [eq, ← ep]; exact hp)

theorem sum_map_eq_of_le (l : List Nat) (f h : Nat → Nat) (hle : ∀ x ∈ l, f x ≤ h x)
    (hs : (l.map f).sum = (l.map h).sum) : ∀ x ∈ l, f x = h x := by
  induction l with
  | nil => intro x hx; cases hx
  | cons a r ih =>
    simp only [List.map_cons, List.sum_cons] at hs
    have h1 := hle a (List.mem_cons_self _ _)
    have h2 : (r.map f).sum ≤ (r.map h).sum :=
      List.sum_le_sum (fun x hx => hle x (List.mem_cons_of_mem _ hx))
    intro x hx
    rcases List.mem_cons.1 hx with e | e
    · subst e; omega
    · exact ih (fun x hx => hle x (List.mem_cons_of_mem _ hx)) (by omega) x e

theorem sum_map_add_indicator (l : List Nat) (h : Nat → Nat) (c : Nat) (hnd : l.Nodup) :
    (l.map (fun b => h b + if c = b then 1 else 0)).sum
      = (l.map h).sum + if c ∈ l then 1 else 0 := by
  induction l with
  | nil => simp
  | cons a r ih =>
    have hnd' := List.nodup_cons.1 hnd
    simp only [List.map_cons, List.sum_cons, ih hnd'.2, List.mem_cons]
    by_cases e : c = a
    · subst e
      simp [hnd'.1]
      omega
    · simp [e]
      omega

/-- The number of outstanding pointers on a page is at most its `using_count`. -/
theorem out_count_le (s : Heap) (g : Ghost) (L : List Nat) (hI : Inv s g L) (j b : Nat)
    (hj : j < 15) (hb : b ∈ g.lists j) :
    L.countP (fun p => (s.block (p - sizeof_MEM_BLOCK)).page = b) ≤ (s.page b).using_count := by
  rw [List.countP_eq_length_filter]
  have pb := hI.pages j hj b hb
  have hnd : (L.filter (fun p => (s.block (p - sizeof_MEM_BLOCK)).page = b)).Nodup :=
    hI.out_nodup.filter _
  have hmem : ∀ p ∈ L.filter (fun p => (s.block (p - sizeof_MEM_BLOCK)).page = b),
      sizeof_MEM_BLOCK ≤ p ∧
      ((¬ is_ext j ∧ ∃ k < (page_info j).block_num,
          p = block_addr b j k + sizeof_MEM_BLOCK ∧ block_addr b j k ∉ g.fl b) ∨
       (is_ext j ∧ (s.page b).using_count ≠ 0 ∧
          p = MEM_TO_ADDR s (b + sizeof_MEM_PAGE + sizeof_MEM_BLOCK) + sizeof_MEM_BLOCK)) := by
    intro p hp
    obtain ⟨hpL, hpb⟩ := List.mem_filter.1 hp
    have hpb' : (s.block (p - sizeof_MEM_BLOCK)).page = b := by simpa using hpb
    obtain ⟨h16, i', hi', a', ha', hpage, hcase⟩ := hI.out p hpL
    rw [hpb'] at hpage
    subst hpage
    have e : i' = j := class_unique s g L hI i' j _ hi' hj ha' hb
    subst e
    exact ⟨h16, hcase⟩
  by_cases he : is_ext j
  · by_cases hu : (s.page b).using_count = 0
    · have : L.filter (fun p => (s.block (p - sizeof_MEM_BLOCK)).page = b) = [] := by
        apply List.eq_nil_iff_forall_not_mem.2
        intro p hp
        rcases (hmem p hp).2 with ⟨hn, -⟩ | ⟨-, h, -⟩
        · exact hn he
        · exact h hu
      rw [this]; simp
    · have hsub : L.filter (fun p => (s.block (p - sizeof_MEM_BLOCK)).page = b)
          ⊆ [MEM_TO_ADDR s (b + sizeof_MEM_PAGE + sizeof_MEM_BLOCK) + sizeof_MEM_BLOCK] := by
        intro p hp
        rcases (hmem p hp).2 with ⟨hn, -⟩ | ⟨-, -, h⟩
        · exact absurd he hn
        · rw [h]; exact List.mem_singleton.2 rfl
      have := (hnd.subperm hsub).length_le
      simp only [List.length_singleton] at this
      omega
  · have hnd2 : ((L.filter (fun p => (s.block (p - sizeof_MEM_BLOCK)).page = b)).map
        (fun p => p - sizeof_MEM_BLOCK)).Nodup := by
      apply List.Nodup.map_on _ hnd
      intro x hx y hy hxy
      have := (hmem x hx).1
      have := (hmem y hy).1
      simp only at hxy
      omega
    have hdis : List.Disjoint ((L.filter (fun p => (s.block (p - sizeof_MEM_BLOCK)).page = b)).map
        (fun p => p - sizeof_MEM_BLOCK)) (g.fl b) := by
      intro x hx hfl
      obtain ⟨p, hp, e⟩ := List.mem_map.1 hx
      rcases (hmem p hp).2 with ⟨-, k, hk, ep, hnot⟩ | ⟨h, -⟩
      · apply hnot
        have : block_addr b j k = x := by rw [← e, ep]; simp
        rw [this]; exact hfl
      · exact he h
    have hall : ((L.filter (fun p => (s.block (p - sizeof_MEM_BLOCK)).page = b)).map
        (fun p => p - sizeof_MEM_BLOCK)) ++ g.fl b
        ⊆ (List.range (page_info j).block_num).map (block_addr b j) := by
      intro x hx
      rcases List.mem_append.1 hx with h | h
      · obtain ⟨p, hp, e⟩ := List.mem_map.1 h
        rcases (hmem p hp).2 with ⟨-, k, hk, ep, -⟩ | ⟨h', -⟩
        · have : block_addr b j k = x := by rw [← e, ep]; simp
          rw [← this]
          exact List.mem_map.2 ⟨k, List.mem_range.2 hk, rfl⟩
        · exact absurd h' he
      · obtain ⟨k, hk, e⟩ := pb.fl_blocks x h
        rw [e]
        exact List.mem_map.2 ⟨k, List.mem_range.2 hk, rfl⟩
    have := ((List.nodup_append.2 ⟨hnd2, pb.fl_nodup, hdis⟩).subperm hall).length_le
    simp only [List.length_append, List.length_map, List.length_range] at this
    have := pb.fl_len
    omega

/-- Every outstanding pointer lies on exactly one page of the class lists. -/
theorem out_count_sum (s : Heap) (g : Ghost) (L : List Nat) (hI : Inv s g L) (M : List Nat)
    (hM : ∀ p ∈ M, p ∈ L) :
    ((List.range 15).map (fun j => ((g.lists j).map
      (fun b => M.countP (fun p => (s.block (p - sizeof_MEM_BLOCK)).page = b))).sum)).sum
      = M.length := by
  induction M with
  | nil => simp
  | cons p M ih =>
    have ih' := ih (fun q hq => hM q (List.mem_cons_of_mem _ hq))
    obtain ⟨-, i', hi', a', ha', hpage, -⟩ := hI.out p (hM p (List.mem_cons_self _ _))
    have hi15 : i' < 15 := hi'
    have key := sum_range_update
      (fun j => ((g.lists j).map
        (fun b => M.countP (fun p => (s.block (p - sizeof_MEM_BLOCK)).page = b))).sum)
      (fun j => ((g.lists j).map
        (fun b => (p :: M).countP (fun p => (s.block (p - sizeof_MEM_BLOCK)).page = b))).sum)
      15 i' 0 1 hi15 ?_ ?_
    · rw [List.length_cons, ← ih']
      omega
    · intro j hj hne
      simp only
      congr 1
      apply List.map_congr_left
      intro b hb
      rw [List.countP_cons]
      have : ¬ (s.block (p - sizeof_MEM_BLOCK)).page = b := by
        intro e
        rw [hpage] at e
        subst e
        exact hne (class_unique s g L hI j i' _ hj hi15 hb ha')
      simp [this]
    · simp only [List.countP_cons, decide_eq_true_eq, Nat.add_zero]
      rw [sum_map_add_indicator _ _ _ (hI.ring i' hi').2.2.2.1, hpage, if_pos ha']

/-- The number of outstanding pointers on a page is its `using_count`. -/
theorem out_count (s : Heap) (g : Ghost) (L : List Nat) (hI : Inv s g L) (i a : Nat)
    (hi : i < 15) (ha : a ∈ g.lists i) :
    L.countP (fun p => (s.block (p - sizeof_MEM_BLOCK)).page = a) = (s.page a).using_count := by
  have hsum := out_count_sum s g L hI L (fun p hp => hp)
  have hus := hI.using_sum
  simp only [MEM_PAGE_BLOCK_INFO_COUNT] at hus
  have houter := sum_map_eq_of_le (List.range 15)
    (fun j => ((g.lists j).map
      (fun b => L.countP (fun p => (s.block (p - sizeof_MEM_BLOCK)).page = b))).sum)
    (fun j => ((g.lists j).map (fun a => (s.page a).using_count)).sum)
    (fun j hj => List.sum_le_sum
      (fun b hb => out_count_le s g L hI j b (List.mem_range.1 hj) hb))
    (by rw [hsum, hus]) i (List.mem_range.2 hi)
  exact sum_map_eq_of_le (g.lists i) _ _
    (fun b hb => out_count_le s g L hI i b hi hb) houter a ha

/-- The effect of `mem_page_free` on the page at the head of its class list, whatever the
status of the page. -/
theorem mem_page_free_any (s : Heap) (i pg : Nat) (rest : List Nat) (hi : i < 15)
    (hring : RingOK s.node (s.mem_page_map i).toLINK (pg :: rest))
    (hidx : get_page_index_ex s pg = i)
    (hbn : (s.page pg).block_num = (page_info i).block_num)
    (hbd : (s.page pg).block_data = (page_info i).block_size)
    (hbh : (s.page pg).block_head = sizeof_MEM_BLOCK)
    (hsep : ∀ x ∈ rest, ¬ (pg ≤ x ∧ x < pg + page_size i)) :
    RingOK (mem_page_free s pg).2.node ((mem_page_free s pg).2.mem_page_map i).toLINK rest ∧
    ((mem_page_free s pg).2.mem_page_map i).idle_num =
      (if (s.page pg).status = MEM_PAGE_STATUS_IDLE then (s.mem_page_map i).idle_num - 1
        else (s.mem_page_map i).idle_num) ∧
    (∀ j, j ≠ i → (mem_page_free s pg).2.mem_page_map j = s.mem_page_map j) ∧
    (∀ x, ¬ (pg ≤ x ∧ x < pg + page_size i) →
      (x ∉ rest → (mem_page_free s pg).2.node x = s.node x) ∧
      (mem_page_free s pg).2.page x = s.page x ∧
      (mem_page_free s pg).2.block x = s.block x ∧
      (mem_page_free s pg).2.byte x = s.byte x) ∧
    (mem_page_free s pg).2.brk = s.brk ∧
    (mem_page_free s pg).2.live = s.live.filter (fun r => r.1 ≠ pg) := by
  by_cases hst : (s.page pg).status = MEM_PAGE_STATUS_IDLE
  · rw [if_pos hst]
    exact mem_page_free_facts s i pg rest hi hring hidx hbn hbd hbh hst hsep
  rw [if_neg hst]
  obtain ⟨-, hp0, -, -, -⟩ := RingOK_cons_facts _ _ _ _ hring
  obtain ⟨-, hr, hfr⟩ := link_remove_force_mem s.node (s.mem_page_map i).toLINK [] rest pg hring
  simp only [List.nil_append] at hr hfr
  have hni : ¬ i > MEM_PAGE_BLOCK_INFO_COUNT - 1 := by
    simp only [MEM_PAGE_BLOCK_INFO_COUNT]; omega
  unfold mem_page_free
  simp only [hp0, if_false, hidx, hni, sel_withLink_page, hst]
  unfold mem_page_terminate
  simp only [sel_free_node, sel_free_page, sel_free_block, sel_free_byte,
    sel_free_mem_page_map, sel_free_brk, sel_free_live, sel_memset_zero_node,
    sel_memset_zero_page, sel_memset_zero_block, sel_memset_zero_byte,
    sel_memset_zero_mem_page_map, sel_memset_zero_brk, sel_memset_zero_live,
    sel_withLink_node, sel_withLink_page, sel_withLink_block, sel_withLink_byte,
    sel_withLink_mem_page_map, sel_withLink_brk, sel_withLink_live, if_true, hbn, hbd, hbh]
  refine ⟨?_, ?_, ?_, ?_, ?_, ?_⟩
  · refine RingOK_congr _ _ _ _ hr ?_
    intro x hx
    obtain ⟨h1, h2⟩ := terminate_range i hi pg x (hsep x hx)
    simp only [h1, h2, if_false]
  · first | rfl | trivial
  · intro j hj
    simp only [hj, if_false]
  · intro x hx
    obtain ⟨h1, h2⟩ := terminate_range i hi pg x hx
    simp only [h1, h2, if_false]
    first
      | exact ⟨fun h => hfr x h, trivial, trivial, trivial⟩
      | exact ⟨fun h => hfr x h, rfl, rfl, rfl⟩
      | exact fun h => hfr x h
  · first | rfl | trivial
  · first | rfl | trivial

theorem countP_split (L : List Nat) (q : Nat → Bool) :
    (L.filter (fun p => !q p)).length + L.countP q = L.length := by
  induction L with
  | nil => simp
  | cons a r ih =>
    cases h : q a <;> simp [List.filter_cons, List.countP_cons, h] <;> omega

/-- Destroying the page at the head of a class list keeps the invariant; the outstanding
pointers of the page are gone with it. -/
theorem page_free_inv (s : Heap) (g : Ghost) (L : List Nat) (i a : Nat) (rest : List Nat)
    (hI : Inv s g L) (hi : i < 15) (hl : g.lists i = a :: rest) :
    Inv (mem_page_free s a).2 (drop_ghost g i)
      (L.filter (fun p => !decide ((s.block (p - sizeof_MEM_BLOCK)).page = a))) ∧
    (mem_page_free s a).2.live = s.live.filter (fun r => r.1 ≠ a) ∧
    (∀ x, ¬ (a ≤ x ∧ x < a + page_size i) →
      (mem_page_free s a).2.page x = s.page x ∧ (mem_page_free s a).2.byte x = s.byte x) := by
  have ha : a ∈ g.lists i := by rw [hl]; exact List.mem_cons_self _ _
  have pa := hI.pages i hi a ha
  have hring := hI.ring i hi
  rw [hl] at hring
  have hnd : (a :: rest).Nodup := hring.2.2.2.1
  have hnd' := List.nodup_cons.1 hnd
  have hab := pages_lt_brk s g L hI i a hi ha
  have ha0 : a ≠ 0 := by omega
  have hidx := page_index_ex_of_ok s g L i a hi pa ha0
  have fi := page_info_facts i hi
  have hps : 48 ≤ page_size i := by unfold page_size sizeof_MEM_PAGE; omega
  have hsep : PagesSep s g a (fun x => a ≤ x ∧ x < a + page_size i) := by
    intro j hj b hb hne x hx
    exact not_owned_other s g L hI i j a b hi hj ha hb hne x (Or.inl hx)
  have hself : ∀ j < 15, ∀ b ∈ g.lists j, b ≠ a → ¬ (a ≤ b ∧ b < a + page_size i) := by
    intro j hj b hb hne hx
    have fj := page_info_facts j hj
    have : 48 ≤ page_size j := by unfold page_size sizeof_MEM_PAGE; omega
    exact (hsep j hj b hb hne b hx).1 ⟨le_refl _, by omega⟩
  have hrest : ∀ x ∈ rest, ¬ (a ≤ x ∧ x < a + page_size i) := by
    intro x hx
    apply hself i hi x (by rw [hl]; exact List.mem_cons_of_mem _ hx)
    intro e; subst e; exact hnd'.1 hx
  obtain ⟨f1, f2, f3, f4, f5, f6⟩ := mem_page_free_any s i a rest hi hring hidx pa.block_num
    pa.block_data pa.block_head hrest
  have hgl : (drop_ghost g i).lists i = rest := by simp [drop_ghost, hl]
  have hglj : ∀ j, j ≠ i → (drop_ghost g i).lists j = g.lists j := by
    intro j hj; simp [drop_ghost, hj]
  have hpr : ∀ b ∈ rest, (mem_page_free s a).2.page b = s.page b :=
    fun b hb => (f4 b (hrest b hb)).2.1
  refine ⟨?_, f6, fun x hx => ⟨(f4 x hx).2.1, (f4 x hx).2.2.2⟩⟩
  refine Inv_local s _ g (drop_ghost g i) L _ i a (fun x => a ≤ x ∧ x < a + page_size i)
    (s.page a).using_count 0 hI hi hsep ?_ ?_ ?_ ?_ ?_ ?_ ?_ ?_ ?_ ?_ ?_ ?_ ?_ ?_ ?_ ?_ ?_ ?_
    ?_ ?_ ?_ ?_ ?_ ?_ ?_ ?_
  · intro j hj hne hm
    exact hne (class_unique s g L hI j i a hj hi hm ha)
  · intro j hj hne x hx
    have hxa : x ≠ a := fun e => hne (class_unique s g L hI j i a hj hi (e ▸ hx) ha)
    apply (f4 x (hself j hj x hx hxa)).1
    intro hm
    exact hne (class_unique s g L hI j i x hj hi hx (by rw [hl]; exact List.mem_cons_of_mem _ hm))
  · intro j hj hne; exact f3 j hne
  · intro j hj hne; exact hglj j hne
  · intro j hj b hb hne
    exact (f4 b (hself j hj b hb hne)).2.1
  · intro b hb; rfl
  · intro b hb; rfl
  · intro x hx; exact (f4 x hx).2.2.1
  · intro x hx; exact (f4 x hx).2.2.2
  · intro r hr hw
    rw [f6]
    apply List.mem_filter.2 ⟨hr, ?_⟩
    simp only [decide_eq_true_eq]
    intro e
    apply hw
    rw [e]
    exact ⟨le_refl _, by omega⟩
  · intro x hx
    rw [hgl] at hx
    left; rw [hl]; exact List.mem_cons_of_mem _ hx
  · exact Or.inl ha
  · intro b hb hne
    rw [hgl]
    rw [hl] at hb
    rcases List.mem_cons.1 hb with e | e
    · exact absurd e hne
    · exact e
  · rw [hgl]; exact f1
  · intro hm
    rw [hgl] at hm
    exact absurd hm hnd'.1
  · rw [hgl, f2]
    have h0 := hI.idle_num i hi
    rw [hl, List.countP_cons] at h0
    have e : rest.countP (fun b => ((mem_page_free s a).2.page b).status = MEM_PAGE_STATUS_IDLE)
        = rest.countP (fun b => (s.page b).status = MEM_PAGE_STATUS_IDLE) :=
      List.countP_congr (fun b hb => by simp [hpr b hb])
    rw [e]
    by_cases hst : (s.page a).status = MEM_PAGE_STATUS_IDLE
    · simp only [hst, decide_True, if_true] at h0 ⊢
      rw [h0]; push_cast; omega
    · simp only [hst, decide_False, if_false] at h0 ⊢
      rw [h0]; simp
  · rw [hgl]
    have h0 := hI.idle_le i hi
    rw [hl, List.countP_cons] at h0
    have e : rest.countP (fun b => ((mem_page_free s a).2.page b).status = MEM_PAGE_STATUS_IDLE)
        = rest.countP (fun b => (s.page b).status = MEM_PAGE_STATUS_IDLE) :=
      List.countP_congr (fun b hb => by simp [hpr b hb])
    rw [e]; omega
  · rw [hgl]
    have h0 := hI.full_suffix i hi
    rw [hl] at h0
    exact (List.pairwise_cons.1 h0).2.imp_of_mem (fun {x y} hx hy h => by
      rw [hpr x hx, hpr y hy]; exact h)
  · rw [hgl, hl, List.map_cons, List.sum_cons]
    have : rest.map (fun b => ((mem_page_free s a).2.page b).using_count)
        = rest.map (fun b => (s.page b).using_count) :=
      List.map_congr_left (fun b hb => by rw [hpr b hb])
    rw [this]; omega
  · have h1 := countP_split L (fun p => decide ((s.block (p - sizeof_MEM_BLOCK)).page = a))
    have h2 := out_count s g L hI i a hi ha
    omega
  · rw [f6]; exact hI.live_sorted.filter _
  · intro r hr
    rw [f6] at hr
    rw [f5]
    exact hI.live_brk r (List.mem_filter.1 hr).1
  · rw [f5]; exact hI.brk
  · exact hI.out_nodup.filter _
  · intro p hp hne
    exact List.mem_filter.2 ⟨hp, by simpa using hne⟩
  · intro p hp
    left
    obtain ⟨h1, h2⟩ := List.mem_filter.1 hp
    exact ⟨h1, by simpa using h2⟩

theorem alloc_ghost_mem (s : Heap) (g : Ghost) (len : Nat) (rest : List Nat)
    (hx : g.lists (get_page_index len) = (s.mem_page_map (get_page_index len)).head :: rest)
    (j b : Nat) (hb : b ∈ g.lists j) : b ∈ (alloc_ghost s g len).lists j := by
  simp only [alloc_ghost]
  by_cases e : j = get_page_index len
  · subst e
    rw [hx] at hb
    simp only [if_true, hx, List.tail_cons]
    split_ifs
    · rcases List.mem_cons.1 hb with h | h
      · subst h; simp
      · exact List.mem_append_left _ h
    · exact hb
  · simp only [e, if_false]; exact hb

/-- A live region that starts inside a page is that page. -/
theorem live_in_page (s : Heap) (g : Ghost) (L : List Nat) (hI : Inv s g L) (i pg : Nat)
    (hi : i < 15) (hpg : pg ∈ g.lists i) (r : Nat × Nat) (hr : r ∈ s.live)
    (h : pg ≤ r.1 ∧ r.1 < pg + page_size i) : r.1 = pg := by
  by_contra hne
  have pp := hI.pages i hi pg hpg
  have hd := live_disjoint s.live hI.live_sorted r (pg, page_size i) hr pp.live hne
  simp only at hd
  omega

theorem alloc_block_live_only (s : Heap) (g : Ghost) (L : List Nat) (len : Nat) (hI : Inv s g L)
    (hLO : LiveOnly s g L) (hu : usable_page_exist s (get_page_index len) = true) :
    LiveOnly (alloc_block s len).2 (alloc_ghost s g len) ((alloc_block s len).1 :: L) := by
  have hi := get_page_index_lt len
  obtain ⟨rest, b, fr, hx, -⟩ := alloc_pre s g L _ hI hi hu
  have hold : ∀ r ∈ s.live, (∃ i < 15, r.1 ∈ (alloc_ghost s g len).lists i) ∨
      r.1 + sizeof_MEM_BLOCK ∈ (alloc_block s len).1 :: L := by
    intro r hr
    rcases hLO r hr with ⟨j, hj, h⟩ | h
    · exact Or.inl ⟨j, hj, alloc_ghost_mem s g len rest hx j _ h⟩
    · exact Or.inr (List.mem_cons_of_mem _ h)
  by_cases he : is_ext (get_page_index len)
  · obtain ⟨e1, e2⟩ := alloc_block_ext_live s g L len hI hu he
    intro r hr
    rw [e2] at hr
    rcases List.mem_cons.1 hr with h | h
    · right
      rw [h, e1]
      exact List.mem_cons_self _ _
    · exact hold r h
  · obtain ⟨-, e2⟩ := alloc_block_slab_brk s g L len hI hu he
    intro r hr
    rw [e2] at hr
    exact hold r hr

theorem page_malloc_live_only (s : Heap) (g : Ghost) (L : List Nat) (i : Nat) (hI : Inv s g L)
    (hLO : LiveOnly s g L) (hi : i < 15) (hu : usable_page_exist s i = false)
    (hbrk : (mem_page_malloc s i false).2.brk ≤ 2 ^ 64) :
    LiveOnly (mem_page_malloc s i false).2 (page_ghost s g i) L := by
  have hlt : s.brk + page_size i < 2 ^ 64 := by
    rw [mem_page_malloc_brk s i hi] at hbrk
    omega
  obtain ⟨f1, f2, f3, f4, f5, f6, f7, f8, f9⟩ := page_malloc_pre_facts s g L i hI hi hlt
  have hl := (page_malloc_inv s g L i hI hi hu hbrk).2.2.2.1
  have hlive : (mem_page_malloc s i false).2.live = (s.brk, page_size i) :: s.live := by
    rw [mem_page_malloc_eq s g L i hI hi hu hlt]
    simp only [sel_setLink_live, sel_withLink_live]
    exact f9
  intro r hr
  rw [hlive] at hr
  rcases List.mem_cons.1 hr with h | h
  · left
    refine ⟨i, hi, ?_⟩
    rw [hl, h]
    exact List.mem_cons_self _ _
  · rcases hLO r h with ⟨j, hj, h'⟩ | h'
    · left
      refine ⟨j, hj, ?_⟩
      by_cases e : j = i
      · subst e; rw [hl]; exact List.mem_cons_of_mem _ h'
      · simp only [page_ghost, e, if_false]; exact h'
    · exact Or.inr h'

theorem mem_malloc_live_only (s : Heap) (g : Ghost) (L : List Nat) (len : Nat) (hI : Inv s g L)
    (hLO : LiveOnly s g L) (hbrk : (mem_malloc s len).2.brk ≤ 2 ^ 64) :
    LiveOnly (mem_malloc s len).2 (malloc_ghost s g len) ((mem_malloc s len).1 :: L) := by
  have hi := get_page_index_lt len
  cases hu : usable_page_exist s (get_page_index len) with
  | true =>
    rw [mem_malloc_eq_usable s len hu]
    simp only [malloc_ghost, hu, if_true]
    exact alloc_block_live_only s g L len hI hLO hu
  | false =>
    have hbrk' := hbrk
    rw [mem_malloc_eq_unusable s len hu] at hbrk' ⊢
    have hb1 : (mem_page_malloc s (get_page_index len) false).2.brk ≤ 2 ^ 64 :=
      Nat.le_trans (alloc_block_brk_le _ _) hbrk'
    obtain ⟨hI0, hu0, -⟩ := page_malloc_inv s g L _ hI hi hu hb1
    have h0 := page_malloc_live_only s g L _ hI hLO hi hu hb1
    simp only [malloc_ghost, hu, Bool.false_eq_true, if_false]
    exact alloc_block_live_only _ _ L len hI0 h0 hu0

theorem free_block_front_live (s : Heap) (i pg : Nat) :
    (free_block_front s i pg).live = s.live := by
  unfold free_block_front
  simp only
  split_ifs <;> rfl

theorem free_block_status_frees_keep (s : Heap) (i pg : Nat)
    (hk : ¬ ((s.page pg).using_count = 0 ∧
      (s.mem_page_map i).idle_num + 1 > MEM_PAGE_MAX_IDLE)) :
    free_block_status_frees s i pg = [] := by
  unfold free_block_status_frees
  simp only
  by_cases h1 : ((s.page pg).using_count : Int) = ((s.page pg).block_num : Int) - 1
  · simp only [h1, if_true, sel_setPage_page, sel_setPage_mem_page_map, sel_setLink_page,
      sel_setLink_mem_page_map]
    by_cases h2 : (s.page pg).using_count = 0
    · have h3 : ¬ (s.mem_page_map i).idle_num + 1 > MEM_PAGE_MAX_IDLE := fun h => hk ⟨h2, h⟩
      simp [h2, h3]
    · simp [h2]
  · simp only [h1, if_false, sel_setPage_page, sel_setPage_mem_page_map, sel_setLink_page,
      sel_setLink_mem_page_map]
    by_cases h2 : (s.page pg).using_count = 0
    · have h3 : ¬ (s.mem_page_map i).idle_num + 1 > MEM_PAGE_MAX_IDLE := fun h => hk ⟨h2, h⟩
      simp [h2, h3]
    · simp [h2]

/-- What `free_block` on an outstanding pointer does to the regions of the backing allocator,
and which calls of the library `free` it makes when the page is kept. -/
theorem free_block_live (s : Heap) (g : Ghost) (L : List Nat) (p : Nat) (hI : Inv s g L)
    (hp : p ∈ L) :
    (free_block s p false).live.Sublist s.live ∧
    (is_ext (get_page_index_ex s (s.block (p - sizeof_MEM_BLOCK)).page) →
      ∀ r ∈ (free_block s p false).live, r.1 ≠ p - sizeof_MEM_BLOCK) ∧
    (¬ ((s.page (s.block (p - sizeof_MEM_BLOCK)).page).using_count = 1 ∧
        (s.mem_page_map (get_page_index_ex s (s.block (p - sizeof_MEM_BLOCK)).page)).idle_num + 1
          > MEM_PAGE_MAX_IDLE) →
      (s.block (p - sizeof_MEM_BLOCK)).page
        ∈ (free_ghost s g p).lists (get_page_index_ex s (s.block (p - sizeof_MEM_BLOCK)).page) ∧
      (is_ext (get_page_index_ex s (s.block (p - sizeof_MEM_BLOCK)).page) →
        (free_block s p false).live = s.live.filter (fun r => r.1 ≠ p - sizeof_MEM_BLOCK) ∧
        free_block_frees s p false = [p - sizeof_MEM_BLOCK])) := by
  obtain ⟨i, pg, l1, l2, hi, hl, hpage, h16, hp0, hu, ha, hidx, hcase⟩ := free_pre s g L p hI hp
  have hmem : pg ∈ g.lists i := by rw [hl]; simp
  have pp := hI.pages i hi pg hmem
  have hfr : free_block_frees s p false =
      (if (s.page pg).type = MEM_PAGE_TYPE_ZERO ∨ (s.page pg).type = MEM_PAGE_TYPE_LARGE
        then [p - sizeof_MEM_BLOCK] else []) ++
      free_block_status_frees
        (free_block_front
          (free_block_idle (free_block_release s pg (p - sizeof_MEM_BLOCK)).2 pg
            (free_block_release s pg (p - sizeof_MEM_BLOCK)).1) i pg) i pg := by
    have hp0' : p ≠ 0 := by omega
    have hni : ¬ i > MEM_PAGE_BLOCK_INFO_COUNT - 1 := by
      simp only [MEM_PAGE_BLOCK_INFO_COUNT]; omega
    have hgb : get_block p false = p - sizeof_MEM_BLOCK := by
      simp [get_block, hp0', block_head_size]
    unfold free_block_frees
    simp only [hp0', if_false, hgb, hpage, hu, ha, false_or, hidx, hni]
  have hty : is_ext i →
      ((s.page pg).type = MEM_PAGE_TYPE_ZERO ∨ (s.page pg).type = MEM_PAGE_TYPE_LARGE) := by
    intro he
    rw [pp.type]
    rcases he with e | e
    · left; rw [e]; rfl
    · right; rw [e]; rfl
  have hs3 : is_ext i →
      (free_block_front
        (free_block_idle (free_block_release s pg (p - sizeof_MEM_BLOCK)).2 pg
          (free_block_release s pg (p - sizeof_MEM_BLOCK)).1) i pg).live
        = s.live.filter (fun r => r.1 ≠ p - sizeof_MEM_BLOCK) := by
    intro he
    rw [free_block_front_live]
    show (free_block_release s pg (p - sizeof_MEM_BLOCK)).2.live = _
    exact (free_block_release_ext s pg _ (hty he)).2.2.2.2.2.2.2
  rw [free_block_eq s p pg i h16 hpage hu ha hidx hi, hpage, hidx]
  have F : FreeStep s
      (free_block_front
        (free_block_idle (free_block_release s pg (p - sizeof_MEM_BLOCK)).2 pg
          (free_block_release s pg (p - sizeof_MEM_BLOCK)).1) i pg)
      g (free_ghost s g p) L p i pg l1 l2 := by
    rcases hcase with ⟨hne, k, hk, e, hnot⟩ | ⟨he, e⟩
    · exact free_step_slab s g L p i pg k l1 l2 hI hi hl hpage hu hidx hne hk e hnot
    · exact free_step_ext s g L p i pg l1 l2 hI hi hl hpage hu hidx he e
  obtain ⟨f1, f2, f3, f4, f5⟩ := free_status_frame s _ g _ L p i pg l1 l2 hI hi hl F
  have h1 := F.using_count
  have h2 := F.idle_num
  have h3 := F.live_sub
  have h4 := F.gli
  have h5 := F.ring
  have h6 := F.type
  have h7 := F.block_data
  have h8 := F.block_num
  have h9 := F.block_head
  generalize free_block_front
        (free_block_idle (free_block_release s pg (p - sizeof_MEM_BLOCK)).2 pg
          (free_block_release s pg (p - sizeof_MEM_BLOCK)).1) i pg = s3 at *
  have hiff : ((s3.page pg).using_count = 0 ∧
      (s3.mem_page_map i).idle_num + 1 > MEM_PAGE_MAX_IDLE) ↔
      ((s.page pg).using_count = 1 ∧ (s.mem_page_map i).idle_num + 1 > MEM_PAGE_MAX_IDLE) := by
    rw [h2]
    constructor
    · rintro ⟨a, b⟩; exact ⟨by omega, b⟩
    · rintro ⟨a, b⟩; exact ⟨by omega, b⟩
  have hsub : (free_block_status s3 i pg).live.Sublist s3.live := by
    by_cases hd : (s3.page pg).using_count = 0 ∧
        (s3.mem_page_map i).idle_num + 1 > MEM_PAGE_MAX_IDLE
    · have hidx3 : get_page_index_ex s3 pg = i := by
        rw [get_page_index_ex_congr s s3 pg h6 h7]; exact hidx
      have hring := hI.ring i hi
      rw [hl] at hring
      have hnd : (l1 ++ pg :: l2).Nodup := hring.2.2.2.1
      have hpl : pg ∉ l1 ++ l2 := by
        have n1 := (List.nodup_append.1 hnd)
        have n2 := (List.nodup_cons.1 n1.2.1).1
        intro h
        rcases List.mem_append.1 h with h | h
        · exact n1.2.2 h (List.mem_cons_self _ _)
        · exact n2 h
      have hsubl : ∀ x ∈ l1 ++ l2, x ∈ g.lists i := by
        intro x h
        rw [hl]
        rcases List.mem_append.1 h with h | h
        · exact List.mem_append_left _ h
        · exact List.mem_append_right _ (List.mem_cons_of_mem _ h)
      obtain ⟨-, -, -, -, -, d6⟩ := free_block_status_destroy s3 i pg (l1 ++ l2) hi h5
        hidx3 (by rw [h8, pp.block_num]) (by rw [h7, pp.block_data])
        (by rw [h9, pp.block_head])
        (fun x hx => page_not_in_other s g L hI i i pg x hi hi hmem (hsubl x hx)
          (fun e => hpl (e ▸ hx)))
        hd.1 hd.2
      rw [d6]
      exact List.filter_sublist _
    · rw [(f4 hd).2.2]
  refine ⟨hsub.trans h3, ?_, ?_⟩
  · intro he r hr
    have := hsub.subset hr
    rw [hs3 he] at this
    simpa using (List.mem_filter.1 this).2
  · intro hk
    have hk3 := fun h => hk (hiff.1 h)
    refine ⟨?_, fun he => ⟨?_, ?_⟩⟩
    · rw [h4, if_neg hk3]
      exact List.mem_cons_self _ _
    · rw [(f4 hk3).2.2, hs3 he]
    · rw [hfr, if_pos (hty he), free_block_status_frees_keep s3 i pg hk3]
      rfl

theorem free_block_live_only (s : Heap) (g : Ghost) (L : List Nat) (p : Nat) (hI : Inv s g L)
    (hLO : LiveOnly s g L) (hp : p ∈ L) :
    LiveOnly (free_block s p false) (free_ghost s g p) (L.erase p) := by
  obtain ⟨i, pg, l1, l2, hi, hl, hpage, h16, hp0, hu, ha, hidx, hcase⟩ := free_pre s g L p hI hp
  have hmem : pg ∈ g.lists i := by rw [hl]; simp
  obtain ⟨v1, v2, v3⟩ := free_block_live s g L p hI hp
  obtain ⟨-, -, f3, -, -⟩ := free_block_frame s g L p hI hp
  rw [hpage, hidx] at v2 v3 f3
  have e16 : sizeof_MEM_BLOCK = 16 := rfl
  intro r hr
  have hrs := v1.subset hr
  rcases hLO r hrs with ⟨j, hj, hb⟩ | hL
  · left
    by_cases e : r.1 = pg
    · by_cases hd : (s.page pg).using_count = 1 ∧
          (s.mem_page_map i).idle_num + 1 > MEM_PAGE_MAX_IDLE
      · exact absurd e ((f3 hd).1 r hr)
      · exact ⟨i, hi, e ▸ (v3 hd).1⟩
    · exact ⟨j, hj, free_ghost_keeps s g p j r.1 hb (by rw [hpage]; exact e)⟩
  · right
    by_cases e : r.1 + sizeof_MEM_BLOCK = p
    · exfalso
      have er : r.1 = p - sizeof_MEM_BLOCK := by omega
      rcases hcase with ⟨hne, k, hk, ep, hnot⟩ | ⟨he, ep⟩
      · have hb := block_addr_bound pg i k hi hk
        have := live_in_page s g L hI i pg hi hmem r hrs (by omega)
        omega
      · exact v2 he r hr er
    · exact (List.mem_erase_of_ne e).2 hL

theorem page_free_live_only (s : Heap) (g : Ghost) (L : List Nat) (i a : Nat)
    (rest : List Nat) (hI : Inv s g L) (hLO : LiveOnly s g L) (hi : i < 15)
    (hl : g.lists i = a :: rest) (hc : is_ext i → (s.page a).using_count = 0) :
    LiveOnly (mem_page_free s a).2 (drop_ghost g i)
      (L.filter (fun p => !decide ((s.block (p - sizeof_MEM_BLOCK)).page = a))) := by
  obtain ⟨-, hlive, -⟩ := page_free_inv s g L i a rest hI hi hl
  have ha : a ∈ g.lists i := by rw [hl]; exact List.mem_cons_self _ _
  have e16 : sizeof_MEM_BLOCK = 16 := rfl
  intro r hr
  rw [hlive] at hr
  obtain ⟨hrs, hne⟩ := List.mem_filter.1 hr
  have hne' : r.1 ≠ a := by simpa using hne
  rcases hLO r hrs with ⟨j, hj, hb⟩ | hL
  · left
    refine ⟨j, hj, ?_⟩
    by_cases e : j = i
    · subst e
      rw [hl] at hb
      simp only [drop_ghost, if_true, hl, List.tail_cons]
      rcases List.mem_cons.1 hb with h | h
      · exact absurd h hne'
      · exact h
    · simp only [drop_ghost, e, if_false]; exact hb
  · right
    apply List.mem_filter.2 ⟨hL, ?_⟩
    simp only [Bool.not_eq_true', decide_eq_false_iff_not]
    intro hpg
    obtain ⟨h16, i', hi', a', ha', hpage, hcase⟩ := hI.out _ hL
    have ea : a' = a := by rw [← hpage, hpg]
    rw [ea] at ha' hcase
    have e : i' = i := class_unique s g L hI i' i _ hi' hi ha' ha
    rw [e] at hcase
    rcases hcase with ⟨hn, k, hk, ep, -⟩ | ⟨he, hu, -⟩
    · have hb := block_addr_bound a i k hi hk
      have := live_in_page s g L hI i a hi ha r hrs (by omega)
      omega
    · exact hu (hc he)

/-- Every reachable state satisfies the invariant, and all that the backing allocator has
handed out are the pages of the class lists and the external buffers in use. -/
theorem reach_live (s : Heap) (L : List Nat) (h : Reach s L) :
    ∃ g, Inv s g L ∧ LiveOnly s g L := by
  induction h with
  | start => exact ⟨_, Inv_start, fun r hr => by cases hr⟩
  | malloc s L len _ hlen hbrk ih =>
    obtain ⟨g, hI, hLO⟩ := ih
    exact ⟨_, mem_malloc_inv s g L len hI hlen hbrk, mem_malloc_live_only s g L len hI hLO hbrk⟩
  | free s L p _ hp ih =>
    obtain ⟨g, hI, hLO⟩ := ih
    refine ⟨_, mem_free_inv s g L p hI hp, ?_⟩
    obtain ⟨h16, -⟩ := hI.out p hp
    have hp0 : p ≠ 0 := by
      have e16 : sizeof_MEM_BLOCK = 16 := rfl
      omega
    unfold mem_free
    rw [if_neg hp0]
    exact free_block_live_only s g L p hI hLO hp
  | realloc s L p len _ hp hlen hbrk ih =>
    obtain ⟨g, hI, hLO⟩ := ih
    have hp0 : p ≠ 0 := by
      have := out_gt s g L p hI hp
      have e16 : sizeof_MEM_BLOCK = 16 := rfl
      omega
    by_cases hc : get_addr_block_len s p false < toInt32 (len : Int) ∨
        get_page_index (toSizeT (get_addr_block_len s p false)) > get_page_index len
    · obtain ⟨hb1, hq, hqp, hI1, hI2, e, h⟩ :=
        mem_realloc_move_inv s g L p len hI hp hlen hbrk hc
      have : realloc_out L p (mem_realloc s p len).1 = (mem_malloc s len).1 :: L.erase p := by
        rw [e]
        simp only [realloc_out, hqp, hq, or_self, if_false]
      rw [this]
      refine ⟨_, h, ?_⟩
      have h1 := mem_malloc_live_only s g L len hI hLO hb1
      have h2 : LiveOnly ((mem_malloc s len).2.memcpy (mem_malloc s len).1 p
          (min (user_size s g p) len)) (malloc_ghost s g len) ((mem_malloc s len).1 :: L) := h1
      have h3 := free_block_live_only _ _ _ p hI2 h2 (List.mem_cons_of_mem _ hp)
      rw [e]
      have e2 : ((mem_malloc s len).1 :: L).erase p = (mem_malloc s len).1 :: L.erase p := by
        rw [List.erase_cons_tail]
        simpa using hqp
      rw [e2] at h3
      exact h3
    · refine ⟨g, ?_, ?_⟩
      · rw [mem_realloc_stay s p len hp0 hc]
        have : realloc_out L p
            (if get_page_index (toSizeT (get_addr_block_len s p false)) = get_page_index len
              then p else 0) = L := by
          unfold realloc_out
          split_ifs <;> simp_all
        rw [this]
        exact hI
      · rw [mem_realloc_stay s p len hp0 hc]
        have : realloc_out L p
            (if get_page_index (toSizeT (get_addr_block_len s p false)) = get_page_index len
              then p else 0) = L := by
          unfold realloc_out
          split_ifs <;> simp_all
        rw [this]
        exact hLO
  | write s L p off v _ hp hoff _ ih =>
    obtain ⟨g, hI, hLO⟩ := ih
    exact ⟨g, write_inv s g L p off v hI hp hoff, hLO⟩
  | dirty s L d _ _ ih =>
    obtain ⟨g, hI, hLO⟩ := ih
    exact ⟨g, dirty_inv s d g L hI, hLO⟩

theorem ext_type_iff (i : Nat) (hi : i < 15) :
    ((page_info i).page_type = MEM_PAGE_TYPE_ZERO ∨ (page_info i).page_type = MEM_PAGE_TYPE_LARGE)
      ↔ is_ext i := by
  interval_cases i <;>
    simp [page_info, mem_page_info_list, is_ext, MEM_PAGE_BLOCK_INFO_COUNT, MEM_PAGE_TYPE_ZERO,
      MEM_PAGE_TYPE_LARGE, MEM_PAGE_TYPE_1K, MEM_PAGE_TYPE_2K, MEM_PAGE_TYPE_4K]

theorem live_addr_nodup (l : List (Nat × Nat)) (h : l.Pairwise (fun x y => y.1 + y.2 < x.1)) :
    (l.map Prod.fst).Nodup := by
  rw [List.Nodup, List.pairwise_map]
  exact h.imp (fun {x y} hxy => by omega)

/-- Releasing a live region takes its address out of the list of live addresses. -/
theorem live_perm (l : List (Nat × Nat)) (h : l.Pairwise (fun x y => y.1 + y.2 < x.1))
    (a n : Nat) (ha : (a, n) ∈ l) :
    (l.map Prod.fst).Perm (a :: (l.filter (fun r => r.1 ≠ a)).map Prod.fst) := by
  have hnd := live_addr_nodup l h
  have hm : a ∈ l.map Prod.fst := List.mem_map.2 ⟨(a, n), ha, rfl⟩
  have e : (l.filter (fun r => r.1 ≠ a)).map Prod.fst = (l.map Prod.fst).erase a := by
    rw [hnd.erase_eq_filter, List.filter_map]
    apply congrArg (List.map Prod.fst)
    apply List.filter_congr
    intro x _
    show decide (x.1 ≠ a) = (x.1 != a)
    by_cases e : x.1 = a <;> simp [e]
  rw [e]
  exact List.perm_cons_erase hm

theorem mem_page_free_frees_eq (s : Heap) (a i : Nat) (ha : a ≠ 0)
    (hidx : get_page_index_ex s a = i) (hi : i < 15) : mem_page_free_frees s a = [a] := by
  have hni : ¬ i > MEM_PAGE_BLOCK_INFO_COUNT - 1 := by
    simp only [MEM_PAGE_BLOCK_INFO_COUNT]; omega
  simp only [mem_page_free_frees, ha, if_false, hidx, hni]

/-- Destroying the head page of a class list that holds no external buffer. -/
theorem clear_page_spec (s : Heap) (g : Ghost) (L : List Nat) (i a : Nat) (rest : List Nat)
    (hI : Inv s g L) (hLO : LiveOnly s g L) (hi : i < 15) (hl : g.lists i = a :: rest)
    (hc : is_ext i → (s.page a).using_count = 0) :
    ∃ g' L', Inv (mem_page_free s a).2 g' L' ∧ LiveOnly (mem_page_free s a).2 g' L' ∧
      g'.lists i = rest ∧ (∀ j, j ≠ i → g'.lists j = g.lists j) ∧
      (s.live.map Prod.fst).Perm
        (mem_page_free_frees s a ++ (mem_page_free s a).2.live.map Prod.fst) := by
  have ha : a ∈ g.lists i := by rw [hl]; exact List.mem_cons_self _ _
  have pa := hI.pages i hi a ha
  have hab := pages_lt_brk s g L hI i a hi ha
  have ha0 : a ≠ 0 := by omega
  have hidx := page_index_ex_of_ok s g L i a hi pa ha0
  obtain ⟨h1, h2, -⟩ := page_free_inv s g L i a rest hI hi hl
  refine ⟨_, _, h1, page_free_live_only s g L i a rest hI hLO hi hl hc, ?_, ?_, ?_⟩
  · simp [drop_ghost, hl]
  · intro j hj; simp [drop_ghost, hj]
  · rw [mem_page_free_frees_eq s a i ha0 hidx hi, h2]
    exact live_perm s.live hI.live_sorted a _ pa.live

/-- Lines 432-443 of `clear_mem_pages` on the head page `a` of class list `i`: only a ZERO/LARGE
page in use holds the address of an external buffer, which goes to `free_block`. -/
theorem clear_ext_eq (s : Heap) (g : Ghost) (L : List Nat) (i a : Nat) (rest : List Nat)
    (hI : Inv s g L) (hi : i < 15) (hl : g.lists i = a :: rest) :
    (¬ (is_ext i ∧ (s.page a).using_count ≠ 0) →
      clear_ext s i = s ∧ clear_ext_frees s i = []) ∧
    ((is_ext i ∧ (s.page a).using_count ≠ 0) →
      clear_ext s i = free_block s
        (MEM_TO_ADDR s (a + sizeof_MEM_PAGE + sizeof_MEM_BLOCK) + sizeof_MEM_BLOCK) false ∧
      clear_ext_frees s i = free_block_frees s
        (MEM_TO_ADDR s (a + sizeof_MEM_PAGE + sizeof_MEM_BLOCK) + sizeof_MEM_BLOCK) false) := by
  have ha : a ∈ g.lists i := by rw [hl]; exact List.mem_cons_self _ _
  have pa := hI.pages i hi a ha
  have hring := hI.ring i hi
  rw [hl] at hring
  have hhead : (s.mem_page_map i).head = a := (RingOK_cons_facts _ _ _ _ hring).1
  have hty := ext_type_iff i hi
  rw [← pa.type] at hty
  have fi := page_info_facts i hi
  have e16 : sizeof_MEM_BLOCK = 16 := rfl
  have e48 : sizeof_MEM_PAGE = 48 := rfl
  constructor
  · intro hn
    by_cases he : is_ext i
    · have hu : (s.page a).using_count = 0 := by
        by_contra h; exact hn ⟨he, h⟩
      have hlen := pa.fl_len
      rw [hu, (fi.2.2.2.2.2.2.1 he).1] at hlen
      have hw : MEM_TO_ADDR s (a + sizeof_MEM_PAGE + sizeof_MEM_BLOCK) = 0 := by
        have hch := pa.chain
        have hbl := pa.fl_blocks
        match hfl : g.fl a, hlen, hch, hbl with
        | [], h, _, _ => simp at h
        | [b], _, hch, hbl =>
          obtain ⟨k, hk, e⟩ := hbl b (List.mem_singleton.2 rfl)
          rw [(fi.2.2.2.2.2.2.1 he).1] at hk
          have hk0 : k = 0 := by omega
          subst hk0
          simp only [block_addr, Nat.zero_mul, Nat.add_zero] at e
          rw [e] at hch
          exact hch.1
        | _ :: _ :: _, h, _, _ => simp at h
      simp only [clear_ext, clear_ext_frees, hhead, hty.2 he, if_true, pa.block_head, hw,
        ne_eq, not_true_eq_false, if_false, and_self]
    · have hnt : ¬ ((s.page a).type = MEM_PAGE_TYPE_ZERO ∨
          (s.page a).type = MEM_PAGE_TYPE_LARGE) := fun h => he (hty.1 h)
      simp only [clear_ext, clear_ext_frees, hhead]
      rw [if_neg hnt, if_neg hnt]
      exact ⟨rfl, rfl⟩
  · rintro ⟨he, hu⟩
    have hx := pa.ext_used he hu
    have hw := (hI.live_brk _ hx.live).1
    simp only at hw
    have hw0 : MEM_TO_ADDR s (a + sizeof_MEM_PAGE + sizeof_MEM_BLOCK) ≠ 0 := by omega
    simp only [clear_ext, clear_ext_frees, hhead, hty.2 he, if_true, pa.block_head, hw0,
      ne_eq, not_false_eq_true, not_true_eq_false, decide_False, and_self]

/-- One pass of the loop of `clear_mem_pages` on a non-empty class list: the head page and the
external buffer it may hold are released, each by one call of `free`, and the rest of the list
stays in order. -/
theorem clear_step_spec (s : Heap) (g : Ghost) (L : List Nat) (i a : Nat) (rest : List Nat)
    (hI : Inv s g L) (hLO : LiveOnly s g L) (hi : i < 15) (hl : g.lists i = a :: rest) :
    ∃ g' L', Inv (clear_step s i) g' L' ∧ LiveOnly (clear_step s i) g' L' ∧
      g'.lists i = rest ∧ (∀ j, j ≠ i → g'.lists j = g.lists j) ∧
      (s.live.map Prod.fst).Perm
        (clear_step_frees s i ++ (clear_step s i).live.map Prod.fst) := by
  have ha : a ∈ g.lists i := by rw [hl]; exact List.mem_cons_self _ _
  have pa := hI.pages i hi a ha
  have hring := hI.ring i hi
  rw [hl] at hring
  have hhead : (s.mem_page_map i).head = a := (RingOK_cons_facts _ _ _ _ hring).1
  obtain ⟨c1, c2⟩ := clear_ext_eq s g L i a rest hI hi hl
  have fi := page_info_facts i hi
  have e16 : sizeof_MEM_BLOCK = 16 := rfl
  by_cases hx : is_ext i ∧ (s.page a).using_count ≠ 0
  · obtain ⟨he, hu⟩ := hx
    obtain ⟨ce, cf⟩ := c2 ⟨he, hu⟩
    have px := pa.ext_used he hu
    have hpL := px.out
    have hpage : (s.block (MEM_TO_ADDR s (a + sizeof_MEM_PAGE + sizeof_MEM_BLOCK)
        + sizeof_MEM_BLOCK - sizeof_MEM_BLOCK)).page = a := by
      rw [Nat.add_sub_cancel, px.hdr]
    have ha0 : a ≠ 0 := by
      have := pages_lt_brk s g L hI i a hi ha
      omega
    have hidx := page_index_ex_of_ok s g L i a hi pa ha0
    have hu1 := (ext_one_block s g L i a hi he pa hu).1
    have hst : (s.page a).status = MEM_PAGE_STATUS_FULL := by
      rw [pa.status, hu1, (fi.2.2.2.2.2.2.1 he).1]
      rfl
    have hcnt : (g.lists i).countP (fun b => (s.page b).status = MEM_PAGE_STATUS_IDLE) = 0 := by
      rw [List.countP_eq_zero]
      intro b hb
      have hfs := hI.full_suffix i hi
      rw [hl] at hfs hb
      have hbf : (s.page b).status = MEM_PAGE_STATUS_FULL := by
        rcases List.mem_cons.1 hb with e | e
        · rw [e]; exact hst
        · exact (List.pairwise_cons.1 hfs).1 b e hst
      simp only [decide_eq_true_eq, hbf]
      decide
    have hidle : (s.mem_page_map i).idle_num = 0 := by
      rw [hI.idle_num i hi, hcnt]; rfl
    have hkeep : ¬ ((s.page a).using_count = 1 ∧
        (s.mem_page_map i).idle_num + 1 > MEM_PAGE_MAX_IDLE) := by
      rw [hidle]
      intro h
      exact absurd h.2 (by decide)
    have hI1 := free_block_inv s g L _ hI hpL
    have hLO1 := free_block_live_only s g L _ hI hLO hpL
    obtain ⟨-, -, v3⟩ := free_block_live s g L _ hI hpL
    obtain ⟨-, -, -, f4, -⟩ := free_block_frame s g L _ hI hpL
    rw [hpage, hidx] at v3 f4
    obtain ⟨v4, v5⟩ := (v3 hkeep).2 he
    have hu0 := f4 hkeep
    rw [hu1] at hu0
    obtain ⟨g1, g2, -⟩ := free_ghost_facts s g _ i a [] rest hpage hidx
      (by rw [hl]; rfl) (by simpa using hring.2.2.2.1)
    rw [if_neg hkeep] at g2
    simp only [List.nil_append] at g2
    rw [Nat.add_sub_cancel] at v4 v5
    have hring1 := hI1.ring i hi
    rw [g2] at hring1
    have hhead1 := (RingOK_cons_facts _ _ _ _ hring1).1
    obtain ⟨g', L', k1, k2, k3, k4, k5⟩ := clear_page_spec _ _ _ i a rest hI1 hLO1 hi g2
      (fun _ => by omega)
    refine ⟨g', L', ?_, ?_, k3, fun j hj => (k4 j hj).trans (g1 j hj), ?_⟩
    · simp only [clear_step, ce, hhead1]; exact k1
    · simp only [clear_step, ce, hhead1]; exact k2
    · simp only [clear_step, clear_step_frees, ce, cf, hhead1, v5]
      have p1 := live_perm s.live hI.live_sorted _ _ px.live
      rw [← v4] at p1
      refine p1.trans ?_
      simp only [List.singleton_append, List.cons_append]
      exact List.Perm.cons _ k5
  · obtain ⟨ce, cf⟩ := c1 hx
    have hc : is_ext i → (s.page a).using_count = 0 := by
      intro he
      by_contra h
      exact hx ⟨he, h⟩
    obtain ⟨g', L', k1, k2, k3, k4, k5⟩ := clear_page_spec s g L i a rest hI hLO hi hl hc
    refine ⟨g', L', ?_, ?_, k3, k4, ?_⟩
    · simp only [clear_step, ce, hhead]; exact k1
    · simp only [clear_step, ce, hhead]; exact k2
    · simp only [clear_step, clear_step_frees, ce, cf, hhead, List.nil_append]; exact k5

/-- The loop of `clear_mem_pages` for class list `i` ends after as many passes as the list has
pages and leaves the list empty; the other lists are untouched. -/
theorem clear_class_spec (i : Nat) (hi : i < 15) :
    ∀ (n fuel : Nat) (s : Heap) (g : Ghost) (L : List Nat), Inv s g L → LiveOnly s g L →
      (g.lists i).length = n → n ≤ fuel →
      ∃ t g' L', clear_class fuel s i = some t ∧ Inv t g' L' ∧ LiveOnly t g' L' ∧
        g'.lists i = [] ∧ (∀ j, j ≠ i → g'.lists j = g.lists j) ∧
        (s.live.map Prod.fst).Perm (clear_class_frees fuel s i ++ t.live.map Prod.fst) := by
  intro n
  induction n with
  | zero =>
    intro fuel s g L hI hLO hn _
    have hnil : g.lists i = [] := List.length_eq_zero.1 hn
    have hc := (hI.ring i hi).1
    rw [hnil] at hc
    have hc0 : ¬ (s.mem_page_map i).count > 0 := by
      have : (s.mem_page_map i).count = 0 := by simpa using hc
      omega
    refine ⟨s, g, L, ?_, hI, hLO, hnil, fun _ _ => rfl, ?_⟩
    · cases fuel <;> simp only [clear_class, hc0, if_false]
    · cases fuel <;> simp [clear_class_frees, hc0]
  | succ n ih =>
    intro fuel s g L hI hLO hn hf
    match hl : g.lists i, hn with
    | [], h => simp at h
    | a :: rest, h =>
      have hrest : rest.length = n := by simpa using h
      have hc := (hI.ring i hi).1
      rw [hl] at hc
      have hc0 : (s.mem_page_map i).count > 0 := by
        have : (s.mem_page_map i).count = ((a :: rest).length : Int) := hc
        rw [this]
        simp only [List.length_cons]
        omega
      obtain ⟨f, rfl⟩ : ∃ f, fuel = f + 1 := ⟨fuel - 1, by omega⟩
      obtain ⟨g1, L1, hI1, hLO1, hl1, ho1, hp1⟩ := clear_step_spec s g L i a rest hI hLO hi hl
      obtain ⟨t, g2, L2, e2, hI2, hLO2, hl2, ho2, hp2⟩ :=
        ih f (clear_step s i) g1 L1 hI1 hLO1 (by rw [hl1]; exact hrest) (by omega)
      refine ⟨t, g2, L2, ?_, hI2, hLO2, hl2, fun j hj => (ho2 j hj).trans (ho1 j hj), ?_⟩
      · simp only [clear_class, hc0, if_true]; exact e2
      · simp only [clear_class_frees, hc0, if_true, List.append_assoc]
        exact hp1.trans (List.Perm.append_left _ hp2)

theorem setLink_self (s : Heap) (i : Nat) : s.setLink i (s.mem_page_map i) = s := by
  cases s
  simp only [Heap.setLink, Heap.mk.injEq, true_and, and_true]
  funext x
  split_ifs with h
  · rw [h]
  · rfl

/-- After its loop the entry of a class list is already in the reset state. -/
theorem clear_reset_self (s : Heap) (g : Ghost) (L : List Nat) (i : Nat) (hI : Inv s g L)
    (hi : i < 15) (hl : g.lists i = []) :
    s.mem_page_map i = ⟨⟨0, 0, 0⟩, 0⟩ ∧ clear_reset s i = s := by
  obtain ⟨h1, h2, h3, -⟩ := hI.ring i hi
  have h4 := hI.idle_num i hi
  rw [hl] at h1 h2 h3 h4
  have e : s.mem_page_map i = ⟨⟨0, 0, 0⟩, 0⟩ := by
    match hm : s.mem_page_map i, h1, h2, h3, h4 with
    | ⟨⟨hd, tl, c⟩, n⟩, h1, h2, h3, h4 =>
      simp only [firstD, lastD, List.length_nil, List.countP_nil] at h1 h2 h3 h4
      simp only [MEM_PAGE_LINK.mk.injEq, LINK.mk.injEq]
      exact ⟨⟨h2, h3, by simpa using h1⟩, by simpa using h4⟩
  refine ⟨e, ?_⟩
  have : clear_reset s i = s.setLink i (s.mem_page_map i) := by
    unfold clear_reset
    rw [e]
    rfl
  rw [this, setLink_self]

/-- The `for` loop of `clear_mem_pages` over a list of class indices empties each of them. -/
theorem clear_list_spec (fuel : Nat) :
    ∀ (is : List Nat) (s : Heap) (g : Ghost) (L : List Nat), Inv s g L → LiveOnly s g L →
      (∀ j ∈ is, j < 15) → (∀ j ∈ is, (g.lists j).length ≤ fuel) →
      ∃ t g' L', clear_list fuel is s = some t ∧ Inv t g' L' ∧ LiveOnly t g' L' ∧
        (∀ j ∈ is, g'.lists j = []) ∧ (∀ j, j ∉ is → g'.lists j = g.lists j) ∧
        (s.live.map Prod.fst).Perm (clear_list_frees fuel is s ++ t.live.map Prod.fst) := by
  intro is
  induction is with
  | nil =>
    intro s g L hI hLO _ _
    refine ⟨s, g, L, rfl, hI, hLO, ?_, fun _ _ => rfl, ?_⟩
    · intro j hj
      cases hj
    · simp [clear_list_frees]
  | cons i is ih =>
    intro s g L hI hLO h15 hf
    have hi := h15 i (List.mem_cons_self _ _)
    obtain ⟨t1, g1, L1, e1, hI1, hLO1, hl1, ho1, hp1⟩ :=
      clear_class_spec i hi _ fuel s g L hI hLO rfl (hf i (List.mem_cons_self _ _))
    obtain ⟨-, hr⟩ := clear_reset_self t1 g1 L1 i hI1 hi hl1
    obtain ⟨t, g2, L2, e2, hI2, hLO2, hl2, ho2, hp2⟩ :=
      ih t1 g1 L1 hI1 hLO1 (fun j hj => h15 j (List.mem_cons_of_mem _ hj)) (by
        intro j hj
        by_cases e : j = i
        · rw [e, hl1]; exact Nat.zero_le _
        · rw [ho1 j e]; exact hf j (List.mem_cons_of_mem _ hj))
    refine ⟨t, g2, L2, ?_, hI2, hLO2, ?_, ?_, ?_⟩
    · simp only [clear_list, e1, hr]; exact e2
    · intro j hj
      by_cases hm : j ∈ is
      · exact hl2 j hm
      · have e : j = i := by
          rcases List.mem_cons.1 hj with h | h
          · exact h
          · exact absurd h hm
        rw [ho2 j hm, e, hl1]
    · intro j hj
      have h1 : j ∉ is := fun h => hj (List.mem_cons_of_mem _ h)
      have h2 : j ≠ i := fun h => hj (h ▸ List.mem_cons_self _ _)
      rw [ho2 j h1, ho1 j h2]
    · simp only [clear_list_frees, e1, hr, List.append_assoc]
      exact hp1.trans (List.Perm.append_left _ hp2)

/-! ## The entry points in reachable states -/

/-- Requests whose size does not wrap (the in-range part of C4): in every state reachable from
start, when the backing allocator succeeds, `mem_malloc len` returns a non-null pointer for
every `len` with `sizeof(MEM_BLOCK) + len < 2 ^ 64` (also `len = 0`, which is routed to class 0,
the ZERO list); the block header found `sizeof(MEM_BLOCK)` below the returned pointer names a
live page whose `head_addr` is the page itself and which is a member of class list
`get_page_index len`. -/
theorem mem_malloc_returns_block (s : Heap) (L : List Nat) (len : Nat) (hR : Reach s L)
    (_hsize : sizeof_MEM_BLOCK + len < SIZE_MOD)
    (hbrk : (mem_malloc s len).2.brk ≤ 2 ^ 64) :
    (mem_malloc s len).1 ≠ 0 ∧
    (((mem_malloc s len).2.block (get_block (mem_malloc s len).1 false)).page,
        page_size (get_page_index len)) ∈ (mem_malloc s len).2.live ∧
    ((mem_malloc s len).2.page
        ((mem_malloc s len).2.block (get_block (mem_malloc s len).1 false)).page).head_addr
      = ((mem_malloc s len).2.block (get_block (mem_malloc s len).1 false)).page ∧
    ((mem_malloc s len).2.block (get_block (mem_malloc s len).1 false)).page
      ∈ (mem_malloc s len).2.class_pages (get_page_index len) ∧
    get_page_index 0 = 0 := by
  obtain ⟨g, hI⟩ := reach_inv s L hR
  obtain ⟨h1, h2, h3, h4⟩ := mem_malloc_post s g L len hI hbrk
  exact ⟨h1, h2, h3, h4, by decide⟩

set_option maxRecDepth 100000 in
theorem mem_malloc_returns_block_witness :
    (mem_malloc Heap.start 0).2.brk ≤ 2 ^ 64 ∧
    ((mem_malloc Heap.start 0).1 ≠ 0 ∧
    (((mem_malloc Heap.start 0).2.block (get_block (mem_malloc Heap.start 0).1 false)).page,
        page_size (get_page_index 0)) ∈ (mem_malloc Heap.start 0).2.live ∧
    ((mem_malloc Heap.start 0).2.page
        ((mem_malloc Heap.start 0).2.block
          (get_block (mem_malloc Heap.start 0).1 false)).page).head_addr
      = ((mem_malloc Heap.start 0).2.block (get_block (mem_malloc Heap.start 0).1 false)).page ∧
    ((mem_malloc Heap.start 0).2.block (get_block (mem_malloc Heap.start 0).1 false)).page
      ∈ (mem_malloc Heap.start 0).2.class_pages (get_page_index 0) ∧
    get_page_index 0 = 0) :=
  ⟨by decide, mem_malloc_returns_block Heap.start [] 0 Reach.start (by decide) (by decide)⟩

set_option maxRecDepth 100000 in
/-- C4: evaluation at the failing input. On a fresh allocator `mem_malloc(2^64 - 1)` is routed
to class LARGE, where `alloc_block` computes `size = sizeof(MEM_BLOCK) + len` in `size_t`: the
sum wraps to 15, so the buffer obtained from the backing allocator has 15 bytes, fewer than the
block header alone, and the `memset` of `len = 2^64 - 1` bytes that follows starts at its end.
The C code has no defined result there and returns no block. -/
theorem mem_malloc_size_wraps :
    get_page_index (2 ^ 64 - 1) = MEM_PAGE_BLOCK_INFO_COUNT - 1 ∧
    (sizeof_MEM_BLOCK + (2 ^ 64 - 1)) % SIZE_MOD = 15 ∧
    ((mem_malloc Heap.start (2 ^ 64 - 1)).1 - sizeof_MEM_BLOCK, 15)
      ∈ (mem_malloc Heap.start (2 ^ 64 - 1)).2.live ∧
    15 < sizeof_MEM_BLOCK := by
  decide

/-- C6: every block `alloc_block` returns is zero-filled: all `block_size` bytes of the data
area for a slab class, all `len` requested bytes for ZERO/LARGE. The call is made in a state `t`
that is a reachable state `s` or, as in `mem_malloc` and `mem_realloc`, the state after
`mem_page_malloc` added a page to the class of `len` because `s` had no usable one. The block
may have held user data and a freelist link before, and the memory the backing allocator hands
out holds arbitrary contents. A block is returned when the result is not null (`hret`) and the
buffer size `sizeof(MEM_BLOCK) + len` does not wrap (`hsize`). -/
theorem alloc_block_zero_filled (s : Heap) (L : List Nat) (len : Nat) (hR : Reach s L)
    (_hsize : sizeof_MEM_BLOCK + len < SIZE_MOD) (t : Heap)
    (ht : t = s ∨
      (usable_page_exist s (get_page_index len) = false ∧
        (mem_page_malloc s (get_page_index len) false).2.brk ≤ 2 ^ 64 ∧
        t = (mem_page_malloc s (get_page_index len) false).2))
    (hret : (alloc_block t len).1 ≠ 0) (x : Nat) (h1 : (alloc_block t len).1 ≤ x)
    (h2 : x < (alloc_block t len).1 +
      (if is_ext (get_page_index len) then len
        else (page_info (get_page_index len)).block_size)) :
    (alloc_block t len).2.byte x = 0 := by
  obtain ⟨g, hI⟩ := reach_inv s L hR
  rcases ht with e | ⟨hu, hbrk, e⟩
  · subst e
    exact alloc_block_zero t g L len hI (alloc_block_usable t len hret) x h1 h2
  · subst e
    obtain ⟨hI1, -⟩ := page_malloc_inv s g L _ hI (get_page_index_lt len) hu hbrk
    exact alloc_block_zero _ _ L len hI1 (alloc_block_usable _ len hret) x h1 h2

set_option maxRecDepth 100000 in
theorem alloc_block_zero_filled_witness :
    (MEM_TO_ADDR reused_block_state (mem_malloc Heap.start 16).1 ≠ 0 ∧
      (alloc_block reused_block_state 16).1 = (mem_malloc Heap.start 16).1 ∧
      (alloc_block reused_block_state 16).2.byte (alloc_block reused_block_state 16).1 = 0) ∧
    (is_ext (get_page_index 1000) ∧
      (mem_malloc dirty_start 1000).1
        = (alloc_block (mem_page_malloc dirty_start (get_page_index 1000) false).2 1000).1 ∧
      dirty_start.byte ((mem_malloc dirty_start 1000).1 + 999) = 255 ∧
      (alloc_block (mem_page_malloc dirty_start (get_page_index 1000) false).2 1000).2.byte
        ((alloc_block (mem_page_malloc dirty_start (get_page_index 1000) false).2 1000).1 + 999)
          = 0) :=
  ⟨⟨by decide, by decide,
    alloc_block_zero_filled reused_block_state _ 16
      (Reach.free _ _ (mem_malloc Heap.start 16).1
        (Reach.write _ _ (mem_malloc Heap.start 16).1 0 255
          (Reach.malloc Heap.start [] 16 Reach.start (by decide) (by decide))
          (by decide) (by decide) (by decide))
        (by decide))
      (by decide) reused_block_state (Or.inl rfl) (by decide)
      (alloc_block reused_block_state 16).1 (le_refl _) (by decide)⟩,
   ⟨by decide, by decide, by decide,
    alloc_block_zero_filled dirty_start [] 1000
      (Reach.dirty _ _ junk Reach.start (fun _ => (by decide : (255 : Nat) < 256)))
      (by decide) (mem_page_malloc dirty_start (get_page_index 1000) false).2
      (Or.inr ⟨by decide, by decide, rfl⟩) (by decide)
      ((alloc_block (mem_page_malloc dirty_start (get_page_index 1000) false).2 1000).1 + 999)
      (Nat.le_add_right _ _) (by decide)⟩⟩

/-- C8: for every outstanding pointer `p` of a reachable state and every new length `len` whose
class `get_page_index len` is the class of the page of `p` and which is at most the capacity
`get_addr_block_len` reports for `p`, `mem_realloc p len` returns `p` and leaves the whole
allocator state unchanged. -/
theorem mem_realloc_in_place (s : Heap) (L : List Nat) (p len : Nat) (hR : Reach s L)
    (hp : p ∈ L)
    (hcls : get_page_index len = get_page_index_ex s (s.block (get_block p false)).page)
    (hfit : (len : Int) ≤ get_addr_block_len s p false) :
    mem_realloc s p len = (p, s) := by
  obtain ⟨g, hI⟩ := reach_inv s L hR
  have hgt := out_gt s g L p hI hp
  have e16 : sizeof_MEM_BLOCK = 16 := rfl
  have hp0 : p ≠ 0 := by omega
  obtain ⟨i, pg, hi, hpg, hpage, hcase⟩ := user_area s g L p hI hp
  have pp := hI.pages i hi pg hpg
  have h0 : pg ≠ 0 := fun e => (hI.ring i hi).2.2.2.2.1 (e ▸ hpg)
  have hgb : get_block p false = p - sizeof_MEM_BLOCK := by
    simp [get_block, hp0, block_head_size]
  rw [hgb, hpage, page_index_ex_of_ok s g L i pg hi pp h0] at hcls
  have hsz := block_len_eq s g L p hI hp
  have hle := user_size_le s g L p hI hp
  unfold INT_MAX at hle
  rw [hsz] at hfit
  have hlen : len ≤ user_size s g p := by exact_mod_cast hfit
  have hidx : get_page_index (toSizeT (get_addr_block_len s p false)) = i := by
    rw [hsz, toSizeT_nat _ (by omega)]
    rcases hcase with ⟨hne, hc, -⟩ | ⟨he, hc, hu, -⟩
    · rw [hc]; exact (page_info_type i hi).2.2 hne
    · rw [hc]; exact (pp.ext_used he hu).cls
  have hnc : ¬ (get_addr_block_len s p false < toInt32 (len : Int) ∨
      get_page_index (toSizeT (get_addr_block_len s p false)) > get_page_index len) := by
    rw [hidx, hcls, hsz, toInt32_small (len : Int) (by omega) (by omega)]
    omega
  rw [mem_realloc_stay s p len hp0 hnc, hidx, hcls, if_pos rfl]

set_option maxRecDepth 100000 in
theorem mem_realloc_in_place_witness :
    (mem_malloc Heap.start 12).1 ≠ 0 ∧
    mem_realloc (mem_malloc Heap.start 12).2 (mem_malloc Heap.start 12).1 14
      = ((mem_malloc Heap.start 12).1, (mem_malloc Heap.start 12).2) :=
  ⟨by decide,
    mem_realloc_in_place (mem_malloc Heap.start 12).2 _ (mem_malloc Heap.start 12).1 14
      (Reach.malloc Heap.start [] 12 Reach.start (by decide) (by decide))
      (by decide) (by decide) (by decide)⟩

set_option maxRecDepth 100000 in
/-- C9: evaluation at the failing input. On a fresh allocator `p = mem_malloc 1000` has capacity
`1000`; `mem_realloc p (2^32 + 1000)` compares the capacity with `(int)len = 1000`, finds the
same class (LARGE) and returns `p` itself although the capacity is smaller than the new
length. -/
theorem mem_realloc_truncates_length :
    get_addr_block_len (mem_malloc Heap.start 1000).2 (mem_malloc Heap.start 1000).1 false
      = 1000 ∧
    (mem_realloc (mem_malloc Heap.start 1000).2 (mem_malloc Heap.start 1000).1
      (2 ^ 32 + 1000)).1 = (mem_malloc Heap.start 1000).1 ∧
    (mem_malloc Heap.start 1000).1 ≠ 0 := by
  decide

/-! ## Capacity and the LARGE class -/

set_option maxRecDepth 100000 in
/-- C11: evaluation at the failing input. On a fresh allocator `p = mem_malloc(2^31)` is a
non-null pointer to a LARGE block whose buffer of `sizeof(MEM_BLOCK) + 2^31` bytes is live, and
`get_addr_block_len(p)` is `-2^31`, not the `2^31` bytes that were requested: the function
computes the length from the `int` field `alloc_size` and returns an `int`. -/
theorem get_addr_block_len_wraps :
    (mem_malloc Heap.start (2 ^ 31)).1 ≠ 0 ∧
    ((mem_malloc Heap.start (2 ^ 31)).1 - sizeof_MEM_BLOCK, sizeof_MEM_BLOCK + 2 ^ 31)
      ∈ (mem_malloc Heap.start (2 ^ 31)).2.live ∧
    get_addr_block_len (mem_malloc Heap.start (2 ^ 31)).2 (mem_malloc Heap.start (2 ^ 31)).1 false
      = -2 ^ 31 ∧
    get_addr_block_len (mem_malloc Heap.start (2 ^ 31)).2 (mem_malloc Heap.start (2 ^ 31)).1 false
      ≠ ((2 ^ 31 : Nat) : Int) := by
  decide

/-- Requests of at most `INT_MAX` bytes (the in-range part of C11): in every reachable state,
when the backing allocator succeeds, for every request `len ≤ INT_MAX` the capacity
`get_addr_block_len` reports for the pointer `mem_malloc len` returns is `len` itself when
`len = 0` or `len > 512` (ZERO/LARGE) and the block size of class `get_page_index len` when
`1 ≤ len ≤ 512`. -/
theorem get_addr_block_len_of_malloc (s : Heap) (L : List Nat) (len : Nat) (hR : Reach s L)
    (hlen : len ≤ INT_MAX) (hbrk : (mem_malloc s len).2.brk ≤ 2 ^ 64) :
    get_addr_block_len (mem_malloc s len).2 (mem_malloc s len).1 false =
      if len = 0 ∨ 512 < len then (len : Int)
      else ((page_info (get_page_index len)).block_size : Int) := by
  obtain ⟨g, hI⟩ := reach_inv s L hR
  have hI1 := mem_malloc_inv s g L len hI hlen hbrk
  obtain ⟨-, h1, h2⟩ := mem_malloc_user_size s g L len hI hlen hbrk
  rw [block_len_eq _ _ _ _ hI1 (List.mem_cons_self _ _)]
  by_cases he : is_ext (get_page_index len)
  · rw [h1 he, if_pos ((is_ext_iff len).1 he)]
  · rw [h2 he, if_neg (fun h => he ((is_ext_iff len).2 h))]

set_option maxRecDepth 100000 in
theorem get_addr_block_len_of_malloc_witness :
    10000 ≤ INT_MAX ∧ (mem_malloc Heap.start 10000).2.brk ≤ 2 ^ 64 ∧
    get_addr_block_len (mem_malloc Heap.start 10000).2 (mem_malloc Heap.start 10000).1 false =
      if 10000 = 0 ∨ 512 < 10000 then ((10000 : Nat) : Int)
      else ((page_info (get_page_index 10000)).block_size : Int) :=
  ⟨by decide, by decide,
    get_addr_block_len_of_malloc Heap.start [] 10000 Reach.start (by decide) (by decide)⟩

set_option maxRecDepth 100000 in
theorem large_free_keeps_page : (large_freed_state.mem_page_map 14).count ≠ 0 := by
  decide

set_option maxRecDepth 100000 in
/-- C12 (amended): scenario S4. On a freshly started allocator, `p = mem_malloc 10000` reports
capacity `10000` and has a live external buffer; after `mem_free p` the buffer has been released
to the backing allocator, and the LARGE class list (index 14) still holds its page, now idle:
`count == 1`, `idle_num == 1`, `using_count == 0`, status IDLE. -/
theorem large_alloc_free_scenario :
    get_addr_block_len (mem_malloc Heap.start 10000).2 (mem_malloc Heap.start 10000).1 false
      = 10000 ∧
    ((mem_malloc Heap.start 10000).1 - sizeof_MEM_BLOCK, sizeof_MEM_BLOCK + 10000)
      ∈ (mem_malloc Heap.start 10000).2.live ∧
    (∀ r ∈ large_freed_state.live, r.1 ≠ (mem_malloc Heap.start 10000).1 - sizeof_MEM_BLOCK) ∧
    (large_freed_state.mem_page_map 14).count = 1 ∧
    (large_freed_state.mem_page_map 14).idle_num = 1 ∧
    (large_freed_state.page (large_freed_state.mem_page_map 14).head).using_count = 0 ∧
    (large_freed_state.page (large_freed_state.mem_page_map 14).head).status
      = MEM_PAGE_STATUS_IDLE ∧
    large_freed_state.live = [((large_freed_state.mem_page_map 14).head, page_size 14)] := by
  decide

set_option maxRecDepth 100000 in
theorem large_malloc_reuses_page :
    Reach large_freed_state [] ∧
    ((mem_malloc large_freed_state 10000).2.mem_page_map 14).count
      = (large_freed_state.mem_page_map 14).count ∧
    ((mem_malloc large_freed_state 10000).2.block
        (get_block (mem_malloc large_freed_state 10000).1 false)).page
      ∈ large_freed_state.class_pages 14 :=
  ⟨Reach.free _ _ (mem_malloc Heap.start 10000).1
      (Reach.malloc Heap.start [] 10000 Reach.start (by decide) (by decide)) (by decide),
    by decide, by decide⟩

/-- C13 (amended): in every reachable state, when the backing allocator succeeds, every
`mem_malloc len` with `512 < len ≤ INT_MAX` takes a fresh external buffer from the backing
allocator; class list 14 grows by one page exactly when it had no usable page, and otherwise
the request is served from the page that already heads the list (an idle page is reused). -/
theorem mem_malloc_large (s : Heap) (L : List Nat) (len : Nat) (hR : Reach s L)
    (h512 : 512 < len) (hlen : len ≤ INT_MAX) (hbrk : (mem_malloc s len).2.brk ≤ 2 ^ 64) :
    ((mem_malloc s len).1 - sizeof_MEM_BLOCK, sizeof_MEM_BLOCK + len)
      ∈ (mem_malloc s len).2.live ∧
    (∀ r ∈ s.live, r.1 ≠ (mem_malloc s len).1 - sizeof_MEM_BLOCK) ∧
    ((mem_malloc s len).2.mem_page_map 14).count =
      (s.mem_page_map 14).count + (if usable_page_exist s 14 = true then 0 else 1) ∧
    (usable_page_exist s 14 = true →
      ((mem_malloc s len).2.block (get_block (mem_malloc s len).1 false)).page
        = (s.mem_page_map 14).head) := by
  obtain ⟨g, hI⟩ := reach_inv s L hR
  have h14 : get_page_index len = 14 := get_page_index_large len h512
  have he : is_ext (get_page_index len) := (is_ext_iff len).2 (Or.inr h512)
  have e16 : sizeof_MEM_BLOCK = 16 := rfl
  have hmod : (sizeof_MEM_BLOCK + len) % SIZE_MOD = sizeof_MEM_BLOCK + len := by
    unfold INT_MAX at hlen
    simp only [SIZE_MOD, sizeof_MEM_BLOCK]
    omega
  have hcount := mem_malloc_count s g L len hI hlen hbrk 14 (by omega)
  rw [h14] at hcount
  have hfresh : ∀ (s0 : Heap), s.brk ≤ s0.brk → ∀ r ∈ s.live,
      r.1 ≠ s0.brk + sizeof_MEM_BLOCK - sizeof_MEM_BLOCK := by
    intro s0 h0 r hr
    have := hI.live_brk r hr
    omega
  cases hu : usable_page_exist s (get_page_index len) with
  | true =>
    have hu14 : usable_page_exist s 14 = true := by rw [← h14]; exact hu
    obtain ⟨a1, a2⟩ := alloc_block_ext_live s g L len hI hu he
    obtain ⟨b1, -, b3, -⟩ := alloc_block_post s g L len hI hu
    rw [mem_malloc_eq_usable s len hu, a1] at *
    rw [a2, hmod]
    refine ⟨by simp, hfresh s (le_refl _), ?_, ?_⟩
    · rw [hcount]; simp [hu14]
    · intro _
      have : get_block (s.brk + sizeof_MEM_BLOCK) false
          = s.brk + sizeof_MEM_BLOCK - sizeof_MEM_BLOCK := by
        simp [get_block, block_head_size, e16]
      rw [this, b3, h14]
  | false =>
    have hu14 : usable_page_exist s 14 = false := by rw [← h14]; exact hu
    have hbrk' := hbrk
    rw [mem_malloc_eq_unusable s len hu] at hbrk'
    have hb1 : (mem_page_malloc s (get_page_index len) false).2.brk ≤ 2 ^ 64 :=
      Nat.le_trans (alloc_block_brk_le _ _) hbrk'
    obtain ⟨hI0, hu0, -⟩ := page_malloc_inv s g L _ hI (get_page_index_lt len) hu hb1
    obtain ⟨a1, a2⟩ := alloc_block_ext_live _ _ L len hI0 hu0 he
    have hle : s.brk ≤ (mem_page_malloc s (get_page_index len) false).2.brk := by
      rw [mem_page_malloc_brk s _ (get_page_index_lt len)]; omega
    rw [mem_malloc_eq_unusable s len hu] at hcount ⊢
    rw [a1, a2, hmod]
    refine ⟨by simp, hfresh _ hle, ?_, ?_⟩
    · rw [hcount]; simp [hu14]
    · intro h; rw [hu14] at h; cases h

set_option maxRecDepth 100000 in
theorem mem_malloc_large_witness :
    512 < 10000 ∧ 10000 ≤ INT_MAX ∧ (mem_malloc Heap.start 10000).2.brk ≤ 2 ^ 64 ∧
    (((mem_malloc Heap.start 10000).1 - sizeof_MEM_BLOCK, sizeof_MEM_BLOCK + 10000)
      ∈ (mem_malloc Heap.start 10000).2.live ∧
    (∀ r ∈ Heap.start.live, r.1 ≠ (mem_malloc Heap.start 10000).1 - sizeof_MEM_BLOCK) ∧
    ((mem_malloc Heap.start 10000).2.mem_page_map 14).count =
      (Heap.start.mem_page_map 14).count +
        (if usable_page_exist Heap.start 14 = true then 0 else 1) ∧
    (usable_page_exist Heap.start 14 = true →
      ((mem_malloc Heap.start 10000).2.block
          (get_block (mem_malloc Heap.start 10000).1 false)).page
        = (Heap.start.mem_page_map 14).head)) :=
  ⟨by decide, by decide, by decide,
    mem_malloc_large Heap.start [] 10000 Reach.start (by decide) (by decide) (by decide)⟩

/-! ## `link.c` at indices and targets outside the list -/

theorem list_one_ok : RingOK list_one.1 list_one.2 [1] := by
  unfold RingOK
  refine ⟨by decide, by decide, by decide, by decide, by decide, ?_⟩
  exact ⟨by decide, by decide, trivial⟩

theorem list_two_ok : RingOK list_two.1 list_two.2 [1, 2] := by
  unfold RingOK
  refine ⟨by decide, by decide, by decide, by decide, by decide, ?_⟩
  exact ⟨by decide, by decide, by decide, by decide, trivial⟩

/-- C18: evaluation at the failing input. On the well-formed list `[1]` (count 1),
`link_insert` with index `-1` and the new node `2` does not fail: it returns `LINK_SUCCESS`,
links node `2` behind node `1` and sets count to 2, while `tail` still names node `1`. -/
theorem link_insert_negative_index :
    RingOK list_one.1 list_one.2 [1] ∧
    (link_insert list_one.1 list_one.2 (-1) 2).1 = LINK_SUCCESS ∧
    (link_insert list_one.1 list_one.2 (-1) 2).2.2.count = 2 ∧
    (link_insert list_one.1 list_one.2 (-1) 2).2.2.head = 1 ∧
    (link_insert list_one.1 list_one.2 (-1) 2).2.2.tail = 1 ∧
    ((link_insert list_one.1 list_one.2 (-1) 2).2.1 1).next = 2 ∧
    ((link_insert list_one.1 list_one.2 (-1) 2).2.1 2).next = 1 :=
  ⟨list_one_ok, by decide, by decide, by decide, by decide, by decide, by decide⟩

/-- C19: evaluation at the failing input. On the well-formed list `[1, 2]` (count 2),
`link_remove` with index `-1` does not return nothing: it unlinks and returns node `1`, sets
count to 1 and leaves `head` naming the removed node. -/
theorem link_remove_negative_index :
    RingOK list_two.1 list_two.2 [1, 2] ∧
    (link_remove list_two.1 list_two.2 (-1)).1 = 1 ∧
    (link_remove list_two.1 list_two.2 (-1)).2.2.count = 1 ∧
    (link_remove list_two.1 list_two.2 (-1)).2.2.head = 1 ∧
    ((link_remove list_two.1 list_two.2 (-1)).2.1 2).next = 2 :=
  ⟨list_two_ok, by decide, by decide, by decide, by decide⟩

/-- C20: evaluation at the failing input. On the well-formed list `[1]` (count 1),
`link_remove_node` with the target `2`, which is not a member, does not return nothing: it
returns the target, clears `head` and `tail` and sets count to 0, so the list loses its only
member. -/
theorem link_remove_node_non_member :
    RingOK list_one.1 list_one.2 [1] ∧ 2 ∉ [1] ∧
    (link_remove_node list_one.1 list_one.2 2).1 = 2 ∧
    (link_remove_node list_one.1 list_one.2 2).2.2.count = 0 ∧
    (link_remove_node list_one.1 list_one.2 2).2.2.head = 0 ∧
    (link_remove_node list_one.1 list_one.2 2).2.2.tail = 0 :=
  ⟨list_one_ok, by decide, by decide, by decide, by decide, by decide⟩

/-! ## Idle pages -/

/-- C14: in every state reachable from start, every class list holds at most `MEM_PAGE_MAX_IDLE`
(2) IDLE pages and `idle_num` is their number; and a `mem_free` that empties a page (its
`using_count` is 1) while `idle_num` of its class is 2 destroys exactly that page: the class
list is the old one without it, `count` drops by one, `idle_num` stays 2, and the page is no
longer among the live regions of the backing allocator. -/
theorem idle_reclamation (s : Heap) (L : List Nat) (hR : Reach s L) :
    (∀ i < 15,
      (s.mem_page_map i).idle_num =
        (((s.class_pages i).countP (fun a => (s.page a).status = MEM_PAGE_STATUS_IDLE) : Nat)
          : Int) ∧
      (s.class_pages i).countP (fun a => (s.page a).status = MEM_PAGE_STATUS_IDLE) ≤ 2) ∧
    (∀ p ∈ L,
      (s.page (s.block (get_block p false)).page).using_count = 1 →
      (s.mem_page_map (get_page_index_ex s (s.block (get_block p false)).page)).idle_num = 2 →
      (s.block (get_block p false)).page
        ∈ s.class_pages (get_page_index_ex s (s.block (get_block p false)).page) ∧
      (mem_free s p).class_pages (get_page_index_ex s (s.block (get_block p false)).page)
        = (s.class_pages (get_page_index_ex s (s.block (get_block p false)).page)).erase
            (s.block (get_block p false)).page ∧
      ((mem_free s p).mem_page_map
          (get_page_index_ex s (s.block (get_block p false)).page)).count
        = (s.mem_page_map (get_page_index_ex s (s.block (get_block p false)).page)).count - 1 ∧
      ((mem_free s p).mem_page_map
          (get_page_index_ex s (s.block (get_block p false)).page)).idle_num = 2 ∧
      (∀ r ∈ (mem_free s p).live, r.1 ≠ (s.block (get_block p false)).page)) := by
  obtain ⟨g, hI⟩ := reach_inv s L hR
  constructor
  · intro i hi
    rw [class_pages_of_ring s i _ (hI.ring i hi)]
    exact ⟨hI.idle_num i hi, hI.idle_le i hi⟩
  · intro p hp
    obtain ⟨i, pg, l1, l2, hi, hl, hpage, h16, hpg0, hu, ha, hidx, hcase⟩ :=
      free_pre s g L p hI hp
    have hp0 : p ≠ 0 := by omega
    have hgb : get_block p false = p - sizeof_MEM_BLOCK := by
      simp [get_block, hp0, block_head_size]
    have hmf : mem_free s p = free_block s p false := by
      unfold mem_free; rw [if_neg hp0]
    rw [hgb, hpage, hidx, hmf]
    intro huc hidle
    have hring := hI.ring i hi
    have hnd : (l1 ++ pg :: l2).Nodup := by have := hring.2.2.2.1; rwa [hl] at this
    have hI' := free_block_inv s g L p hI hp
    obtain ⟨-, g2, -⟩ := free_ghost_facts s g p i pg l1 l2 hpage hidx hl hnd
    have hd : (s.page pg).using_count = 1 ∧
        (s.mem_page_map i).idle_num + 1 > MEM_PAGE_MAX_IDLE := by
      refine ⟨huc, ?_⟩
      rw [hidle]; decide
    rw [if_pos hd] at g2
    obtain ⟨-, -, f3, -⟩ := free_block_frame s g L p hI hp
    rw [hpage, hidx] at f3
    obtain ⟨f3a, f3b⟩ := f3 hd
    have hmem : pg ∈ g.lists i := by rw [hl]; simp
    rw [class_pages_of_ring s i _ hring, class_pages_of_ring _ i _ (hI'.ring i hi), g2, hl,
      erase_middle pg l1 l2 hnd, ring_count _ _ _ hI' i hi, ring_count _ _ _ hI i hi, g2, hl,
      f3b, hidle]
    refine ⟨by simp, rfl, ?_, rfl, f3a⟩
    simp only [List.length_append, List.length_cons]
    push_cast
    ring

set_option maxRecDepth 1000000 in
theorem two_idle_reach : Reach two_idle_state two_idle_ptrs :=
  free_seq_reach (three_pages_ptrs.drop 1) three_pages_state (three_pages_ptrs ++ [])
    (malloc_seq_reach (List.replicate 17 512) Heap.start [] Reach.start (by decide) (by decide))
    (by decide) (by decide)

set_option maxRecDepth 1000000 in
theorem idle_reclamation_witness :
    Reach two_idle_state two_idle_ptrs ∧
    (two_idle_state.mem_page_map 13).count = 3 ∧
    (two_idle_state.mem_page_map 13).idle_num = 2 ∧
    ((mem_free two_idle_state (three_pages_ptrs.headD 0)).mem_page_map 13).count = 3 - 1 ∧
    ((mem_free two_idle_state (three_pages_ptrs.headD 0)).mem_page_map 13).idle_num = 2 := by
  have h := (idle_reclamation two_idle_state two_idle_ptrs two_idle_reach).2
    (three_pages_ptrs.headD 0) (by decide) (by decide) (by decide)
  have e : get_page_index_ex two_idle_state
      (two_idle_state.block (get_block (three_pages_ptrs.headD 0) false)).page = 13 := by
    decide
  have c : (two_idle_state.mem_page_map 13).count = 3 := by decide
  rw [e, c] at h
  exact ⟨two_idle_reach, c, by decide, h.2.2.1, h.2.2.2.1⟩

/-! ## Filling a page -/

/-- C15: class promotion. For every slab class `i` (1..13) with `N = block_num` blocks per page,
`N` consecutive `mem_malloc` calls of that class on a freshly started allocator leave exactly
one page in the class list (`count == 1`), which is FULL and is both head and tail; the next
call of that class creates a second page (`count == 2`) and is served from it: the page of the
returned block is the new head of the list and is not the full page. -/
theorem class_promotion (i : Nat) (h1 : 1 ≤ i) (h13 : i ≤ 13) (lens : List Nat) (len : Nat)
    (hN : lens.length = (page_info i).block_num)
    (hcls : ∀ l ∈ lens, get_page_index l = i) (hc : get_page_index len = i) :
    ((malloc_seq lens Heap.start).mem_page_map i).count = 1 ∧
    ((malloc_seq lens Heap.start).page ((malloc_seq lens Heap.start).mem_page_map i).head).status
      = MEM_PAGE_STATUS_FULL ∧
    ((malloc_seq lens Heap.start).mem_page_map i).head
      = ((malloc_seq lens Heap.start).mem_page_map i).tail ∧
    ((malloc_seq lens Heap.start).mem_page_map i).head ≠ 0 ∧
    (mem_malloc (malloc_seq lens Heap.start) len).1 ≠ 0 ∧
    ((mem_malloc (malloc_seq lens Heap.start) len).2.mem_page_map i).count = 2 ∧
    ((mem_malloc (malloc_seq lens Heap.start) len).2.block
        (get_block (mem_malloc (malloc_seq lens Heap.start) len).1 false)).page
      = ((mem_malloc (malloc_seq lens Heap.start) len).2.mem_page_map i).head ∧
    ((mem_malloc (malloc_seq lens Heap.start) len).2.block
        (get_block (mem_malloc (malloc_seq lens Heap.start) len).1 false)).page
      ≠ ((malloc_seq lens Heap.start).mem_page_map i).head := by
  have hi : i < 15 := by omega
  have fi := page_info_facts i hi
  have hne := slab_not_ext i h1 h13
  have hbn8 := fi.2.2.2.2.2.2.2 hne
  obtain ⟨f1, f2, f3, f4, f5, f6⟩ := first_page i hi
  -- the first request creates the page
  obtain ⟨l0, rest, rfl⟩ : ∃ l0 rest, lens = l0 :: rest := by
    cases lens with
    | nil => simp at hN; omega
    | cons a r => exact ⟨a, r, rfl⟩
  have hc0 := hcls l0 (List.mem_cons_self _ _)
  have e0 : malloc_seq (l0 :: rest) Heap.start
      = malloc_seq (l0 :: rest) (mem_page_malloc Heap.start i false).2 := by
    simp only [malloc_seq]
    rw [mem_malloc_eq_unusable Heap.start l0 (by rw [hc0]; exact f6),
      mem_malloc_eq_usable _ l0 (by rw [hc0]; exact f2), hc0]
  obtain ⟨g, L, hI, hl, huc, hbrk⟩ := fill_seq i h1 h13 (l0 :: rest) _ _ _ 4096 f1 f3 hcls
    (by rw [f4, hN]; omega)
  rw [← e0] at hI huc hbrk
  rw [f4, hN, Nat.zero_add] at huc
  generalize malloc_seq (l0 :: rest) Heap.start = s at *
  have hring := hI.ring i hi
  rw [hl] at hring
  obtain ⟨hh, hp0, -, -, -⟩ := RingOK_cons_facts _ _ _ _ hring
  have hh' : (s.mem_page_map i).head = 4096 := hh
  have ht' : (s.mem_page_map i).tail = 4096 := hring.2.2.1
  have pp := hI.pages i hi 4096 (by rw [hl]; exact List.mem_cons_self _ _)
  have hfull : (s.page 4096).status = MEM_PAGE_STATUS_FULL := by
    rw [pp.status, huc]; exact (status_of_full _ _ fi.2.2.1).2 rfl
  have hcount : (s.mem_page_map i).count = 1 := by
    rw [ring_count s g L hI i hi, hl]; rfl
  -- the next request
  have hu : usable_page_exist s (get_page_index len) = false := by
    rw [hc]
    unfold usable_page_exist
    have hi' : ¬ i > MEM_PAGE_BLOCK_INFO_COUNT - 1 := by
      simp only [MEM_PAGE_BLOCK_INFO_COUNT]; omega
    rw [if_neg hi', if_neg (by rw [hh', hcount]; simp), hh', if_pos hfull]
  have hb1 : (mem_page_malloc s (get_page_index len) false).2.brk ≤ 2 ^ 64 := by
    rw [mem_page_malloc_brk s _ (get_page_index_lt len), hc]
    unfold page_size
    simp only [sizeof_MEM_PAGE, sizeof_MEM_BLOCK]
    omega
  obtain ⟨b1, b2, b3, b4, b5⟩ := page_malloc_inv s g L _ hI (get_page_index_lt len) hu hb1
  have hne' : ¬ is_ext (get_page_index len) := by rw [hc]; exact hne
  have hbrk2 : (mem_malloc s len).2.brk ≤ 2 ^ 64 := by
    rw [mem_malloc_eq_unusable s len hu, (alloc_block_slab_brk _ _ L len b1 b2 hne').1]
    exact hb1
  have hlenmax : len ≤ INT_MAX := by
    unfold INT_MAX
    by_contra h
    have := get_page_index_large len (by omega)
    omega
  have hcnt := mem_malloc_count s g L len hI hlenmax hbrk2 i hi
  rw [hu, hc] at hcnt
  obtain ⟨c1, -, c3, -⟩ := alloc_block_post _ _ L len b1 b2
  obtain ⟨d1, -, -, -⟩ := alloc_inv_slab _ _ L len b1 b2 hne'
  rw [← mem_malloc_eq_unusable s len hu] at c1 c3 d1
  rw [b3] at c3
  have hgb : get_block (mem_malloc s len).1 false = (mem_malloc s len).1 - sizeof_MEM_BLOCK := by
    simp [get_block, c1, block_head_size]
  have hlists : (alloc_ghost (mem_page_malloc s (get_page_index len) false).2
      (page_ghost s g (get_page_index len)) len).lists i = [s.brk, 4096] := by
    have hx : ¬ ((((mem_page_malloc s (get_page_index len) false).2.page s.brk).using_count : Int)
        = ((((mem_page_malloc s (get_page_index len) false).2.page s.brk).block_num : Nat) : Int)
          - 1) := by
      have pq := b1.pages _ (get_page_index_lt len) s.brk (by rw [b4]; exact List.mem_cons_self _ _)
      rw [b5, pq.block_num, hc]
      push_cast
      omega
    simp only [alloc_ghost, hc, if_true]
    rw [hc] at b3 b4 hx
    rw [b3, b4, hl]
    simp only [hx, false_and, if_false]
  have hring2 := d1.ring i hi
  rw [hlists] at hring2
  obtain ⟨hh2, -, -, -, -⟩ := RingOK_cons_facts _ _ _ _ hring2
  have hh2' : ((mem_malloc s len).2.mem_page_map i).head = s.brk := hh2
  have hlt := (pages_lt_brk s g L hI i 4096 hi (by rw [hl]; exact List.mem_cons_self _ _)).2
  refine ⟨hcount, by rw [hh']; exact hfull, by rw [hh', ht'], by rw [hh']; omega, c1, ?_, ?_, ?_⟩
  · rw [hcnt, hcount]; simp
  · rw [hgb, c3, hh2']
  · rw [hgb, c3, hh']; omega

set_option maxRecDepth 1000000 in
theorem class_promotion_witness :
    (1 ≤ 6 ∧ 6 ≤ 13) ∧ (List.replicate 8 128).length = (page_info 6).block_num ∧
    (∀ l ∈ List.replicate 8 128, get_page_index l = 6) ∧ get_page_index 128 = 6 ∧
    ((malloc_seq (List.replicate 8 128) Heap.start).mem_page_map 6).count = 1 ∧
    ((mem_malloc (malloc_seq (List.replicate 8 128) Heap.start) 128).2.mem_page_map 6).count
      = 2 :=
  have h := class_promotion 6 (by decide) (by decide) (List.replicate 8 128) 128 (by decide)
    (by decide) (by decide)
  ⟨by decide, by decide, by decide, by decide, h.1, h.2.2.2.2.2.1⟩

/-! ## Reuse of a freed block -/

/-- C5: for every reachable state and every slab-class length `1 ≤ len ≤ 512`, when the backing
allocator succeeds, `p1 = mem_malloc len; mem_free p1; p2 = mem_malloc len` with nothing in
between gives `p2 = p1`: the freed block heads the freelist of its page and that page heads its
class list. -/
theorem malloc_free_malloc_same (s : Heap) (L : List Nat) (len : Nat) (hR : Reach s L)
    (h1 : 1 ≤ len) (h512 : len ≤ 512) (hbrk : (mem_malloc s len).2.brk ≤ 2 ^ 64) :
    (mem_malloc (mem_free (mem_malloc s len).2 (mem_malloc s len).1) len).1
      = (mem_malloc s len).1 := by
  obtain ⟨g, hI⟩ := reach_inv s L hR
  have hi := get_page_index_lt len
  have hne : ¬ is_ext (get_page_index len) := by
    rw [is_ext_iff]; omega
  obtain ⟨s0, g0, hI0, hu0, e, -⟩ := mem_malloc_via s g L len hI hbrk
  rw [e]
  obtain ⟨hI1, hp1, hidle, huc⟩ := alloc_inv_slab s0 g0 L len hI0 hu0 hne
  obtain ⟨c1, c2, c3, -⟩ := alloc_block_post s0 g0 L len hI0 hu0
  obtain ⟨rest, b, fr, hx, -⟩ := alloc_pre s0 g0 L _ hI0 hi hu0
  have hmem := alloc_ghost_head_mem s0 g0 len rest hx
  generalize hpg : (s0.mem_page_map (get_page_index len)).head = pg at *
  generalize hg1 : alloc_ghost s0 g0 len = g1 at *
  generalize hq : alloc_block s0 len = r at *
  obtain ⟨p1, s1⟩ := r
  simp only at hI1 hp1 hidle huc c1 c2 c3 ⊢
  -- the free
  have hp0 : p1 ≠ 0 := c1
  have hmf : mem_free s1 p1 = free_block s1 p1 false := by
    unfold mem_free; rw [if_neg hp0]
  rw [hmf]
  have hI2 := free_block_inv s1 g1 (p1 :: L) p1 hI1 (List.mem_cons_self _ _)
  obtain ⟨l1, l2, hl⟩ := List.append_of_mem hmem
  have pp := hI1.pages _ hi pg hmem
  have hring := hI1.ring _ hi
  have hnd : (l1 ++ pg :: l2).Nodup := by have := hring.2.2.2.1; rwa [hl] at this
  have hpg0 : pg ≠ 0 := fun e' => hring.2.2.2.2.1 (e' ▸ hmem)
  have hidx := page_index_ex_of_ok s1 g1 _ _ pg hi pp hpg0
  obtain ⟨-, g2, -, g4, -⟩ := free_ghost_facts s1 g1 p1 _ pg l1 l2 c3 hidx hl hnd
  have hnd' : ¬ ((s1.page pg).using_count = 1 ∧
      (s1.mem_page_map (get_page_index len)).idle_num + 1 > MEM_PAGE_MAX_IDLE) := by
    rintro ⟨a, b'⟩
    have h0 : (s0.page pg).using_count = 0 := by omega
    rw [if_pos h0] at hidle
    rw [hI1.idle_num _ hi] at b'
    simp only [MEM_PAGE_MAX_IDLE] at b'
    omega
  rw [if_neg hnd'] at g2
  have hty : ¬ ((s1.page pg).type = MEM_PAGE_TYPE_ZERO ∨
      (s1.page pg).type = MEM_PAGE_TYPE_LARGE) := by
    rw [pp.type]; exact not_ext_type _ hi hne
  rw [(free_block_release_slab s1 pg (p1 - sizeof_MEM_BLOCK) hty).1] at g4
  generalize free_ghost s1 g1 p1 = gf at *
  generalize free_block s1 p1 false = s2 at *
  -- the second request
  have pp2 := hI2.pages _ hi pg (by rw [g2]; exact List.mem_cons_self _ _)
  have hlt : (s2.page pg).using_count < (page_info (get_page_index len)).block_num := by
    have := pp2.fl_len
    rw [g4, List.length_cons] at this
    omega
  obtain ⟨hu2, hh2⟩ := usable_of_inv s2 gf _ hI2 _ pg _ hi g2 hlt
  rw [mem_malloc_eq_usable s2 len hu2, (alloc_inv_slab s2 gf _ len hI2 hu2 hne).2.1, hh2, g4]
  have e16 : sizeof_MEM_BLOCK = 16 := rfl
  simp only [firstD]
  omega

set_option maxRecDepth 100000 in
theorem malloc_free_malloc_same_witness :
    (1 ≤ 16 ∧ 16 ≤ 512) ∧ (mem_malloc Heap.start 16).2.brk ≤ 2 ^ 64 ∧
    (mem_malloc (mem_free (mem_malloc Heap.start 16).2 (mem_malloc Heap.start 16).1) 16).1
      = (mem_malloc Heap.start 16).1 :=
  ⟨by decide, by decide,
    malloc_free_malloc_same Heap.start [] 16 Reach.start (by decide) (by decide) (by decide)⟩

/-! ## The leak report -/

set_option maxRecDepth 1000000 in
/-- C17: evaluation at the failing input. With two LARGE allocations outstanding
(`mem_malloc (2^31 - 16)` and `mem_malloc (2^31 - 64)` on a fresh allocator, both at most
`INT_MAX`), `page_print_allocated_info` reports both pages and still prints `No leak!`: the
flag it tests is the `int` sum of the `alloc_size` fields, which is zero here. -/
theorem leak_report_no_leak_with_leaks :
    two_large_state.total_using = 2 ∧
    ((two_large_state.class_pages 14).map (fun a => (two_large_state.page a).alloc_size)).sum
      = 0 ∧
    (page_print_allocated_info two_large_state false).count Line.no_leak = 1 ∧
    (∀ a ∈ two_large_state.class_pages 14,
      Line.leak_page a ∈ page_print_allocated_info two_large_state false) := by
  decide

/-- Requests of at most `INT_MAX` bytes (the in-range part of C10): for every outstanding pointer
`p` of a reachable state with capacity `S = get_addr_block_len p` and every new length `len ≤
INT_MAX` with `S < len` or the class of `S` above the class of `len`, `mem_realloc p len`
returns a pointer `q` that is neither null nor `p`, whose block lies on a page of the class of
`len`, and whose first `min S len` bytes are the bytes `p` held before the call; `p` is no
longer outstanding, its page has one block less in use or has been released, and the number of
blocks in use over all pages is unchanged. -/
theorem mem_realloc_moves (s : Heap) (L : List Nat) (p len : Nat) (hR : Reach s L) (hp : p ∈ L)
    (hlen : len ≤ INT_MAX) (hbrk : (mem_realloc s p len).2.brk ≤ 2 ^ 64)
    (hc : get_addr_block_len s p false < (len : Int) ∨
      get_page_index (toSizeT (get_addr_block_len s p false)) > get_page_index len) :
    (mem_realloc s p len).1 ≠ 0 ∧ (mem_realloc s p len).1 ≠ p ∧
    ((mem_realloc s p len).2.block ((mem_realloc s p len).1 - sizeof_MEM_BLOCK)).page
      ∈ (mem_realloc s p len).2.class_pages (get_page_index len) ∧
    (∀ k : Nat, (k : Int) < get_addr_block_len s p false → k < len →
      (mem_realloc s p len).2.byte ((mem_realloc s p len).1 + k) = s.byte (p + k)) ∧
    Reach (mem_realloc s p len).2 ((mem_realloc s p len).1 :: L.erase p) ∧
    p ∉ (mem_realloc s p len).1 :: L.erase p ∧
    (((mem_realloc s p len).2.page (s.block (p - sizeof_MEM_BLOCK)).page).using_count + 1
        = (s.page (s.block (p - sizeof_MEM_BLOCK)).page).using_count ∨
      ∀ r ∈ (mem_realloc s p len).2.live, r.1 ≠ (s.block (p - sizeof_MEM_BLOCK)).page) ∧
    (mem_realloc s p len).2.total_using = s.total_using := by
  obtain ⟨g, hI⟩ := reach_inv s L hR
  have hR3 := Reach.realloc s L p len hR hp hlen hbrk
  have hti : toInt32 (len : Int) = len := by
    apply toInt32_small
    · omega
    · have : (INT_MAX : Int) < 2 ^ 31 := by decide
      have : (len : Int) ≤ INT_MAX := by exact_mod_cast hlen
      omega
  have hc' : get_addr_block_len s p false < toInt32 (len : Int) ∨
      get_page_index (toSizeT (get_addr_block_len s p false)) > get_page_index len := by
    rw [hti]; exact hc
  obtain ⟨hb1, hq, hqp, hI1, hI2, e, hI3⟩ := mem_realloc_move_inv s g L p len hI hp hlen hbrk hc'
  have hsz := block_len_eq s g L p hI hp
  have hSle := user_size_le s g L p hI hp
  have hS64 : user_size s g p < 2 ^ 64 := by
    have : INT_MAX < 2 ^ 64 := by decide
    omega
  have hcn : user_size s g p < len ∨
      get_page_index (user_size s g p) > get_page_index len := by
    rw [hsz, toSizeT_nat _ hS64] at hc
    rcases hc with h | h
    · left; exact_mod_cast h
    · right; exact h
  have hne := realloc_pages_ne s g L p len hI hp hlen hb1 hcn
  obtain ⟨m1, m2, m3⟩ := mem_malloc_out_frame s g L len p hI hp hb1
  have m3' := m3 hne
  have hj := get_page_index_lt len
  have hgb : get_block (mem_malloc s len).1 false = (mem_malloc s len).1 - sizeof_MEM_BLOCK := by
    simp [get_block, hq, block_head_size]
  have hcl := (mem_malloc_post s g L len hI hb1).2.2.2
  rw [hgb, class_pages_of_ring _ _ _ (hI1.ring _ hj)] at hcl
  have hpL : p ∈ (mem_malloc s len).1 :: L := List.mem_cons_of_mem _ hp
  have hqL : (mem_malloc s len).1 ∈ (mem_malloc s len).1 :: L := List.mem_cons_self _ _
  obtain ⟨f1, f2, f3, f4, f5⟩ := free_block_frame _ _ _ p hI2 hpL
  obtain ⟨i1, a1, hi1, ha1, hp1, -⟩ := user_area _ _ _ p hI2 hpL
  have ha0 : a1 ≠ 0 := by
    have := pages_lt_brk _ _ _ hI2 i1 a1 hi1 ha1
    omega
  have hidx := page_index_ex_of_ok _ _ _ i1 a1 hi1 (hI2.pages i1 hi1 a1 ha1) ha0
  have hpg2 : (((mem_malloc s len).2.memcpy (mem_malloc s len).1 p
      (min (user_size s g p) len)).block (p - sizeof_MEM_BLOCK)).page
      = (s.block (p - sizeof_MEM_BLOCK)).page := m1
  have hqne : (((mem_malloc s len).2.memcpy (mem_malloc s len).1 p
      (min (user_size s g p) len)).block ((mem_malloc s len).1 - sizeof_MEM_BLOCK)).page ≠ a1 := by
    rw [← hp1, hpg2]
    exact fun h => hne h.symm
  have hno := out_not_owned_other _ _ _ (mem_malloc s len).1 hI2 hqL i1 a1 hi1 ha1 hqne
  rw [hp1, hidx] at f2 f5
  have hus : len ≤ user_size ((mem_malloc s len).2.memcpy (mem_malloc s len).1 p
      (min (user_size s g p) len)) (malloc_ghost s g len) (mem_malloc s len).1 :=
    (mem_malloc_user_size s g L len hI hlen hb1).1
  have h16 := (hI2.out _ hqL).1
  have e16 : sizeof_MEM_BLOCK = 16 := rfl
  rw [e]
  simp only
  refine ⟨hq, hqp, ?_, ?_, ?_, ?_, ?_, ?_⟩
  · rw [class_pages_of_ring _ _ _ (by rw [e] at hI3; exact hI3.ring _ hj)]
    rw [f5 _ (hno _ ⟨le_refl _, by omega⟩)]
    apply free_ghost_keeps _ _ _ _ _ hcl
    rw [hpg2]
    exact fun h => hne h.symm
  · intro k hk1 hk2
    rw [hsz] at hk1
    have hk1' : k < user_size s g p := by exact_mod_cast hk1
    rw [f2 _ (hno _ ⟨by omega, by omega⟩)]
    have hmin : k < min (user_size s g p) len := lt_min hk1' hk2
    simp only [sel_memcpy_byte]
    rw [if_pos ⟨by omega, by omega⟩]
    have : p + ((mem_malloc s len).1 + k - (mem_malloc s len).1) = p + k := by omega
    rw [this]
    exact m2 _ (by omega) (by omega)
  · have : realloc_out L p (mem_realloc s p len).1 = (mem_malloc s len).1 :: L.erase p := by
      rw [e]
      simp [realloc_out, hq, hqp]
    rw [this, e] at hR3
    exact hR3
  · intro h
    rcases List.mem_cons.1 h with h | h
    · exact hqp h.symm
    · exact (List.Nodup.not_mem_erase hI.out_nodup) h
  · rw [hpg2] at f3 f4
    by_cases hd : (((mem_malloc s len).2.memcpy (mem_malloc s len).1 p
        (min (user_size s g p) len)).page (s.block (p - sizeof_MEM_BLOCK)).page).using_count = 1 ∧
        (((mem_malloc s len).2.memcpy (mem_malloc s len).1 p
          (min (user_size s g p) len)).mem_page_map
            (get_page_index_ex ((mem_malloc s len).2.memcpy (mem_malloc s len).1 p
              (min (user_size s g p) len)) (s.block (p - sizeof_MEM_BLOCK)).page)).idle_num + 1
          > MEM_PAGE_MAX_IDLE
    · exact Or.inr (f3 hd).1
    · left
      rw [f4 hd]
      show ((mem_malloc s len).2.page _).using_count = _
      rw [m3']
  · rw [e] at hI3
    rw [total_using_eq _ _ _ hI3, total_using_eq _ _ _ hI, List.length_cons,
      List.length_erase_of_mem hp]
    have := List.length_pos_of_mem hp
    omega

theorem mem_realloc_moves_witness :
    (mem_realloc (mem_malloc Heap.start 12).2 (mem_malloc Heap.start 12).1 100).1 ≠ 0 ∧
    (mem_realloc (mem_malloc Heap.start 12).2 (mem_malloc Heap.start 12).1 100).1
      ≠ (mem_malloc Heap.start 12).1 ∧
    ((mem_realloc (mem_malloc Heap.start 12).2 (mem_malloc Heap.start 12).1 100).2.block
        ((mem_realloc (mem_malloc Heap.start 12).2 (mem_malloc Heap.start 12).1 100).1
          - sizeof_MEM_BLOCK)).page
      ∈ (mem_realloc (mem_malloc Heap.start 12).2 (mem_malloc Heap.start 12).1 100).2.class_pages
          (get_page_index 100) ∧
    (∀ k : Nat, (k : Int)
        < get_addr_block_len (mem_malloc Heap.start 12).2 (mem_malloc Heap.start 12).1 false →
      k < 100 →
      (mem_realloc (mem_malloc Heap.start 12).2 (mem_malloc Heap.start 12).1 100).2.byte
          ((mem_realloc (mem_malloc Heap.start 12).2 (mem_malloc Heap.start 12).1 100).1 + k)
        = (mem_malloc Heap.start 12).2.byte ((mem_malloc Heap.start 12).1 + k)) ∧
    Reach (mem_realloc (mem_malloc Heap.start 12).2 (mem_malloc Heap.start 12).1 100).2
      ((mem_realloc (mem_malloc Heap.start 12).2 (mem_malloc Heap.start 12).1 100).1
        :: [(mem_malloc Heap.start 12).1].erase (mem_malloc Heap.start 12).1) ∧
    (mem_malloc Heap.start 12).1 ∉
      (mem_realloc (mem_malloc Heap.start 12).2 (mem_malloc Heap.start 12).1 100).1
        :: [(mem_malloc Heap.start 12).1].erase (mem_malloc Heap.start 12).1 ∧
    (((mem_realloc (mem_malloc Heap.start 12).2 (mem_malloc Heap.start 12).1 100).2.page
          ((mem_malloc Heap.start 12).2.block
            ((mem_malloc Heap.start 12).1 - sizeof_MEM_BLOCK)).page).using_count + 1
        = ((mem_malloc Heap.start 12).2.page
          ((mem_malloc Heap.start 12).2.block
            ((mem_malloc Heap.start 12).1 - sizeof_MEM_BLOCK)).page).using_count ∨
      ∀ r ∈ (mem_realloc (mem_malloc Heap.start 12).2 (mem_malloc Heap.start 12).1 100).2.live,
        r.1 ≠ ((mem_malloc Heap.start 12).2.block
          ((mem_malloc Heap.start 12).1 - sizeof_MEM_BLOCK)).page) ∧
    (mem_realloc (mem_malloc Heap.start 12).2 (mem_malloc Heap.start 12).1 100).2.total_using
      = (mem_malloc Heap.start 12).2.total_using :=
  mem_realloc_moves (mem_malloc Heap.start 12).2 [(mem_malloc Heap.start 12).1]
    (mem_malloc Heap.start 12).1 100
    (Reach.malloc Heap.start [] 12 Reach.start (by decide) (by decide))
    (List.mem_singleton.2 rfl) (by decide) (by decide) (by decide)

/-! ## Stop: `clear_mem_pages` -/

/-- Requests of at most `INT_MAX` bytes (the in-range part of C16): from every state reachable
through such requests `clear_mem_pages` terminates (every `while` loop ends within as many
passes as its class list has pages); afterwards every one of the 15 class lists has `count ==
0`, `head == tail == null` and `idle_num == 0`, nothing the backing allocator had handed out is
left, and the arguments of the calls of `free` are, each exactly once, the addresses of the
regions that were live: every page of every class list and every external buffer of a ZERO/LARGE
page in use. -/
theorem clear_mem_pages_releases (s : Heap) (L : List Nat) (hR : Reach s L) (fuel : Nat)
    (hf : ∀ i < MEM_PAGE_BLOCK_INFO_COUNT, (s.mem_page_map i).count ≤ fuel) :
    ∃ t, clear_mem_pages fuel s = some t ∧
      (∀ i < MEM_PAGE_BLOCK_INFO_COUNT,
        (t.mem_page_map i).count = 0 ∧ (t.mem_page_map i).head = 0 ∧
        (t.mem_page_map i).tail = 0 ∧ (t.mem_page_map i).idle_num = 0) ∧
      t.live = [] ∧
      (clear_mem_pages_frees fuel s).Perm (s.live.map Prod.fst) ∧
      (clear_mem_pages_frees fuel s).Nodup ∧
      (∀ i < MEM_PAGE_BLOCK_INFO_COUNT, ∀ a ∈ s.class_pages i,
        a ∈ clear_mem_pages_frees fuel s ∧
        ((i = 0 ∨ i = MEM_PAGE_BLOCK_INFO_COUNT - 1) → (s.page a).using_count ≠ 0 →
          MEM_TO_ADDR s (a + sizeof_MEM_PAGE + sizeof_MEM_BLOCK)
            ∈ clear_mem_pages_frees fuel s)) := by
  obtain ⟨g, hI, hLO⟩ := reach_live s L hR
  obtain ⟨t, g', L', e, hI', hLO', hl, -, hp⟩ :=
    clear_list_spec fuel (List.range MEM_PAGE_BLOCK_INFO_COUNT) s g L hI hLO
      (fun j hj => List.mem_range.1 hj) (by
        intro j hj
        have hj' := List.mem_range.1 hj
        have h1 := (hI.ring j hj').1
        have h2 := hf j hj'
        rw [h1] at h2
        exact_mod_cast h2)
  have hnil : t.live = [] := by
    apply List.eq_nil_iff_forall_not_mem.2
    intro r hr
    rcases hLO' r hr with ⟨j, hj, h⟩ | h
    · rw [hl j (List.mem_range.2 hj)] at h
      cases h
    · obtain ⟨-, j, hj, a, ha, -⟩ := hI'.out _ h
      rw [hl j (List.mem_range.2 hj)] at ha
      cases ha
  rw [hnil, List.map_nil, List.append_nil] at hp
  have hp' : (clear_mem_pages_frees fuel s).Perm (s.live.map Prod.fst) := hp.symm
  refine ⟨t, e, ?_, hnil, hp', hp'.nodup_iff.2 (live_addr_nodup s.live hI.live_sorted), ?_⟩
  · intro i hi
    have := (clear_reset_self t g' L' i hI' hi (hl i (List.mem_range.2 hi))).1
    rw [this]
    exact ⟨rfl, rfl, rfl, rfl⟩
  · intro i hi a ha
    rw [class_pages_of_ring s i _ (hI.ring i hi)] at ha
    have pa := hI.pages i hi a ha
    refine ⟨hp'.mem_iff.2 (List.mem_map.2 ⟨_, pa.live, rfl⟩), ?_⟩
    intro he hu
    exact hp'.mem_iff.2 (List.mem_map.2 ⟨_, (pa.ext_used he hu).live, rfl⟩)

set_option maxRecDepth 1000000 in
theorem clear_mem_pages_releases_witness :
    ∃ t, clear_mem_pages 1 (mem_malloc (mem_malloc Heap.start 12).2 10000).2 = some t ∧
      (∀ i < MEM_PAGE_BLOCK_INFO_COUNT,
        (t.mem_page_map i).count = 0 ∧ (t.mem_page_map i).head = 0 ∧
        (t.mem_page_map i).tail = 0 ∧ (t.mem_page_map i).idle_num = 0) ∧
      t.live = [] ∧
      (clear_mem_pages_frees 1 (mem_malloc (mem_malloc Heap.start 12).2 10000).2).Perm
        ((mem_malloc (mem_malloc Heap.start 12).2 10000).2.live.map Prod.fst) ∧
      (clear_mem_pages_frees 1 (mem_malloc (mem_malloc Heap.start 12).2 10000).2).Nodup ∧
      (∀ i < MEM_PAGE_BLOCK_INFO_COUNT,
        ∀ a ∈ (mem_malloc (mem_malloc Heap.start 12).2 10000).2.class_pages i,
        a ∈ clear_mem_pages_frees 1 (mem_malloc (mem_malloc Heap.start 12).2 10000).2 ∧
        ((i = 0 ∨ i = MEM_PAGE_BLOCK_INFO_COUNT - 1) →
          ((mem_malloc (mem_malloc Heap.start 12).2 10000).2.page a).using_count ≠ 0 →
          MEM_TO_ADDR (mem_malloc (mem_malloc Heap.start 12).2 10000).2
              (a + sizeof_MEM_PAGE + sizeof_MEM_BLOCK)
            ∈ clear_mem_pages_frees 1 (mem_malloc (mem_malloc Heap.start 12).2 10000).2)) :=
  clear_mem_pages_releases (mem_malloc (mem_malloc Heap.start 12).2 10000).2
    [(mem_malloc (mem_malloc Heap.start 12).2 10000).1, (mem_malloc Heap.start 12).1]
    (Reach.malloc _ _ 10000
      (Reach.malloc Heap.start [] 12 Reach.start (by decide) (by decide))
      (by decide) (by decide))
    1 (by decide)

/-! ## Invariants of the size-class table and of the class directory -/

/-- C23, counterexample: class 5 has blocks of 96 bytes, 10 per page, which is 960 bytes of
the 1024 of its data area. -/
theorem class_table_product_short :
    (page_info 5).block_size * (page_info 5).block_num = 960 ∧
    (page_info 5).total_size = 1024 ∧
    (page_info 5).block_size * (page_info 5).block_num ≠ (page_info 5).total_size := by
  decide

/-- C23, amended: for every slab class (indices 1..13 of `mem_page_info_list`) the blocks fit
into the data area, `block_size * block_num ≤ total_size`, with no room for one more block,
and fill it exactly in the classes 1, 2, 3, 4, 6, 9 and 13; `total_size` is 1024, 2048 or 4096
according to the page kind; the ZERO and the LARGE entry have `block_num == 1`. -/
theorem class_table_sizes (i : Nat) (h1 : 1 ≤ i) (h13 : i ≤ 13) :
    (page_info i).block_size * (page_info i).block_num ≤ (page_info i).total_size ∧
    (page_info i).total_size < (page_info i).block_size * (page_info i).block_num
      + (page_info i).block_size ∧
    (i ∈ [1, 2, 3, 4, 6, 9, 13] ↔
      (page_info i).block_size * (page_info i).block_num = (page_info i).total_size) ∧
    (((page_info i).page_type = MEM_PAGE_TYPE_1K ∧ (page_info i).total_size = 1024) ∨
     ((page_info i).page_type = MEM_PAGE_TYPE_2K ∧ (page_info i).total_size = 2048) ∨
     ((page_info i).page_type = MEM_PAGE_TYPE_4K ∧ (page_info i).total_size = 4096)) ∧
    (page_info 0).page_type = MEM_PAGE_TYPE_ZERO ∧ (page_info 0).block_num = 1 ∧
    (page_info 14).page_type = MEM_PAGE_TYPE_LARGE ∧ (page_info 14).block_num = 1 := by
  interval_cases i <;> decide

theorem class_table_sizes_witness :
    (page_info 5).block_size * (page_info 5).block_num ≤ (page_info 5).total_size ∧
    (page_info 5).total_size < (page_info 5).block_size * (page_info 5).block_num
      + (page_info 5).block_size ∧
    (5 ∈ [1, 2, 3, 4, 6, 9, 13] ↔
      (page_info 5).block_size * (page_info 5).block_num = (page_info 5).total_size) ∧
    (((page_info 5).page_type = MEM_PAGE_TYPE_1K ∧ (page_info 5).total_size = 1024) ∨
     ((page_info 5).page_type = MEM_PAGE_TYPE_2K ∧ (page_info 5).total_size = 2048) ∨
     ((page_info 5).page_type = MEM_PAGE_TYPE_4K ∧ (page_info 5).total_size = 4096)) ∧
    (page_info 0).page_type = MEM_PAGE_TYPE_ZERO ∧ (page_info 0).block_num = 1 ∧
    (page_info 14).page_type = MEM_PAGE_TYPE_LARGE ∧ (page_info 14).block_num = 1 :=
  class_table_sizes 5 (by decide) (by decide)

/-- C24: in every reachable state, for every class the recorded `idle_num` is the number of
pages of the class list whose status is IDLE; this holds in particular right after any
`mem_free` of an outstanding pointer, whether or not it made `mem_page_free` reclaim the
page. -/
theorem idle_num_counts (s : Heap) (L : List Nat) (hR : Reach s L) :
    (∀ i < MEM_PAGE_BLOCK_INFO_COUNT,
      (s.mem_page_map i).idle_num =
        ((s.class_pages i).countP (fun a => (s.page a).status = MEM_PAGE_STATUS_IDLE) : Nat)) ∧
    (∀ p ∈ L, ∀ i < MEM_PAGE_BLOCK_INFO_COUNT,
      ((mem_free s p).mem_page_map i).idle_num =
        (((mem_free s p).class_pages i).countP
          (fun a => ((mem_free s p).page a).status = MEM_PAGE_STATUS_IDLE) : Nat)) := by
  have key : ∀ (t : Heap) (M : List Nat), Reach t M → ∀ i < MEM_PAGE_BLOCK_INFO_COUNT,
      (t.mem_page_map i).idle_num =
        ((t.class_pages i).countP (fun a => (t.page a).status = MEM_PAGE_STATUS_IDLE) : Nat) := by
    intro t M hT i hi
    obtain ⟨g, hI⟩ := reach_inv t M hT
    rw [class_pages_of_ring t i _ (hI.ring i hi)]
    exact hI.idle_num i hi
  exact ⟨key s L hR, fun p hp => key _ _ (Reach.free s L p hR hp)⟩

set_option maxRecDepth 1000000 in
theorem idle_num_counts_witness :
    (∀ i < MEM_PAGE_BLOCK_INFO_COUNT,
      (two_idle_state.mem_page_map i).idle_num =
        ((two_idle_state.class_pages i).countP
          (fun a => (two_idle_state.page a).status = MEM_PAGE_STATUS_IDLE) : Nat)) ∧
    (∀ p ∈ two_idle_ptrs, ∀ i < MEM_PAGE_BLOCK_INFO_COUNT,
      ((mem_free two_idle_state p).mem_page_map i).idle_num =
        (((mem_free two_idle_state p).class_pages i).countP
          (fun a => ((mem_free two_idle_state p).page a).status = MEM_PAGE_STATUS_IDLE) : Nat)) :=
  idle_num_counts two_idle_state two_idle_ptrs two_idle_reach

/-! ## `link_remove_force` and `link_remove_node` -/

/-- The search loop of `link_remove_node` finds a member within as many steps as the list has
nodes before it, plus one. -/
theorem find_node_mem (m : Nodes) (t : Nat) (l2 : List Nat) :
    ∀ (l1 : List Nat) (p n k : Nat), dlseg m (l1 ++ t :: l2) p n → t ∉ l1 →
      l1.length + 1 ≤ k → find_node m t (firstD (l1 ++ t :: l2) 0) k = some t := by
  intro l1
  induction l1 with
  | nil =>
    intro p n k _ _ hk
    obtain ⟨k', rfl⟩ : ∃ k', k = k' + 1 := ⟨k - 1, by simp at hk; omega⟩
    simp [find_node, firstD]
  | cons a r ih =>
    intro p n k hd hnot hk
    obtain ⟨k', rfl⟩ : ∃ k', k = k' + 1 := ⟨k - 1, by simp at hk; omega⟩
    have hat : a ≠ t := fun e => hnot (by simp [e])
    have hr : t ∉ r := fun e => hnot (List.mem_cons_of_mem _ e)
    have hd' : dlseg m (a :: (r ++ t :: l2)) p n := hd
    obtain ⟨-, hnext, hrest⟩ := hd'
    have e2 : firstD (r ++ t :: l2) n = firstD (r ++ t :: l2) 0 := by
      cases r <;> rfl
    show find_node m t a (k' + 1) = some t
    simp only [find_node, hat, if_false]
    rw [hnext, e2]
    exact ih a n k' hrest hr (by simp at hk ⊢; omega)

theorem REMOVE_self (m : Nodes) (t : Nat) : REMOVE m t t = m t := by
  have h1 : (REMOVE m t t).next = (m t).next := by
    unfold REMOVE
    simp only [setPrev_next, setNext_next]
    split_ifs <;> rfl
  have h2 : (REMOVE m t t).prev = (m t).prev := by
    unfold REMOVE
    simp only [setPrev_prev, setNext_prev, setNext_next]
    split_ifs <;> rfl
  cases hr : REMOVE m t t with
  | mk a b =>
    cases hm : m t with
    | mk c d =>
      rw [hr, hm] at h1 h2
      simp only at h1 h2
      rw [h1, h2]

theorem REMOVE_other (m : Nodes) (t x : Nat) (h1 : x ≠ (m t).prev) (h2 : x ≠ (m t).next) :
    REMOVE m t x = m x := by
  have e1 : (setNext m (m t).prev (m t).next t).next = (m t).next := by
    rw [setNext_next]; split_ifs <;> rfl
  have e2 : (setNext m (m t).prev (m t).next t).prev = (m t).prev := by
    rw [setNext_prev]
  unfold REMOVE
  simp only [e1, e2]
  unfold setPrev setNext
  simp only [h1, h2, if_false]

theorem link_remove_force_nodes (m : Nodes) (l : LINK) (t : Nat) (ht0 : t ≠ 0)
    (hcz : l.count ≠ 0) : (link_remove_force m l t).2.1 = REMOVE m t := by
  unfold link_remove_force
  simp only [ht0, hcz, if_false]
  split_ifs <;> rfl

theorem list_three_ok : RingOK list_three.1 list_three.2 [1, 2, 3] := by
  unfold RingOK
  refine ⟨by decide, by decide, by decide, by decide, by decide, ?_⟩
  exact ⟨by decide, by decide, by decide, by decide, by decide, by decide, trivial⟩

/-- C21: on a well-formed list, for every member `t`, `link_remove_force` returns `t` and gives
exactly the result of `link_remove_node` (nodes, head, tail, count), which is the well-formed
list without `t`; it reads and writes nothing but `t` and its two neighbours: its result does
not depend on any other node and every node other than the two neighbours is left as it
was. -/
theorem link_remove_force_refines (m : Nodes) (l : LINK) (l1 l2 : List Nat) (t : Nat)
    (h : RingOK m l (l1 ++ t :: l2)) :
    link_remove_force m l t = link_remove_node m l t ∧
    (link_remove_force m l t).1 = t ∧
    RingOK (link_remove_force m l t).2.1 (link_remove_force m l t).2.2 (l1 ++ l2) ∧
    (link_remove_force m l t).2.2.count = l.count - 1 ∧
    (∀ x, x ≠ (m t).prev → x ≠ (m t).next → (link_remove_force m l t).2.1 x = m x) ∧
    (∀ m' : Nodes, m' t = m t →
      (link_remove_force m' l t).1 = (link_remove_force m l t).1 ∧
      (link_remove_force m' l t).2.2 = (link_remove_force m l t).2.2) := by
  obtain ⟨f1, f2, -⟩ := link_remove_force_mem m l l1 l2 t h
  obtain ⟨hc, hh, ht, hnd, h0, hs⟩ := h
  have ht0 : t ≠ 0 := fun e => h0 (by simp [e])
  have hcz : l.count ≠ 0 := by rw [hc]; simp; omega
  have htl1 : t ∉ l1 := fun e =>
    (List.nodup_append.1 hnd).2.2 e (List.mem_cons_self _ _)
  have hfind : find_node m t l.head l.count.toNat = some t := by
    rw [hh, hc]
    apply find_node_mem m t l2 l1 _ _ _ hs htl1
    simp only [List.length_append, List.length_cons]
    omega
  refine ⟨?_, f1, f2, ?_, ?_, ?_⟩
  · unfold link_remove_force link_remove_node
    simp only [ht0, hcz, if_false]
    by_cases c1 : l.count = 1
    · simp only [c1, if_true]
    · simp only [c1, if_false]
      by_cases c2 : l.head = t
      · simp only [c2, if_true]
      · simp only [c2, if_false]
        by_cases c3 : l.tail = t
        · simp only [c3, if_true]
        · simp only [c3, if_false, hfind]
  · unfold link_remove_force
    simp only [ht0, hcz, if_false]
    split_ifs <;> rfl
  · intro x hx1 hx2
    rw [link_remove_force_nodes m l t ht0 hcz]
    exact REMOVE_other m t x hx1 hx2
  · intro m' hm
    unfold link_remove_force
    simp only [ht0, hcz, if_false, REMOVE_self, hm]
    split_ifs <;> exact ⟨rfl, rfl⟩

theorem link_remove_force_refines_witness :
    link_remove_force list_three.1 list_three.2 2 = link_remove_node list_three.1 list_three.2 2 ∧
    (link_remove_force list_three.1 list_three.2 2).1 = 2 ∧
    RingOK (link_remove_force list_three.1 list_three.2 2).2.1
      (link_remove_force list_three.1 list_three.2 2).2.2 ([1] ++ [3]) ∧
    (link_remove_force list_three.1 list_three.2 2).2.2.count = list_three.2.count - 1 ∧
    (∀ x, x ≠ (list_three.1 2).prev → x ≠ (list_three.1 2).next →
      (link_remove_force list_three.1 list_three.2 2).2.1 x = list_three.1 x) ∧
    (∀ m' : Nodes, m' 2 = list_three.1 2 →
      (link_remove_force m' list_three.2 2).1 = (link_remove_force list_three.1 list_three.2 2).1 ∧
      (link_remove_force m' list_three.2 2).2.2
        = (link_remove_force list_three.1 list_three.2 2).2.2) :=
  link_remove_force_refines list_three.1 list_three.2 [1] [3] 2 list_three_ok

/-! ## The mutex -/

/-- C22, counterexample: `mem_realloc` on the pointer of `mem_malloc(12)` with the new length
100 calls `get_addr_block_len`, which reads the block header and the page, before `MEM_LOCK`
(the debug variant does the same); the print functions and their debug variants read
`mem_page_map` and the pages without taking the mutex at all. -/
theorem entry_points_outside_lock :
    (mem_realloc_steps (mem_malloc Heap.start 12).2 (mem_malloc Heap.start 12).1 100).head?
      = some Step.get_addr_block_len ∧
    locked_run false
      (mem_realloc_steps (mem_malloc Heap.start 12).2 (mem_malloc Heap.start 12).1 100) = none ∧
    locked_run false
      (mem_dbg_realloc_steps (mem_malloc Heap.start 12).2 (mem_malloc Heap.start 12).1 100)
        = none ∧
    locked_run false mem_print_info_steps = none ∧
    locked_run false mem_print_block_list_steps = none ∧
    locked_run false mem_print_leak_info_steps = none ∧
    locked_run false mem_dbg_print_info_steps = none ∧
    locked_run false mem_dbg_print_block_list_steps = none ∧
    locked_run false mem_dbg_print_leak_info_steps = none := by
  decide

/-- C22, amended: `mem_malloc`, `mem_free`, `mem_dbg_malloc`, `mem_dbg_calloc`, `mem_dbg_free`
and `clear_res` make every call that reads or writes `mem_page_map` or page state between
`MEM_LOCK` and the matching `MEM_UNLOCK`, their only call outside the mutex being
`get_page_index`; `mem_realloc` and `mem_dbg_realloc` make every writing call under the mutex,
read the capacity before taking it (their first step), keep the discipline of the other entry
points after that step, and take the mutex in their moving branch only; the print functions
and their debug variants write nothing; every entry point returns with the mutex released. -/
theorem mutex_discipline (s : Heap) (ptr len num size : Nat) :
    locked_run false (mem_malloc_steps s len) = some false ∧
    locked_run false (mem_free_steps ptr) = some false ∧
    locked_run false (mem_dbg_malloc_steps s len) = some false ∧
    locked_run false (mem_dbg_calloc_steps s num size) = some false ∧
    locked_run false (mem_dbg_free_steps ptr) = some false ∧
    locked_run false clear_res_steps = some false ∧
    locked_run false mem_clear_steps = some false ∧
    writes_locked false (mem_realloc_steps s ptr len) = some false ∧
    locked_run false (mem_realloc_steps s ptr len).tail = some false ∧
    (ptr ≠ 0 → (mem_realloc_steps s ptr len).head? = some Step.get_addr_block_len) ∧
    (Step.lock ∈ mem_realloc_steps s ptr len →
      get_addr_block_len s ptr false < toInt32 (len : Int) ∨
        get_page_index (toSizeT (get_addr_block_len s ptr false)) > get_page_index len) ∧
    writes_locked false (mem_dbg_realloc_steps s ptr len) = some false ∧
    locked_run false (mem_dbg_realloc_steps s ptr len).tail = some false ∧
    (ptr ≠ 0 → (mem_dbg_realloc_steps s ptr len).head? = some Step.get_addr_block_len) ∧
    (Step.lock ∈ mem_dbg_realloc_steps s ptr len →
      get_addr_block_len s ptr true < toInt32 (len : Int) ∨
        get_page_index (toSizeT (get_addr_block_len s ptr true)) > get_page_index len) ∧
    writes_locked false mem_print_info_steps = some false ∧
    writes_locked false mem_print_block_list_steps = some false ∧
    writes_locked false mem_print_leak_info_steps = some false ∧
    writes_locked false mem_dbg_print_info_steps = some false ∧
    writes_locked false mem_dbg_print_block_list_steps = some false ∧
    writes_locked false mem_dbg_print_leak_info_steps = some false := by
  refine ⟨?_, ?_, ?_, ?_, ?_, by decide, by decide, ?_, ?_, ?_, ?_, ?_, ?_, ?_, ?_,
    by decide, by decide, by decide, by decide, by decide, by decide⟩
  · unfold mem_malloc_steps
    simp only
    split_ifs <;> rfl
  · unfold mem_free_steps
    split_ifs <;> rfl
  · unfold mem_dbg_malloc_steps
    simp only
    split_ifs <;> rfl
  · unfold mem_dbg_calloc_steps
    simp only
    split_ifs <;> rfl
  · unfold mem_dbg_free_steps
    split_ifs <;> rfl
  · unfold mem_realloc_steps
    simp only
    split_ifs <;> rfl
  · unfold mem_realloc_steps
    simp only
    split_ifs <;> rfl
  · intro h0
    unfold mem_realloc_steps
    rw [if_neg h0]
    rfl
  · intro h
    by_contra hc
    unfold mem_realloc_steps at h
    simp only at h
    by_cases h0 : ptr = 0
    · rw [if_pos h0] at h; cases h
    · rw [if_neg h0, if_neg hc] at h
      simp at h
  · unfold mem_dbg_realloc_steps
    simp only
    split_ifs <;> rfl
  · unfold mem_dbg_realloc_steps
    simp only
    split_ifs <;> rfl
  · intro h0
    unfold mem_dbg_realloc_steps
    rw [if_neg h0]
    rfl
  · intro h
    by_contra hc
    unfold mem_dbg_realloc_steps at h
    simp only at h
    by_cases h0 : ptr = 0
    · rw [if_pos h0] at h; cases h
    · rw [if_neg h0, if_neg hc] at h
      simp at h

/-! ## The freelist of a page and its blocks in use -/

theorem freelist_walk_chain (s : Heap) :
    ∀ (fl : List Nat) (fuel : Nat), free_chain s fl → 0 ∉ fl → fl.length < fuel →
      freelist_walk s sizeof_MEM_BLOCK fuel (firstD fl 0) = fl := by
  intro fl
  induction fl with
  | nil =>
    intro fuel _ _ hf
    obtain ⟨f, rfl⟩ : ∃ f, fuel = f + 1 := ⟨fuel - 1, by simp at hf; omega⟩
    simp [freelist_walk, firstD]
  | cons b r ih =>
    intro fuel hc h0 hf
    obtain ⟨f, rfl⟩ : ∃ f, fuel = f + 1 := ⟨fuel - 1, by simp at hf; omega⟩
    have hb : b ≠ 0 := fun e => h0 (by simp [e])
    have hr : 0 ∉ r := fun e => h0 (List.mem_cons_of_mem _ e)
    obtain ⟨h1, h2⟩ := hc
    show freelist_walk s sizeof_MEM_BLOCK (f + 1) b = b :: r
    simp only [freelist_walk, hb, if_false, h1]
    rw [ih f h2 hr (by simp at hf; omega)]

/-- The freelist of a page of a class list, read from memory. -/
theorem page_freelist (s : Heap) (g : Ghost) (L : List Nat) (hI : Inv s g L) (i a : Nat)
    (hi : i < 15) (ha : a ∈ g.lists i) :
    (∀ fuel, (g.fl a).length < fuel →
      freelist_walk s (s.page a).block_head fuel (s.page a).idle = g.fl a) ∧
    (g.fl a).length + (s.page a).using_count = (s.page a).block_num ∧
    (g.fl a).Nodup ∧
    (∀ b ∈ g.fl a,
      (∃ k < (s.page a).block_num,
        b = a + sizeof_MEM_PAGE + k * ((s.page a).block_head + (s.page a).block_data)) ∧
      s.block b = ⟨a, MEM_BLOCK_STATUS_IDLE⟩) := by
  have pa := hI.pages i hi a ha
  have h0 : 0 ∉ g.fl a := by
    intro h
    obtain ⟨k, hk, e⟩ := pa.fl_blocks 0 h
    have := block_addr_bound a i k hi hk
    omega
  refine ⟨?_, ?_, pa.fl_nodup, ?_⟩
  · intro fuel hf
    rw [pa.block_head, pa.idle]
    exact freelist_walk_chain s _ fuel pa.chain h0 hf
  · rw [pa.block_num]
    have := pa.fl_len
    omega
  · intro b hb
    obtain ⟨k, hk, e⟩ := pa.fl_blocks b hb
    rw [pa.block_num, pa.block_head, pa.block_data]
    refine ⟨⟨k, hk, e⟩, ?_⟩
    have := pa.hdr k hk
    rw [← e, if_pos hb] at this
    exact this

/-- C25: in every reachable state and for every page of a class list, following the links
stored in the data areas from `page->idle` ends at null after exactly
`block_num - using_count` pairwise distinct blocks of that page, each with status IDLE (more
passes than that visit nothing more); and the page `mem_page_malloc` creates and initialises
for a class without a usable page has all its `block_num` blocks on the freelist, in address
order. -/
theorem freelist_invariant (s : Heap) (L : List Nat) (hR : Reach s L) :
    (∀ i < MEM_PAGE_BLOCK_INFO_COUNT, ∀ a ∈ s.class_pages i, ∃ fl : List Nat,
      (∀ fuel, fl.length < fuel →
        freelist_walk s (s.page a).block_head fuel (s.page a).idle = fl) ∧
      fl.length + (s.page a).using_count = (s.page a).block_num ∧
      fl.Nodup ∧
      (∀ b ∈ fl,
        (∃ k < (s.page a).block_num,
          b = a + sizeof_MEM_PAGE + k * ((s.page a).block_head + (s.page a).block_data)) ∧
        s.block b = ⟨a, MEM_BLOCK_STATUS_IDLE⟩)) ∧
    (∀ i < MEM_PAGE_BLOCK_INFO_COUNT, usable_page_exist s i = false →
      (mem_page_malloc s i false).2.brk ≤ 2 ^ 64 →
      ((mem_page_malloc s i false).2.page s.brk).using_count = 0 ∧
      ∀ fuel, (page_info i).block_num < fuel →
        freelist_walk (mem_page_malloc s i false).2
            ((mem_page_malloc s i false).2.page s.brk).block_head fuel
            ((mem_page_malloc s i false).2.page s.brk).idle
          = blocks_from (s.brk + sizeof_MEM_PAGE)
              (sizeof_MEM_BLOCK + (page_info i).block_size) (page_info i).block_num) := by
  obtain ⟨g, hI⟩ := reach_inv s L hR
  constructor
  · intro i hi a ha
    rw [class_pages_of_ring s i _ (hI.ring i hi)] at ha
    exact ⟨g.fl a, page_freelist s g L hI i a hi ha⟩
  · intro i hi hu hbrk
    obtain ⟨hI1, -, -, hl, hu0⟩ := page_malloc_inv s g L i hI hi hu hbrk
    have hm : s.brk ∈ (page_ghost s g i).lists i := by rw [hl]; exact List.mem_cons_self _ _
    obtain ⟨w1, w2, -, -⟩ := page_freelist _ _ L hI1 i s.brk hi hm
    have hfl : (page_ghost s g i).fl s.brk =
        blocks_from (s.brk + sizeof_MEM_PAGE) (sizeof_MEM_BLOCK + (page_info i).block_size)
          (page_info i).block_num := by simp [page_ghost]
    refine ⟨hu0, ?_⟩
    intro fuel hf
    rw [hfl] at w1 w2
    apply w1 fuel
    rw [hu0, (hI1.pages i hi s.brk hm).block_num] at w2
    omega

set_option maxRecDepth 1000000 in
theorem freelist_invariant_witness :
    (∀ i < MEM_PAGE_BLOCK_INFO_COUNT, ∀ a ∈ two_idle_state.class_pages i, ∃ fl : List Nat,
      (∀ fuel, fl.length < fuel →
        freelist_walk two_idle_state (two_idle_state.page a).block_head fuel
          (two_idle_state.page a).idle = fl) ∧
      fl.length + (two_idle_state.page a).using_count = (two_idle_state.page a).block_num ∧
      fl.Nodup ∧
      (∀ b ∈ fl,
        (∃ k < (two_idle_state.page a).block_num,
          b = a + sizeof_MEM_PAGE
            + k * ((two_idle_state.page a).block_head + (two_idle_state.page a).block_data)) ∧
        two_idle_state.block b = ⟨a, MEM_BLOCK_STATUS_IDLE⟩)) ∧
    (∀ i < MEM_PAGE_BLOCK_INFO_COUNT, usable_page_exist two_idle_state i = false →
      (mem_page_malloc two_idle_state i false).2.brk ≤ 2 ^ 64 →
      ((mem_page_malloc two_idle_state i false).2.page two_idle_state.brk).using_count = 0 ∧
      ∀ fuel, (page_info i).block_num < fuel →
        freelist_walk (mem_page_malloc two_idle_state i false).2
            ((mem_page_malloc two_idle_state i false).2.page two_idle_state.brk).block_head fuel
            ((mem_page_malloc two_idle_state i false).2.page two_idle_state.brk).idle
          = blocks_from (two_idle_state.brk + sizeof_MEM_PAGE)
              (sizeof_MEM_BLOCK + (page_info i).block_size) (page_info i).block_num) :=
  freelist_invariant two_idle_state two_idle_ptrs two_idle_reach

/-- The blocks of a page that are not on its freelist are as many as its `using_count`. -/
theorem using_blocks_eq (s : Heap) (g : Ghost) (L : List Nat) (hI : Inv s g L) (i a : Nat)
    (hi : i < 15) (ha : a ∈ g.lists i) : using_blocks s a = (s.page a).using_count := by
  have pa := hI.pages i hi a ha
  unfold using_blocks
  rw [pa.block_num, pa.block_head, pa.block_data]
  have hcong : (List.range (page_info i).block_num).filter (fun k =>
      (s.block (a + sizeof_MEM_PAGE + k * (sizeof_MEM_BLOCK + (page_info i).block_size))).status
        = MEM_BLOCK_STATUS_USING)
      = (List.range (page_info i).block_num).filter
          (fun k => !decide (block_addr a i k ∈ g.fl a)) := by
    apply List.filter_congr
    intro k hk
    have h := pa.hdr k (List.mem_range.1 hk)
    simp only [block_addr] at h ⊢
    rw [h]
    by_cases hm : a + sizeof_MEM_PAGE + k * (sizeof_MEM_BLOCK + (page_info i).block_size) ∈ g.fl a
    · simp only [hm, if_true, decide_True, Bool.not_true, decide_eq_false_iff_not]
      decide
    · simp only [hm, if_false, decide_False, Bool.not_false, decide_eq_true_eq]
  rw [hcong]
  have hsplit := countP_split (List.range (page_info i).block_num)
    (fun k => decide (block_addr a i k ∈ g.fl a))
  rw [List.length_range, List.countP_eq_length_filter] at hsplit
  have hperm : (((List.range (page_info i).block_num).filter
      (fun k => decide (block_addr a i k ∈ g.fl a))).map (block_addr a i)).Perm (g.fl a) := by
    apply (List.perm_ext_iff_of_nodup ?_ pa.fl_nodup).2
    · intro x
      constructor
      · intro hx
        obtain ⟨k, hk, e⟩ := List.mem_map.1 hx
        have := (List.mem_filter.1 hk).2
        rw [← e]
        simpa using this
      · intro hx
        obtain ⟨k, hk, e⟩ := pa.fl_blocks x hx
        exact List.mem_map.2 ⟨k, List.mem_filter.2 ⟨List.mem_range.2 hk, by
          simpa [← e] using hx⟩, e.symm⟩
    · apply List.Nodup.map_on
      · intro x _ y _ hxy
        exact block_addr_inj a i x y hi hxy
      · exact (List.nodup_range _).filter _
  have hlen := hperm.length_eq
  rw [List.length_map] at hlen
  have := pa.fl_len
  omega

/-- Requests of at most `INT_MAX` bytes (the in-range part of C26): in every state reachable through
such requests, each page's `using_count` is the number of its blocks whose status is USING, it
is at most `block_num`, which is at most 128 (so the `unsigned char` counter never wraps), and
the sum of `using_count` over all pages of all classes is the number of outstanding allocations. -/
theorem using_count_invariant (s : Heap) (L : List Nat) (hR : Reach s L) :
    (∀ i < MEM_PAGE_BLOCK_INFO_COUNT, ∀ a ∈ s.class_pages i,
      using_blocks s a = (s.page a).using_count ∧
      (s.page a).using_count ≤ (s.page a).block_num ∧ (s.page a).block_num ≤ 128) ∧
    s.total_using = L.length ∧ L.Nodup := by
  obtain ⟨g, hI⟩ := reach_inv s L hR
  refine ⟨?_, total_using_eq s g L hI, hI.out_nodup⟩
  intro i hi a ha
  rw [class_pages_of_ring s i _ (hI.ring i hi)] at ha
  have pa := hI.pages i hi a ha
  have fi := page_info_facts i hi
  refine ⟨using_blocks_eq s g L hI i a hi ha, ?_, ?_⟩
  · rw [pa.block_num]
    have := pa.fl_len
    omega
  · rw [pa.block_num]; exact fi.2.2.2.1

set_option maxRecDepth 1000000 in
theorem using_count_invariant_witness :
    (∀ i < MEM_PAGE_BLOCK_INFO_COUNT, ∀ a ∈ two_idle_state.class_pages i,
      using_blocks two_idle_state a = (two_idle_state.page a).using_count ∧
      (two_idle_state.page a).using_count ≤ (two_idle_state.page a).block_num ∧
      (two_idle_state.page a).block_num ≤ 128) ∧
    two_idle_state.total_using = two_idle_ptrs.length ∧ two_idle_ptrs.Nodup :=
  using_count_invariant two_idle_state two_idle_ptrs two_idle_reach

/-! ## The head of a class list -/

set_option maxRecDepth 1000000 in
/-- C27, counterexample: after scenario S3 in class 13 (17 requests of 512 bytes, then the
blocks of the first two pages freed) the class list holds three pages and its head is an IDLE
page; after 16 requests of 512 bytes the list holds two pages and its head is FULL. -/
theorem head_idle_with_three_pages :
    Reach two_idle_state two_idle_ptrs ∧
    (two_idle_state.mem_page_map 13).count = 3 ∧
    (two_idle_state.page (two_idle_state.mem_page_map 13).head).status
      = MEM_PAGE_STATUS_IDLE ∧
    ((malloc_seq (List.replicate 16 512) Heap.start).mem_page_map 13).count = 2 ∧
    ((malloc_seq (List.replicate 16 512) Heap.start).page
        ((malloc_seq (List.replicate 16 512) Heap.start).mem_page_map 13).head).status
      = MEM_PAGE_STATUS_FULL :=
  ⟨two_idle_reach, by decide, by decide, by decide, by decide⟩

/-- C27, amended: in every reachable state the head page of every non-empty class list is a
page of the list whose status is IDLE, USING or FULL, whatever the count; when it is FULL,
every page of the list is FULL, so that the head is USING or IDLE whenever the list has a page
with a free block. -/
theorem head_full_all_full (s : Heap) (L : List Nat) (hR : Reach s L) (i : Nat)
    (hi : i < MEM_PAGE_BLOCK_INFO_COUNT) (hc : (s.mem_page_map i).count > 0) :
    (s.mem_page_map i).head ∈ s.class_pages i ∧
    ((s.page (s.mem_page_map i).head).status = MEM_PAGE_STATUS_IDLE ∨
      (s.page (s.mem_page_map i).head).status = MEM_PAGE_STATUS_USING ∨
      (s.page (s.mem_page_map i).head).status = MEM_PAGE_STATUS_FULL) ∧
    ((s.page (s.mem_page_map i).head).status = MEM_PAGE_STATUS_FULL →
      ∀ a ∈ s.class_pages i, (s.page a).status = MEM_PAGE_STATUS_FULL) := by
  obtain ⟨g, hI⟩ := reach_inv s L hR
  have hring := hI.ring i hi
  rw [class_pages_of_ring s i _ hring]
  match hl : g.lists i with
  | [] =>
    rw [hl] at hring
    have h0 : (s.mem_page_map i).count = 0 := by simpa using hring.1
    omega
  | a :: rest =>
    rw [hl] at hring
    have hh : (s.mem_page_map i).head = a := (RingOK_cons_facts _ _ _ _ hring).1
    have pa := hI.pages i hi a (by rw [hl]; exact List.mem_cons_self _ _)
    rw [hh]
    refine ⟨List.mem_cons_self _ _, ?_, ?_⟩
    · rw [pa.status]
      unfold status_of
      split_ifs
      · exact Or.inl rfl
      · exact Or.inr (Or.inr rfl)
      · exact Or.inr (Or.inl rfl)
    · intro hf b hb
      have hfs := hI.full_suffix i hi
      rw [hl] at hfs
      rcases List.mem_cons.1 hb with e | e
      · rw [e]; exact hf
      · exact (List.pairwise_cons.1 hfs).1 b e hf

set_option maxRecDepth 1000000 in
theorem head_full_all_full_witness :
    (two_idle_state.mem_page_map 13).head ∈ two_idle_state.class_pages 13 ∧
    ((two_idle_state.page (two_idle_state.mem_page_map 13).head).status
        = MEM_PAGE_STATUS_IDLE ∨
      (two_idle_state.page (two_idle_state.mem_page_map 13).head).status
        = MEM_PAGE_STATUS_USING ∨
      (two_idle_state.page (two_idle_state.mem_page_map 13).head).status
        = MEM_PAGE_STATUS_FULL) ∧
    ((two_idle_state.page (two_idle_state.mem_page_map 13).head).status
        = MEM_PAGE_STATUS_FULL →
      ∀ a ∈ two_idle_state.class_pages 13,
        (two_idle_state.page a).status = MEM_PAGE_STATUS_FULL) :=
  head_full_all_full two_idle_state two_idle_ptrs two_idle_reach 13 (by decide) (by decide)

set_option maxRecDepth 1000000 in
/-- C29: evaluation at the failing input. In the state after `mem_malloc(12)` class list 2
holds one page, in use and not FULL; `mem_page_malloc(2, 0)` then links the new page into the
ring behind the head (`link_insert_after`), returns `MEM_SUCCESS` and increments `idle_num`,
but `count` stays 1 while the ring holds two pages. -/
theorem mem_page_malloc_after_head_count :
    get_page_index 12 = 2 ∧
    usable_page_exist (mem_malloc Heap.start 12).2 2 = true ∧
    ((mem_malloc Heap.start 12).2.mem_page_map 2).count = 1 ∧
    (mem_page_malloc (mem_malloc Heap.start 12).2 2 false).1 = MEM_SUCCESS ∧
    ((mem_page_malloc (mem_malloc Heap.start 12).2 2 false).2.mem_page_map 2).count = 1 ∧
    ((mem_page_malloc (mem_malloc Heap.start 12).2 2 false).2.mem_page_map 2).idle_num = 1 ∧
    ((mem_page_malloc (mem_malloc Heap.start 12).2 2 false).2.mem_page_map 2).head
      = ((mem_malloc Heap.start 12).2.mem_page_map 2).head ∧
    ((mem_page_malloc (mem_malloc Heap.start 12).2 2 false).2.node
        ((mem_malloc Heap.start 12).2.mem_page_map 2).head).next
      = (mem_malloc Heap.start 12).2.brk ∧
    ((mem_page_malloc (mem_malloc Heap.start 12).2 2 false).2.node
        (mem_malloc Heap.start 12).2.brk).next
      = ((mem_malloc Heap.start 12).2.mem_page_map 2).head ∧
    (mem_malloc Heap.start 12).2.brk ≠ ((mem_malloc Heap.start 12).2.mem_page_map 2).head ∧
    ((mem_page_malloc (mem_malloc Heap.start 12).2 2 false).2.page
        (mem_malloc Heap.start 12).2.brk).status = MEM_PAGE_STATUS_IDLE ∧
    (mem_page_malloc (mem_malloc Heap.start 12).2 2 false).2.class_pages 2
      = [((mem_malloc Heap.start 12).2.mem_page_map 2).head] := by
  decide

/-! ## The page state machine -/

theorem status_of_iff (u n : Nat) (hn : 1 ≤ n) :
    (status_of u n = MEM_PAGE_STATUS_IDLE ↔ u = 0) ∧
    (status_of u n = MEM_PAGE_STATUS_FULL ↔ u = n) ∧
    (status_of u n = MEM_PAGE_STATUS_USING ↔ (u ≠ 0 ∧ u ≠ n)) := by
  simp only [status_of, MEM_PAGE_STATUS_IDLE, MEM_PAGE_STATUS_FULL, MEM_PAGE_STATUS_USING]
  by_cases h0 : u = 0
  · have hn0 : ¬ (0 = n) := by omega
    simp [h0, hn0]
  · by_cases h1 : u = n
    · subst h1
      simp [h0]
    · simp [h0, h1]

/-- One `mem_malloc` raises the `using_count` of a slab page by at most one and never lowers
it. -/
theorem malloc_delta (s : Heap) (g : Ghost) (L : List Nat) (len : Nat) (hI : Inv s g L)
    (hbrk : (mem_malloc s len).2.brk ≤ 2 ^ 64) (j a : Nat) (hj : j < 15) (ha : a ∈ g.lists j)
    (hne : ¬ is_ext j) :
    ((mem_malloc s len).2.page a).using_count = (s.page a).using_count ∨
    ((mem_malloc s len).2.page a).using_count = (s.page a).using_count + 1 := by
  have hi := get_page_index_lt len
  cases hu : usable_page_exist s (get_page_index len) with
  | true =>
    rw [mem_malloc_eq_usable s len hu]
    obtain ⟨rest, b, fr, hx, -⟩ := alloc_pre s g L _ hI hi hu
    by_cases e : a = (s.mem_page_map (get_page_index len)).head
    · right
      have hm : a ∈ g.lists (get_page_index len) := by
        rw [hx, e]; exact List.mem_cons_self _ _
      have ej : j = get_page_index len := class_unique s g L hI j _ a hj hi ha hm
      rw [ej] at hne
      rw [e]
      exact (alloc_inv_slab s g L len hI hu hne).2.2.2
    · left
      rw [(alloc_block_frame s g L len hI hu).2.1 a e]
  | false =>
    have hbrk' := hbrk
    rw [mem_malloc_eq_unusable s len hu] at hbrk' ⊢
    have hb1 : (mem_page_malloc s (get_page_index len) false).2.brk ≤ 2 ^ 64 :=
      Nat.le_trans (alloc_block_brk_le _ _) hbrk'
    obtain ⟨hI0, hu0, h3, -⟩ := page_malloc_inv s g L _ hI hi hu hb1
    have hlt := (pages_lt_brk s g L hI j a hj ha).2
    have hf := (page_malloc_frame s g L _ hI hi hu hb1 a (by omega)).2.2
    left
    rw [(alloc_block_frame _ _ L len hI0 hu0).2.1 a (by rw [h3]; omega), hf]

/-- One `mem_free` lowers the `using_count` of a page that stays in its list by at most one
and never raises it. -/
theorem free_delta (s : Heap) (g : Ghost) (L : List Nat) (p : Nat) (hI : Inv s g L)
    (hp : p ∈ L) (j a : Nat) (hj : j < 15) (ha : a ∈ g.lists j)
    (ha' : a ∈ (free_ghost s g p).lists j) :
    ((mem_free s p).page a).using_count = (s.page a).using_count ∨
    ((mem_free s p).page a).using_count + 1 = (s.page a).using_count := by
  obtain ⟨i, pg, l1, l2, hi, hl, hpage, h16, hp0, hu, -, hidx, -⟩ := free_pre s g L p hI hp
  have hp0' : p ≠ 0 := by
    have e16 : sizeof_MEM_BLOCK = 16 := rfl
    omega
  have hmf : mem_free s p = free_block s p false := by
    unfold mem_free; rw [if_neg hp0']
  rw [hmf]
  obtain ⟨f1, -, -, f4, -⟩ := free_block_frame s g L p hI hp
  rw [hpage] at f1
  rw [hpage, hidx] at f4
  by_cases e : a = pg
  · right
    subst e
    have hmem : a ∈ g.lists i := by rw [hl]; simp
    have ej : j = i := class_unique s g L hI j i a hj hi ha hmem
    subst ej
    apply f4
    intro hd
    simp only [free_ghost, hpage, hidx, if_true, if_pos hd] at ha'
    exact List.Nodup.not_mem_erase (hI.ring j hj).2.2.2.1 ha'
  · left
    exact congrArg MEM_PAGE.using_count (f1 j hj a ha e)

/-- C30: in every reachable state the status of every page of a class list is IDLE iff
`using_count == 0`, FULL iff `using_count == block_num`, and USING otherwise, and a page with
one block is never USING; across one `mem_malloc` and across one `mem_free` of an outstanding
pointer, a page with more than one block that is in its class list before and after does not
pass between IDLE and FULL. -/
theorem page_state_machine (s : Heap) (L : List Nat) (hR : Reach s L) :
    (∀ i < MEM_PAGE_BLOCK_INFO_COUNT, ∀ a ∈ s.class_pages i,
      ((s.page a).status = MEM_PAGE_STATUS_IDLE ↔ (s.page a).using_count = 0) ∧
      ((s.page a).status = MEM_PAGE_STATUS_FULL ↔
        (s.page a).using_count = (s.page a).block_num) ∧
      ((s.page a).status = MEM_PAGE_STATUS_USING ↔
        ((s.page a).using_count ≠ 0 ∧ (s.page a).using_count ≠ (s.page a).block_num)) ∧
      ((s.page a).block_num = 1 → (s.page a).status ≠ MEM_PAGE_STATUS_USING)) ∧
    (∀ len, len ≤ INT_MAX → (mem_malloc s len).2.brk ≤ 2 ^ 64 →
      ∀ i < MEM_PAGE_BLOCK_INFO_COUNT, ∀ a ∈ s.class_pages i,
        a ∈ (mem_malloc s len).2.class_pages i → 1 < (s.page a).block_num →
        ¬ ((s.page a).status = MEM_PAGE_STATUS_IDLE ∧
            ((mem_malloc s len).2.page a).status = MEM_PAGE_STATUS_FULL) ∧
        ¬ ((s.page a).status = MEM_PAGE_STATUS_FULL ∧
            ((mem_malloc s len).2.page a).status = MEM_PAGE_STATUS_IDLE)) ∧
    (∀ p ∈ L, ∀ i < MEM_PAGE_BLOCK_INFO_COUNT, ∀ a ∈ s.class_pages i,
        a ∈ (mem_free s p).class_pages i → 1 < (s.page a).block_num →
        ¬ ((s.page a).status = MEM_PAGE_STATUS_IDLE ∧
            ((mem_free s p).page a).status = MEM_PAGE_STATUS_FULL) ∧
        ¬ ((s.page a).status = MEM_PAGE_STATUS_FULL ∧
            ((mem_free s p).page a).status = MEM_PAGE_STATUS_IDLE)) := by
  obtain ⟨g, hI⟩ := reach_inv s L hR
  have key : ∀ (t : Heap) (g' : Ghost) (M : List Nat), Inv t g' M → ∀ i < 15, ∀ a ∈ g'.lists i,
      (t.page a).block_num = (page_info i).block_num ∧
      ((t.page a).status = MEM_PAGE_STATUS_IDLE ↔ (t.page a).using_count = 0) ∧
      ((t.page a).status = MEM_PAGE_STATUS_FULL ↔
        (t.page a).using_count = (t.page a).block_num) ∧
      ((t.page a).status = MEM_PAGE_STATUS_USING ↔
        ((t.page a).using_count ≠ 0 ∧ (t.page a).using_count ≠ (t.page a).block_num)) := by
    intro t g' M hT i hi a ha
    have pa := hT.pages i hi a ha
    have fi := page_info_facts i hi
    have := status_of_iff (t.page a).using_count (page_info i).block_num fi.2.2.1
    rw [pa.status, pa.block_num]
    exact ⟨rfl, this⟩
  refine ⟨?_, ?_, ?_⟩
  · intro i hi a ha
    rw [class_pages_of_ring s i _ (hI.ring i hi)] at ha
    obtain ⟨k0, k1, k2, k3⟩ := key s g L hI i hi a ha
    refine ⟨k1, k2, k3, ?_⟩
    intro h1 hs
    have pa := hI.pages i hi a ha
    have := pa.fl_len
    have := k3.1 hs
    rw [k0] at h1
    omega
  · intro len hlen hbrk i hi a ha ha' hn
    have hI' := mem_malloc_inv s g L len hI hlen hbrk
    rw [class_pages_of_ring s i _ (hI.ring i hi)] at ha
    rw [class_pages_of_ring _ i _ (hI'.ring i hi)] at ha'
    obtain ⟨k0, k1, k2, -⟩ := key s g L hI i hi a ha
    obtain ⟨m0, m1, m2, -⟩ := key _ _ _ hI' i hi a ha'
    have fi := page_info_facts i hi
    have hne : ¬ is_ext i := by
      intro he
      have := (fi.2.2.2.2.2.2.1 he).1
      omega
    have hd := malloc_delta s g L len hI hbrk i a hi ha hne
    constructor
    · rintro ⟨h1, h2⟩
      have := k1.1 h1
      have := m2.1 h2
      omega
    · rintro ⟨h1, h2⟩
      have := k2.1 h1
      have := m1.1 h2
      omega
  · intro p hp i hi a ha ha' hn
    have hI' := mem_free_inv s g L p hI hp
    rw [class_pages_of_ring s i _ (hI.ring i hi)] at ha
    rw [class_pages_of_ring _ i _ (hI'.ring i hi)] at ha'
    obtain ⟨k0, k1, k2, -⟩ := key s g L hI i hi a ha
    obtain ⟨m0, m1, m2, -⟩ := key _ _ _ hI' i hi a ha'
    have hd := free_delta s g L p hI hp i a hi ha ha'
    constructor
    · rintro ⟨h1, h2⟩
      have := k1.1 h1
      have := m2.1 h2
      omega
    · rintro ⟨h1, h2⟩
      have := k2.1 h1
      have := m1.1 h2
      omega

set_option maxRecDepth 1000000 in
theorem page_state_machine_witness :
    (∀ i < MEM_PAGE_BLOCK_INFO_COUNT, ∀ a ∈ two_idle_state.class_pages i,
      ((two_idle_state.page a).status = MEM_PAGE_STATUS_IDLE ↔
        (two_idle_state.page a).using_count = 0) ∧
      ((two_idle_state.page a).status = MEM_PAGE_STATUS_FULL ↔
        (two_idle_state.page a).using_count = (two_idle_state.page a).block_num) ∧
      ((two_idle_state.page a).status = MEM_PAGE_STATUS_USING ↔
        ((two_idle_state.page a).using_count ≠ 0 ∧
          (two_idle_state.page a).using_count ≠ (two_idle_state.page a).block_num)) ∧
      ((two_idle_state.page a).block_num = 1 →
        (two_idle_state.page a).status ≠ MEM_PAGE_STATUS_USING)) ∧
    (∀ len, len ≤ INT_MAX → (mem_malloc two_idle_state len).2.brk ≤ 2 ^ 64 →
      ∀ i < MEM_PAGE_BLOCK_INFO_COUNT, ∀ a ∈ two_idle_state.class_pages i,
        a ∈ (mem_malloc two_idle_state len).2.class_pages i →
        1 < (two_idle_state.page a).block_num →
        ¬ ((two_idle_state.page a).status = MEM_PAGE_STATUS_IDLE ∧
            ((mem_malloc two_idle_state len).2.page a).status = MEM_PAGE_STATUS_FULL) ∧
        ¬ ((two_idle_state.page a).status = MEM_PAGE_STATUS_FULL ∧
            ((mem_malloc two_idle_state len).2.page a).status = MEM_PAGE_STATUS_IDLE)) ∧
    (∀ p ∈ two_idle_ptrs, ∀ i < MEM_PAGE_BLOCK_INFO_COUNT, ∀ a ∈ two_idle_state.class_pages i,
        a ∈ (mem_free two_idle_state p).class_pages i →
        1 < (two_idle_state.page a).block_num →
        ¬ ((two_idle_state.page a).status = MEM_PAGE_STATUS_IDLE ∧
            ((mem_free two_idle_state p).page a).status = MEM_PAGE_STATUS_FULL) ∧
        ¬ ((two_idle_state.page a).status = MEM_PAGE_STATUS_FULL ∧
            ((mem_free two_idle_state p).page a).status = MEM_PAGE_STATUS_IDLE)) :=
  page_state_machine two_idle_state two_idle_ptrs two_idle_reach

/-! ## The block array inside the page, and the last return of `mem_realloc` -/

/-- C35: for every class index 0..14 and both header sizes `h`, the block array fits in the
page that `mem_page_malloc` requests: `block_num * block_size ≤ total_size`, hence
`sizeof(MEM_PAGE) + block_num * (h + block_size)` is at most the requested size
`total_size + h * block_num + sizeof(MEM_PAGE)`, which is also the range `mem_page_terminate`
clears; and every block `k < block_num`, header and data area, ends inside the page. -/
theorem block_array_fits (i : Nat) (hi : i ≤ 14) (dbg : Bool) (k : Nat)
    (hk : k < (page_info i).block_num) :
    (page_info i).block_num * (page_info i).block_size ≤ (page_info i).total_size ∧
    sizeof_MEM_PAGE
        + (page_info i).block_num * (block_head_size dbg + (page_info i).block_size)
      ≤ (page_info i).total_size + block_head_size dbg * (page_info i).block_num
        + sizeof_MEM_PAGE ∧
    sizeof_MEM_PAGE + k * (block_head_size dbg + (page_info i).block_size)
        + block_head_size dbg + (page_info i).block_size
      ≤ (page_info i).total_size + block_head_size dbg * (page_info i).block_num
        + sizeof_MEM_PAGE ∧
    (dbg = false →
      (page_info i).total_size + block_head_size dbg * (page_info i).block_num
        + sizeof_MEM_PAGE = page_size i) := by
  interval_cases i <;> cases dbg <;>
    simp [page_info, mem_page_info_list, block_head_size, sizeof_MEM_PAGE, sizeof_MEM_BLOCK,
      sizeof_MEM_BLOCK_DBG, page_size] at hk ⊢ <;> omega

theorem block_array_fits_witness :
    (page_info 5).block_num * (page_info 5).block_size ≤ (page_info 5).total_size ∧
    sizeof_MEM_PAGE
        + (page_info 5).block_num * (block_head_size true + (page_info 5).block_size)
      ≤ (page_info 5).total_size + block_head_size true * (page_info 5).block_num
        + sizeof_MEM_PAGE ∧
    sizeof_MEM_PAGE + 9 * (block_head_size true + (page_info 5).block_size)
        + block_head_size true + (page_info 5).block_size
      ≤ (page_info 5).total_size + block_head_size true * (page_info 5).block_num
        + sizeof_MEM_PAGE ∧
    (true = false →
      (page_info 5).total_size + block_head_size true * (page_info 5).block_num
        + sizeof_MEM_PAGE = page_size 5) :=
  block_array_fits 5 (by decide) true 9 (by decide)

set_option maxRecDepth 1000000 in
theorem get_page_index_step : ∀ a < 512, get_page_index a ≤ get_page_index (a + 1) := by
  decide

/-- The class index `get_page_index` is monotone non-decreasing in the length. -/
theorem get_page_index_mono (a b : Nat) (h : a ≤ b) : get_page_index a ≤ get_page_index b := by
  by_cases hb : 512 < b
  · rw [get_page_index_large b hb]
    have := get_page_index_lt a
    omega
  · induction b with
    | zero =>
      have : a = 0 := by omega
      rw [this]
    | succ n ih =>
      by_cases e : a = n + 1
      · rw [e]
      · exact Nat.le_trans (ih (by omega) (by omega)) (get_page_index_step n (by omega))

/-- Requests of at most `INT_MAX` bytes (the in-range part of C36): for every outstanding pointer
`p` of a state reachable through such requests and every new length `len ≤ INT_MAX`, with the
backing allocator succeeding, `mem_realloc p len` returns a non-null pointer: when the capacity
is at least `len` and its class is not above the class of `len`, the two classes are equal
because `get_page_index` is monotone, so the last `return NULL` is not reached. -/
theorem mem_realloc_not_null (s : Heap) (L : List Nat) (p len : Nat) (hR : Reach s L)
    (hp : p ∈ L) (hlen : len ≤ INT_MAX) (hbrk : (mem_realloc s p len).2.brk ≤ 2 ^ 64) :
    (mem_realloc s p len).1 ≠ 0 ∧
    (¬ (get_addr_block_len s p false < (len : Int) ∨
        get_page_index (toSizeT (get_addr_block_len s p false)) > get_page_index len) →
      get_page_index (toSizeT (get_addr_block_len s p false)) = get_page_index len ∧
      mem_realloc s p len = (p, s)) := by
  obtain ⟨g, hI⟩ := reach_inv s L hR
  have hp0 : p ≠ 0 := by
    have := out_gt s g L p hI hp
    have e16 : sizeof_MEM_BLOCK = 16 := rfl
    omega
  have hti : toInt32 (len : Int) = len := by
    apply toInt32_small
    · omega
    · have : (INT_MAX : Int) < 2 ^ 31 := by decide
      have : (len : Int) ≤ INT_MAX := by exact_mod_cast hlen
      omega
  have hsz := block_len_eq s g L p hI hp
  have hSle := user_size_le s g L p hI hp
  have hS64 : user_size s g p < 2 ^ 64 := by
    have : INT_MAX < 2 ^ 64 := by decide
    omega
  have hstay : ¬ (get_addr_block_len s p false < (len : Int) ∨
        get_page_index (toSizeT (get_addr_block_len s p false)) > get_page_index len) →
      get_page_index (toSizeT (get_addr_block_len s p false)) = get_page_index len ∧
      mem_realloc s p len = (p, s) := by
    intro hc
    have hc' : ¬ (get_addr_block_len s p false < toInt32 (len : Int) ∨
        get_page_index (toSizeT (get_addr_block_len s p false)) > get_page_index len) := by
      rw [hti]; exact hc
    have heq : get_page_index (toSizeT (get_addr_block_len s p false)) = get_page_index len := by
      rw [hsz, toSizeT_nat _ hS64] at hc ⊢
      have h1 : len ≤ user_size s g p := by
        by_contra h
        exact hc (Or.inl (by exact_mod_cast Nat.lt_of_not_le h))
      have h2 := get_page_index_mono len (user_size s g p) h1
      have h3 : ¬ get_page_index (user_size s g p) > get_page_index len := fun h => hc (Or.inr h)
      omega
    refine ⟨heq, ?_⟩
    rw [mem_realloc_stay s p len hp0 hc', if_pos heq]
  refine ⟨?_, hstay⟩
  by_cases hc : get_addr_block_len s p false < (len : Int) ∨
      get_page_index (toSizeT (get_addr_block_len s p false)) > get_page_index len
  · have hc' : get_addr_block_len s p false < toInt32 (len : Int) ∨
        get_page_index (toSizeT (get_addr_block_len s p false)) > get_page_index len := by
      rw [hti]; exact hc
    obtain ⟨-, hq, -, -, -, e, -⟩ := mem_realloc_move_inv s g L p len hI hp hlen hbrk hc'
    rw [e]
    exact hq
  · rw [(hstay hc).2]
    exact hp0

theorem mem_realloc_not_null_witness :
    (mem_realloc (mem_malloc Heap.start 100).2 (mem_malloc Heap.start 100).1 90).1 ≠ 0 ∧
    (¬ (get_addr_block_len (mem_malloc Heap.start 100).2 (mem_malloc Heap.start 100).1 false
          < ((90 : Nat) : Int) ∨
        get_page_index (toSizeT (get_addr_block_len (mem_malloc Heap.start 100).2
          (mem_malloc Heap.start 100).1 false)) > get_page_index 90) →
      get_page_index (toSizeT (get_addr_block_len (mem_malloc Heap.start 100).2
          (mem_malloc Heap.start 100).1 false)) = get_page_index 90 ∧
      mem_realloc (mem_malloc Heap.start 100).2 (mem_malloc Heap.start 100).1 90
        = ((mem_malloc Heap.start 100).1, (mem_malloc Heap.start 100).2)) :=
  mem_realloc_not_null (mem_malloc Heap.start 100).2 [(mem_malloc Heap.start 100).1]
    (mem_malloc Heap.start 100).1 90
    (Reach.malloc Heap.start [] 100 Reach.start (by decide) (by decide))
    (List.mem_singleton.2 rfl) (by decide) (by decide)

/-! ## `alloc_size`, and the FULL pages of a class list -/

set_option maxRecDepth 1000000 in
/-- C31: evaluation at the failing input. After `mem_malloc(2^31 - 16)` on the fresh
allocator (a request of at most `INT_MAX` bytes) the LARGE page has its block outstanding and
`alloc_size` is `24 - 2^31`: the `int` field has wrapped, and is not
`(block_head + block_data) + (block_head + len)`. -/
theorem alloc_size_wraps :
    2 ^ 31 - 16 ≤ INT_MAX ∧
    ((mem_malloc Heap.start (2 ^ 31 - 16)).2.page
      ((mem_malloc Heap.start (2 ^ 31 - 16)).2.mem_page_map 14).head).using_count = 1 ∧
    ((mem_malloc Heap.start (2 ^ 31 - 16)).2.page
      ((mem_malloc Heap.start (2 ^ 31 - 16)).2.mem_page_map 14).head).alloc_size
      = 24 - 2 ^ 31 ∧
    ((mem_malloc Heap.start (2 ^ 31 - 16)).2.page
      ((mem_malloc Heap.start (2 ^ 31 - 16)).2.mem_page_map 14).head).alloc_size
      ≠ ((16 + 8 : Nat) : Int) + ((16 + (2 ^ 31 - 16) : Nat) : Int) := by
  decide

/-- What the `int` field holds (the in-range part of C31): in every reachable state, `alloc_size` of
a slab page is `using_count * (block_head + block_data)`; for a ZERO/LARGE page it is 0 when the
page is idle, and while its block is outstanding it is the `int` value of `(block_head +
block_data) + (block_head + len)`, where `len` is the requested length (the external buffer is a
live region of `block_head + len` bytes and `get_addr_block_len` reports `len`): this is the sum
itself when it is at most `INT_MAX`. -/
theorem alloc_size_invariant (s : Heap) (L : List Nat) (hR : Reach s L) (i a : Nat)
    (hi : i < MEM_PAGE_BLOCK_INFO_COUNT) (ha : a ∈ s.class_pages i) :
    (¬ ((s.page a).type = MEM_PAGE_TYPE_ZERO ∨ (s.page a).type = MEM_PAGE_TYPE_LARGE) →
      (s.page a).alloc_size =
        ((s.page a).using_count : Int)
          * (((s.page a).block_head : Int) + ((s.page a).block_data : Int))) ∧
    (((s.page a).type = MEM_PAGE_TYPE_ZERO ∨ (s.page a).type = MEM_PAGE_TYPE_LARGE) →
      ((s.page a).using_count = 0 → (s.page a).alloc_size = 0) ∧
      ((s.page a).using_count ≠ 0 → ∃ len : Nat, len ≤ INT_MAX ∧
        (MEM_TO_ADDR s (a + sizeof_MEM_PAGE + (s.page a).block_head),
          (s.page a).block_head + len) ∈ s.live ∧
        get_addr_block_len s
          (MEM_TO_ADDR s (a + sizeof_MEM_PAGE + (s.page a).block_head) + (s.page a).block_head)
          false = len ∧
        (s.page a).alloc_size =
          toInt32 ((((s.page a).block_head + (s.page a).block_data : Nat) : Int)
            + (((s.page a).block_head + len : Nat) : Int)) ∧
        ((s.page a).block_head + (s.page a).block_data + ((s.page a).block_head + len)
            ≤ INT_MAX →
          (s.page a).alloc_size =
            (((s.page a).block_head + (s.page a).block_data
              + ((s.page a).block_head + len) : Nat) : Int)))) := by
  obtain ⟨g, hI⟩ := reach_inv s L hR
  rw [class_pages_of_ring s i _ (hI.ring i hi)] at ha
  have pa := hI.pages i hi a ha
  have hty := ext_type_iff i hi
  rw [← pa.type] at hty
  have fi := page_info_facts i hi
  have e16 : sizeof_MEM_BLOCK = 16 := rfl
  constructor
  · intro hn
    have hne : ¬ is_ext i := fun h => hn (hty.2 h)
    rw [pa.alloc_slab hne, pa.block_head, pa.block_data]
    push_cast
    ring
  · intro ht
    have he := hty.1 ht
    refine ⟨pa.ext_idle he, ?_⟩
    intro hu
    have px := pa.ext_used he hu
    have hbd := (fi.2.2.2.2.2.2.1 he).2
    rw [pa.block_head, pa.block_data, hbd]
    refine ⟨g.len a, px.len_le, px.live, ?_, ?_, ?_⟩
    · rw [block_len_eq s g L _ hI px.out]
      obtain ⟨j, b, hj, hb, hpage, hcase⟩ := user_area s g L _ hI px.out
      have hb' : b = a := by
        rw [← hpage, Nat.add_sub_cancel, px.hdr]
      rw [hb'] at hb hcase
      have ej : j = i := class_unique s g L hI j i a hj hi hb ha
      rw [ej] at hcase
      rcases hcase with ⟨hn, -⟩ | ⟨-, hc, -⟩
      · exact absurd he hn
      · rw [hc]
    · rw [px.alloc]
      congr 1
      push_cast
      rw [e16]
      ring
    · intro hle
      rw [px.alloc]
      rw [e16] at hle ⊢
      have e : ((16 + 8 + (16 + g.len a) : Nat) : Int) = (g.len a : Int) + 40 := by
        push_cast; ring
      have hle' : ((16 + 8 + (16 + g.len a) : Nat) : Int) ≤ INT_MAX := by exact_mod_cast hle
      rw [e] at hle' ⊢
      apply toInt32_small
      · omega
      · have : (INT_MAX : Int) < 2 ^ 31 := by decide
        omega

set_option maxRecDepth 1000000 in
theorem alloc_size_invariant_witness :
    (¬ ((two_idle_state.page (two_idle_state.mem_page_map 13).head).type = MEM_PAGE_TYPE_ZERO ∨
        (two_idle_state.page (two_idle_state.mem_page_map 13).head).type
          = MEM_PAGE_TYPE_LARGE) →
      (two_idle_state.page (two_idle_state.mem_page_map 13).head).alloc_size =
        ((two_idle_state.page (two_idle_state.mem_page_map 13).head).using_count : Int)
          * (((two_idle_state.page (two_idle_state.mem_page_map 13).head).block_head : Int)
            + ((two_idle_state.page (two_idle_state.mem_page_map 13).head).block_data : Int))) ∧
    (((two_idle_state.page (two_idle_state.mem_page_map 13).head).type = MEM_PAGE_TYPE_ZERO ∨
        (two_idle_state.page (two_idle_state.mem_page_map 13).head).type
          = MEM_PAGE_TYPE_LARGE) →
      ((two_idle_state.page (two_idle_state.mem_page_map 13).head).using_count = 0 →
        (two_idle_state.page (two_idle_state.mem_page_map 13).head).alloc_size = 0) ∧
      ((two_idle_state.page (two_idle_state.mem_page_map 13).head).using_count ≠ 0 →
        ∃ len : Nat, len ≤ INT_MAX ∧
        (MEM_TO_ADDR two_idle_state ((two_idle_state.mem_page_map 13).head + sizeof_MEM_PAGE
            + (two_idle_state.page (two_idle_state.mem_page_map 13).head).block_head),
          (two_idle_state.page (two_idle_state.mem_page_map 13).head).block_head + len)
            ∈ two_idle_state.live ∧
        get_addr_block_len two_idle_state
          (MEM_TO_ADDR two_idle_state ((two_idle_state.mem_page_map 13).head + sizeof_MEM_PAGE
              + (two_idle_state.page (two_idle_state.mem_page_map 13).head).block_head)
            + (two_idle_state.page (two_idle_state.mem_page_map 13).head).block_head)
          false = len ∧
        (two_idle_state.page (two_idle_state.mem_page_map 13).head).alloc_size =
          toInt32 ((((two_idle_state.page (two_idle_state.mem_page_map 13).head).block_head
              + (two_idle_state.page (two_idle_state.mem_page_map 13).head).block_data : Nat)
              : Int)
            + (((two_idle_state.page (two_idle_state.mem_page_map 13).head).block_head + len
              : Nat) : Int)) ∧
        ((two_idle_state.page (two_idle_state.mem_page_map 13).head).block_head
            + (two_idle_state.page (two_idle_state.mem_page_map 13).head).block_data
            + ((two_idle_state.page (two_idle_state.mem_page_map 13).head).block_head + len)
            ≤ INT_MAX →
          (two_idle_state.page (two_idle_state.mem_page_map 13).head).alloc_size =
            (((two_idle_state.page (two_idle_state.mem_page_map 13).head).block_head
              + (two_idle_state.page (two_idle_state.mem_page_map 13).head).block_data
              + ((two_idle_state.page (two_idle_state.mem_page_map 13).head).block_head + len)
              : Nat) : Int)))) :=
  alloc_size_invariant two_idle_state two_idle_ptrs two_idle_reach 13
    (two_idle_state.mem_page_map 13).head (by decide) (by decide)

/-- C33: in every reachable state the FULL pages of each class list form a suffix of the list
(no page that is not FULL comes after a FULL page), so the head is FULL only if every page is;
when `usable_page_exist` fails, which is when `mem_malloc` and `mem_realloc` call
`mem_page_malloc`, every page of the class is FULL, the test of `mem_page_malloc` finds the
head null or FULL, and the new page is inserted at position 0 with `count` incremented: the
insert-after-head branch is not taken. -/
theorem full_pages_suffix (s : Heap) (L : List Nat) (hR : Reach s L) (i : Nat)
    (hi : i < MEM_PAGE_BLOCK_INFO_COUNT) :
    (s.class_pages i).Pairwise (fun a b =>
      (s.page a).status = MEM_PAGE_STATUS_FULL → (s.page b).status = MEM_PAGE_STATUS_FULL) ∧
    ((s.page (s.mem_page_map i).head).status = MEM_PAGE_STATUS_FULL →
      (s.mem_page_map i).head ≠ 0 →
      ∀ a ∈ s.class_pages i, (s.page a).status = MEM_PAGE_STATUS_FULL) ∧
    (usable_page_exist s i = false →
      (∀ a ∈ s.class_pages i, (s.page a).status = MEM_PAGE_STATUS_FULL ∧
        (s.page a).using_count = (s.page a).block_num) ∧
      ((mem_page_malloc s i false).2.brk ≤ 2 ^ 64 →
        (((page_malloc_pre s i).mem_page_map i).head = 0 ∨
          ((page_malloc_pre s i).page ((page_malloc_pre s i).mem_page_map i).head).status
            = MEM_PAGE_STATUS_FULL) ∧
        (mem_page_malloc s i false).2.class_pages i = s.brk :: s.class_pages i ∧
        ((mem_page_malloc s i false).2.mem_page_map i).count
          = (s.mem_page_map i).count + 1)) := by
  obtain ⟨g, hI⟩ := reach_inv s L hR
  have hring := hI.ring i hi
  rw [class_pages_of_ring s i _ hring]
  have fi := page_info_facts i hi
  refine ⟨hI.full_suffix i hi, ?_, ?_⟩
  · intro hf h0 b hb
    match hl : g.lists i with
    | [] => rw [hl] at hb; cases hb
    | a :: rest =>
      rw [hl] at hring hb
      have hh : (s.mem_page_map i).head = a := (RingOK_cons_facts _ _ _ _ hring).1
      rw [hh] at hf
      have hfs := hI.full_suffix i hi
      rw [hl] at hfs
      rcases List.mem_cons.1 hb with e | e
      · rw [e]; exact hf
      · exact (List.pairwise_cons.1 hfs).1 b e hf
  · intro hu
    obtain ⟨hc, hall⟩ := unusable_no_idle s g L i hI hi hu
    constructor
    · intro a ha
      refine ⟨hall a ha, ?_⟩
      have pa := hI.pages i hi a ha
      have h := hall a ha
      rw [pa.status] at h
      rw [pa.block_num]
      unfold status_of at h
      split_ifs at h with h1 h2
      · exact absurd h (by decide)
      · exact h2
      · exact absurd h (by decide)
    · intro hbrk
      have hlt : s.brk + page_size i < 2 ^ 64 := by
        rw [mem_page_malloc_brk s i hi] at hbrk
        omega
      obtain ⟨f1, f2, f3, f4, f5, f6, f7, f8, f9⟩ := page_malloc_pre_facts s g L i hI hi hlt
      obtain ⟨hI1, -, -, hl1, -⟩ := page_malloc_inv s g L i hI hi hu hbrk
      have hring1 := hI1.ring i hi
      refine ⟨?_, ?_, ?_⟩
      · rw [f7]
        rcases hc with h | h
        · exact Or.inl h
        · by_cases h0 : (s.mem_page_map i).head = 0
          · exact Or.inl h0
          · right
            have hm : (s.mem_page_map i).head ∈ g.lists i := by
              match hl : g.lists i with
              | [] =>
                rw [hl] at hring
                exact absurd hring.2.1 h0
              | a :: rest =>
                rw [hl] at hring
                rw [(RingOK_cons_facts _ _ _ _ hring).1]
                exact List.mem_cons_self _ _
            rw [f5 _ (by have := pages_lt_brk s g L hI i _ hi hm; omega)]
            exact h
      · rw [class_pages_of_ring _ i _ hring1, hl1]
      · rw [hring1.1, hl1, hring.1]
        simp

set_option maxRecDepth 1000000 in
theorem full_pages_suffix_witness :
    ((malloc_seq (List.replicate 8 512) Heap.start).class_pages 13).Pairwise (fun a b =>
      ((malloc_seq (List.replicate 8 512) Heap.start).page a).status = MEM_PAGE_STATUS_FULL →
      ((malloc_seq (List.replicate 8 512) Heap.start).page b).status = MEM_PAGE_STATUS_FULL) ∧
    (((malloc_seq (List.replicate 8 512) Heap.start).page
        ((malloc_seq (List.replicate 8 512) Heap.start).mem_page_map 13).head).status
        = MEM_PAGE_STATUS_FULL →
      ((malloc_seq (List.replicate 8 512) Heap.start).mem_page_map 13).head ≠ 0 →
      ∀ a ∈ (malloc_seq (List.replicate 8 512) Heap.start).class_pages 13,
        ((malloc_seq (List.replicate 8 512) Heap.start).page a).status
          = MEM_PAGE_STATUS_FULL) ∧
    (usable_page_exist (malloc_seq (List.replicate 8 512) Heap.start) 13 = false →
      (∀ a ∈ (malloc_seq (List.replicate 8 512) Heap.start).class_pages 13,
        ((malloc_seq (List.replicate 8 512) Heap.start).page a).status
          = MEM_PAGE_STATUS_FULL ∧
        ((malloc_seq (List.replicate 8 512) Heap.start).page a).using_count
          = ((malloc_seq (List.replicate 8 512) Heap.start).page a).block_num) ∧
      ((mem_page_malloc (malloc_seq (List.replicate 8 512) Heap.start) 13 false).2.brk
          ≤ 2 ^ 64 →
        (((page_malloc_pre (malloc_seq (List.replicate 8 512) Heap.start) 13).mem_page_map
            13).head = 0 ∨
          ((page_malloc_pre (malloc_seq (List.replicate 8 512) Heap.start) 13).page
            ((page_malloc_pre (malloc_seq (List.replicate 8 512) Heap.start) 13).mem_page_map
              13).head).status = MEM_PAGE_STATUS_FULL) ∧
        (mem_page_malloc (malloc_seq (List.replicate 8 512) Heap.start) 13 false).2.class_pages
            13
          = (malloc_seq (List.replicate 8 512) Heap.start).brk ::
            (malloc_seq (List.replicate 8 512) Heap.start).class_pages 13 ∧
        ((mem_page_malloc (malloc_seq (List.replicate 8 512) Heap.start) 13
            false).2.mem_page_map 13).count
          = ((malloc_seq (List.replicate 8 512) Heap.start).mem_page_map 13).count + 1)) :=
  full_pages_suffix (malloc_seq (List.replicate 8 512) Heap.start)
    (malloc_ptrs (List.replicate 8 512) Heap.start ++ [])
    (malloc_seq_reach (List.replicate 8 512) Heap.start [] Reach.start (by decide) (by decide))
    13 (by decide)

/-! ## Well-formedness under the list operations, and disjoint blocks -/

/-- C32: evaluation at the failing input. On the well-formed list `[1]` (count 1),
`link_insert_after` with target `1` and the new node `2` returns `LINK_SUCCESS` and links node
`2` into the ring and as the tail, but leaves `count` at 1: the result is not a well-formed
list; `link_insert_before` likewise makes node `2` the head of a ring of two with `count`
1. -/
theorem link_insert_after_count :
    RingOK list_one.1 list_one.2 [1] ∧
    (link_insert_after list_one.1 list_one.2 1 2).1 = LINK_SUCCESS ∧
    (link_insert_after list_one.1 list_one.2 1 2).2.2.count = 1 ∧
    (link_insert_after list_one.1 list_one.2 1 2).2.2.head = 1 ∧
    (link_insert_after list_one.1 list_one.2 1 2).2.2.tail = 2 ∧
    ((link_insert_after list_one.1 list_one.2 1 2).2.1 1).next = 2 ∧
    ((link_insert_after list_one.1 list_one.2 1 2).2.1 2).next = 1 ∧
    (¬ ∃ xs, RingOK (link_insert_after list_one.1 list_one.2 1 2).2.1
      (link_insert_after list_one.1 list_one.2 1 2).2.2 xs) ∧
    (link_insert_before list_one.1 list_one.2 1 2).1 = LINK_SUCCESS ∧
    (link_insert_before list_one.1 list_one.2 1 2).2.2.count = 1 ∧
    (link_insert_before list_one.1 list_one.2 1 2).2.2.head = 2 ∧
    (link_insert_before list_one.1 list_one.2 1 2).2.2.tail = 1 ∧
    (¬ ∃ xs, RingOK (link_insert_before list_one.1 list_one.2 1 2).2.1
      (link_insert_before list_one.1 list_one.2 1 2).2.2 xs) := by
  have key : ∀ (m : Nodes) (l : LINK), l.count = 1 → l.head ≠ l.tail → ¬ ∃ xs, RingOK m l xs := by
    intro m l hc hne
    rintro ⟨xs, h1, h2, h3, -⟩
    match xs, h1, h2, h3 with
    | [], h1, _, _ =>
      rw [hc] at h1
      simp at h1
    | [x], _, h2, h3 =>
      simp only [firstD, lastD] at h2 h3
      exact hne (h2.trans h3.symm)
    | _ :: _ :: _, h1, _, _ =>
      rw [hc] at h1
      simp only [List.length_cons] at h1
      omega
  refine ⟨list_one_ok, by decide, by decide, by decide, by decide, by decide, by decide,
    key _ _ (by decide) (by decide), by decide, by decide, by decide, by decide,
    key _ _ (by decide) (by decide)⟩

/-- The blocks (header and data area) of two different outstanding pointers do not overlap. -/
theorem blocks_disjoint (s : Heap) (g : Ghost) (L : List Nat) (hI : Inv s g L) (p q : Nat)
    (hp : p ∈ L) (hq : q ∈ L) (hne : p ≠ q) :
    p + user_size s g p ≤ q - sizeof_MEM_BLOCK ∨ q + user_size s g q ≤ p - sizeof_MEM_BLOCK := by
  obtain ⟨i, a, hi, ha, hpa, hcp⟩ := user_area s g L p hI hp
  obtain ⟨j, b, hj, hb, hpb, hcq⟩ := user_area s g L q hI hq
  have pa := hI.pages i hi a ha
  have pb := hI.pages j hj b hb
  have e16 : sizeof_MEM_BLOCK = 16 := rfl
  have h16p := (hI.out p hp).1
  have h16q := (hI.out q hq).1
  rcases hcp with ⟨hnp, hsp, k, hk, ep, -⟩ | ⟨hep, hsp, hup, ep⟩
  · have bk := block_addr_bound a i k hi hk
    rcases hcq with ⟨hnq, hsq, k', hk', eq, -⟩ | ⟨heq, hsq, huq, eq⟩
    · have bk' := block_addr_bound b j k' hj hk'
      by_cases hab : a = b
      · subst hab
        have eij : i = j := class_unique s g L hI i j a hi hj ha hb
        subst eij
        have hkk : k ≠ k' := by
          intro e
          rw [e] at ep
          exact hne (ep.trans eq.symm)
        have := block_addr_disjoint a i k k' hi hkk
        rw [hsp, hsq]
        omega
      · have hd := live_disjoint s.live hI.live_sorted _ _ pa.live pb.live hab
        simp only at hd
        rw [hsp, hsq]
        omega
    · have px := pb.ext_used heq huq
      have hw : (a, page_size i).1 ≠
          (MEM_TO_ADDR s (b + sizeof_MEM_PAGE + sizeof_MEM_BLOCK), sizeof_MEM_BLOCK + g.len b).1 :=
        fun e => px.fresh i hi (by simp only at e; rw [← e]; exact ha)
      have hd := live_disjoint s.live hI.live_sorted _ _ pa.live px.live hw
      simp only at hd
      rw [hsp, hsq]
      omega
  · have px := pa.ext_used hep hup
    rcases hcq with ⟨hnq, hsq, k', hk', eq, -⟩ | ⟨heq, hsq, huq, eq⟩
    · have bk' := block_addr_bound b j k' hj hk'
      have hw : (b, page_size j).1 ≠
          (MEM_TO_ADDR s (a + sizeof_MEM_PAGE + sizeof_MEM_BLOCK), sizeof_MEM_BLOCK + g.len a).1 :=
        fun e => px.fresh j hj (by simp only at e; rw [← e]; exact hb)
      have hd := live_disjoint s.live hI.live_sorted _ _ pb.live px.live hw
      simp only at hd
      rw [hsp, hsq]
      omega
    · have py := pb.ext_used heq huq
      have hw : (MEM_TO_ADDR s (a + sizeof_MEM_PAGE + sizeof_MEM_BLOCK),
            sizeof_MEM_BLOCK + g.len a).1 ≠
          (MEM_TO_ADDR s (b + sizeof_MEM_PAGE + sizeof_MEM_BLOCK), sizeof_MEM_BLOCK + g.len b).1 := by
        intro e
        simp only at e
        exact hne (by rw [ep, eq, e])
      have hd := live_disjoint s.live hI.live_sorted _ _ px.live py.live hw
      simp only at hd
      rw [hsp, hsq]
      omega

/-- C34: in every reachable state the outstanding pointers are pairwise different and the
blocks of any two of them, header and data area up to the reported capacity, do not overlap;
`mem_malloc` returns a non-null pointer that is not outstanding, and in the state it leaves
its block overlaps no block of the pointers that were outstanding. -/
theorem no_double_allocation (s : Heap) (L : List Nat) (hR : Reach s L) :
    L.Nodup ∧
    (∀ p ∈ L, ∀ q ∈ L, p ≠ q →
      (p : Int) + get_addr_block_len s p false ≤ ((q - sizeof_MEM_BLOCK : Nat) : Int) ∨
      (q : Int) + get_addr_block_len s q false ≤ ((p - sizeof_MEM_BLOCK : Nat) : Int)) ∧
    (∀ len, len ≤ INT_MAX → (mem_malloc s len).2.brk ≤ 2 ^ 64 →
      (mem_malloc s len).1 ≠ 0 ∧ (mem_malloc s len).1 ∉ L ∧
      ∀ p ∈ L,
        ((p : Int) + get_addr_block_len (mem_malloc s len).2 p false
            ≤ (((mem_malloc s len).1 - sizeof_MEM_BLOCK : Nat) : Int) ∨
          ((mem_malloc s len).1 : Int)
              + get_addr_block_len (mem_malloc s len).2 (mem_malloc s len).1 false
            ≤ ((p - sizeof_MEM_BLOCK : Nat) : Int))) := by
  have key : ∀ (t : Heap) (g : Ghost) (M : List Nat), Inv t g M → ∀ p ∈ M, ∀ q ∈ M, p ≠ q →
      (p : Int) + get_addr_block_len t p false ≤ ((q - sizeof_MEM_BLOCK : Nat) : Int) ∨
      (q : Int) + get_addr_block_len t q false ≤ ((p - sizeof_MEM_BLOCK : Nat) : Int) := by
    intro t g M hT p hp q hq hne
    rw [block_len_eq t g M p hT hp, block_len_eq t g M q hT hq]
    rcases blocks_disjoint t g M hT p q hp hq hne with h | h
    · left; exact_mod_cast h
    · right; exact_mod_cast h
  obtain ⟨g, hI⟩ := reach_inv s L hR
  refine ⟨hI.out_nodup, key s g L hI, ?_⟩
  intro len hlen hbrk
  have hI1 := mem_malloc_inv s g L len hI hlen hbrk
  have hq := (mem_malloc_post s g L len hI hbrk).1
  have hqL : (mem_malloc s len).1 ∉ L := (List.nodup_cons.1 hI1.out_nodup).1
  refine ⟨hq, hqL, ?_⟩
  intro p hp
  exact key _ _ _ hI1 p (List.mem_cons_of_mem _ hp) _ (List.mem_cons_self _ _)
    (fun e => hqL (e ▸ hp))

set_option maxRecDepth 1000000 in
theorem no_double_allocation_witness :
    two_idle_ptrs.Nodup ∧
    (∀ p ∈ two_idle_ptrs, ∀ q ∈ two_idle_ptrs, p ≠ q →
      (p : Int) + get_addr_block_len two_idle_state p false
          ≤ ((q - sizeof_MEM_BLOCK : Nat) : Int) ∨
      (q : Int) + get_addr_block_len two_idle_state q false
          ≤ ((p - sizeof_MEM_BLOCK : Nat) : Int)) ∧
    (∀ len, len ≤ INT_MAX → (mem_malloc two_idle_state len).2.brk ≤ 2 ^ 64 →
      (mem_malloc two_idle_state len).1 ≠ 0 ∧ (mem_malloc two_idle_state len).1 ∉ two_idle_ptrs ∧
      ∀ p ∈ two_idle_ptrs,
        ((p : Int) + get_addr_block_len (mem_malloc two_idle_state len).2 p false
            ≤ (((mem_malloc two_idle_state len).1 - sizeof_MEM_BLOCK : Nat) : Int) ∨
          ((mem_malloc two_idle_state len).1 : Int)
              + get_addr_block_len (mem_malloc two_idle_state len).2
                  (mem_malloc two_idle_state len).1 false
            ≤ ((p - sizeof_MEM_BLOCK : Nat) : Int))) :=
  no_double_allocation two_idle_state two_idle_ptrs two_idle_reach

/-! ## Requests above `INT_MAX` bytes: the `int` size fields -/

/-- The moving branch of `mem_realloc` calls `memcpy` with the count `mem_realloc_copy_len`. -/
theorem mem_realloc_copy (s : Heap) (ptr len : Nat) (h0 : ptr ≠ 0)
    (hc : get_addr_block_len s ptr false < toInt32 (len : Int) ∨
      get_page_index (toSizeT (get_addr_block_len s ptr false)) > get_page_index len)
    (hr : (mem_malloc s len).1 ≠ 0) :
    mem_realloc s ptr len =
      ((mem_malloc s len).1,
        free_block ((mem_malloc s len).2.memcpy (mem_malloc s len).1 ptr
          (mem_realloc_copy_len s ptr len)) ptr false) := by
  unfold mem_realloc mem_realloc_copy_len mem_malloc at *
  simp only at hr ⊢
  rw [if_neg h0, if_pos hc, if_pos hr]

set_option maxRecDepth 100000 in
/-- C10: evaluation at the failing input. On a fresh allocator `p = mem_malloc(2^31)` is
outstanding with a buffer of `sizeof(MEM_BLOCK) + 2^31` bytes, in class LARGE (14), and the new
length 10 is in class 2, so the claim asks for a move that copies 10 bytes. The code reads the
capacity `-2^31` (an `int`), takes the moving branch because `-2^31 < 10`, gets a new block of
16 bytes, and calls `memcpy` with `dst_size = -2^31`, that is with the count `2^64 - 2^31`:
more than the new block and more than the buffer of `p` hold. -/
theorem mem_realloc_copy_overruns :
    (mem_malloc Heap.start (2 ^ 31)).1 ≠ 0 ∧
    ((mem_malloc Heap.start (2 ^ 31)).1 - sizeof_MEM_BLOCK, sizeof_MEM_BLOCK + 2 ^ 31)
      ∈ (mem_malloc Heap.start (2 ^ 31)).2.live ∧
    get_page_index (2 ^ 31) = 14 ∧ get_page_index 10 = 2 ∧ 10 ≤ INT_MAX ∧
    get_addr_block_len (mem_malloc Heap.start (2 ^ 31)).2 (mem_malloc Heap.start (2 ^ 31)).1
      false = -2 ^ 31 ∧
    get_addr_block_len (mem_malloc Heap.start (2 ^ 31)).2 (mem_malloc Heap.start (2 ^ 31)).1
      false < toInt32 ((10 : Nat) : Int) ∧
    (page_info (get_page_index 10)).block_size = 16 ∧
    mem_realloc_copy_len (mem_malloc Heap.start (2 ^ 31)).2 (mem_malloc Heap.start (2 ^ 31)).1 10
      = 2 ^ 64 - 2 ^ 31 := by
  decide

set_option maxRecDepth 100000 in
/-- C36: evaluation at the failing input. On a fresh allocator `p = mem_malloc(3 * 2^30)` is a
live non-null pointer and the new length 100 is at most `INT_MAX`. The code reads the capacity
`-2^30` (an `int`), so `size < (int)len` holds and the moving branch is taken; there `memcpy`
is called with `dst_size = -2^30`, the count `2^64 - 2^30`, while the new block has 128 bytes
and the buffer of `p` has `3 * 2^30`: the call has no defined result and `mem_realloc` returns
no pointer. -/
theorem mem_realloc_negative_capacity :
    (mem_malloc Heap.start (3 * 2 ^ 30)).1 ≠ 0 ∧
    ((mem_malloc Heap.start (3 * 2 ^ 30)).1 - sizeof_MEM_BLOCK, sizeof_MEM_BLOCK + 3 * 2 ^ 30)
      ∈ (mem_malloc Heap.start (3 * 2 ^ 30)).2.live ∧
    100 ≤ INT_MAX ∧
    get_addr_block_len (mem_malloc Heap.start (3 * 2 ^ 30)).2
      (mem_malloc Heap.start (3 * 2 ^ 30)).1 false = -2 ^ 30 ∧
    get_addr_block_len (mem_malloc Heap.start (3 * 2 ^ 30)).2
      (mem_malloc Heap.start (3 * 2 ^ 30)).1 false < toInt32 ((100 : Nat) : Int) ∧
    (page_info (get_page_index 100)).block_size = 128 ∧
    mem_realloc_copy_len (mem_malloc Heap.start (3 * 2 ^ 30)).2
      (mem_malloc Heap.start (3 * 2 ^ 30)).1 100 = 2 ^ 64 - 2 ^ 30 := by
  decide

set_option maxRecDepth 100000 in
/-- C16: evaluation at the failing input. In `wrapped_state` one allocation of `2^32 - 40` bytes
is outstanding: the page of class LARGE and the external buffer of `sizeof(MEM_BLOCK) + len`
bytes are live, and `alloc_size` is 0 (the `int` sum `40 + len` has wrapped). `clear_mem_pages`
ends after one pass of its loop and empties the class list, but its call of `free_block` for the
buffer returns at the test `!page->alloc_size`: the only argument of `free` is the page, and the
external buffer is still live afterwards. -/
theorem clear_mem_pages_leaks :
    wrapped_ptr ≠ 0 ∧
    wrapped_state.live =
      [(wrapped_ptr - sizeof_MEM_BLOCK, sizeof_MEM_BLOCK + (2 ^ 32 - 40)),
        ((wrapped_state.mem_page_map 14).head, page_size 14)] ∧
    (wrapped_state.page (wrapped_state.mem_page_map 14).head).using_count = 1 ∧
    (wrapped_state.page (wrapped_state.mem_page_map 14).head).alloc_size = 0 ∧
    clear_mem_pages_frees 1 wrapped_state = [(wrapped_state.mem_page_map 14).head] ∧
    (clear_mem_pages 1 wrapped_state).map (fun t => (t.mem_page_map 14).count) = some 0 ∧
    (clear_mem_pages 1 wrapped_state).map (fun t => t.live)
      = some [(wrapped_ptr - sizeof_MEM_BLOCK, sizeof_MEM_BLOCK + (2 ^ 32 - 40))] := by
  decide

set_option maxRecDepth 100000 in
/-- C26: evaluation at the failing input. In `wrapped_state` the one outstanding pointer is
`wrapped_ptr`, from a request of `2^32 - 40` bytes, and `alloc_size` of its page is 0 (the `int`
sum has wrapped). `mem_free(wrapped_ptr)` returns at the test `!page->alloc_size` of
`free_block`: nothing is released, the block stays USING, and the sum of `using_count` over all
pages is 1 while no allocation is outstanding any more. -/
theorem using_count_after_lost_free :
    wrapped_ptr ≠ 0 ∧
    wrapped_state.total_using = 1 ∧
    (wrapped_state.page (wrapped_state.block (wrapped_ptr - sizeof_MEM_BLOCK)).page).alloc_size
      = 0 ∧
    (mem_free wrapped_state wrapped_ptr).total_using = 1 ∧
    ([wrapped_ptr].erase wrapped_ptr).length = 0 ∧
    (mem_free wrapped_state wrapped_ptr).live = wrapped_state.live ∧
    ((mem_free wrapped_state wrapped_ptr).block (wrapped_ptr - sizeof_MEM_BLOCK)).status
      = MEM_BLOCK_STATUS_USING := by
  decide

end Minimemory
